import Mathlib

/-!
# dbc_blit: a verification development

A shallow embedding of the scalar composition kernels, the row drivers and the
dispatcher of `dbc_blit.h`, followed by theorems about them.

Conventions of the embedding.

* Unsigned machine integers are natural numbers; every operation that the C code
  performs in a fixed-width unsigned type is followed by an explicit reduction
  modulo `2 ^ w`.
* `int` quantities (sizes, strides, coordinates) are mathematical integers; signed
  overflow is undefined behaviour in C and is outside the model.
* The compile-time quantities the source branches on (`sizeof(unsigned)`,
  `sizeof(void*)`, `DBC_BLIT_NO_INT64`, ...) are fields of `Platform`.
* A one-pixel kernel `void k(const dbcb_uint8 *s, dbcb_uint8 *d)` is embedded at word
  level: it takes the words `S = dbcb_load32(s)` and `D = dbcb_load32(d)` and returns
  the word that `dbcb_load32(d)` yields afterwards (`D` itself on the paths that do not
  store).
* The float arithmetic of the C channel functions and most SSE2 and AVX2 kernels are
  parameters (`Env`). The SSE2 and AVX2 kernels of the modulated ALPHA blend are embedded
  lane by lane, over a model of binary32 arithmetic in the default rounding mode.
* The SSE2 and AVX2 kernels of the key modes (colorkey, 5551, alpha test) are embedded lane
  by lane, and the SSE2 kernels of the ALPHA blend without modulation instruction by
  instruction, over registers given as lists of 16-bit lanes.
-/

namespace DbcBlit

/-! ## Platform parameters -/

/-- Compile-time facts the source branches on. -/
structure Platform where
  /-- Value of `sizeof(unsigned)`, in bytes. -/
  sizeof_unsigned : Nat
  /-- Value of `sizeof(void*)`, in bytes. -/
  sizeof_voidp : Nat
  /-- Whether `DBC_BLIT_NO_INT64` is defined. -/
  no_int64 : Bool
  deriving DecidableEq, Repr

/-- The usual 64-bit target: 32-bit `unsigned`, 64-bit pointers, 64-bit integers present. -/
def Platform.lp64 : Platform := ⟨4, 8, false⟩

/-- A 32-bit target: 32-bit `unsigned`, 32-bit pointers. -/
def Platform.ilp32 : Platform := ⟨4, 4, false⟩

/-- A 16-bit target: 16-bit `unsigned`. -/
def Platform.int16 : Platform := ⟨2, 4, true⟩

/-! ## Fixed-width helpers -/

/-- Conversion to `dbcb_uint8`. -/
def u8 (n : Nat) : Nat := n % 2 ^ 8

/-- Conversion to `dbcb_uint32`. -/
def u32 (n : Nat) : Nat := n % 2 ^ 32

/-- Conversion to `dbcb_uint64`. -/
def u64 (n : Nat) : Nat := n % 2 ^ 64

/-- Subtraction in `dbcb_uint32` (operands already reduced). -/
def sub32 (a b : Nat) : Nat := (a + 2 ^ 32 - b) % 2 ^ 32

/-- Subtraction in `dbcb_uint64` (operands already reduced). -/
def sub64 (a b : Nat) : Nat := (a + 2 ^ 64 - b) % 2 ^ 64

/-- Macro `DBCB_C64(lo,hi)`. -/
def DBCB_C64 (lo hi : Nat) : Nat := u64 (u64 hi <<< 32) ^^^ u64 lo

/-! ## Arithmetic helpers of the source -/

/-- Function `dbcB_div255_round`: the first branch works in `unsigned` when that type is
narrower than 32 bits, the second one in `dbcb_uint32`. -/
def dbcB_div255_round (P : Platform) (n : Nat) : Nat :=
  if 2 ≤ P.sizeof_unsigned ∧ P.sizeof_unsigned < 4 then
    let w := 2 ^ (8 * P.sizeof_unsigned)
    let t := n % w
    let t := (t + 128) % w
    let t := ((t + (t >>> 8)) % w) >>> 8
    u32 t
  else
    let n := u32 (n + 128)
    u32 (n + (n >>> 8)) >>> 8

/-- Function `dbcB_getb`: the `i`-th byte of a 32-bit word, little endian. -/
def dbcB_getb (x i : Nat) : Nat := u8 (x >>> (8 * i))

/-- Function `dbcB_4x8to32`: a 32-bit word from four bytes, little endian. -/
def dbcB_4x8to32 (b0 b1 b2 b3 : Nat) : Nat :=
  u32 b0 ^^^ u32 (u32 b1 <<< 8) ^^^ u32 (u32 b2 <<< 16) ^^^ u32 (u32 b3 <<< 24)

/-! ## Single-channel composition functions -/

/-- Function `dbcB_cla`: one channel of the linear alpha blend. -/
def dbcB_cla (P : Platform) (s d a : Nat) : Nat :=
  let ret := u32 (u32 (s * a) + u32 (d * sub32 255 a))
  u8 (dbcB_div255_round P ret)

/-- Function `dbcB_clp`: one channel of the premultiplied alpha blend. -/
def dbcB_clp (P : Platform) (s d a : Nat) : Nat :=
  let ret := u32 (d * sub32 255 a)
  let ret := dbcB_div255_round P ret
  let ret := u32 (ret + s)
  let ret := ret ||| u32 ((ret >>> 8) * 255)
  u8 ret

/-- Function `dbcB_clx`: one channel of the linear multiplication. -/
def dbcB_clx (P : Platform) (s d : Nat) : Nat :=
  let ret := u32 (s * d)
  let ret := dbcB_div255_round P ret
  u8 ret

/-! ## One-pixel kernels (word level) -/

/-- The 64-bit block of `dbcB_bla_1_c` (taken when `sizeof(void*)>sizeof(dbcb_uint32)`):
four 16-bit lanes in one `dbcb_uint64`. -/
def bla_blend64 (S D : Nat) : Nat :=
  let M := DBCB_C64 0x00FF00FF 0x00FF00FF
  let A := S >>> 24
  let B := sub32 255 A
  let S := S ||| 0xFF000000
  let St := u64 (S &&& 0x00FF00FF) ^^^ u64 (u64 (S &&& 0xFF00FF00) <<< 24)
  let Dt := u64 (D &&& 0x00FF00FF) ^^^ u64 (u64 (D &&& 0xFF00FF00) <<< 24)
  let T := u64 (u64 (u64 (A * St) + u64 (B * Dt)) + DBCB_C64 0x00800080 0x00800080)
  let T := (u64 (T + ((T >>> 8) &&& M)) >>> 8) &&& M
  u32 (T ^^^ (T >>> 24))

/-- The 32-bit block of `dbcB_bla_1_c`: two 16-bit lanes in each of two `dbcb_uint32`. -/
def bla_blend32 (S D : Nat) : Nat :=
  let M := 0x00FF00FF
  let A := S >>> 24
  let B := sub32 255 A
  let S := S ||| 0xFF000000
  let SL := S &&& M
  let SH := (S >>> 8) &&& M
  let DL := D &&& M
  let DH := (D >>> 8) &&& M
  let L := u32 (u32 (A * SL) + u32 (B * DL))
  let H := u32 (u32 (A * SH) + u32 (B * DH))
  let L := u32 (L + 0x00800080)
  let H := u32 (H + 0x00800080)
  let L := (u32 (L + ((L >>> 8) &&& M)) >>> 8) &&& M
  let H := (u32 (H + ((H >>> 8) &&& M)) >>> 8) &&& M
  L ^^^ u32 (H <<< 8)

/-- Function `dbcB_bla_1_c`: alpha-blends a single pixel, linear. -/
def dbcB_bla_1_c (P : Platform) (S D : Nat) : Nat :=
  if P.sizeof_unsigned < 4 then
    dbcB_4x8to32
      (dbcB_cla P (dbcB_getb S 0) (dbcB_getb D 0) (dbcB_getb S 3))
      (dbcB_cla P (dbcB_getb S 1) (dbcB_getb D 1) (dbcB_getb S 3))
      (dbcB_cla P (dbcB_getb S 2) (dbcB_getb D 2) (dbcB_getb S 3))
      (dbcB_cla P 255 (dbcB_getb D 3) (dbcB_getb S 3))
  else if S > 0x00FFFFFF then
    if S < 0xFF000000 then
      if !P.no_int64 && P.sizeof_voidp > 4 then bla_blend64 S D
      else bla_blend32 S D
    else S
  else D

/-- The 64-bit block of `dbcB_blp_1_c`, with the carry trick for saturation. -/
def blp_blend64 (S D : Nat) : Nat :=
  let M := DBCB_C64 0x00FF00FF 0x00FF00FF
  let A := S >>> 24
  let B := sub32 255 A
  let St := u64 (S &&& 0x00FF00FF) ^^^ u64 (u64 (S &&& 0xFF00FF00) <<< 24)
  let Dt := u64 (D &&& 0x00FF00FF) ^^^ u64 (u64 (D &&& 0xFF00FF00) <<< 24)
  let T := u64 (u64 (B * Dt) + DBCB_C64 0x00800080 0x00800080)
  let T := (u64 (T + ((T >>> 8) &&& M)) >>> 8) &&& M
  let T := u64 (T + St)
  let C := T &&& u64 (M <<< 8)
  let C := sub64 C (C >>> 8)
  let T := (T &&& M) ||| C
  u32 (T ^^^ (T >>> 24))

/-- The 32-bit block of `dbcB_blp_1_c`, with the carry trick for saturation. -/
def blp_blend32 (S D : Nat) : Nat :=
  let M := 0x00FF00FF
  let A := S >>> 24
  let B := sub32 255 A
  let SL := S &&& M
  let SH := (S >>> 8) &&& M
  let DL := D &&& M
  let DH := (D >>> 8) &&& M
  let L := u32 (B * DL)
  let H := u32 (B * DH)
  let L := u32 (L + 0x00800080)
  let H := u32 (H + 0x00800080)
  let L := (u32 (L + ((L >>> 8) &&& M)) >>> 8) &&& M
  let H := (u32 (H + ((H >>> 8) &&& M)) >>> 8) &&& M
  let L := u32 (L + SL)
  let H := u32 (H + SH)
  let CL := L &&& u32 (M <<< 8)
  let CH := H &&& u32 (M <<< 8)
  let CL := sub32 CL (CL >>> 8)
  let CH := sub32 CH (CH >>> 8)
  let L := (L &&& M) ||| CL
  let H := (H &&& M) ||| CH
  L ^^^ u32 (H <<< 8)

/-- Function `dbcB_blp_1_c`: alpha-blends (PMA) a single pixel, linear. -/
def dbcB_blp_1_c (P : Platform) (S D : Nat) : Nat :=
  if P.sizeof_unsigned < 4 then
    dbcB_4x8to32
      (dbcB_clp P (dbcB_getb S 0) (dbcB_getb D 0) (dbcB_getb S 3))
      (dbcB_clp P (dbcB_getb S 1) (dbcB_getb D 1) (dbcB_getb S 3))
      (dbcB_clp P (dbcB_getb S 2) (dbcB_getb D 2) (dbcB_getb S 3))
      (dbcB_clp P (dbcB_getb S 3) (dbcB_getb D 3) (dbcB_getb S 3))
  else if S < 0xFF000000 ∧ D > 0 then
    if !P.no_int64 && P.sizeof_voidp > 4 then blp_blend64 S D
    else blp_blend32 S D
  else S

/-- Function `dbcB_blx_1_c`: multiplies a single pixel, linear. -/
def dbcB_blx_1_c (P : Platform) (S D : Nat) : Nat :=
  if S < 0xFFFFFFFF then
    if S = 0 then S
    else if D > 0 then
      dbcB_4x8to32
        (dbcB_clx P (dbcB_getb S 0) (dbcB_getb D 0))
        (dbcB_clx P (dbcB_getb S 1) (dbcB_getb D 1))
        (dbcB_clx P (dbcB_getb S 2) (dbcB_getb D 2))
        (dbcB_clx P (dbcB_getb S 3) (dbcB_getb D 3))
    else D
  else D

/-! ## Floats -/

/-- A `float` value: not-a-number, an infinity, or a finite value given as a rational number.
Every finite `float` is a rational, so a statement over all of `F32` covers every `float`; the
sign of a zero is not represented (no comparison of the source observes it, and the embedded
kernels neither divide nor take a sign). -/
inductive F32 where
  | nan : F32
  | inf (neg : Bool) : F32
  | fin (q : ℚ) : F32
  deriving DecidableEq

namespace F32

/-- Comparison `x >= c` with a finite constant. -/
def ge (x : F32) (c : ℚ) : Bool :=
  match x with
  | nan => false
  | inf neg => !neg
  | fin q => decide (c ≤ q)

/-- Comparison `x <= c` with a finite constant. -/
def le (x : F32) (c : ℚ) : Bool :=
  match x with
  | nan => false
  | inf neg => neg
  | fin q => decide (q ≤ c)

/-- Comparison `x > c` with a finite constant. -/
def gt (x : F32) (c : ℚ) : Bool :=
  match x with
  | nan => false
  | inf neg => !neg
  | fin q => decide (c < q)

/-- Comparison `x == c` with a finite constant. -/
def eq (x : F32) (c : ℚ) : Bool :=
  match x with
  | nan => false
  | inf _ => false
  | fin q => decide (q = c)

/-- Comparison `x != c` with a finite constant (true for a NaN). -/
def ne (x : F32) (c : ℚ) : Bool := !(x.eq c)

/-- Conversion `(dbcb_int32)x`, truncating toward zero; the source applies it to values in
`[0, 65535]` only. -/
def toInt32 (x : F32) : Int :=
  match x with
  | nan => 0
  | inf _ => 0
  | fin q => if 0 ≤ q then Rat.floor q else Rat.ceil q

/-- Rounding of a rational to an integer, to nearest with ties to even. -/
def roundEven (q : ℚ) : Int :=
  let f := Rat.floor q
  if q - f < 1 / 2 then f
  else if 1 / 2 < q - f then f + 1
  else if f % 2 = 0 then f else f + 1

/-- Number of binary digits of `n`, by recursion on a bound `fuel ≥ n` of their number. -/
def bitlen : Nat → Nat → Nat
  | 0, _ => 0
  | fuel + 1, n => if n = 0 then 0 else bitlen fuel (n / 2) + 1

/-- The power `2 ^ e` as a rational. -/
def pow2 (e : Int) : ℚ :=
  if 0 ≤ e then ((2 ^ e.toNat : Nat) : ℚ) else 1 / ((2 ^ (-e).toNat : Nat) : ℚ)

/-- The exponent `e` of the binade of a nonzero rational: `2 ^ e ≤ |q| < 2 ^ (e + 1)`. -/
def ilog2 (q : ℚ) : Int :=
  let e : Int := (bitlen q.num.natAbs q.num.natAbs : Int) - (bitlen q.den q.den : Int)
  if pow2 e ≤ |q| then e else e - 1

/-- Rounding of an exact result to `float` (binary32), to nearest with ties to even, the
default mode of SSE: 24 significant bits in the binade of the value, the subnormals on the grid
`2^-149`, and an infinity from magnitude `2^128 - 2^103` on (half an ulp above `FLT_MAX`). -/
def rnd (q : ℚ) : F32 :=
  if q = 0 then fin 0
  else if 2 ^ 128 - 2 ^ 103 ≤ |q| then inf (decide (q < 0))
  else
    let ulp := pow2 (max (ilog2 q) (-126) - 23)
    fin (roundEven (q / ulp) * ulp)

/-- Instruction `mulps`, one lane: zero times an infinity is a NaN. -/
def mul : F32 → F32 → F32
  | fin p, fin q => rnd (p * q)
  | fin p, inf n => if p = 0 then nan else inf (xor n (decide (p < 0)))
  | inf n, fin q => if q = 0 then nan else inf (xor n (decide (q < 0)))
  | inf m, inf n => inf (xor m n)
  | _, _ => nan

/-- Instruction `addps`, one lane. -/
def add : F32 → F32 → F32
  | fin p, fin q => rnd (p + q)
  | fin _, inf n => inf n
  | inf m, fin _ => inf m
  | inf m, inf n => if m = n then inf m else nan
  | _, _ => nan

/-- Instruction `subps`, one lane. -/
def sub : F32 → F32 → F32
  | fin p, fin q => rnd (p - q)
  | fin _, inf n => inf (!n)
  | inf m, fin _ => inf m
  | inf m, inf n => if m = n then nan else inf m
  | _, _ => nan

/-- Ordered comparison `x < y` (false when an operand is a NaN). -/
def lt : F32 → F32 → Bool
  | fin p, fin q => decide (p < q)
  | fin _, inf n => !n
  | inf m, fin _ => m
  | inf m, inf n => m && !n
  | _, _ => false

/-- Instruction `maxps`, one lane: the second operand unless the first is greater, so also
when an operand is a NaN. -/
def maxps (a b : F32) : F32 := if lt b a then a else b

/-- Instruction `minps`, one lane: the second operand unless the first is less. -/
def minps (a b : F32) : F32 := if lt a b then a else b

/-- Instruction `cvtdq2ps`, one lane. -/
def cvtepi32 (n : Int) : F32 := rnd n

/-- Instruction `cvttps2dq`, one lane: truncation toward zero, and the integer indefinite
value `-2^31` for a NaN, an infinity and a value out of range. -/
def cvttps : F32 → Int
  | fin q =>
    let t := if 0 ≤ q then Rat.floor q else Rat.ceil q
    if -2 ^ 31 ≤ t ∧ t < 2 ^ 31 then t else -2 ^ 31
  | _ => -2 ^ 31

end F32

/-- The `color` argument when it is not null: four floats. -/
abbrev Color := Fin 4 → F32

/-! ## Memory and the byte-order codec -/

/-- A byte. -/
abbrev Byte := Fin 256

/-- Conversion of a natural number to `dbcb_uint8`, as a byte. -/
def toByte (n : Nat) : Byte := ⟨n % 256, Nat.mod_lt _ (by decide)⟩

/-- The bytes reachable from one base pointer, indexed by their offset from it. Source and
destination are two such memories: the surfaces do not overlap. -/
abbrev Mem := Int → Byte

/-- Function `dbcb_load16`, byte-wise version for the configured data endianness. -/
def dbcb_load16 (big : Bool) (m : Mem) (p : Int) : Nat :=
  if big then ((m (p + 1)).val ||| ((m p).val <<< 8)) % 2 ^ 16
  else ((m p).val ||| ((m (p + 1)).val <<< 8)) % 2 ^ 16

/-- Function `dbcb_store16`. -/
def dbcb_store16 (big : Bool) (v : Nat) (m : Mem) (p : Int) : Mem :=
  if big then
    Function.update (Function.update m (p + 1) (toByte v)) p (toByte (v >>> 8))
  else
    Function.update (Function.update m p (toByte v)) (p + 1) (toByte (v >>> 8))

/-- Function `dbcb_load32`. -/
def dbcb_load32 (big : Bool) (m : Mem) (p : Int) : Nat :=
  if big then
    (m (p + 3)).val ||| ((m (p + 2)).val <<< 8) ||| ((m (p + 1)).val <<< 16)
      ||| ((m p).val <<< 24)
  else
    (m p).val ||| ((m (p + 1)).val <<< 8) ||| ((m (p + 2)).val <<< 16)
      ||| ((m (p + 3)).val <<< 24)

/-- Function `dbcb_store32`. -/
def dbcb_store32 (big : Bool) (v : Nat) (m : Mem) (p : Int) : Mem :=
  if big then
    Function.update (Function.update (Function.update (Function.update m
      (p + 3) (toByte v)) (p + 2) (toByte (v >>> 8))) (p + 1) (toByte (v >>> 16)))
      p (toByte (v >>> 24))
  else
    Function.update (Function.update (Function.update (Function.update m
      p (toByte v)) (p + 1) (toByte (v >>> 8))) (p + 2) (toByte (v >>> 16)))
      (p + 3) (toByte (v >>> 24))

/-- Function `dbcb_load64`. -/
def dbcb_load64 (big : Bool) (m : Mem) (p : Int) : Nat :=
  if big then
    (m (p + 7)).val ||| ((m (p + 6)).val <<< 8) ||| ((m (p + 5)).val <<< 16)
      ||| ((m (p + 4)).val <<< 24) ||| ((m (p + 3)).val <<< 32) ||| ((m (p + 2)).val <<< 40)
      ||| ((m (p + 1)).val <<< 48) ||| ((m p).val <<< 56)
  else
    (m p).val ||| ((m (p + 1)).val <<< 8) ||| ((m (p + 2)).val <<< 16)
      ||| ((m (p + 3)).val <<< 24) ||| ((m (p + 4)).val <<< 32) ||| ((m (p + 5)).val <<< 40)
      ||| ((m (p + 6)).val <<< 48) ||| ((m (p + 7)).val <<< 56)

/-- Function `dbcb_store64`. -/
def dbcb_store64 (big : Bool) (v : Nat) (m : Mem) (p : Int) : Mem :=
  if big then
    Function.update (Function.update (Function.update (Function.update
      (Function.update (Function.update (Function.update (Function.update m
      (p + 7) (toByte v)) (p + 6) (toByte (v >>> 8))) (p + 5) (toByte (v >>> 16)))
      (p + 4) (toByte (v >>> 24))) (p + 3) (toByte (v >>> 32))) (p + 2) (toByte (v >>> 40)))
      (p + 1) (toByte (v >>> 48))) p (toByte (v >>> 56))
  else
    Function.update (Function.update (Function.update (Function.update
      (Function.update (Function.update (Function.update (Function.update m
      p (toByte v)) (p + 1) (toByte (v >>> 8))) (p + 2) (toByte (v >>> 16)))
      (p + 3) (toByte (v >>> 24))) (p + 4) (toByte (v >>> 32))) (p + 5) (toByte (v >>> 40)))
      (p + 6) (toByte (v >>> 48))) (p + 7) (toByte (v >>> 56))

/-- Function `dbcb_memcpy(dst + d, src + s, n)` between the two memories. -/
def dbcb_memcpy (dst : Mem) (d : Int) (src : Mem) (s : Int) (n : Nat) : Mem :=
  fun a => if d ≤ a ∧ a < d + n then src (s + (a - d)) else dst a

/-! ## The environment of a build -/

/-- The supported values of `DBC_BLIT_UNROLL` (any other value is an `#error`). -/
inductive Unroll where
  | u0 | u8 | u16 | u32
  deriving DecidableEq, Repr

/-- The width a value of `DBC_BLIT_UNROLL` stands for. -/
def Unroll.val : Unroll → Nat
  | .u0 => 0
  | .u8 => 8
  | .u16 => 16
  | .u32 => 32

/-- Instruction-set tier of a row driver. -/
inductive Tier where
  | c | sse2 | avx2
  deriving DecidableEq, Repr

/-- The row drivers of one tier, named as in the source without the tier suffix
(`f32` is `dbcB_f32_c`, `dbcB_f32_sse2` or `dbcB_f32_avx2`). -/
inductive Fn where
  | f32 | f32m | fla | flam | flp | flpm | f8 | f8m | f16 | f16m | f5551 | flx | flxm
  | f32a | f32t | f32s | f32c | f32g | fga | fgam | fgp | fgpm | fgx | fgxm
  deriving DecidableEq, Repr

/-- What a kernel receives besides its two pointers: the `color` pointer and the two keys
computed by `DBCB_FN_HEADER`. -/
structure Params where
  color : Option Color
  key8 : Nat
  key16 : Nat

/-- The color array a modulated kernel dereferences (the dispatcher passes a non-null
`color` to every modulated driver). -/
def Params.col (p : Params) : Color := p.color.getD (fun _ => F32.nan)

/-- Everything the embedding leaves as a parameter: the build configuration, the CPU flags, and
the parts of the source that compute in floating point or with SIMD instructions. -/
structure Env where
  /-- Sizes of the integer types. -/
  platform : Platform
  /-- Whether `DBC_BLIT_DATA_BIG_ENDIAN` is defined. -/
  big_endian : Bool
  /-- Value of `DBC_BLIT_UNROLL`. -/
  unroll : Unroll
  /-- Macro `dbcb_unroll_limit_for_mode(mode,modulated)`. -/
  unroll_limit : Int → Bool → Int
  /-- Flag `dbcB_has_sse2` after initialisation (false in a build without SIMD). -/
  has_sse2 : Bool
  /-- Flag `dbcB_has_avx2` after initialisation (false in a build without AVX2). -/
  has_avx2 : Bool
  /-- Macro `dbcb_allow_sse2_for_mode(mode,modulated)`. -/
  allow_sse2 : Int → Bool → Bool
  /-- Macro `dbcb_allow_avx2_for_mode(mode,modulated)`. -/
  allow_avx2 : Int → Bool → Bool
  /-- Expression `dbcB_float2byte(dbcB_clamp0_255(m*dbcB_byte2float(b)))` of `dbcB_b32m_1_c`. -/
  modulate : F32 → Nat → Nat
  /-- Function `dbcB_clam(s,d,a,m,c)`. -/
  clam : Nat → Nat → Nat → F32 → F32 → Nat
  /-- Function `dbcB_clpm(s,d,a,m,c)`. -/
  clpm : Nat → Nat → Nat → F32 → F32 → Nat
  /-- Function `dbcB_clxm(s,d,m)`. -/
  clxm : Nat → Nat → F32 → Nat
  /-- Expression `dbcB_linear2srgb(dbcB_clamp0_1((dbcb_fp)m*dbcB_srgb2linear(b)))` of
  `dbcB_b32g_1_c`. -/
  modulate_srgb : F32 → Nat → Nat
  /-- Function `dbcB_cga(s,d,a)`. -/
  cga : Nat → Nat → Nat → Nat
  /-- Function `dbcB_cgp(s,d,a)`. -/
  cgp : Nat → Nat → Nat → Nat
  /-- Function `dbcB_cgam(s,d,a,m,c)`. -/
  cgam : Nat → Nat → Nat → F32 → F32 → Nat
  /-- Function `dbcB_cgpm(s,d,a,m,c)`. -/
  cgpm : Nat → Nat → Nat → F32 → F32 → Nat
  /-- Function `dbcB_cgx(s,d)`. -/
  cgx : Nat → Nat → Nat
  /-- Function `dbcB_cgxm(s,d,m)`. -/
  cgxm : Nat → Nat → F32 → Nat
  /-- The SSE2 and AVX2 kernels that are not embedded (see `simdKernel` for those that are):
  for a tier, a driver and a run of `2 ^ k` pixels, the new destination bytes of the run as a
  function of its source and destination bytes. -/
  simd : Tier → Fn → Nat → Params → List Byte → List Byte → List Byte

/-! ## One-pixel kernels (word level), continued -/

/-- Function `dbcB_b32m_1_c`: copies a single pixel, with modulation. -/
def dbcB_b32m_1_c (env : Env) (color : Color) (S : Nat) : Nat :=
  dbcB_4x8to32
    (u8 (env.modulate (color 0) (dbcB_getb S 0)))
    (u8 (env.modulate (color 1) (dbcB_getb S 1)))
    (u8 (env.modulate (color 2) (dbcB_getb S 2)))
    (u8 (env.modulate (color 3) (dbcB_getb S 3)))

/-- Function `dbcB_blam_1_c`: alpha-blends a single pixel, linear, with modulation. -/
def dbcB_blam_1_c (env : Env) (color : Color) (S D : Nat) : Nat :=
  if S > 0x00FFFFFF ∧ (color 3).ne 0 then
    dbcB_4x8to32
      (u8 (env.clam (dbcB_getb S 0) (dbcB_getb D 0) (dbcB_getb S 3) (color 0) (color 3)))
      (u8 (env.clam (dbcB_getb S 1) (dbcB_getb D 1) (dbcB_getb S 3) (color 1) (color 3)))
      (u8 (env.clam (dbcB_getb S 2) (dbcB_getb D 2) (dbcB_getb S 3) (color 2) (color 3)))
      (u8 (env.clam 255 (dbcB_getb D 3) (dbcB_getb S 3) (F32.fin 1) (color 3)))
  else D

/-- Function `dbcB_blpm_1_c`: alpha-blends (PMA) a single pixel, linear, with modulation. -/
def dbcB_blpm_1_c (env : Env) (color : Color) (S D : Nat) : Nat :=
  if S > 0 then
    dbcB_4x8to32
      (u8 (env.clpm (dbcB_getb S 0) (dbcB_getb D 0) (dbcB_getb S 3) (color 0) (color 3)))
      (u8 (env.clpm (dbcB_getb S 1) (dbcB_getb D 1) (dbcB_getb S 3) (color 1) (color 3)))
      (u8 (env.clpm (dbcB_getb S 2) (dbcB_getb D 2) (dbcB_getb S 3) (color 2) (color 3)))
      (u8 (env.clpm (dbcB_getb S 3) (dbcB_getb D 3) (dbcB_getb S 3) (color 3) (color 3)))
  else D

/-- Function `dbcB_blxm_1_c`: multiplies a single pixel, linear, with modulation. -/
def dbcB_blxm_1_c (env : Env) (color : Color) (S D : Nat) : Nat :=
  if S = 0 then S
  else if D > 0 then
    dbcB_4x8to32
      (u8 (env.clxm (dbcB_getb S 0) (dbcB_getb D 0) (color 0)))
      (u8 (env.clxm (dbcB_getb S 1) (dbcB_getb D 1) (color 1)))
      (u8 (env.clxm (dbcB_getb S 2) (dbcB_getb D 2) (color 2)))
      (u8 (env.clxm (dbcB_getb S 3) (dbcB_getb D 3) (color 3)))
  else D

/-- Function `dbcB_b8m_1_c`: blits a single 8-bit pixel with colorkey. -/
def dbcB_b8m_1_c (key : Nat) (s d : Nat) : Nat := if s ≠ key then s else d

/-- The packed block of `dbcB_b8m_4_c` (taken when `sizeof(unsigned)>=sizeof(dbcb_uint32)`). -/
def dbcB_b8m_4_c_packed (key : Nat) (S D : Nat) : Nat :=
  let m := u32 (S ^^^ u32 (key * 0x01010101))
  let m := (m ||| (m >>> 1)) &&& 0x55555555
  let m := (m ||| (m >>> 2)) &&& 0x33333333
  let m := (m ||| (m >>> 4)) &&& 0x0F0F0F0F
  let m := sub32 (u32 (m <<< 8)) m
  (S &&& m) ^^^ (D &&& (m ^^^ 0xFFFFFFFF))

/-- The packed block of `dbcB_b8m_8_c` (taken when `sizeof(void*)>sizeof(dbcb_uint32)`). -/
def dbcB_b8m_8_c_packed (key : Nat) (S D : Nat) : Nat :=
  let m := S ^^^ u64 (key * DBCB_C64 0x01010101 0x01010101)
  let m := (m ||| (m >>> 1)) &&& DBCB_C64 0x55555555 0x55555555
  let m := (m ||| (m >>> 2)) &&& DBCB_C64 0x33333333 0x33333333
  let m := (m ||| (m >>> 4)) &&& DBCB_C64 0x0F0F0F0F 0x0F0F0F0F
  let m := sub64 (u64 (m <<< 8)) m
  (S &&& m) ^^^ (D &&& (m ^^^ 0xFFFFFFFFFFFFFFFF))

/-- Function `dbcB_b16m_1_c`: blits a single 16-bit pixel with colorkey. -/
def dbcB_b16m_1_c (key : Nat) (S D : Nat) : Nat := if S ≠ key then S else D

/-- The packed block of `dbcB_b16m_4_c` (taken when `sizeof(void*)>sizeof(dbcb_uint32)`). -/
def dbcB_b16m_4_c_packed (key : Nat) (S D : Nat) : Nat :=
  let m := S ^^^ u64 (key * DBCB_C64 0x00010001 0x00010001)
  let m := (m ||| (m >>> 1)) &&& DBCB_C64 0x55555555 0x55555555
  let m := (m ||| (m >>> 2)) &&& DBCB_C64 0x33333333 0x33333333
  let m := (m ||| (m >>> 4)) &&& DBCB_C64 0x0F0F0F0F 0x0F0F0F0F
  let m := (m ||| (m >>> 8)) &&& DBCB_C64 0x00FF00FF 0x00FF00FF
  let m := sub64 (u64 (m <<< 16)) m
  (S &&& m) ^^^ (D &&& (m ^^^ 0xFFFFFFFFFFFFFFFF))

/-- Function `dbcB_b5551_1_c`: blits a single 16-bit (5551) pixel. -/
def dbcB_b5551_1_c (S D : Nat) : Nat := if S ≥ 0x8000 then S else D

/-- The packed block of `dbcB_b5551_2_c` (taken when `sizeof(unsigned)>=sizeof(dbcb_uint32)`). -/
def dbcB_b5551_2_c_packed (S D : Nat) : Nat :=
  let m := u32 (S &&& 0x80008000)
  let m := sub32 (u32 (m <<< 1)) (m >>> 15)
  (S &&& m) ^^^ (D &&& (m ^^^ 0xFFFFFFFF))

/-- The packed block of `dbcB_b5551_4_c` (taken when `sizeof(void*)>sizeof(dbcb_uint32)`). -/
def dbcB_b5551_4_c_packed (S D : Nat) : Nat :=
  let m := u64 (S &&& DBCB_C64 0x80008000 0x80008000)
  let m := sub64 (u64 (m <<< 1)) (m >>> 15)
  (S &&& m) ^^^ (D &&& (m ^^^ 0xFFFFFFFFFFFFFFFF))

/-- Function `dbcB_b32t_1_c`: blits a single pixel, with alpha-test. -/
def dbcB_b32t_1_c (threshold : Nat) (S D : Nat) : Nat :=
  if S ≥ u32 (u32 threshold <<< 24) then S else D

/-- Function `dbcB_b32s_1_c`: blits a single pixel, with alpha-test using threshold 128. -/
def dbcB_b32s_1_c (S D : Nat) : Nat := if S ≥ 0x80000000 then S else D

/-- The packed block of `dbcB_b32s_2_c` (taken when `sizeof(void*)>sizeof(dbcb_uint32)`). -/
def dbcB_b32s_2_c_packed (S D : Nat) : Nat :=
  let m := u64 (S &&& DBCB_C64 0x80000000 0x80000000)
  let m := sub64 (u64 (m <<< 1)) (m >>> 31)
  (S &&& m) ^^^ (D &&& (m ^^^ 0xFFFFFFFFFFFFFFFF))

/-- Function `dbcB_b32g_1_c`: copies a single pixel, gamma-corrected, with modulation. -/
def dbcB_b32g_1_c (env : Env) (color : Color) (S : Nat) : Nat :=
  dbcB_4x8to32
    (u8 (env.modulate_srgb (color 0) (dbcB_getb S 0)))
    (u8 (env.modulate_srgb (color 1) (dbcB_getb S 1)))
    (u8 (env.modulate_srgb (color 2) (dbcB_getb S 2)))
    (u8 (env.modulate (color 3) (dbcB_getb S 3)))

/-- Function `dbcB_bga_1_c`: alpha-blends a single pixel, gamma-corrected. -/
def dbcB_bga_1_c (env : Env) (S D : Nat) : Nat :=
  if S > 0x00FFFFFF then
    if S ≥ 0xFF000000 then S
    else
      dbcB_4x8to32
        (u8 (env.cga (dbcB_getb S 0) (dbcB_getb D 0) (dbcB_getb S 3)))
        (u8 (env.cga (dbcB_getb S 1) (dbcB_getb D 1) (dbcB_getb S 3)))
        (u8 (env.cga (dbcB_getb S 2) (dbcB_getb D 2) (dbcB_getb S 3)))
        (dbcB_cla env.platform 255 (dbcB_getb D 3) (dbcB_getb S 3))
  else D

/-- Function `dbcB_bgp_1_c`: alpha-blends (PMA) a single pixel, gamma-corrected. -/
def dbcB_bgp_1_c (env : Env) (S D : Nat) : Nat :=
  if S > 0 then
    if S ≥ 0xFF000000 then S
    else if D = 0 then S
    else
      dbcB_4x8to32
        (u8 (env.cgp (dbcB_getb S 0) (dbcB_getb D 0) (dbcB_getb S 3)))
        (u8 (env.cgp (dbcB_getb S 1) (dbcB_getb D 1) (dbcB_getb S 3)))
        (u8 (env.cgp (dbcB_getb S 2) (dbcB_getb D 2) (dbcB_getb S 3)))
        (dbcB_clp env.platform (dbcB_getb S 3) (dbcB_getb D 3) (dbcB_getb S 3))
  else D

/-- Function `dbcB_bgx_1_c`: multiplies a single pixel, gamma-corrected. -/
def dbcB_bgx_1_c (env : Env) (S D : Nat) : Nat :=
  if S < 0xFFFFFFFF then
    if S = 0 then S
    else if D = 0 then D
    else
      dbcB_4x8to32
        (u8 (env.cgx (dbcB_getb S 0) (dbcB_getb D 0)))
        (u8 (env.cgx (dbcB_getb S 1) (dbcB_getb D 1)))
        (u8 (env.cgx (dbcB_getb S 2) (dbcB_getb D 2)))
        (dbcB_clx env.platform (dbcB_getb S 3) (dbcB_getb D 3))
  else D

/-- Function `dbcB_bgam_1_c`: alpha-blends a single pixel, gamma-corrected, with modulation. -/
def dbcB_bgam_1_c (env : Env) (color : Color) (S D : Nat) : Nat :=
  if S > 0x00FFFFFF ∧ (color 3).ne 0 then
    dbcB_4x8to32
      (u8 (env.cgam (dbcB_getb S 0) (dbcB_getb D 0) (dbcB_getb S 3) (color 0) (color 3)))
      (u8 (env.cgam (dbcB_getb S 1) (dbcB_getb D 1) (dbcB_getb S 3) (color 1) (color 3)))
      (u8 (env.cgam (dbcB_getb S 2) (dbcB_getb D 2) (dbcB_getb S 3) (color 2) (color 3)))
      (u8 (env.clam 255 (dbcB_getb D 3) (dbcB_getb S 3) (F32.fin 1) (color 3)))
  else D

/-- Function `dbcB_bgpm_1_c`: alpha-blends (PMA) a single pixel, gamma-corrected, with
modulation. -/
def dbcB_bgpm_1_c (env : Env) (color : Color) (S D : Nat) : Nat :=
  if S > 0 then
    dbcB_4x8to32
      (u8 (env.cgpm (dbcB_getb S 0) (dbcB_getb D 0) (dbcB_getb S 3) (color 0) (color 3)))
      (u8 (env.cgpm (dbcB_getb S 1) (dbcB_getb D 1) (dbcB_getb S 3) (color 1) (color 3)))
      (u8 (env.cgpm (dbcB_getb S 2) (dbcB_getb D 2) (dbcB_getb S 3) (color 2) (color 3)))
      (u8 (env.clpm (dbcB_getb S 3) (dbcB_getb D 3) (dbcB_getb S 3) (color 3) (color 3)))
  else D

/-- Function `dbcB_bgxm_1_c`: multiplies a single pixel, gamma-corrected, with modulation. -/
def dbcB_bgxm_1_c (env : Env) (color : Color) (S D : Nat) : Nat :=
  if S = 0 then S
  else if D = 0 then D
  else
    dbcB_4x8to32
      (u8 (env.cgxm (dbcB_getb S 0) (dbcB_getb D 0) (color 0)))
      (u8 (env.cgxm (dbcB_getb S 1) (dbcB_getb D 1) (color 1)))
      (u8 (env.cgxm (dbcB_getb S 2) (dbcB_getb D 2) (color 2)))
      (u8 (env.clxm (dbcB_getb S 3) (dbcB_getb D 3) (color 3)))

/-! ## Kernels on memory -/

/-- A kernel `void k(const dbcb_uint8 *s, dbcb_uint8 *d, ...)`: from the source memory, the
offset `s`, the destination memory and the offset `d` to the new destination memory. -/
abbrev Kernel := Mem → Int → Mem → Int → Mem

/-- A kernel that loads one byte from each pointer and stores one byte. A path of the source
that stores nothing is the word function returning the destination value. -/
def pix8 (f : Nat → Nat → Nat) : Kernel :=
  fun src s dst d => Function.update dst d (toByte (f (src s).val (dst d).val))

/-- A kernel that works on one 16-bit word through `dbcb_load16` and `dbcb_store16`. -/
def pix16 (big : Bool) (f : Nat → Nat → Nat) : Kernel :=
  fun src s dst d => dbcb_store16 big (f (dbcb_load16 big src s) (dbcb_load16 big dst d)) dst d

/-- A kernel that works on one 32-bit word through `dbcb_load32` and `dbcb_store32`. -/
def pix32 (big : Bool) (f : Nat → Nat → Nat) : Kernel :=
  fun src s dst d => dbcb_store32 big (f (dbcb_load32 big src s) (dbcb_load32 big dst d)) dst d

/-- A kernel that works on one 64-bit word through `dbcb_load64` and `dbcb_store64`. -/
def pix64 (big : Bool) (f : Nat → Nat → Nat) : Kernel :=
  fun src s dst d => dbcb_store64 big (f (dbcb_load64 big src s) (dbcb_load64 big dst d)) dst d

/-- The body `k(s,d); k(s+n,d+n);` of the kernels for longer runs. -/
def twice (k : Kernel) (n : Int) : Kernel :=
  fun src s dst d => k src (s + n) (k src s dst d) (d + n)

/-- The `n` bytes of a memory from offset `p` on. -/
def bytesAt (m : Mem) (p : Int) (n : Nat) : List Byte :=
  (List.range n).map (fun i => m (p + i))

/-- A kernel given by a function of the bytes of its run: it reads `n` bytes at each pointer
and writes `n` bytes at the destination pointer. -/
def runKernel (n : Nat) (f : List Byte → List Byte → List Byte) : Kernel :=
  fun src s dst d a =>
    if d ≤ a ∧ a < d + n then (f (bytesAt src s n) (bytesAt dst d n)).getD (a - d).toNat (dst a)
    else dst a

/-- Whether the 64-bit blocks are compiled in and taken. -/
def Platform.use64 (P : Platform) : Bool := !P.no_int64 && decide (P.sizeof_voidp > 4)

/-- Pixel size argument of the `DBCB_DEF_FN_*` line of a driver. -/
def Fn.pixel_size : Fn → Nat
  | .f8 | .f8m => 1
  | .f16 | .f16m | .f5551 => 2
  | _ => 4

/-- Mode argument of the `DBCB_DEF_FN_*` line of a driver. -/
def Fn.mode : Fn → Int
  | .f32 | .f32m => 0
  | .fla | .flam => 1
  | .flp | .flpm => 2
  | .fga | .fgam => 3
  | .fgp | .fgpm => 4
  | .f8 | .f8m => 5
  | .f16 | .f16m => 6
  | .f5551 => 7
  | .flx | .flxm => 8
  | .fgx | .fgxm => 9
  | .f32a | .f32t | .f32s => 10
  | .f32c | .f32g => 11

/-- Modulated argument of the `DBCB_DEF_FN_*` line of a driver. -/
def Fn.modulated : Fn → Bool
  | .f32m | .flam | .flpm | .f8m | .f16m | .flxm | .f32t | .f32s | .f32g | .fgam | .fgpm
  | .fgxm => true
  | _ => false

/-- Which `DBCB_DEF_FN_*` macro defines a driver: `none` for `DBCB_DEF_FN_0` (rows copied by
`dbcb_memcpy`), `some k` for the macro whose largest run is `2 ^ k` pixels. -/
def fnTop : Tier → Fn → Option Nat
  | _, .f32 | _, .f8 | _, .f16 | _, .f32a | _, .f32c => none
  | .c, .f32m | .c, .flam | .c, .flpm | .c, .flxm | .c, .f32g | .c, .fgam | .c, .fgpm
  | .c, .fgxm => some 0
  | .c, .fla | .c, .flp | .c, .flx | .c, .f32t | .c, .f32s | .c, .fga | .c, .fgp
  | .c, .fgx => some 2
  | .c, .f16m | .c, .f5551 => some 3
  | .c, .f8m => some 4
  | .sse2, .f32m | .sse2, .flam | .sse2, .flpm | .sse2, .flxm | .sse2, .f32g | .sse2, .fga
  | .sse2, .fgam | .sse2, .fgp | .sse2, .fgpm | .sse2, .fgx | .sse2, .fgxm => some 0
  | .sse2, .fla | .sse2, .flp | .sse2, .flx | .sse2, .f32t | .sse2, .f32s => some 2
  | .sse2, .f16m | .sse2, .f5551 => some 3
  | .sse2, .f8m => some 4
  | .avx2, .f32m | .avx2, .flam | .avx2, .flpm | .avx2, .flxm | .avx2, .f32g | .avx2, .fga
  | .avx2, .fgam | .avx2, .fgp | .avx2, .fgpm | .avx2, .fgx | .avx2, .fgxm => some 1
  | .avx2, .fla | .avx2, .flp | .avx2, .flx | .avx2, .f32t | .avx2, .f32s => some 3
  | .avx2, .f16m | .avx2, .f5551 => some 4
  | .avx2, .f8m => some 5

/-- The C kernels `dbcB_*_<2^k>_c` a scalar driver is instantiated with. Kernels that do not
exist (a run longer than the driver's largest) are the identity. -/
def scalarKernel (env : Env) (fn : Fn) (k : Nat) (p : Params) : Kernel :=
  let P := env.platform
  let E := env.big_endian
  match fn with
  | .f32m =>
    match k with
    | 0 => pix32 E (fun S _ => dbcB_b32m_1_c env p.col S)
    | _ => fun _ _ dst _ => dst
  | .fla =>
    match k with
    | 0 => pix32 E (dbcB_bla_1_c P)
    | 1 => twice (pix32 E (dbcB_bla_1_c P)) 4
    | 2 => twice (twice (pix32 E (dbcB_bla_1_c P)) 4) 8
    | _ => fun _ _ dst _ => dst
  | .flam =>
    match k with
    | 0 => pix32 E (dbcB_blam_1_c env p.col)
    | _ => fun _ _ dst _ => dst
  | .flp =>
    match k with
    | 0 => pix32 E (dbcB_blp_1_c P)
    | 1 => twice (pix32 E (dbcB_blp_1_c P)) 4
    | 2 => twice (twice (pix32 E (dbcB_blp_1_c P)) 4) 8
    | _ => fun _ _ dst _ => dst
  | .flpm =>
    match k with
    | 0 => pix32 E (dbcB_blpm_1_c env p.col)
    | _ => fun _ _ dst _ => dst
  | .f8m =>
    match k with
    | 0 => pix8 (dbcB_b8m_1_c p.key8)
    | 1 => twice (pix8 (dbcB_b8m_1_c p.key8)) 1
    | 2 =>
        if P.sizeof_unsigned ≥ 4 then pix32 E (dbcB_b8m_4_c_packed p.key8)
        else twice (twice (pix8 (dbcB_b8m_1_c p.key8)) 1) 2
    | 3 =>
        if P.use64 then pix64 E (dbcB_b8m_8_c_packed p.key8)
        else twice (if P.sizeof_unsigned ≥ 4 then pix32 E (dbcB_b8m_4_c_packed p.key8)
          else twice (twice (pix8 (dbcB_b8m_1_c p.key8)) 1) 2) 4
    | 4 =>
        twice (if P.use64 then pix64 E (dbcB_b8m_8_c_packed p.key8)
          else twice (if P.sizeof_unsigned ≥ 4 then pix32 E (dbcB_b8m_4_c_packed p.key8)
            else twice (twice (pix8 (dbcB_b8m_1_c p.key8)) 1) 2) 4) 8
    | _ => fun _ _ dst _ => dst
  | .f16m =>
    match k with
    | 0 => pix16 E (dbcB_b16m_1_c p.key16)
    | 1 => twice (pix16 E (dbcB_b16m_1_c p.key16)) 2
    | 2 =>
        if P.use64 then pix64 E (dbcB_b16m_4_c_packed p.key16)
        else twice (twice (pix16 E (dbcB_b16m_1_c p.key16)) 2) 4
    | 3 =>
        twice (if P.use64 then pix64 E (dbcB_b16m_4_c_packed p.key16)
          else twice (twice (pix16 E (dbcB_b16m_1_c p.key16)) 2) 4) 8
    | _ => fun _ _ dst _ => dst
  | .f5551 =>
    match k with
    | 0 => pix16 E dbcB_b5551_1_c
    | 1 =>
        if P.sizeof_unsigned ≥ 4 then pix32 E dbcB_b5551_2_c_packed
        else twice (pix16 E dbcB_b5551_1_c) 2
    | 2 =>
        if P.use64 then pix64 E dbcB_b5551_4_c_packed
        else twice (if P.sizeof_unsigned ≥ 4 then pix32 E dbcB_b5551_2_c_packed
          else twice (pix16 E dbcB_b5551_1_c) 2) 4
    | 3 =>
        twice (if P.use64 then pix64 E dbcB_b5551_4_c_packed
          else twice (if P.sizeof_unsigned ≥ 4 then pix32 E dbcB_b5551_2_c_packed
            else twice (pix16 E dbcB_b5551_1_c) 2) 4) 8
    | _ => fun _ _ dst _ => dst
  | .flx =>
    match k with
    | 0 => pix32 E (dbcB_blx_1_c P)
    | 1 => twice (pix32 E (dbcB_blx_1_c P)) 4
    | 2 => twice (twice (pix32 E (dbcB_blx_1_c P)) 4) 8
    | _ => fun _ _ dst _ => dst
  | .flxm =>
    match k with
    | 0 => pix32 E (dbcB_blxm_1_c env p.col)
    | _ => fun _ _ dst _ => dst
  | .f32t =>
    match k with
    | 0 => pix32 E (dbcB_b32t_1_c p.key8)
    | 1 => twice (pix32 E (dbcB_b32t_1_c p.key8)) 4
    | 2 => twice (twice (pix32 E (dbcB_b32t_1_c p.key8)) 4) 8
    | _ => fun _ _ dst _ => dst
  | .f32s =>
    match k with
    | 0 => pix32 E dbcB_b32s_1_c
    | 1 =>
        if P.use64 then pix64 E dbcB_b32s_2_c_packed else twice (pix32 E dbcB_b32s_1_c) 4
    | 2 =>
        twice (if P.use64 then pix64 E dbcB_b32s_2_c_packed
          else twice (pix32 E dbcB_b32s_1_c) 4) 8
    | _ => fun _ _ dst _ => dst
  | .f32g =>
    match k with
    | 0 => pix32 E (fun S _ => dbcB_b32g_1_c env p.col S)
    | _ => fun _ _ dst _ => dst
  | .fga =>
    match k with
    | 0 => pix32 E (dbcB_bga_1_c env)
    | 1 => twice (pix32 E (dbcB_bga_1_c env)) 4
    | 2 => twice (twice (pix32 E (dbcB_bga_1_c env)) 4) 8
    | _ => fun _ _ dst _ => dst
  | .fgam =>
    match k with
    | 0 => pix32 E (dbcB_bgam_1_c env p.col)
    | _ => fun _ _ dst _ => dst
  | .fgp =>
    match k with
    | 0 => pix32 E (dbcB_bgp_1_c env)
    | 1 => twice (pix32 E (dbcB_bgp_1_c env)) 4
    | 2 => twice (twice (pix32 E (dbcB_bgp_1_c env)) 4) 8
    | _ => fun _ _ dst _ => dst
  | .fgpm =>
    match k with
    | 0 => pix32 E (dbcB_bgpm_1_c env p.col)
    | _ => fun _ _ dst _ => dst
  | .fgx =>
    match k with
    | 0 => pix32 E (dbcB_bgx_1_c env)
    | 1 => twice (pix32 E (dbcB_bgx_1_c env)) 4
    | 2 => twice (twice (pix32 E (dbcB_bgx_1_c env)) 4) 8
    | _ => fun _ _ dst _ => dst
  | .fgxm =>
    match k with
    | 0 => pix32 E (dbcB_bgxm_1_c env p.col)
    | _ => fun _ _ dst _ => dst
  | _ => fun _ _ dst _ => dst

/-! ## SSE2 and AVX2 kernels of the modulated ALPHA blend -/

/-- Constant `DBCB_1div255f`: the literal `0.00392156863f`. -/
def DBCB_1div255f : F32 := F32.rnd (392156863 / 100000000000)

/-- Function `dbcB_float2byte_clamp_128` (and `dbcB_float2byte_clamp_256`), one lane. -/
def dbcB_float2byte_clamp_128 (x : F32) : Int :=
  let x := F32.minps (F32.maxps x (F32.fin 0)) (F32.fin 255)
  F32.cvttps (F32.add x (F32.fin (1 / 2)))

/-- Instruction `packuswb`, one lane: a signed 16-bit value saturated to an unsigned byte. -/
def packus16 (w : Nat) : Nat :=
  if 0x8000 ≤ w % 2 ^ 16 then 0 else if 255 < w % 2 ^ 16 then 255 else w % 2 ^ 16

/-- The byte that `ret=dbcB_mm_packus_epi16(ret,ret); ret=dbcB_mm_packus_epi16(ret,ret);`
leaves for a 32-bit lane: the first pack saturates its two 16-bit halves, the second the pair
of bytes they gave. -/
def packus32 (v : Int) : Nat :=
  let u := (v % 2 ^ 32).toNat
  packus16 (packus16 (u % 2 ^ 16) + 256 * packus16 (u / 2 ^ 16))

/-- Lane `c` of `dbcB_setup128_32_SDAC(1)` followed by the body of `dbcB_blam_1_sse2` (the
same operations as `dbcB_setup256_32_SDAC(1)` with `dbcB_step256_blam`): `S` is the source
times `color`, `A` its lane 3 in every lane, `C = 255 - A`, lane 3 of `S` is then replaced by
`255.0f`, and `D = (A*S + C*D) * DBCB_1div255f` is clamped, rounded and packed to a byte. -/
def dbcB_blam_lane (color : Color) (S D : Nat) (c : Fin 4) : Nat :=
  let Sf := fun i : Fin 4 => F32.mul (F32.cvtepi32 (dbcB_getb S i)) (color i)
  let A := Sf 3
  let C := F32.sub (F32.fin 255) A
  let Sc := if c = 3 then F32.fin 255 else Sf c
  let Dc := F32.add (F32.mul A Sc) (F32.mul C (F32.cvtepi32 (dbcB_getb D c)))
  let Dc := F32.mul Dc DBCB_1div255f
  packus32 (dbcB_float2byte_clamp_128 Dc)

/-- Function `dbcB_blam_1_sse2`: alpha-blends a single pixel, linear with modulation. There is
no test of `color[3]` or of the source alpha. -/
def dbcB_blam_1_sse2 (color : Color) (S D : Nat) : Nat :=
  dbcB_4x8to32 (dbcB_blam_lane color S D 0) (dbcB_blam_lane color S D 1)
    (dbcB_blam_lane color S D 2) (dbcB_blam_lane color S D 3)

/-- Function `dbcB_blam_1_avx2`: the pixel in the lower four lanes of the 256-bit registers. -/
def dbcB_blam_1_avx2 (color : Color) (S D : Nat) : Nat :=
  dbcB_4x8to32 (dbcB_blam_lane color S D 0) (dbcB_blam_lane color S D 1)
    (dbcB_blam_lane color S D 2) (dbcB_blam_lane color S D 3)

/-- Lane `c` of the body of `dbcB_b32m_1_sse2` (the same operations as `dbcB_b32m_1_avx2` and
`dbcB_b32m_2_avx2`): the source byte as a float times `color[c]`, clamped, rounded and packed to
a byte. The destination is not read. -/
def dbcB_b32m_lane (color : Color) (S : Nat) (c : Fin 4) : Nat :=
  packus32 (dbcB_float2byte_clamp_128 (F32.mul (F32.cvtepi32 (dbcB_getb S c)) (color c)))

/-- Function `dbcB_b32m_1_sse2`: copies a single pixel, with modulation. -/
def dbcB_b32m_1_sse2 (color : Color) (S : Nat) : Nat :=
  dbcB_4x8to32 (dbcB_b32m_lane color S 0) (dbcB_b32m_lane color S 1)
    (dbcB_b32m_lane color S 2) (dbcB_b32m_lane color S 3)

/-- Function `dbcB_b32m_1_avx2`: the pixel in the lower four lanes of the 256-bit registers. -/
def dbcB_b32m_1_avx2 (color : Color) (S : Nat) : Nat :=
  dbcB_4x8to32 (dbcB_b32m_lane color S 0) (dbcB_b32m_lane color S 1)
    (dbcB_b32m_lane color S 2) (dbcB_b32m_lane color S 3)

/-! ## SSE2 and AVX2 kernels of the key modes

The kernels `dbcB_b8m_*`, `dbcB_b16m_*`, `dbcB_b5551_*`, `dbcB_b32t_*` and `dbcB_b32s_*` of
either tier load a run of the source and of the destination, compare lane by lane and merge
lane by lane: every instruction works on lanes of one width (the bitwise ones on any), so the
kernel is given by what it does to one lane. For big-endian data `dbcb_load128_*` and
`dbcb_store128_*` swap the bytes of every 32-bit unit, which leaves in every lane the value
that `dbcb_load16` or `dbcb_load32` gives for its pixel. -/

/-- The two's complement value of a lane of `bits` bits. -/
def toSigned (bits a : Nat) : Int := if a < 2 ^ (bits - 1) then (a : Int) else (a : Int) - 2 ^ bits

/-- Instructions `pcmpeqb`, `pcmpeqw`, one lane: all ones if the lanes are equal, else 0. -/
def mm_cmpeq (bits a b : Nat) : Nat := if a = b then 2 ^ bits - 1 else 0

/-- Instructions `pcmpgtw`, `pcmpgtd`, one lane: all ones if `a > b` as signed integers. -/
def mm_cmpgt (bits a b : Nat) : Nat := if toSigned bits a > toSigned bits b then 2 ^ bits - 1 else 0

/-- Instruction `pandn`, one lane: `(~a) & b`. -/
def mm_andnot (bits a b : Nat) : Nat := (a ^^^ (2 ^ bits - 1)) &&& b

/-- Instruction `vpblendvb`, one byte: the byte of `b` where the top bit of the byte of `mask`
is set, else the byte of `a`. -/
def blendv_byte (a b mask j : Nat) : Nat :=
  if 0x80 ≤ dbcB_getb mask j then dbcB_getb b j else dbcB_getb a j

/-- Instruction `vpblendvb` on a lane of `n` bytes (`n` is 1, 2 or 4). -/
def mm256_blendv_epi8 (n a b mask : Nat) : Nat :=
  match n with
  | 1 => blendv_byte a b mask 0
  | 2 => blendv_byte a b mask 0 + 256 * blendv_byte a b mask 1
  | _ => blendv_byte a b mask 0 + 256 * blendv_byte a b mask 1 + 65536 * blendv_byte a b mask 2
      + 16777216 * blendv_byte a b mask 3

/-- One lane of `DBCB_DEF_B8M_SSE2`: `m=set1_epi8((char)key); m=cmpeq_epi8(s,m);
d=xor(and(m,d),andnot(m,s))`. -/
def dbcB_b8m_sse2_lane (key s d : Nat) : Nat :=
  let m := mm_cmpeq 8 s (u8 key)
  (m &&& d) ^^^ mm_andnot 8 m s

/-- One lane of `DBCB_DEF_B16M_SSE2`. -/
def dbcB_b16m_sse2_lane (key s d : Nat) : Nat :=
  let m := mm_cmpeq 16 s (key % 2 ^ 16)
  (m &&& d) ^^^ mm_andnot 16 m s

/-- One lane of `DBCB_DEF_B5551_SSE2`: `m=cmpgt_epi16(set1_epi16(0),s);
d=xor(and(m,s),andnot(m,d))`. -/
def dbcB_b5551_sse2_lane (s d : Nat) : Nat :=
  let m := mm_cmpgt 16 0 s
  (m &&& s) ^^^ mm_andnot 16 m d

/-- One lane of `DBCB_DEF_B32T_SSE2`: `m=set1_epi32((int)((dbcb_uint32)key<<24));
m=cmpgt_epi32(xor(0x80000000,m),xor(0x80000000,s)); d=xor(and(m,d),andnot(m,s))`. -/
def dbcB_b32t_sse2_lane (key s d : Nat) : Nat :=
  let m := u32 (u32 key <<< 24)
  let m := mm_cmpgt 32 (0x80000000 ^^^ m) (0x80000000 ^^^ s)
  (m &&& d) ^^^ mm_andnot 32 m s

/-- One lane of `DBCB_DEF_B32S_SSE2`. -/
def dbcB_b32s_sse2_lane (s d : Nat) : Nat :=
  let m := mm_cmpgt 32 0 s
  (m &&& s) ^^^ mm_andnot 32 m d

/-- One lane of `DBCB_DEF_B8M_AVX2`: `m=cmpeq_epi8(s,set1_epi8((char)key));
d=blendv_epi8(s,d,m)`. -/
def dbcB_b8m_avx2_lane (key s d : Nat) : Nat :=
  let m := mm_cmpeq 8 s (u8 key)
  mm256_blendv_epi8 1 s d m

/-- One lane of `DBCB_DEF_B16M_AVX2`. -/
def dbcB_b16m_avx2_lane (key s d : Nat) : Nat :=
  let m := mm_cmpeq 16 s (key % 2 ^ 16)
  mm256_blendv_epi8 2 s d m

/-- One lane of `DBCB_DEF_B5551_AVX2`: `m=cmpgt_epi16(set1_epi16(0),s);
d=blendv_epi8(d,s,m)`. -/
def dbcB_b5551_avx2_lane (s d : Nat) : Nat :=
  let m := mm_cmpgt 16 0 s
  mm256_blendv_epi8 2 d s m

/-- One lane of `DBCB_DEF_B32T_AVX2`. -/
def dbcB_b32t_avx2_lane (key s d : Nat) : Nat :=
  let m := u32 (u32 key <<< 24)
  let m := mm_cmpgt 32 (0x80000000 ^^^ m) (0x80000000 ^^^ s)
  mm256_blendv_epi8 4 s d m

/-- One lane of `DBCB_DEF_B32S_AVX2`. -/
def dbcB_b32s_avx2_lane (s d : Nat) : Nat :=
  let m := mm_cmpgt 32 0 s
  mm256_blendv_epi8 4 d s m

/-- A kernel for `2 ^ k` lanes of `ps` bytes that treats every lane as `K1` does. The SIMD
kernel loads all lanes before it stores any, but a lane is computed from its own source and
destination lane only, so this is `K1` on the lanes in turn. -/
def lanesKernel (K1 : Kernel) (ps : Nat) : Nat → Kernel
  | 0 => K1
  | k + 1 => twice (lanesKernel K1 ps k) ((2 ^ k * ps : Nat) : Int)

/-! ## SSE2 kernels of the ALPHA blend -/

/-- A 128-bit register as its eight 16-bit lanes, lowest first. -/
abbrev V128 := List Nat

/-- The register after `dbcb_load128_32`, `dbcb_load128_64` or `dbcb_load128_128` of 1, 2 or 4
pixels, given as the values `dbcb_load32` reads (the loads swap the bytes of big-endian data);
the 32-bit units that are not loaded are 0. -/
def load128 : List Nat → V128
  | [w0] => [w0 % 65536, w0 / 65536 % 65536, 0, 0, 0, 0, 0, 0]
  | [w0, w1] => [w0 % 65536, w0 / 65536 % 65536, w1 % 65536, w1 / 65536 % 65536, 0, 0, 0, 0]
  | [w0, w1, w2, w3] =>
      [w0 % 65536, w0 / 65536 % 65536, w1 % 65536, w1 / 65536 % 65536,
       w2 % 65536, w2 / 65536 % 65536, w3 % 65536, w3 / 65536 % 65536]
  | _ => [0, 0, 0, 0, 0, 0, 0, 0]

/-- The 32-bit units that `dbcb_store128_32`, `dbcb_store128_64` or `dbcb_store128_128` write
for `n` pixels. -/
def store128 (n : Nat) : V128 → List Nat
  | [l0, l1, l2, l3, l4, l5, l6, l7] =>
      ([l0 + 65536 * l1, l2 + 65536 * l3, l4 + 65536 * l5, l6 + 65536 * l7]).take n
  | _ => []

/-- Instruction `punpcklbw` with a zero second operand: the low eight bytes, each extended to a
16-bit lane. -/
def mm_unpacklo_epi8_zero : V128 → V128
  | [l0, l1, l2, l3, _, _, _, _] =>
      [l0 % 256, l0 / 256 % 256, l1 % 256, l1 / 256 % 256,
       l2 % 256, l2 / 256 % 256, l3 % 256, l3 / 256 % 256]
  | v => v

/-- Instruction `punpckhbw` with a zero second operand: the high eight bytes. -/
def mm_unpackhi_epi8_zero : V128 → V128
  | [_, _, _, _, l4, l5, l6, l7] =>
      [l4 % 256, l4 / 256 % 256, l5 % 256, l5 / 256 % 256,
       l6 % 256, l6 / 256 % 256, l7 % 256, l7 / 256 % 256]
  | v => v

/-- Instruction `pshuflw`: the low four lanes are the lanes chosen by the four 2-bit fields of
`imm`, the high four lanes stay. -/
def mm_shufflelo_epi16 (v : V128) (imm : Nat) : V128 :=
  match v with
  | [l0, l1, l2, l3, l4, l5, l6, l7] =>
      [[l0, l1, l2, l3].getD (imm % 4) 0, [l0, l1, l2, l3].getD (imm / 4 % 4) 0,
       [l0, l1, l2, l3].getD (imm / 16 % 4) 0, [l0, l1, l2, l3].getD (imm / 64 % 4) 0,
       l4, l5, l6, l7]
  | v => v

/-- Instruction `psrlw`. -/
def mm_srli_epi16 (v : V128) (n : Nat) : V128 := v.map (fun l => l >>> n)

/-- Instruction `psrld`, on the 32-bit units made of two lanes. -/
def mm_srli_epi32 (v : V128) (n : Nat) : V128 :=
  match v with
  | [l0, l1, l2, l3, l4, l5, l6, l7] =>
      [((l0 + 65536 * l1) >>> n) % 65536, ((l0 + 65536 * l1) >>> n) / 65536 % 65536,
       ((l2 + 65536 * l3) >>> n) % 65536, ((l2 + 65536 * l3) >>> n) / 65536 % 65536,
       ((l4 + 65536 * l5) >>> n) % 65536, ((l4 + 65536 * l5) >>> n) / 65536 % 65536,
       ((l6 + 65536 * l7) >>> n) % 65536, ((l6 + 65536 * l7) >>> n) / 65536 % 65536]
  | v => v

/-- Instruction `pslld`, on the 32-bit units made of two lanes. -/
def mm_slli_epi32 (v : V128) (n : Nat) : V128 :=
  match v with
  | [l0, l1, l2, l3, l4, l5, l6, l7] =>
      [((l0 + 65536 * l1) <<< n) % 65536, ((l0 + 65536 * l1) <<< n) / 65536 % 65536,
       ((l2 + 65536 * l3) <<< n) % 65536, ((l2 + 65536 * l3) <<< n) / 65536 % 65536,
       ((l4 + 65536 * l5) <<< n) % 65536, ((l4 + 65536 * l5) <<< n) / 65536 % 65536,
       ((l6 + 65536 * l7) <<< n) % 65536, ((l6 + 65536 * l7) <<< n) / 65536 % 65536]
  | v => v

/-- Instruction `punpcklwd`: the low four lanes of the operands, interleaved. -/
def mm_unpacklo_epi16 : V128 → V128 → V128
  | [a0, a1, a2, a3, _, _, _, _], [b0, b1, b2, b3, _, _, _, _] =>
      [a0, b0, a1, b1, a2, b2, a3, b3]
  | a, _ => a

/-- Instruction `punpckhwd`: the high four lanes of the operands, interleaved. -/
def mm_unpackhi_epi16 : V128 → V128 → V128
  | [_, _, _, _, a4, a5, a6, a7], [_, _, _, _, b4, b5, b6, b7] =>
      [a4, b4, a5, b5, a6, b6, a7, b7]
  | a, _ => a

/-- Instruction `pxor`. -/
def mm_xor_si128 (a b : V128) : V128 := List.zipWith (fun x y => x ^^^ y) a b

/-- Instruction `por`. -/
def mm_or_si128 (a b : V128) : V128 := List.zipWith (fun x y => x ||| y) a b

/-- Intrinsic `_mm_set1_epi16`. -/
def mm_set1_epi16 (c : Nat) : V128 := [c, c, c, c, c, c, c, c]

/-- Instruction `pmullw`. -/
def mm_mullo_epi16 (a b : V128) : V128 := List.zipWith (fun x y => (x * y) % 65536) a b

/-- Instruction `paddw`. -/
def mm_add_epi16 (a b : V128) : V128 := List.zipWith (fun x y => (x + y) % 65536) a b

/-- Instruction `packuswb`: the sixteen lanes of the operands, each saturated to a byte. -/
def mm_packus_epi16 : V128 → V128 → V128
  | [a0, a1, a2, a3, a4, a5, a6, a7], [b0, b1, b2, b3, b4, b5, b6, b7] =>
      [packus16 a0 + 256 * packus16 a1, packus16 a2 + 256 * packus16 a3,
       packus16 a4 + 256 * packus16 a5, packus16 a6 + 256 * packus16 a7,
       packus16 b0 + 256 * packus16 b1, packus16 b2 + 256 * packus16 b3,
       packus16 b4 + 256 * packus16 b5, packus16 b6 + 256 * packus16 b7]
  | a, _ => a

/-- Function `dbcB_div255_round_128`. -/
def dbcB_div255_round_128 (n : V128) : V128 :=
  let n := mm_add_epi16 n (mm_set1_epi16 128)
  mm_srli_epi16 (mm_add_epi16 n (mm_srli_epi16 n 8)) 8

/-- Macro `dbcB_step128_bla(s,d,a,c,ret)`. -/
def dbcB_step128_bla (s d a c : V128) : V128 :=
  let a := mm_or_si128 a [0, 0, 0, 255, 0, 0, 0, 255]
  let ret := mm_add_epi16 (mm_mullo_epi16 s a) (mm_mullo_epi16 d c)
  dbcB_div255_round_128 ret

/-- Function `dbcB_bla_1_sse2` (with `dbcB_setup128_32_sdac(1)`), from the loaded pixels to the
stored pixel. -/
def dbcB_bla_1_sse2 (S D : List Nat) : List Nat :=
  let s := load128 S
  let d := load128 D
  let s := mm_unpacklo_epi8_zero s
  let d := mm_unpacklo_epi8_zero d
  let a := mm_shufflelo_epi16 s 0xFF
  let c := mm_xor_si128 a (mm_set1_epi16 255)
  let ret := dbcB_step128_bla s d a c
  let ret := mm_packus_epi16 ret ret
  store128 1 ret

/-- Function `dbcB_bla_2_sse2` (with `dbcB_setup128_64_sdac(1)`). -/
def dbcB_bla_2_sse2 (S D : List Nat) : List Nat :=
  let s := load128 S
  let d := load128 D
  let a := mm_shufflelo_epi16 s 0xF5
  let a := mm_srli_epi16 a 8
  let a := mm_unpacklo_epi16 a a
  let s := mm_unpacklo_epi8_zero s
  let d := mm_unpacklo_epi8_zero d
  let c := mm_xor_si128 a (mm_set1_epi16 255)
  let ret := dbcB_step128_bla s d a c
  let ret := mm_packus_epi16 ret ret
  store128 2 ret

/-- Function `dbcB_bla_4_sse2` (with `dbcB_setup128_128_sdac(1)`). -/
def dbcB_bla_4_sse2 (S D : List Nat) : List Nat :=
  let s := load128 S
  let d := load128 D
  let a := mm_srli_epi32 s 24
  let sl := mm_unpacklo_epi8_zero s
  let dl := mm_unpacklo_epi8_zero d
  let sh := mm_unpackhi_epi8_zero s
  let dh := mm_unpackhi_epi8_zero d
  let a := mm_xor_si128 a (mm_slli_epi32 a 16)
  let al := mm_unpacklo_epi16 a a
  let ah := mm_unpackhi_epi16 a a
  let cl := mm_xor_si128 al (mm_set1_epi16 255)
  let ch := mm_xor_si128 ah (mm_set1_epi16 255)
  let l := dbcB_step128_bla sl dl al cl
  let h := dbcB_step128_bla sh dh ah ch
  let ret := mm_packus_epi16 l h
  store128 4 ret

/-- The `n` pixels `dbcb_load32` reads from offset `p` on. -/
def loadWords (big : Bool) (m : Mem) : Nat → Int → List Nat
  | 0, _ => []
  | n + 1, p => dbcb_load32 big m p :: loadWords big m n (p + 4)

/-- Pixels written by `dbcb_store32` from offset `p` on. -/
def storeWords (big : Bool) : List Nat → Mem → Int → Mem
  | [], m, _ => m
  | w :: ws, m, p => storeWords big ws (dbcb_store32 big w m p) (p + 4)

/-- A kernel that loads `n` 32-bit pixels from each pointer and then stores `n` pixels. -/
def pixN (big : Bool) (n : Nat) (f : List Nat → List Nat → List Nat) : Kernel :=
  fun src s dst d => storeWords big ((f (loadWords big src n s) (loadWords big dst n d)).take n) dst d

/-- The SSE2 and AVX2 kernels that are embedded. Loads and stores go through `dbcb_load128_32`
and the like, which swap the bytes of big-endian data as `dbcb_load32` does.
`dbcB_blam_2_avx2` works on two pixels, one in either half of the registers, each computed
from its own source and destination pixel; `dbcB_b32m_2_avx2` does the same from the two source
pixels alone. -/
def simdKernel (env : Env) (tier : Tier) (fn : Fn) (k : Nat) (p : Params) : Option Kernel :=
  let E := env.big_endian
  match fn with
  | .f32m =>
    match tier with
    | .sse2 =>
      match k with
      | 0 => some (pix32 E (fun S _ => dbcB_b32m_1_sse2 p.col S))
      | _ => none
    | .avx2 =>
      match k with
      | 0 => some (pix32 E (fun S _ => dbcB_b32m_1_avx2 p.col S))
      | 1 => some (twice (pix32 E (fun S _ => dbcB_b32m_1_avx2 p.col S)) 4)
      | _ => none
    | .c => none
  | .flam =>
    match tier with
    | .sse2 =>
      match k with
      | 0 => some (pix32 E (dbcB_blam_1_sse2 p.col))
      | _ => none
    | .avx2 =>
      match k with
      | 0 => some (pix32 E (dbcB_blam_1_avx2 p.col))
      | 1 => some (twice (pix32 E (dbcB_blam_1_avx2 p.col)) 4)
      | _ => none
    | .c => none
  | .fla =>
    match tier with
    | .sse2 =>
      match k with
      | 0 => some (pixN E 1 dbcB_bla_1_sse2)
      | 1 => some (pixN E 2 dbcB_bla_2_sse2)
      | 2 => some (pixN E 4 dbcB_bla_4_sse2)
      | _ => none
    | _ => none
  | .f8m =>
    match tier with
    | .sse2 =>
      match k with
      | 2 | 3 | 4 => some (lanesKernel (pix8 (dbcB_b8m_sse2_lane p.key8)) 1 k)
      | _ => none
    | .avx2 =>
      match k with
      | 2 | 3 | 4 | 5 => some (lanesKernel (pix8 (dbcB_b8m_avx2_lane p.key8)) 1 k)
      | _ => none
    | .c => none
  | .f16m =>
    match tier with
    | .sse2 =>
      match k with
      | 1 | 2 | 3 => some (lanesKernel (pix16 E (dbcB_b16m_sse2_lane p.key16)) 2 k)
      | _ => none
    | .avx2 =>
      match k with
      | 1 | 2 | 3 | 4 => some (lanesKernel (pix16 E (dbcB_b16m_avx2_lane p.key16)) 2 k)
      | _ => none
    | .c => none
  | .f5551 =>
    match tier with
    | .sse2 =>
      match k with
      | 1 | 2 | 3 => some (lanesKernel (pix16 E dbcB_b5551_sse2_lane) 2 k)
      | _ => none
    | .avx2 =>
      match k with
      | 1 | 2 | 3 | 4 => some (lanesKernel (pix16 E dbcB_b5551_avx2_lane) 2 k)
      | _ => none
    | .c => none
  | .f32t =>
    match tier with
    | .sse2 =>
      match k with
      | 1 | 2 => some (lanesKernel (pix32 E (dbcB_b32t_sse2_lane p.key8)) 4 k)
      | _ => none
    | .avx2 =>
      match k with
      | 1 | 2 | 3 => some (lanesKernel (pix32 E (dbcB_b32t_avx2_lane p.key8)) 4 k)
      | _ => none
    | .c => none
  | .f32s =>
    match tier with
    | .sse2 =>
      match k with
      | 1 | 2 => some (lanesKernel (pix32 E dbcB_b32s_sse2_lane) 4 k)
      | _ => none
    | .avx2 =>
      match k with
      | 1 | 2 | 3 => some (lanesKernel (pix32 E dbcB_b32s_avx2_lane) 4 k)
      | _ => none
    | .c => none
  | _ => none

/-- Whether the SSE2 and AVX2 drivers are instantiated with the C kernel for this run
(`dbcB_b8m_1_c`, `dbcB_b8m_2_c`, `dbcB_b16m_1_c`, `dbcB_b5551_1_c`, `dbcB_b32t_1_c`,
`dbcB_b32s_1_c`). -/
def simdUsesC : Fn → Nat → Bool
  | .f8m, 0 | .f8m, 1 | .f16m, 0 | .f5551, 0 | .f32t, 0 | .f32s, 0 => true
  | _, _ => false

/-- The kernel a driver of the given tier calls for a run of `2 ^ k` pixels. -/
def kernelOf (env : Env) (tier : Tier) (fn : Fn) (k : Nat) (p : Params) : Kernel :=
  match tier with
  | .c => scalarKernel env fn k p
  | t =>
    if simdUsesC fn k then scalarKernel env fn k p
    else
      match simdKernel env t fn k p with
      | some K => K
      | none => runKernel (2 ^ k * fn.pixel_size) (env.simd t fn k p)

/-! ## Row drivers -/

/-- One memory operation of a row driver, with pointers as offsets from `src_pixels` and
`dst_pixels`. -/
inductive Op where
  /-- Call `dbcb_memcpy(dst_pixels + d, src_pixels + s, n)`. -/
  | copy (d s : Int) (n : Nat) : Op
  /-- Call of the driver's kernel for `2 ^ k` pixels with `(src_pixels + s, dst_pixels + d)`. -/
  | call (k : Nat) (s d : Int) : Op
  deriving DecidableEq, Repr

/-- The cases of `DBCB_FN_SWITCH` for `DBC_BLIT_UNROLL==32` (those for 16 and 8 are its first
16 and 8 cases): the slots `blit32 ... blit1` of each width, as exponents of two. -/
def switchSlots : Nat → List Nat
  | 1 => [0]
  | 2 => [1]
  | 3 => [1, 0]
  | 4 => [2]
  | 5 => [2, 0]
  | 6 => [2, 1]
  | 7 => [2, 1, 0]
  | 8 => [3]
  | 9 => [3, 0]
  | 10 => [3, 1]
  | 11 => [3, 1, 0]
  | 12 => [3, 2]
  | 13 => [3, 2, 0]
  | 14 => [3, 2, 1]
  | 15 => [3, 2, 1, 0]
  | 16 => [4]
  | 17 => [4, 0]
  | 18 => [4, 1]
  | 19 => [4, 1, 0]
  | 20 => [4, 2]
  | 21 => [4, 2, 0]
  | 22 => [4, 2, 1]
  | 23 => [4, 2, 1, 0]
  | 24 => [4, 3]
  | 25 => [4, 3, 0]
  | 26 => [4, 3, 1]
  | 27 => [4, 3, 1, 0]
  | 28 => [4, 3, 2]
  | 29 => [4, 3, 2, 0]
  | 30 => [4, 3, 2, 1]
  | 31 => [4, 3, 2, 1, 0]
  | 32 => [5]
  | _ => []

/-- What `DBCB_DEF_FN_<2^k>` passes to `DBCB_FN_SWITCH` for the slot of `2 ^ j` pixels: the
kernel for `2 ^ j` pixels if the driver has one, else `DBCB_FN_C<2^(j-k)>` of its largest. -/
def expandSlot (k j : Nat) : List Nat :=
  if j ≤ k then [j] else List.replicate (2 ^ (j - k)) k

/-- Runs of one row in the unrolled case for width `w`. -/
def switchRuns (k w : Nat) : List Nat :=
  (switchSlots w).foldr (fun j acc => expandSlot k j ++ acc) []

/-- Runs of one row in the generic loop of `DBCB_DEF_FN_<2^k>`: `DBCB_FN_LOOP_FOR` for the
largest run, then one `DBCB_FN_LOOP_IF` for each smaller power of two, in decreasing order. -/
def loopRuns (k w : Nat) : List Nat :=
  List.replicate (w >>> k) k ++ ((List.range k).reverse.filter (fun j => w &&& 2 ^ j ≠ 0))

/-- The kernel calls of one row: each run is called with the current `s` and `d`, which then
advance by the run's size in bytes. -/
def emitRuns (ps : Nat) : List Nat → Int → Int → List Op
  | [], _, _ => []
  | j :: js, s, d => Op.call j s d :: emitRuns ps js (s + 2 ^ j * ps) (d + 2 ^ j * ps)

/-- The loop `for(;iy<h;++iy) { row; src+=src_stride; dst+=dst_stride; }`. -/
def rowsFrom (row : Int → Int → List Op) (src_stride dst_stride : Int) :
    Nat → Int → Int → List Op
  | 0, _, _ => []
  | n + 1, src, dst =>
      row src dst ++ rowsFrom row src_stride dst_stride n (src + src_stride) (dst + dst_stride)

/-- A row driver `DBCB_DEF_FN_*`: the memory operations it performs, in order. -/
def driver (env : Env) (tier : Tier) (fn : Fn) (src_stride dst_stride x0 y0 x1 y1 x y : Int) :
    List Op :=
  let ps := fn.pixel_size
  let w := x1 - x0
  let h := y1 - y0
  let src := y0 * src_stride + x0 * ps
  let dst := (y0 + y) * dst_stride + (x0 + x) * ps
  let unroll_max := env.unroll_limit fn.mode fn.modulated
  if w ≤ 0 ∨ h ≤ 0 then []
  else
    let unrolled : Bool :=
      decide (env.unroll.val ≠ 0) && decide (unroll_max > 0) && decide (w ≤ unroll_max)
        && decide (w ≤ env.unroll.val)
    match fnTop tier fn with
    | none =>
        rowsFrom (fun s d => [Op.copy d s (u32 (w * ps).toNat)]) src_stride dst_stride
          h.toNat src dst
    | some k =>
        if unrolled then
          rowsFrom (emitRuns ps (switchRuns k w.toNat)) src_stride dst_stride h.toNat src dst
        else
          rowsFrom (emitRuns ps (loopRuns k w.toNat)) src_stride dst_stride h.toNat src dst

/-- The keys `key8` and `key16` computed by `DBCB_FN_HEADER`. -/
def headerKeys (fn : Fn) (color : Option Color) : Nat × Nat :=
  match color with
  | none => (0, 0)
  | some c =>
    if (c 0).ge 0 && (c 0).le 65535 then
      let key16 : Nat := (c 0).toInt32.toNat % 2 ^ 16
      let key8 : Nat := key16 % 2 ^ 8
      if fn.mode = 10 ∧ (c 0).ne (key8 : ℚ) then ((key8 + 1) % 2 ^ 8, key16) else (key8, key16)
    else (0, 0)

/-- Effect of one memory operation on the destination memory. -/
def execOp (kern : Nat → Kernel) (src : Mem) (dst : Mem) : Op → Mem
  | .copy d s n => dbcb_memcpy dst d src s n
  | .call k s d => kern k src s dst d

/-- Effect of a sequence of memory operations. -/
def execOps (kern : Nat → Kernel) (src : Mem) (ops : List Op) (dst : Mem) : Mem :=
  ops.foldl (execOp kern src) dst

/-! ## The dispatcher -/

/-- What `dbc_blit` launches: the driver, the `color` it passes on and the clipped rectangle. -/
structure Launch where
  tier : Tier
  fn : Fn
  color : Option Color
  x0 : Int
  y0 : Int
  x1 : Int
  y1 : Int

/-- The flags `modulated` and `alpha128` computed by `dbc_blit`. -/
def modulatedFlags (mode : Int) (color : Option Color) : Bool × Bool :=
  match color with
  | none => (false, false)
  | some c =>
    if mode = 5 then ((c 0).ge 0 && (c 0).le 255, false)
    else if mode = 6 then ((c 0).ge 0 && (c 0).le 65535, false)
    else if mode = 7 then (false, false)
    else if mode = 10 then ((c 0).ge 0 && (c 0).le 255, (c 0).gt 127 && (c 0).le 128)
    else if mode = 0 ∨ mode = 1 ∨ mode = 2 ∨ mode = 3 ∨ mode = 4 ∨ mode = 8 ∨ mode = 9
        ∨ mode = 11 then
      (!((c 0).eq 1 && (c 1).eq 1 && (c 2).eq 1 && (c 3).eq 1), false)
    else (true, false)

/-- The driver the `switch(mode)` blocks of `dbc_blit` launch (the same in every tier). -/
def selectFn (mode : Int) (modulated alpha128 : Bool) : Option Fn :=
  if !modulated then
    if mode = 0 then some .f32
    else if mode = 1 then some .fla
    else if mode = 2 then some .flp
    else if mode = 5 then some .f8
    else if mode = 6 then some .f16
    else if mode = 7 then some .f5551
    else if mode = 8 then some .flx
    else if mode = 10 then some .f32a
    else if mode = 11 then some .f32c
    else if mode = 3 then some .fga
    else if mode = 4 then some .fgp
    else if mode = 9 then some .fgx
    else none
  else
    if mode = 0 then some .f32m
    else if mode = 1 then some .flam
    else if mode = 2 then some .flpm
    else if mode = 5 then some .f8m
    else if mode = 6 then some .f16m
    else if mode = 7 then some .f5551
    else if mode = 8 then some .flxm
    else if mode = 10 then (if alpha128 then some .f32s else some .f32t)
    else if mode = 11 then some .f32g
    else if mode = 3 then some .fgam
    else if mode = 4 then some .fgpm
    else if mode = 9 then some .fgxm
    else none

/-- The tier `dbc_blit` takes its driver from: AVX2 if detected and allowed, else SSE2 if
detected and allowed, else C. -/
def selectTier (env : Env) (mode : Int) (modulated : Bool) : Tier :=
  if env.has_avx2 && env.allow_avx2 mode modulated then Tier.avx2
  else if env.has_sse2 && env.allow_sse2 mode modulated then Tier.sse2
  else Tier.c

/-- Lower clipping bound of `dbc_blit`: `if(x<0) x0=-x; else x0=0;`. -/
def clip_lo (x : Int) : Int := if x < 0 then -x else 0

/-- Upper clipping bound of `dbc_blit`: `if(x+src_w>dst_w) x1=dst_w-x; else x1=src_w;`. -/
def clip_hi (x src_w dst_w : Int) : Int := if x + src_w > dst_w then dst_w - x else src_w

/-- The decisions of `dbc_blit` up to the `DBCB_LAUNCH`: `none` when it returns before. -/
def dbc_blit_launch (env : Env) (src_w src_h dst_w dst_h x y : Int) (color : Option Color)
    (mode : Int) : Option Launch :=
  if mode < 0 ∨ mode > 11 then none
  else
    let flags := modulatedFlags mode color
    let modulated := flags.1
    let alpha128 := flags.2
    if decide (mode = 10) && (match color with | none => false | some c => (c 0).gt 255) then
      none
    else
      let x0 := clip_lo x
      let x1 := clip_hi x src_w dst_w
      let y0 := clip_lo y
      let y1 := clip_hi y src_h dst_h
      let color := if !modulated then none else color
      let tier := selectTier env mode modulated
      match selectFn mode modulated alpha128 with
      | none => none
      | some fn => some ⟨tier, fn, color, x0, y0, x1, y1⟩

/-- The memory operations of a call of `dbc_blit`, in order. -/
def dbc_blit_ops (env : Env) (src_w src_h src_stride dst_w dst_h dst_stride x y : Int)
    (color : Option Color) (mode : Int) : List Op :=
  match dbc_blit_launch env src_w src_h dst_w dst_h x y color mode with
  | none => []
  | some L => driver env L.tier L.fn src_stride dst_stride L.x0 L.y0 L.x1 L.y1 x y

/-- The kernels of a call of `dbc_blit`, by run size. -/
def dbc_blit_kernel (env : Env) (src_w src_h dst_w dst_h x y : Int) (color : Option Color)
    (mode : Int) : Nat → Kernel :=
  match dbc_blit_launch env src_w src_h dst_w dst_h x y color mode with
  | none => fun _ _ _ dst _ => dst
  | some L =>
    fun k => kernelOf env L.tier L.fn k
      ⟨L.color, (headerKeys L.fn L.color).1, (headerKeys L.fn L.color).2⟩

/-- Function `dbc_blit`: the destination memory after the call, from the source memory `src`
(addressed from `src_pixels`) and the destination memory `dst` (addressed from
`dst_pixels`). -/
def dbc_blit (env : Env) (src_w src_h src_stride : Int) (src : Mem)
    (dst_w dst_h dst_stride : Int) (dst : Mem) (x y : Int) (color : Option Color)
    (mode : Int) : Mem :=
  execOps (dbc_blit_kernel env src_w src_h dst_w dst_h x y color mode) src
    (dbc_blit_ops env src_w src_h src_stride dst_w dst_h dst_stride x y color mode) dst

/-! ## The signed 32-bit computations of a call -/

/-- Whether a value is one of `dbcb_int32` (and of `int`, where it has 32 bits): a computation
whose exact result is not overflows. -/
def fitsInt32 (v : Int) : Bool := decide (-2 ^ 31 ≤ v) && decide (v < 2 ^ 31)

/-- The values the clipping of `dbc_blit` computes for one axis: `-x` when `x<0`, then
`x+src_w`, then `dst_w-x` when `x+src_w>dst_w`. -/
def clipTerms (x src_w dst_w : Int) : List Int :=
  (if x < 0 then [-x] else []) ++ [x + src_w] ++ (if x + src_w > dst_w then [dst_w - x] else [])

/-- The values `DBCB_FN_HEADER` computes in `dbcb_int32` before its test
`if(w<=0||h<=0) return;`: `w`, `h` and the terms of the two offsets, which are then added to the
pointers `src_pixels` and `dst_pixels`. -/
def headerTerms (ps : Nat) (src_stride dst_stride x0 y0 x1 y1 x y : Int) : List Int :=
  [x1 - x0, y1 - y0, y0 * src_stride, x0 * ps, y0 + y, (y0 + y) * dst_stride, x0 + x,
    (x0 + x) * ps]

/-- The values a call of `dbc_blit` computes in signed 32-bit arithmetic up to the test
`if(w<=0||h<=0) return;` of its driver; none when the call returns before the clipping. -/
def dbc_blit_terms (env : Env) (src_w src_h src_stride dst_w dst_h dst_stride x y : Int)
    (color : Option Color) (mode : Int) : List Int :=
  match dbc_blit_launch env src_w src_h dst_w dst_h x y color mode with
  | none => []
  | some L =>
    clipTerms x src_w dst_w ++ clipTerms y src_h dst_h
      ++ headerTerms L.fn.pixel_size src_stride dst_stride L.x0 L.y0 L.x1 L.y1 x y

/-! ## Masks and words of the packed kernels -/

/-- The mask `m` of the packed block of `dbcB_b8m_4_c`, right before `S=(S&m)^(D&~m)`. -/
def dbcB_b8m_4_c_mask (key : Nat) (S : Nat) : Nat :=
  let m := u32 (S ^^^ u32 (key * 0x01010101))
  let m := (m ||| (m >>> 1)) &&& 0x55555555
  let m := (m ||| (m >>> 2)) &&& 0x33333333
  let m := (m ||| (m >>> 4)) &&& 0x0F0F0F0F
  sub32 (u32 (m <<< 8)) m

/-- The mask `m` of the packed block of `dbcB_b8m_8_c`, right before `S=(S&m)^(D&~m)`. -/
def dbcB_b8m_8_c_mask (key : Nat) (S : Nat) : Nat :=
  let m := S ^^^ u64 (key * DBCB_C64 0x01010101 0x01010101)
  let m := (m ||| (m >>> 1)) &&& DBCB_C64 0x55555555 0x55555555
  let m := (m ||| (m >>> 2)) &&& DBCB_C64 0x33333333 0x33333333
  let m := (m ||| (m >>> 4)) &&& DBCB_C64 0x0F0F0F0F 0x0F0F0F0F
  sub64 (u64 (m <<< 8)) m

/-- The mask `m` of the packed block of `dbcB_b16m_4_c`, right before `S=(S&m)^(D&~m)`. -/
def dbcB_b16m_4_c_mask (key : Nat) (S : Nat) : Nat :=
  let m := S ^^^ u64 (key * DBCB_C64 0x00010001 0x00010001)
  let m := (m ||| (m >>> 1)) &&& DBCB_C64 0x55555555 0x55555555
  let m := (m ||| (m >>> 2)) &&& DBCB_C64 0x33333333 0x33333333
  let m := (m ||| (m >>> 4)) &&& DBCB_C64 0x0F0F0F0F 0x0F0F0F0F
  let m := (m ||| (m >>> 8)) &&& DBCB_C64 0x00FF00FF 0x00FF00FF
  sub64 (u64 (m <<< 16)) m

/-- The mask `m=(m<<1)-(m>>15)` of the packed block of `dbcB_b5551_2_c`. -/
def dbcB_b5551_2_c_mask (S : Nat) : Nat :=
  let m := u32 (S &&& 0x80008000)
  sub32 (u32 (m <<< 1)) (m >>> 15)

/-- The mask `m=(m<<1)-(m>>15)` of the packed block of `dbcB_b5551_4_c`. -/
def dbcB_b5551_4_c_mask (S : Nat) : Nat :=
  let m := u64 (S &&& DBCB_C64 0x80008000 0x80008000)
  sub64 (u64 (m <<< 1)) (m >>> 15)

/-- The word `L` (or `H`) of the 32-bit block of `dbcB_bla_1_c` before its closing `>>8`:
`A*SL+B*DL`, then `+=0x00800080u`, then `L+((L>>8)&M)`, all in `dbcb_uint32`. -/
def bla_sum32 (A B SL DL : Nat) : Nat :=
  let M := 0x00FF00FF
  let L := u32 (u32 (A * SL) + u32 (B * DL))
  let L := u32 (L + 0x00800080)
  u32 (L + ((L >>> 8) &&& M))

/-- The word `T` of the 64-bit block of `dbcB_bla_1_c` before its closing `>>8`. -/
def bla_sum64 (A B St Dt : Nat) : Nat :=
  let M := DBCB_C64 0x00FF00FF 0x00FF00FF
  let T := u64 (u64 (u64 (A * St) + u64 (B * Dt)) + DBCB_C64 0x00800080 0x00800080)
  u64 (T + ((T >>> 8) &&& M))

/-- The word `L` (or `H`) of the 32-bit block of `dbcB_blp_1_c` before its first `>>8`:
`B*DL`, then `+=0x00800080u`, then `L+((L>>8)&M)`, all in `dbcb_uint32`. -/
def blp_sum32 (B DL : Nat) : Nat :=
  let M := 0x00FF00FF
  let L := u32 (B * DL)
  let L := u32 (L + 0x00800080)
  u32 (L + ((L >>> 8) &&& M))

/-- The word `T` of the 64-bit block of `dbcB_blp_1_c` before its first `>>8`. -/
def blp_sum64 (B Dt : Nat) : Nat :=
  let M := DBCB_C64 0x00FF00FF 0x00FF00FF
  let T := u64 (u64 (B * Dt) + DBCB_C64 0x00800080 0x00800080)
  u64 (T + ((T >>> 8) &&& M))

/-- The value a 16-bit lane holds before the closing `>>8` when nothing is carried into it or
out of it: `n + 128` plus its own high byte. -/
def laneRound (n : Nat) : Nat := n + 128 + (n + 128) / 256

/-- The weighted sum of channel `c` in the alpha blend: alpha times the source channel (255 in
the alpha channel) plus `255 - alpha` times the destination channel. -/
def blaTerm (S D c : Nat) : Nat :=
  dbcB_getb S 3 * (if c = 3 then 255 else dbcB_getb S c) + (255 - dbcB_getb S 3) * dbcB_getb D c

/-- The scaled destination of channel `c` in the premultiplied blend. -/
def blpTerm (S D c : Nat) : Nat := (255 - dbcB_getb S 3) * dbcB_getb D c

/-! ## Initialization -/

/-- The macros the conditional compilation of `dbcB_init` and of its helpers tests. -/
structure Build where
  /-- Whether `DBC_BLIT_NO_SIMD` is defined (by the user or by the MinGW rule). -/
  no_simd : Bool
  /-- Whether `DBCB_X86_OR_X64` is defined. -/
  x86_or_x64 : Bool
  /-- Whether `_WIN16` is defined. -/
  win16 : Bool
  /-- Whether `DBC_BLIT_NO_AVX2` is defined. -/
  no_avx2 : Bool
  /-- Whether `DBC_BLIT_NO_RUNTIME_CPU_DETECTION` is defined: the documented switch, tested by
  the `#if` around the helpers `dbcB_has_cpuid`, `dbcB_cpuid` and `dbcB_xgetbv`. -/
  no_runtime_cpu_detection : Bool
  /-- Whether `DBCB_NO_RUNTIME_CPU_DETECTION` is defined: the macro tested by the `#if` around
  the probe inside `dbcB_init`. Nothing in the source defines it. -/
  dbcb_no_runtime_cpu_detection : Bool
  /-- Condition `defined(__SSE2__) || (_M_IX86_FP>=2)`. -/
  sse2 : Bool
  /-- Whether `__AVX2__` is defined. -/
  avx2 : Bool
  deriving DecidableEq, Repr

/-- What the helpers of `dbcB_init` return on a machine. -/
structure Cpu where
  /-- Result of `dbcB_has_cpuid()`. -/
  has_cpuid : Bool
  /-- Registers `(eax, ebx, ecx, edx)` that `dbcB_cpuid(level,0,...)` stores. -/
  cpuid : Nat → Nat × Nat × Nat × Nat
  /-- Result of `dbcB_xgetbv(level)`. -/
  xgetbv : Nat → Nat

/-- A call of a helper of `dbcB_init`. -/
inductive Probe where
  | has_cpuid
  | cpuid (level : Nat)
  | xgetbv (level : Nat)
  deriving DecidableEq, Repr

/-- The flags after `dbcB_init` and the helper calls it made, in order. -/
structure InitResult where
  has_sse2 : Bool
  has_avx2 : Bool
  probes : List Probe
  deriving DecidableEq, Repr

/-- The `#if` around the definitions of `dbcB_has_cpuid`, `dbcB_cpuid` and `dbcB_xgetbv`. -/
def helpersDefined (b : Build) : Bool :=
  !b.no_simd && !b.no_runtime_cpu_detection && b.x86_or_x64 && !b.win16

/-- The two nested `#if` around the probe inside `dbcB_init`. -/
def probeCompiled (b : Build) : Bool :=
  (!b.no_simd && b.x86_or_x64) && (!b.dbcb_no_runtime_cpu_detection && !b.win16)

/-- The probe of `dbcB_init`, from `if(dbcB_has_cpuid())` on: the flags and the helper calls,
starting from the flags `st`. -/
def dbcB_init_probe (b : Build) (cpu : Cpu) (st : InitResult) : InitResult :=
  let st := { st with probes := st.probes ++ [Probe.has_cpuid] }
  if cpu.has_cpuid then
    let st := { st with probes := st.probes ++ [Probe.cpuid 0] }
    let maxlevel := (cpu.cpuid 0).1
    if maxlevel > 0 then
      let st := { st with probes := st.probes ++ [Probe.cpuid 1] }
      let ecx := (cpu.cpuid 1).2.2.1
      let edx := (cpu.cpuid 1).2.2.2
      let st := if edx &&& 0x04000000 ≠ 0 then { st with has_sse2 := true } else st
      if !b.no_avx2 then
        if ecx &&& 0x18000000 ≠ 0 then
          let st := { st with probes := st.probes ++ [Probe.xgetbv 0] }
          let xcr0 := cpu.xgetbv 0
          if xcr0 &&& 0x6 = 0x6 then
            if maxlevel ≥ 7 then
              let st := { st with probes := st.probes ++ [Probe.cpuid 7] }
              let ebx := (cpu.cpuid 7).2.1
              if ebx &&& 0x00000020 ≠ 0 then { st with has_avx2 := true } else st
            else st
          else st
        else st
      else st
    else st
  else st

/-- Function `dbcB_init`, the part that sets `dbcB_has_sse2` and `dbcB_has_avx2`: the flags
after the call and the helper calls made, from the value `avx2_before` of `dbcB_has_avx2`
before the call (0 at program start, the variable being static). The flags of a build in
which they are not declared are `false`. The helper calls are taken at the results `cpu`
gives; `helpersDefined` tells whether the build has definitions for the helpers at all. -/
def dbcB_init (b : Build) (cpu : Cpu) (avx2_before : Bool) : InitResult :=
  if !b.no_simd && b.x86_or_x64 then
    let st : InitResult := ⟨false, !b.no_avx2 && avx2_before, []⟩
    let st := if b.sse2 then
        let st := { st with has_sse2 := true }
        if !b.no_avx2 && b.avx2 then { st with has_avx2 := true } else st
      else st
    if !b.dbcb_no_runtime_cpu_detection && !b.win16 then dbcB_init_probe b cpu st
    else st
  else ⟨false, false, []⟩

/-! ## The gamma tables

The tables of the default build (`dbcb_fp` is `double`, `DBCB_FC(x)` is `x`). A `double` is a
binary64 number; every operation rounds its exact result to the nearest `double`, ties to the
even one, and a decimal constant denotes the `double` nearest to it. -/

/-- A `double` value: not-a-number, an infinity, or the finite value `± a * 2 ^ (e - 1074)`.
The values the operations produce have `2 ^ 52 ≤ a < 2 ^ 53` and `e ≤ 2045` (normal numbers),
or `a < 2 ^ 52` and `e = 0` (zeros and subnormal numbers). -/
inductive F64 where
  | nan : F64
  | inf (neg : Bool) : F64
  | fin (neg : Bool) (a : Nat) (e : Nat) : F64
  deriving DecidableEq

namespace F64

/-- The exponent of the leading bit of a positive number below `2 ^ 2 ^ k`, by bisection. -/
def log2L : Nat → Nat → Nat
  | 0, _ => 0
  | k + 1, a =>
    bif Nat.ble (2 ^ 2 ^ k) a then 2 ^ k + log2L k (a >>> 2 ^ k) else log2L k a

/-- The number of bisections that cover a number: the least `k`, from the given one on, with
`a < 2 ^ 2 ^ k`. -/
def log2Levels : Nat → Nat → Nat → Nat
  | 0, k, _ => k
  | fuel + 1, k, a => bif Nat.blt a (2 ^ 2 ^ k) then k else log2Levels fuel (k + 1) a

/-- The exponent of the leading bit of a positive number. -/
def log2n (a : Nat) : Nat := log2L (log2Levels a 7 a) a

/-- The exponent of the leading bit of a positive number, tried at the guess `g`, at `g + 1` and
at `g - 1` before the search of `log2n`. -/
def log2Near (g a : Nat) : Nat :=
  bif Nat.ble (2 ^ g) a then
    (bif Nat.blt a (2 ^ (g + 1)) then g
     else bif Nat.blt a (2 ^ (g + 2)) then g + 1 else log2n a)
  else bif Nat.ble (2 ^ (g - 1)) a then g - 1 else log2n a

/-- Rounding of the exact value `± a * 2 ^ (p - n - 1074)` to `double` (binary64), to nearest
with ties to even; `g` is a guess of the exponent of the leading bit of `a`. The last binary
place `ue` of the result is 52 places below the leading bit, and not below the last place of the
subnormal numbers. -/
def rnd (s : Bool) (g a p n : Nat) : F64 :=
  bif Nat.beq a 0 then fin s 0 0
  else
    let l := log2Near g a
    let ue := l + p - (n + 52)
    bif Nat.ble (ue + n) p then
      (bif Nat.ble (n + 2098) (l + p) then inf s else fin s (a <<< (p - (ue + n))) ue)
    else
      let sh := ue + n - p
      let q := a >>> sh
      let r := a - (q <<< sh)
      let half := 1 <<< (sh - 1)
      let q1 := bif Nat.blt half r || (Nat.beq r half && Nat.beq (q % 2) 1) then q + 1 else q
      bif Nat.beq q1 (2 ^ 53) then (bif Nat.ble 2045 ue then inf s else fin s (2 ^ 52) (ue + 1))
      else bif Nat.ble 2046 ue then inf s
      else fin s q1 ue

/-- The quotient of the exact values `a1 * 2 ^ e1` and `a2 * 2 ^ e2` (both positive) with the
sign `s`, rounded to `double`: the rounding is that of 57 bits or more of the quotient, followed
by one bit that tells whether the division left a remainder. -/
def divRnd (s : Bool) (a1 e1 a2 e2 : Nat) : F64 :=
  let k := 57 + log2Near 52 a2 - log2Near 52 a1
  let n := (a1 <<< k) / a2
  let r := (a1 <<< k) - n * a2
  rnd s 57 (2 * n + (bif Nat.beq r 0 then 0 else 1)) (e1 + 1074) (e2 + k + 1)

/-- The product `x * y` in `double`. -/
def mul : F64 → F64 → F64
  | fin s1 a1 e1, fin s2 a2 e2 => rnd (xor s1 s2) 104 (a1 * a2) (e1 + e2) 1074
  | fin s a _, inf n => bif Nat.beq a 0 then nan else inf (xor s n)
  | inf n, fin s a _ => bif Nat.beq a 0 then nan else inf (xor n s)
  | inf m, inf n => inf (xor m n)
  | _, _ => nan

/-- The sum `x + y` in `double`. -/
def add : F64 → F64 → F64
  | fin s1 a1 e1, fin s2 a2 e2 =>
    let e := bif Nat.ble e1 e2 then e1 else e2
    let b1 := a1 <<< (e1 - e)
    let b2 := a2 <<< (e2 - e)
    let g := 52 + (e1 - e) + (e2 - e)
    bif s1 == s2 then rnd s1 g (b1 + b2) e 0
    else bif Nat.blt b2 b1 then rnd s1 g (b1 - b2) e 0
    else bif Nat.blt b1 b2 then rnd s2 g (b2 - b1) e 0
    else fin false 0 0
  | fin _ _ _, inf n => inf n
  | inf m, fin _ _ _ => inf m
  | inf m, inf n => bif m == n then inf m else nan
  | _, _ => nan

/-- The quotient `x / y` in `double`. -/
def div : F64 → F64 → F64
  | fin s1 a1 e1, fin s2 a2 e2 =>
    bif Nat.beq a2 0 then (bif Nat.beq a1 0 then nan else inf (xor s1 s2))
    else bif Nat.beq a1 0 then fin (xor s1 s2) 0 0
    else divRnd (xor s1 s2) a1 e1 a2 e2
  | fin s1 _ _, inf s2 => fin (xor s1 s2) 0 0
  | inf s1, fin s2 _ _ => inf (xor s1 s2)
  | _, _ => nan

/-- The comparison `x >= y`. -/
def ge : F64 → F64 → Bool
  | fin s1 a1 e1, fin s2 a2 e2 =>
    let e := bif Nat.ble e1 e2 then e1 else e2
    let b1 := a1 <<< (e1 - e)
    let b2 := a2 <<< (e2 - e)
    bif s1 then (bif s2 then Nat.ble b1 b2 else Nat.beq b1 0 && Nat.beq b2 0)
    else (bif s2 then true else Nat.ble b2 b1)
  | fin _ _ _, inf n => n
  | inf m, fin _ _ _ => !m
  | inf m, inf n => !m || n
  | _, _ => false

/-- The conversion `(dbcb_int32)x`: the fraction is dropped. The conversion of a value that is
not finite, which C leaves undefined, is given the value 0. -/
def toInt32 : F64 → Int
  | fin s a e =>
    let n : Nat := bif Nat.ble 1074 e then a <<< (e - 1074) else a >>> (1074 - e)
    bif s then -Int.ofNat n else Int.ofNat n
  | _ => 0

/-- The conversion `(dbcb_fp)i` of a non-negative integer. -/
def ofNat (n : Nat) : F64 := rnd false 52 n 1074 0

/-- The `double` that a decimal constant of the value `n / d` denotes: the nearest one. -/
def lit (n d : Nat) : F64 := bif Nat.beq n 0 then fin false 0 0 else divRnd false n 1074 d 1074

end F64

/-- The function `dbcB_calc_gamma_scale_factor` for `dbcb_fp = double`, every operation rounded
to `double`. -/
def dbcB_calc_gamma_scale_factor (x y : F64) : F64 :=
  let c1 := F64.lit 1 1
  let c2 := F64.lit 5 10
  let c3 := F64.lit 33333333333333333 100000000000000000
  let c4 := F64.lit 25 100
  let c5 := F64.lit 2 10
  let c6 := F64.lit 16666666666666666 100000000000000000
  let c7 := F64.lit 14285714285714285 100000000000000000
  let c8 := F64.lit 125 1000
  let c9 := F64.lit 11111111111111111 100000000000000000
  let t := F64.div y (F64.add x (F64.lit 14025 1000))
  let z := F64.div t (F64.add (F64.lit 2 1) t)
  let z2 := F64.mul z z
  let z := F64.mul (F64.mul (F64.lit 2 1) z)
    (F64.add c1 (F64.mul z2 (F64.add c3 (F64.mul z2 (F64.add c5 (F64.mul z2
      (F64.add c7 (F64.mul z2 c9))))))))
  let z := F64.mul z (F64.lit 12 10)
  let z := F64.mul z (F64.add c1 (F64.mul (F64.mul c2 z) (F64.add c1 (F64.mul (F64.mul c3 z)
    (F64.add c1 (F64.mul (F64.mul c4 z) (F64.add c1 (F64.mul (F64.mul c5 z)
      (F64.add c1 (F64.mul (F64.mul c6 z) (F64.add c1 (F64.mul (F64.mul c7 z)
        (F64.add c1 (F64.mul c8 z))))))))))))))
  F64.mul z (F64.add (F64.lit 2 1) z)

/-- The tables of the gamma conversions: `dbcB_table_srgb2linear`,
`dbcB_table_linear2srgb_start` and `dbcB_table_linear2srgb_threshold`. -/
structure Tables where
  srgb2linear : Nat → F64
  start : Nat → Nat
  threshold : Nat → F64

/-- The variables of `dbcB_populate_tables` between two turns of its loop. -/
structure PopState where
  X : F64
  j : Nat
  T : Tables

/-- One turn, for the byte `i`, of the loop of `dbcB_populate_tables`. The inner loop writes the
entries `j ≤ k < top`, where `top` is one more than the smaller of `m` and 4096. -/
def populate_step (st : PopState) (i : Nat) : PopState :=
  let xyX : F64 × F64 × F64 :=
    bif Nat.blt i 11 then
      let C := F64.lit 32946 10
      (F64.div (F64.ofNat i) C,
        bif Nat.beq i 10 then F64.lit 3188300904430532 1000000000000000000
        else F64.div (F64.add (F64.ofNat i) (F64.lit 5 10)) C,
        st.X)
    else
      let X := bif Nat.beq i 255 then F64.lit 1 1 else st.X
      let x := X
      let y := F64.add x (F64.mul x (dbcB_calc_gamma_scale_factor (F64.ofNat i) (F64.lit 5 10)))
      let X := F64.add X (F64.mul X (dbcB_calc_gamma_scale_factor (F64.ofNat i) (F64.lit 1 1)))
      (x, y, X)
  let x := xyX.1
  let y := xyX.2.1
  let m := (F64.mul y (F64.lit 4096 1)).toInt32
  let top : Nat := if m < 0 then 0 else if m ≤ 4096 then m.toNat + 1 else 4097
  { X := xyX.2.2,
    j := bif Nat.blt st.j top then top else st.j,
    T := { srgb2linear := fun k => bif Nat.beq k i then x else st.T.srgb2linear k,
           start := fun k => bif Nat.ble st.j k && Nat.blt k top then u8 i else st.T.start k,
           threshold := fun k =>
             bif Nat.ble st.j k && Nat.blt k top then y else st.T.threshold k } }

/-- The state of `dbcB_populate_tables` after the turns for the bytes below `n`. -/
def tablesUpTo (n : Nat) : PopState :=
  (List.range n).foldl populate_step
    ⟨F64.lit 33465357638991608 10000000000000000000, 0,
      ⟨fun _ => F64.fin false 0 0, fun _ => 0, fun _ => F64.fin false 0 0⟩⟩

/-- The tables that `dbcB_populate_tables` leaves. -/
def dbcB_populate_tables : Tables := (tablesUpTo 256).T

/-- The function `dbcB_srgb2linear` over the tables. -/
def dbcB_srgb2linear (T : Tables) (x : Nat) : F64 := T.srgb2linear x

/-- The function `dbcB_linear2srgb` over the tables; `none` when the index `id` is outside the
4097 entries of the tables. -/
def dbcB_linear2srgb (T : Tables) (x : F64) : Option Nat :=
  let id := (F64.mul x (F64.lit 4096 1)).toInt32
  if 0 ≤ id ∧ id ≤ 4096 then
    some (u8 (T.start id.toNat + (bif F64.ge x (T.threshold id.toNat) then 1 else 0)))
  else none

/-- The round trip of `dbcB_srgb2linear` and `dbcB_linear2srgb` is tried on the bytes below
`n`. -/
def roundTripBelow (n : Nat) : Bool :=
  (List.range n).all fun s =>
    dbcB_linear2srgb dbcB_populate_tables (dbcB_srgb2linear dbcB_populate_tables s) == some s

/-! ## Vocabulary of the proofs -/

/-- Two 16-bit lanes in a 32-bit word. -/
def lanes2 (p q : Nat) : Nat := p + 65536 * q

/-- Four 16-bit lanes in a 64-bit word, in the order `R0B0G0A0` of the source. -/
def lanes4 (p0 p2 p1 p3 : Nat) : Nat :=
  p0 + 65536 * p2 + 4294967296 * p1 + 281474976710656 * p3

/-- A 32-bit word from its four bytes. -/
def pix4 (b0 b1 b2 b3 : Nat) : Nat := b0 + 256 * b1 + 65536 * b2 + 16777216 * b3

/-- The rounded quotient `n / 255`, in integer arithmetic. -/
def rdiv255 (n : Nat) : Nat := (2 * n + 255) / 510

/-- Pixel size of a mode: 1 byte for the 8-bit colorkey, 2 bytes for the 16-bit colorkey and
5551, 4 bytes for the others. -/
def modePixelSize (mode : Int) : Nat :=
  if mode = 5 then 1 else if mode = 6 ∨ mode = 7 then 2 else 4

/-- Number of pixels of a list of runs given by their exponents. -/
def runsTotal : List Nat → Nat
  | [] => 0
  | j :: js => 2 ^ j + runsTotal js

/-- A kernel writes inside the `n` bytes from its destination pointer on. -/
def Frames (K : Kernel) (n : Nat) : Prop :=
  ∀ (src : Mem) (s : Int) (dst : Mem) (d a : Int), ¬ (d ≤ a ∧ a < d + n) → K src s dst d a = dst a

/-- The destination bytes an operation may write, for kernels of pixel size `ps`. -/
def opWrites (ps : Nat) : Op → Int → Prop
  | .copy d _ n, a => d ≤ a ∧ a < d + n
  | .call k _ d, a => d ≤ a ∧ a < d + (2 ^ k * ps : Nat)

/-- The byte `b` of destination pixel `(X, Y)` lies at offset `a`, and the pixel is inside the
image of the clipped rectangle. -/
def inBlitRect (src_w src_h dst_w dst_h dst_stride x y : Int) (ps : Nat) (a : Int) : Prop :=
  ∃ X Y b : Int, max 0 x ≤ X ∧ X < min dst_w (x + src_w) ∧ max 0 y ≤ Y ∧
    Y < min dst_h (y + src_h) ∧ 0 ≤ b ∧ b < ps ∧ a = Y * dst_stride + X * ps + b

/-- Reading a one-byte pixel. -/
def rd8 (m : Mem) (p : Int) : Nat := (m p).val

/-- A kernel for `n` pixels of `ps` bytes acts pixel by pixel as `f`: pixel `i` of the
destination run, read by `rd`, becomes `f` of pixel `i` of the source run and of its old
value. -/
def PixelSpec (K : Kernel) (n ps : Nat) (rd : Mem → Int → Nat) (f : Nat → Nat → Nat) : Prop :=
  ∀ (src : Mem) (s : Int) (dst : Mem) (d : Int) (i : Nat), i < n →
    rd (K src s dst d) (d + i * ps) = f (rd src (s + i * ps)) (rd dst (d + i * ps))

/-- The reader `rd` of a pixel looks at the `ps` bytes of the pixel only. -/
def RdLocal (rd : Mem → Int → Nat) (ps : Nat) : Prop :=
  ∀ (m1 m2 : Mem) (a1 a2 : Int), (∀ b : Int, 0 ≤ b → b < ps → m1 (a1 + b) = m2 (a2 + b)) →
    rd m1 a1 = rd m2 a2

/-- The 16-bit lane `j` of a word. -/
def lane16 (x j : Nat) : Nat := dbcB_getb x (2 * j) + 256 * dbcB_getb x (2 * j + 1)

/-- The 32-bit lane `j` of a word. -/
def lane32 (x j : Nat) : Nat :=
  dbcB_getb x (4 * j) + 256 * dbcB_getb x (4 * j + 1) + 65536 * dbcB_getb x (4 * j + 2)
    + 16777216 * dbcB_getb x (4 * j + 3)

/-- One 16-bit lane of `dbcB_step128_bla`: `s*a + d*c` with `pmullw` and `paddw`, then
`dbcB_div255_round_128`. -/
def blaLane (s d a c : Nat) : Nat :=
  let n := ((s * a) % 65536 + (d * c) % 65536) % 65536
  let n := (n + 128) % 65536
  ((n + (n >>> 8)) % 65536) >>> 8

/-- The source bytes an operation reads, for kernels of pixel size `ps`. -/
def opReads (ps : Nat) : Op → Int → Prop
  | .copy _ s n, a => s ≤ a ∧ a < s + n
  | .call k s _, a => s ≤ a ∧ a < s + (2 ^ k * ps : Nat)

/-- The pixel a run of a row starts at: the number of pixels of the runs before it. -/
def runStart (runs : List Nat) (i : Nat) : Nat := runsTotal (runs.take i)

/-- A map of destination memories selects: each byte of its result is the byte of its
argument, whatever the argument, or a byte that does not depend on the argument. -/
def Selects (T : Mem → Mem) : Prop :=
  ∀ a : Int, (∀ dst : Mem, T dst a = dst a) ∨ (∃ c : Byte, ∀ dst : Mem, T dst a = c)

/-- A kernel selects: at every pair of pointers it is a selecting map of the destination. -/
def KSelects (K : Kernel) : Prop :=
  ∀ (src : Mem) (s d : Int), Selects (fun dst => K src s dst d)

/-! ## Sample inputs -/

/-- A configuration for the examples: the 64-bit little-endian build with `DBC_BLIT_UNROLL`
8 and the default `dbcb_unroll_limit_for_mode`, without SSE2 and AVX2 at run time. The float
channel functions and the SIMD kernels, which the examples that use it never reach, keep the
destination. -/
def Env.sample : Env where
  platform := Platform.lp64
  big_endian := false
  unroll := Unroll.u8
  unroll_limit := fun _ _ => 8
  has_sse2 := false
  has_avx2 := false
  allow_sse2 := fun _ _ => true
  allow_avx2 := fun _ _ => true
  modulate := fun _ b => b
  clam := fun _ d _ _ _ => d
  clpm := fun _ d _ _ _ => d
  clxm := fun _ d _ => d
  modulate_srgb := fun _ b => b
  cga := fun _ d _ => d
  cgp := fun _ d _ => d
  cgam := fun _ d _ _ _ => d
  cgpm := fun _ d _ _ _ => d
  cgx := fun _ d => d
  cgxm := fun _ d _ => d
  simd := fun _ _ _ _ _ d => d

/-- The configuration `Env.sample` on a CPU with SSE2 (and without AVX2). -/
def Env.sampleSse2 : Env := { Env.sample with has_sse2 := true }

/-- A modulation color with alpha 0 whose red component `2^127` is a finite `float` that
overflows when multiplied by a source byte of 2 or more. -/
def colorOverflow : Color := fun c => if c = 0 then F32.fin (2 ^ 127) else
  if c = 3 then F32.fin 0 else F32.fin 1

/-- A modulation color with alpha 0 and the other components one half. -/
def colorHalf : Color := fun c => if c = 3 then F32.fin 0 else F32.fin (1 / 2)

/-- A source memory for the examples: the byte at offset `a` is `100 + a`. -/
def srcSample : Mem := fun a => toByte (100 + a.toNat)

/-- A destination memory for the examples: every byte is 200. -/
def dstSample : Mem := fun _ => toByte 200

/-- A source of three pixels `0x7F010101`, `0x80010101`, `0x81010101`, little endian: the
alpha bytes are 127, 128 and 129. -/
def srcAlpha : Mem :=
  fun a => toByte (if a = 3 then 127 else if a = 7 then 128 else if a = 11 then 129 else 1)

/-- The source bytes `{7, 9, 7, 255, 7, 7, 9, 9}` of the colorkey example. -/
def srcKey8 : Mem := fun a => toByte ([7, 9, 7, 255, 7, 7, 9, 9].getD a.toNat 0)

/-- The destination bytes `{1, 2, 3, 4, 5, 6, 7, 8}` of the colorkey example. -/
def dstKey8 : Mem := fun a => toByte (a.toNat + 1)

/-- The source words `0x8001, 0x7FFE` of the 5551 example, little endian. -/
def src5551 : Mem := fun a => toByte ([0x01, 0x80, 0xFE, 0x7F].getD a.toNat 0)

/-- The destination words `0x1234, 0x5678` of the 5551 example, little endian. -/
def dst5551 : Mem := fun a => toByte ([0x34, 0x12, 0x78, 0x56].getD a.toNat 0)

/-- A color whose first component is 127.5. -/
def colorKey127h : Color := fun _ => F32.fin (255 / 2)

/-- A build for x86-64 with SSE2 enabled at compile time, as every x86-64 compiler does, and
nothing else configured. -/
def Build.x64 : Build :=
  { no_simd := false, x86_or_x64 := true, win16 := false, no_avx2 := false,
    no_runtime_cpu_detection := false, dbcb_no_runtime_cpu_detection := false,
    sse2 := true, avx2 := false }

/-- The build `Build.x64` with `DBC_BLIT_NO_RUNTIME_CPU_DETECTION` defined. -/
def Build.x64NoDetect : Build := { Build.x64 with no_runtime_cpu_detection := true }

/-- A machine whose CPUID leaf 1 reports AVX (ECX bit 28) without OSXSAVE (ECX bit 27): the
processor has AVX and the operating system has not enabled `XGETBV`. The other results are
those of a processor with AVX2; the result given for `XGETBV` is what the instruction would
return if it did not fault. -/
def Cpu.avxNoOsxsave : Cpu :=
  { has_cpuid := true,
    cpuid := fun level =>
      if level = 0 then (7, 0, 0, 0)
      else if level = 1 then (0, 0, 0x10000000, 0x04000000)
      else if level = 7 then (0, 0x00000020, 0, 0)
      else (0, 0, 0, 0),
    xgetbv := fun _ => 0x7 }

/-- A machine with AVX2 and an operating system that supports it. -/
def Cpu.avx2 : Cpu :=
  { has_cpuid := true,
    cpuid := fun level =>
      if level = 0 then (7, 0, 0, 0)
      else if level = 1 then (0, 0, 0x18000000, 0x04000000)
      else if level = 7 then (0, 0x00000020, 0, 0)
      else (0, 0, 0, 0),
    xgetbv := fun _ => 0x7 }

/-! # Theorems -/

/-! ## Bit-level lemmas -/

theorem and_shiftLeft_mask (x m k : Nat) : x &&& (m <<< k) = ((x >>> k) &&& m) <<< k := by
  apply Nat.eq_of_testBit_eq
  intro i
  simp only [Nat.testBit_and, Nat.testBit_shiftLeft, Nat.testBit_shiftRight]
  by_cases h : k ≤ i
  · simp [h, Nat.add_sub_cancel' h]
  · simp [h]

/-- Operands without a common bit: exclusive or is addition. -/
theorem xor_eq_add_of_and_eq_zero : ∀ (n a b : Nat), a + b ≤ n → a &&& b = 0 → a ^^^ b = a + b := by
  intro n
  induction n with
  | zero =>
    intro a b h _
    have ha : a = 0 := by omega
    have hb : b = 0 := by omega
    subst ha; subst hb; rfl
  | succ n ih =>
    intro a b h hab
    by_cases h0 : a + b = 0
    · have ha : a = 0 := by omega
      have hb : b = 0 := by omega
      subst ha; subst hb; rfl
    · have h2 : a / 2 &&& b / 2 = 0 := by rw [← Nat.and_div_two, hab]
      have ih' := ih (a / 2) (b / 2) (by omega) h2
      have hx : (a ^^^ b) / 2 = a / 2 + b / 2 := by rw [Nat.xor_div_two, ih']
      have hm : ¬ (a % 2 = 1 ∧ b % 2 = 1) := by
        rw [← Nat.and_mod_two_eq_one, hab]; decide
      have hx1 := @Nat.xor_mod_two_eq_one a b
      omega

theorem xor_disjoint (a b : Nat) (h : a &&& b = 0) : a ^^^ b = a + b :=
  xor_eq_add_of_and_eq_zero (a + b) a b (Nat.le_refl _) h

theorem or_eq_add_of_and_eq_zero : ∀ (n a b : Nat), a + b ≤ n → a &&& b = 0 → a ||| b = a + b := by
  intro n
  induction n with
  | zero =>
    intro a b h _
    have ha : a = 0 := by omega
    have hb : b = 0 := by omega
    subst ha; subst hb; rfl
  | succ n ih =>
    intro a b h hab
    by_cases h0 : a + b = 0
    · have ha : a = 0 := by omega
      have hb : b = 0 := by omega
      subst ha; subst hb; rfl
    · have h2 : a / 2 &&& b / 2 = 0 := by rw [← Nat.and_div_two, hab]
      have ih' := ih (a / 2) (b / 2) (by omega) h2
      have hx : (a ||| b) / 2 = a / 2 + b / 2 := by rw [Nat.or_div_two, ih']
      have hm : ¬ (a % 2 = 1 ∧ b % 2 = 1) := by
        rw [← Nat.and_mod_two_eq_one, hab]; decide
      have hx1 := @Nat.or_mod_two_eq_one a b
      omega

theorem or_disjoint (a b : Nat) (h : a &&& b = 0) : a ||| b = a + b :=
  or_eq_add_of_and_eq_zero (a + b) a b (Nat.le_refl _) h

/-- Two operands confined to disjoint masks have no common bit. -/
theorem and_eq_zero_of_masks (a b m1 m2 : Nat) (ha : a &&& m1 = a) (hb : b &&& m2 = b)
    (hm : m1 &&& m2 = 0) : a &&& b = 0 := by
  rw [← ha, ← hb]
  have : a &&& m1 &&& (b &&& m2) = (a &&& b) &&& (m1 &&& m2) := by
    apply Nat.eq_of_testBit_eq
    intro i
    simp only [Nat.testBit_and]
    cases a.testBit i <;> cases b.testBit i <;> cases m1.testBit i <;> cases m2.testBit i <;> rfl
  rw [this, hm, Nat.and_zero]

theorem and_00FF00FF (x : Nat) : x &&& 0x00FF00FF = x % 256 + 65536 * (x / 65536 % 256) := by
  have e : (0x00FF00FF : Nat) = (2 ^ 8 - 1) ||| ((2 ^ 8 - 1) <<< 16) := by decide
  have hlt : x % 2 ^ 8 < 2 ^ 16 := by
    have := Nat.mod_lt x (show 0 < 2 ^ 8 by norm_num)
    omega
  have hor := Nat.mul_add_lt_is_or hlt (x / 2 ^ 16 % 2 ^ 8)
  rw [e, Nat.and_or_distrib_left, and_shiftLeft_mask, Nat.and_pow_two_sub_one_eq_mod,
    Nat.and_pow_two_sub_one_eq_mod, Nat.shiftLeft_eq, Nat.shiftRight_eq_div_pow, Nat.or_comm,
    Nat.mul_comm, ← hor]
  norm_num; omega

theorem and_FF00FF00 (x : Nat) :
    x &&& 0xFF00FF00 = 256 * (x / 256 % 256) + 16777216 * (x / 16777216 % 256) := by
  have e : (0xFF00FF00 : Nat) = (0x00FF00FF : Nat) <<< 8 := by decide
  rw [e, and_shiftLeft_mask, and_00FF00FF, Nat.shiftLeft_eq, Nat.shiftRight_eq_div_pow]
  norm_num; omega

/-! ## Rounding -/

/-- Rounding `n / 255` to the nearest integer, in integer arithmetic. -/
theorem round_div_255 (n : Nat) : round ((n : ℚ) / 255) = (((2 * n + 255) / 510 : ℕ) : ℤ) := by
  have h1 : 510 * ((2 * n + 255) / 510) ≤ 2 * n + 255 := Nat.mul_div_le _ _
  have h2 : 2 * n + 255 < 510 * ((2 * n + 255) / 510) + 510 := by
    have := Nat.lt_div_mul_add (a := 2 * n + 255) (b := 510) (by norm_num)
    omega
  generalize (2 * n + 255) / 510 = k at h1 h2
  have h1q : (510 : ℚ) * (k : ℚ) ≤ 2 * (n : ℚ) + 255 := by exact_mod_cast h1
  have h2q : 2 * (n : ℚ) + 255 < 510 * (k : ℚ) + 510 := by exact_mod_cast h2
  rw [round_eq, Int.floor_eq_iff]
  constructor
  · push_cast
    linarith
  · push_cast
    linarith

theorem no_tie_255 (n : Nat) : Int.fract ((n : ℚ) / 255) ≠ 1 / 2 := by
  intro h
  have h3 : ((n : ℚ) / 255) = ⌊(n : ℚ) / 255⌋ + 1 / 2 := by
    have := Int.floor_add_fract ((n : ℚ) / 255)
    rw [h] at this
    exact this.symm
  have h4 : (2 * (n : ℤ) : ℚ) = 255 * (2 * ⌊(n : ℚ) / 255⌋ + 1) := by
    field_simp at h3
    push_cast
    linarith
  have h5 : 2 * (n : ℤ) = 255 * (2 * ⌊(n : ℚ) / 255⌋ + 1) := by exact_mod_cast h4
  omega

/-- Blinn's shift-and-add division by 255, with rounding. -/
theorem blinn_div255 (n : Nat) (h : n ≤ 65535) :
    ((n + 128) + (n + 128) / 256) / 256 = (2 * n + 255) / 510 := by
  have hq1 : 256 * ((n + 128) / 256) ≤ n + 128 := Nat.mul_div_le _ _
  have hq2 : n + 128 < 256 * ((n + 128) / 256) + 256 := by
    have := Nat.lt_div_mul_add (a := n + 128) (b := 256) (by norm_num); omega
  generalize (n + 128) / 256 = c at hq1 hq2
  have hk1 : 510 * ((2 * n + 255) / 510) ≤ 2 * n + 255 := Nat.mul_div_le _ _
  have hk2 : 2 * n + 255 < 510 * ((2 * n + 255) / 510) + 510 := by
    have := Nat.lt_div_mul_add (a := 2 * n + 255) (b := 510) (by norm_num); omega
  generalize (2 * n + 255) / 510 = k at hk1 hk2
  have hc : c + 1 = k ∨ c = k ∨ c = k + 1 := by omega
  rcases hc with e | e | e <;> subst e <;> omega

/-- The computation of `dbcB_div255_round` carried out modulo `W` without wrapping. -/
theorem div255_in_width (n W : Nat) (h : n ≤ 65535) (hW : n + 128 + (n + 128) / 256 < W) :
    ((((n % W + 128) % W + ((n % W + 128) % W) >>> 8) % W) >>> 8) % 2 ^ 32
      = (2 * n + 255) / 510 := by
  have e1 : n % W = n := Nat.mod_eq_of_lt (by omega)
  have e2 : (n + 128) % W = n + 128 := Nat.mod_eq_of_lt (by omega)
  simp only [Nat.shiftRight_eq_div_pow]
  rw [e1, e2, Nat.mod_eq_of_lt (show n + 128 + (n + 128) / 2 ^ 8 < W from hW)]
  have hb := blinn_div255 n h
  have e3 : (n + 128 + (n + 128) / 2 ^ 8) / 2 ^ 8 = (2 * n + 255) / 510 := hb
  rw [e3]
  apply Nat.mod_eq_of_lt
  omega

/-- In its working range `dbcB_div255_round` is the rounded quotient, on every platform. -/
theorem div255_round_eq (P : Platform) (n : Nat) (h : n ≤ 65152) :
    dbcB_div255_round P n = (2 * n + 255) / 510 := by
  unfold dbcB_div255_round u32
  split
  · rename_i hs
    have hs' : P.sizeof_unsigned = 2 ∨ P.sizeof_unsigned = 3 := by omega
    rcases hs' with e | e <;> rw [e] <;> exact div255_in_width n _ (by omega) (by omega)
  · have := div255_in_width n (2 ^ 32) (by omega) (by omega)
    simp only [Nat.mod_eq_of_lt (show n < 2 ^ 32 by omega)] at this
    rw [← this]
    symm
    apply Nat.mod_eq_of_lt
    have : ((n + 128) % 2 ^ 32 + (n + 128) % 2 ^ 32 >>> 8) % 2 ^ 32 < 2 ^ 32 :=
      Nat.mod_lt _ (by norm_num)
    simp only [Nat.shiftRight_eq_div_pow] at this ⊢
    omega

/-- With `unsigned` wider than 16 bits the working range is the whole 16-bit range. -/
theorem div255_round_eq_wide (P : Platform) (n : Nat) (h : n ≤ 65535)
    (hP : P.sizeof_unsigned ≠ 2) : dbcB_div255_round P n = (2 * n + 255) / 510 := by
  unfold dbcB_div255_round u32
  split
  · rename_i hs
    have e : P.sizeof_unsigned = 3 := by omega
    rw [e]; exact div255_in_width n _ (by omega) (by omega)
  · have := div255_in_width n (2 ^ 32) (by omega) (by omega)
    simp only [Nat.mod_eq_of_lt (show n < 2 ^ 32 by omega)] at this
    rw [← this]
    symm
    apply Nat.mod_eq_of_lt
    have : ((n + 128) % 2 ^ 32 + (n + 128) % 2 ^ 32 >>> 8) % 2 ^ 32 < 2 ^ 32 :=
      Nat.mod_lt _ (by norm_num)
    simp only [Nat.shiftRight_eq_div_pow] at this ⊢
    omega

/-! ## Packed lanes -/

/-- Masking two packed lanes keeps the low byte of each. -/
theorem lanes2_mask (x y : Nat) (hx : x ≤ 65535) :
    lanes2 x y &&& 0x00FF00FF = lanes2 (x % 256) (y % 256) := by
  unfold lanes2
  rw [and_00FF00FF]
  have e1 : (x + 65536 * y) % 256 = x % 256 := by omega
  have e2 : (x + 65536 * y) / 65536 = y := by omega
  rw [e1, e2]

/-- Shifting two packed lanes right by a byte. -/
theorem lanes2_shr8_mask (x y : Nat) (hx : x ≤ 65535) :
    (lanes2 x y >>> 8) &&& 0x00FF00FF = lanes2 (x / 256) (y / 256 % 256) := by
  unfold lanes2
  rw [and_00FF00FF, Nat.shiftRight_eq_div_pow]
  have e0 : (x + 65536 * y) / 2 ^ 8 = x / 256 + 256 * y := by omega
  have e1 : (x / 256 + 256 * y) % 256 = x / 256 := by omega
  have e2 : (x / 256 + 256 * y) / 65536 = y / 256 := by omega
  rw [e0, e1, e2]

/-- One step `x -> ((x + ((x >> 8) & M)) >> 8) & M` on two packed lanes. -/
theorem lanes2_step (x y : Nat) (hx : x ≤ 65535)
    (hx' : x + x / 256 ≤ 65535) (hy' : y + y / 256 ≤ 65535) :
    (u32 (lanes2 x y + ((lanes2 x y >>> 8) &&& 0x00FF00FF)) >>> 8) &&& 0x00FF00FF
      = lanes2 ((x + x / 256) / 256) ((y + y / 256) / 256) := by
  rw [lanes2_shr8_mask x y hx]
  have e : lanes2 x y + lanes2 (x / 256) (y / 256 % 256)
      = lanes2 (x + x / 256) (y + y / 256) := by
    unfold lanes2; omega
  have hlt : lanes2 (x + x / 256) (y + y / 256) < 2 ^ 32 := by unfold lanes2; omega
  rw [e, u32, Nat.mod_eq_of_lt hlt, lanes2_shr8_mask _ _ hx']
  have : (y + y / 256) / 256 % 256 = (y + y / 256) / 256 := by omega
  rw [this]

/-- A value below `2 ^ k` and a multiple of `2 ^ k` have no common bit. -/
theorem and_shiftLeft_eq_zero (a b k : Nat) (h : a < 2 ^ k) : a &&& (b <<< k) = 0 := by
  apply Nat.eq_of_testBit_eq
  intro i
  simp only [Nat.testBit_and, Nat.testBit_shiftLeft, Nat.zero_testBit]
  by_cases hk : k ≤ i
  · have : a < 2 ^ i := Nat.lt_of_lt_of_le h (Nat.pow_le_pow_right (by norm_num) hk)
    simp [Nat.testBit_lt_two_pow this]
  · simp [hk]

theorem xor_low_high (a b k : Nat) (h : a < 2 ^ k) : a ^^^ (b <<< k) = a + b * 2 ^ k := by
  rw [xor_disjoint _ _ (and_shiftLeft_eq_zero a b k h), Nat.shiftLeft_eq]

theorem or_low_high (a b k : Nat) (h : a < 2 ^ k) : a ||| (b <<< k) = a + b * 2 ^ k := by
  rw [or_disjoint _ _ (and_shiftLeft_eq_zero a b k h), Nat.shiftLeft_eq]

/-- Setting the top byte of a 32-bit word. -/
theorem or_FF000000 (x : Nat) (h : x < 2 ^ 32) : x ||| 0xFF000000 = x % 16777216 + 0xFF000000 := by
  have hx : x = x % 2 ^ 24 ||| (x / 2 ^ 24) <<< 24 := by
    rw [or_low_high _ _ _ (Nat.mod_lt _ (by norm_num))]
    omega
  have hm : (0xFF000000 : Nat) = 255 <<< 24 := by decide
  have hb : x / 2 ^ 24 ||| 255 = 255 := by
    have ha : x / 2 ^ 24 < 2 ^ 8 := by omega
    generalize x / 2 ^ 24 = a at ha
    have e255 : (255 : Nat) = 2 ^ 8 - 1 := by norm_num
    apply Nat.eq_of_testBit_eq
    intro i
    rw [Nat.testBit_or, e255, Nat.testBit_two_pow_sub_one]
    by_cases hi : i < 8
    · simp [hi]
    · have : a < 2 ^ i :=
        Nat.lt_of_lt_of_le ha (Nat.pow_le_pow_right (by norm_num) (by omega))
      simp [hi, Nat.testBit_lt_two_pow this]
  have hd : (x % 2 ^ 24 ||| (x / 2 ^ 24) <<< 24) ||| 255 <<< 24
      = x % 2 ^ 24 ||| (x / 2 ^ 24 ||| 255) <<< 24 := by
    apply Nat.eq_of_testBit_eq
    intro i
    simp only [Nat.testBit_or, Nat.testBit_shiftLeft]
    cases (x % 2 ^ 24).testBit i <;> cases decide (i ≥ 24) <;> simp
  conv_lhs => rw [hx, hm, hd, hb]
  rw [or_low_high _ _ _ (Nat.mod_lt _ (by norm_num))]
  norm_num

theorem pix4_lt (b0 b1 b2 b3 : Nat) (h0 : b0 < 256) (h1 : b1 < 256) (h2 : b2 < 256)
    (h3 : b3 < 256) : pix4 b0 b1 b2 b3 < 2 ^ 32 := by
  unfold pix4; omega

theorem getb_pix4 (b0 b1 b2 b3 : Nat) (h0 : b0 < 256) (h1 : b1 < 256) (h2 : b2 < 256)
    (h3 : b3 < 256) :
    dbcB_getb (pix4 b0 b1 b2 b3) 0 = b0 ∧ dbcB_getb (pix4 b0 b1 b2 b3) 1 = b1 ∧
    dbcB_getb (pix4 b0 b1 b2 b3) 2 = b2 ∧ dbcB_getb (pix4 b0 b1 b2 b3) 3 = b3 := by
  unfold pix4 dbcB_getb u8
  simp only [Nat.shiftRight_eq_div_pow]
  refine ⟨?_, ?_, ?_, ?_⟩ <;> omega

theorem pix4_getb (x : Nat) (h : x < 2 ^ 32) :
    pix4 (dbcB_getb x 0) (dbcB_getb x 1) (dbcB_getb x 2) (dbcB_getb x 3) = x := by
  unfold pix4 dbcB_getb u8
  simp only [Nat.shiftRight_eq_div_pow]
  omega

theorem getb_lt (x i : Nat) : dbcB_getb x i < 256 := by
  unfold dbcB_getb u8
  exact Nat.mod_lt _ (by norm_num)

theorem dbcB_4x8to32_eq (b0 b1 b2 b3 : Nat) (h0 : b0 < 256) (h1 : b1 < 256) (h2 : b2 < 256)
    (h3 : b3 < 256) : dbcB_4x8to32 b0 b1 b2 b3 = pix4 b0 b1 b2 b3 := by
  unfold dbcB_4x8to32 pix4 u32
  have e0 : b0 % 2 ^ 32 = b0 := Nat.mod_eq_of_lt (by omega)
  have e1 : b1 % 2 ^ 32 = b1 := Nat.mod_eq_of_lt (by omega)
  have e2 : b2 % 2 ^ 32 = b2 := Nat.mod_eq_of_lt (by omega)
  have e3 : b3 % 2 ^ 32 = b3 := Nat.mod_eq_of_lt (by omega)
  rw [e0, e1, e2, e3]
  have f1 : (b1 <<< 8) % 2 ^ 32 = b1 <<< 8 := by
    apply Nat.mod_eq_of_lt; rw [Nat.shiftLeft_eq]; omega
  have f2 : (b2 <<< 16) % 2 ^ 32 = b2 <<< 16 := by
    apply Nat.mod_eq_of_lt; rw [Nat.shiftLeft_eq]; omega
  have f3 : (b3 <<< 24) % 2 ^ 32 = b3 <<< 24 := by
    apply Nat.mod_eq_of_lt; rw [Nat.shiftLeft_eq]; omega
  rw [f1, f2, f3, xor_low_high b0 b1 8 (by omega), xor_low_high _ b2 16 (by omega),
    xor_low_high _ b3 24 (by omega)]
  omega

/-! ## The linear alpha blend -/

theorem rdiv255_le (n : Nat) (h : n ≤ 65025) : rdiv255 n ≤ 255 := by
  unfold rdiv255; omega

/-- A convex combination of two bytes with weights `a` and `255 - a` fits in 16 bits. -/
theorem blend_le (s d a : Nat) (hs : s < 256) (hd : d < 256) (ha : a < 256) :
    s * a + d * (255 - a) ≤ 65025 := by
  have h1 : s * a ≤ 255 * a := Nat.mul_le_mul_right a (by omega)
  have h2 : d * (255 - a) ≤ 255 * (255 - a) := Nat.mul_le_mul_right _ (by omega)
  omega

theorem sub32_255 (a : Nat) (ha : a < 256) : sub32 255 a = 255 - a := by
  unfold sub32; omega

theorem dbcB_cla_eq (P : Platform) (s d a : Nat) (hs : s < 256) (hd : d < 256) (ha : a < 256) :
    dbcB_cla P s d a = rdiv255 (s * a + d * (255 - a)) := by
  have hb := blend_le s d a hs hd ha
  have h1 : s * a ≤ 65025 := by omega
  have h2 : d * (255 - a) ≤ 65025 := by omega
  unfold dbcB_cla
  simp only [sub32_255 a ha, u32, Nat.mod_eq_of_lt (show s * a < 2 ^ 32 by omega),
    Nat.mod_eq_of_lt (show d * (255 - a) < 2 ^ 32 by omega),
    Nat.mod_eq_of_lt (show s * a + d * (255 - a) < 2 ^ 32 by omega)]
  rw [div255_round_eq P _ (by omega), u8]
  have := rdiv255_le _ hb
  unfold rdiv255 at this ⊢
  omega

/-- Even bytes of a 32-bit word as two lanes. -/
theorem word_even (x : Nat) :
    x &&& 0x00FF00FF = lanes2 (dbcB_getb x 0) (dbcB_getb x 2) := by
  rw [and_00FF00FF]
  unfold lanes2 dbcB_getb u8
  simp only [Nat.shiftRight_eq_div_pow]
  norm_num

/-- Odd bytes of a 32-bit word as two lanes. -/
theorem word_odd (x : Nat) :
    (x >>> 8) &&& 0x00FF00FF = lanes2 (dbcB_getb x 1) (dbcB_getb x 3) := by
  rw [and_00FF00FF]
  unfold lanes2 dbcB_getb u8
  simp only [Nat.shiftRight_eq_div_pow]
  have e : x / 2 ^ 8 / 65536 = x / 2 ^ (8 * 3) := by
    rw [Nat.div_div_eq_div_mul]; norm_num
  rw [e]
  norm_num

theorem getb_or_FF000000 (x : Nat) (h : x < 2 ^ 32) :
    dbcB_getb (x ||| 0xFF000000) 0 = dbcB_getb x 0 ∧
    dbcB_getb (x ||| 0xFF000000) 1 = dbcB_getb x 1 ∧
    dbcB_getb (x ||| 0xFF000000) 2 = dbcB_getb x 2 ∧
    dbcB_getb (x ||| 0xFF000000) 3 = 255 := by
  rw [or_FF000000 x h]
  unfold dbcB_getb u8
  simp only [Nat.shiftRight_eq_div_pow]
  refine ⟨?_, ?_, ?_, ?_⟩ <;> omega

theorem shr24_eq_getb (x : Nat) (h : x < 2 ^ 32) : x >>> 24 = dbcB_getb x 3 := by
  unfold dbcB_getb u8
  simp only [Nat.shiftRight_eq_div_pow]
  omega

theorem mul_lanes2 (a x y : Nat) : a * lanes2 x y = lanes2 (a * x) (a * y) := by
  unfold lanes2
  rw [Nat.mul_add, Nat.mul_left_comm]

/-- The weighted sum of two lane pairs, computed in `dbcb_uint32`, lane by lane. -/
theorem lanes2_blend (a b x y z w : Nat) (h1 : a * x + b * z ≤ 65025)
    (h2 : a * y + b * w ≤ 65025) :
    u32 (u32 (u32 (a * lanes2 x y) + u32 (b * lanes2 z w)) + 0x00800080)
      = lanes2 (a * x + b * z + 128) (a * y + b * w + 128) := by
  rw [mul_lanes2, mul_lanes2]
  unfold lanes2 u32
  generalize a * x = p at *
  generalize b * z = q at *
  generalize a * y = r at *
  generalize b * w = t at *
  omega

/-- Two lane pairs of bytes, the second shifted by one byte, interleave to a pixel. -/
theorem lanes2_interleave (r0 r1 r2 r3 : Nat) (h0 : r0 < 256) (h1 : r1 < 256) (h2 : r2 < 256)
    (h3 : r3 < 256) : lanes2 r0 r2 ^^^ u32 (lanes2 r1 r3 <<< 8) = pix4 r0 r1 r2 r3 := by
  have hs : u32 (lanes2 r1 r3 <<< 8) = 256 * r1 + 16777216 * r3 := by
    unfold u32 lanes2; rw [Nat.shiftLeft_eq]; omega
  rw [hs]
  have hd : lanes2 r0 r2 &&& (256 * r1 + 16777216 * r3) = 0 := by
    apply and_eq_zero_of_masks _ _ 0x00FF00FF 0xFF00FF00
    · rw [and_00FF00FF]; unfold lanes2; omega
    · rw [and_FF00FF00]; omega
    · decide
  rw [xor_disjoint _ _ hd]
  unfold lanes2 pix4
  omega

/-- The 32-bit block of the alpha blend computes the rounded blend of every channel. -/
theorem bla_blend32_eq (S D : Nat) (hS : S < 2 ^ 32) :
    bla_blend32 S D = pix4
      (rdiv255 (dbcB_getb S 3 * dbcB_getb S 0 + (255 - dbcB_getb S 3) * dbcB_getb D 0))
      (rdiv255 (dbcB_getb S 3 * dbcB_getb S 1 + (255 - dbcB_getb S 3) * dbcB_getb D 1))
      (rdiv255 (dbcB_getb S 3 * dbcB_getb S 2 + (255 - dbcB_getb S 3) * dbcB_getb D 2))
      (rdiv255 (dbcB_getb S 3 * 255 + (255 - dbcB_getb S 3) * dbcB_getb D 3)) := by
  obtain ⟨g0, g1, g2, g3⟩ := getb_or_FF000000 S hS
  have hA := getb_lt S 3
  have b0 := blend_le (dbcB_getb S 0) (dbcB_getb D 0) _ (getb_lt S 0) (getb_lt D 0) hA
  have b1 := blend_le (dbcB_getb S 1) (dbcB_getb D 1) _ (getb_lt S 1) (getb_lt D 1) hA
  have b2 := blend_le (dbcB_getb S 2) (dbcB_getb D 2) _ (getb_lt S 2) (getb_lt D 2) hA
  have b3 := blend_le 255 (dbcB_getb D 3) _ (by norm_num) (getb_lt D 3) hA
  rw [Nat.mul_comm (dbcB_getb S 0), Nat.mul_comm (dbcB_getb D 0)] at b0
  rw [Nat.mul_comm (dbcB_getb S 1), Nat.mul_comm (dbcB_getb D 1)] at b1
  rw [Nat.mul_comm (dbcB_getb S 2), Nat.mul_comm (dbcB_getb D 2)] at b2
  rw [Nat.mul_comm 255, Nat.mul_comm (dbcB_getb D 3)] at b3
  unfold bla_blend32
  simp only [shr24_eq_getb S hS, sub32_255 _ hA, word_even (S ||| 0xFF000000),
    word_odd (S ||| 0xFF000000), word_even D, word_odd D, g0, g1, g2, g3]
  rw [lanes2_blend _ _ _ _ _ _ b0 b2, lanes2_blend _ _ _ _ _ _ b1 b3]
  rw [lanes2_step _ _ (by omega) (by omega) (by omega),
    lanes2_step _ _ (by omega) (by omega) (by omega)]
  rw [blinn_div255 _ (by omega), blinn_div255 _ (by omega), blinn_div255 _ (by omega),
    blinn_div255 _ (by omega)]
  exact lanes2_interleave _ _ _ _ (by have := rdiv255_le _ b0; unfold rdiv255 at this; omega)
    (by have := rdiv255_le _ b1; unfold rdiv255 at this; omega)
    (by have := rdiv255_le _ b2; unfold rdiv255 at this; omega)
    (by have := rdiv255_le _ b3; unfold rdiv255 at this; omega)

/-! ### Four lanes in a 64-bit word -/

theorem C64_mask : DBCB_C64 0x00FF00FF 0x00FF00FF = 0x00FF00FF00FF00FF := by decide

theorem C64_half : DBCB_C64 0x00800080 0x00800080 = lanes4 128 128 128 128 := by decide

theorem and_00FF00FF00FF00FF (x : Nat) :
    x &&& 0x00FF00FF00FF00FF
      = lanes4 (x % 256) (x / 65536 % 256) (x / 4294967296 % 256) (x / 281474976710656 % 256) := by
  have e : (0x00FF00FF00FF00FF : Nat) = 0x00FF00FF ||| (0x00FF00FF <<< 32) := by decide
  rw [e, Nat.and_or_distrib_left, and_shiftLeft_mask, and_00FF00FF, and_00FF00FF,
    or_low_high _ _ 32 (by omega), Nat.shiftRight_eq_div_pow]
  have e1 : x / 2 ^ 32 / 65536 = x / 281474976710656 := by
    rw [Nat.div_div_eq_div_mul]; norm_num
  rw [e1]
  unfold lanes4
  norm_num
  omega

/-- The rearrangement `RGBA -> R0B0G0A0` of the source. -/
theorem word_lanes4 (x : Nat) :
    u64 (x &&& 0x00FF00FF) ^^^ u64 (u64 (x &&& 0xFF00FF00) <<< 24)
      = lanes4 (dbcB_getb x 0) (dbcB_getb x 2) (dbcB_getb x 1) (dbcB_getb x 3) := by
  have h0 := getb_lt x 0
  have h1 := getb_lt x 1
  have h2 := getb_lt x 2
  have h3 := getb_lt x 3
  have e1 : x &&& 0x00FF00FF = lanes2 (dbcB_getb x 0) (dbcB_getb x 2) := word_even x
  have e2 : x &&& 0xFF00FF00 = 256 * lanes2 (dbcB_getb x 1) (dbcB_getb x 3) := by
    rw [and_FF00FF00]
    unfold lanes2 dbcB_getb u8
    simp only [Nat.shiftRight_eq_div_pow]
    norm_num
    omega
  rw [e1, e2]
  have f1 : u64 (lanes2 (dbcB_getb x 0) (dbcB_getb x 2)) = lanes2 (dbcB_getb x 0) (dbcB_getb x 2) := by
    unfold u64 lanes2; omega
  have f2 : u64 (u64 (256 * lanes2 (dbcB_getb x 1) (dbcB_getb x 3)) <<< 24)
      = lanes2 (dbcB_getb x 1) (dbcB_getb x 3) <<< 32 := by
    unfold u64 lanes2; simp only [Nat.shiftLeft_eq]; omega
  rw [f1, f2, xor_low_high _ _ 32 (by unfold lanes2; omega)]
  unfold lanes2 lanes4
  omega

theorem mul_lanes4 (a x y z w : Nat) :
    a * lanes4 x y z w = lanes4 (a * x) (a * y) (a * z) (a * w) := by
  unfold lanes4
  simp only [Nat.mul_add, Nat.mul_left_comm a]

/-- The weighted sum of two lane quadruples, computed in `dbcb_uint64`, lane by lane. -/
theorem lanes4_blend (a b x0 x1 x2 x3 z0 z1 z2 z3 : Nat) (h0 : a * x0 + b * z0 ≤ 65025)
    (h1 : a * x1 + b * z1 ≤ 65025) (h2 : a * x2 + b * z2 ≤ 65025)
    (h3 : a * x3 + b * z3 ≤ 65025) :
    u64 (u64 (u64 (a * lanes4 x0 x1 x2 x3) + u64 (b * lanes4 z0 z1 z2 z3))
        + lanes4 128 128 128 128)
      = lanes4 (a * x0 + b * z0 + 128) (a * x1 + b * z1 + 128) (a * x2 + b * z2 + 128)
          (a * x3 + b * z3 + 128) := by
  rw [mul_lanes4, mul_lanes4]
  unfold lanes4 u64
  generalize a * x0 = p0 at *
  generalize b * z0 = q0 at *
  generalize a * x1 = p1 at *
  generalize b * z1 = q1 at *
  generalize a * x2 = p2 at *
  generalize b * z2 = q2 at *
  generalize a * x3 = p3 at *
  generalize b * z3 = q3 at *
  omega

/-- Shifting four packed lanes right by a byte and masking. -/
theorem lanes4_shr8_mask (x0 x1 x2 x3 : Nat) (h0 : x0 ≤ 65535) (h1 : x1 ≤ 65535)
    (h2 : x2 ≤ 65535) :
    (lanes4 x0 x1 x2 x3 >>> 8) &&& 0x00FF00FF00FF00FF
      = lanes4 (x0 / 256) (x1 / 256) (x2 / 256) (x3 / 256 % 256) := by
  rw [and_00FF00FF00FF00FF, Nat.shiftRight_eq_div_pow]
  unfold lanes4
  have e0 : (x0 + 65536 * x1 + 4294967296 * x2 + 281474976710656 * x3) / 2 ^ 8
      = x0 / 256 + 256 * x1 + 16777216 * x2 + 1099511627776 * x3 := by omega
  rw [e0]
  have e1 : (x0 / 256 + 256 * x1 + 16777216 * x2 + 1099511627776 * x3) % 256 = x0 / 256 := by
    omega
  have e2 : (x0 / 256 + 256 * x1 + 16777216 * x2 + 1099511627776 * x3) / 65536 % 256
      = x1 / 256 := by omega
  have e3 : (x0 / 256 + 256 * x1 + 16777216 * x2 + 1099511627776 * x3) / 4294967296 % 256
      = x2 / 256 := by omega
  have e4 : (x0 / 256 + 256 * x1 + 16777216 * x2 + 1099511627776 * x3) / 281474976710656
      = x3 / 256 := by omega
  rw [e1, e2, e3, e4]

/-- One step `x -> ((x + ((x >> 8) & M)) >> 8) & M` on four packed lanes. -/
theorem lanes4_step (x0 x1 x2 x3 : Nat) (h0 : x0 + x0 / 256 ≤ 65535)
    (h1 : x1 + x1 / 256 ≤ 65535) (h2 : x2 + x2 / 256 ≤ 65535) (h3 : x3 + x3 / 256 ≤ 65535) :
    (u64 (lanes4 x0 x1 x2 x3 + ((lanes4 x0 x1 x2 x3 >>> 8) &&& 0x00FF00FF00FF00FF)) >>> 8)
        &&& 0x00FF00FF00FF00FF
      = lanes4 ((x0 + x0 / 256) / 256) ((x1 + x1 / 256) / 256) ((x2 + x2 / 256) / 256)
          ((x3 + x3 / 256) / 256) := by
  rw [lanes4_shr8_mask x0 x1 x2 x3 (by omega) (by omega) (by omega)]
  have e : lanes4 x0 x1 x2 x3 + lanes4 (x0 / 256) (x1 / 256) (x2 / 256) (x3 / 256 % 256)
      = lanes4 (x0 + x0 / 256) (x1 + x1 / 256) (x2 + x2 / 256) (x3 + x3 / 256) := by
    unfold lanes4; omega
  have hlt : lanes4 (x0 + x0 / 256) (x1 + x1 / 256) (x2 + x2 / 256) (x3 + x3 / 256) < 2 ^ 64 := by
    unfold lanes4; omega
  rw [e, u64, Nat.mod_eq_of_lt hlt, lanes4_shr8_mask _ _ _ _ h0 h1 h2]
  have : (x3 + x3 / 256) / 256 % 256 = (x3 + x3 / 256) / 256 := by omega
  rw [this]

/-- The rearrangement `R0B0G0A0 -> RGBA` of the source. -/
theorem lanes4_to_word (r0 r1 r2 r3 : Nat) (h0 : r0 < 256) (h1 : r1 < 256) (h2 : r2 < 256)
    (h3 : r3 < 256) :
    u32 (lanes4 r0 r2 r1 r3 ^^^ (lanes4 r0 r2 r1 r3 >>> 24)) = pix4 r0 r1 r2 r3 := by
  have hs : lanes4 r0 r2 r1 r3 >>> 24 = 256 * r1 + 16777216 * r3 := by
    unfold lanes4; rw [Nat.shiftRight_eq_div_pow]; omega
  rw [hs]
  have hd : lanes4 r0 r2 r1 r3 &&& (256 * r1 + 16777216 * r3) = 0 := by
    apply and_eq_zero_of_masks _ _ 0x00FF00FF00FF00FF 0xFF00FF00
    · rw [and_00FF00FF00FF00FF]; unfold lanes4; omega
    · rw [and_FF00FF00]; omega
    · decide
  rw [xor_disjoint _ _ hd]
  unfold lanes4 pix4 u32
  omega

/-- The 64-bit block of the alpha blend computes the rounded blend of every channel. -/
theorem bla_blend64_eq (S D : Nat) (hS : S < 2 ^ 32) :
    bla_blend64 S D = pix4
      (rdiv255 (dbcB_getb S 3 * dbcB_getb S 0 + (255 - dbcB_getb S 3) * dbcB_getb D 0))
      (rdiv255 (dbcB_getb S 3 * dbcB_getb S 1 + (255 - dbcB_getb S 3) * dbcB_getb D 1))
      (rdiv255 (dbcB_getb S 3 * dbcB_getb S 2 + (255 - dbcB_getb S 3) * dbcB_getb D 2))
      (rdiv255 (dbcB_getb S 3 * 255 + (255 - dbcB_getb S 3) * dbcB_getb D 3)) := by
  obtain ⟨g0, g1, g2, g3⟩ := getb_or_FF000000 S hS
  have hA := getb_lt S 3
  have b0 := blend_le (dbcB_getb S 0) (dbcB_getb D 0) _ (getb_lt S 0) (getb_lt D 0) hA
  have b1 := blend_le (dbcB_getb S 1) (dbcB_getb D 1) _ (getb_lt S 1) (getb_lt D 1) hA
  have b2 := blend_le (dbcB_getb S 2) (dbcB_getb D 2) _ (getb_lt S 2) (getb_lt D 2) hA
  have b3 := blend_le 255 (dbcB_getb D 3) _ (by norm_num) (getb_lt D 3) hA
  rw [Nat.mul_comm (dbcB_getb S 0), Nat.mul_comm (dbcB_getb D 0)] at b0
  rw [Nat.mul_comm (dbcB_getb S 1), Nat.mul_comm (dbcB_getb D 1)] at b1
  rw [Nat.mul_comm (dbcB_getb S 2), Nat.mul_comm (dbcB_getb D 2)] at b2
  rw [Nat.mul_comm 255, Nat.mul_comm (dbcB_getb D 3)] at b3
  unfold bla_blend64
  simp only [shr24_eq_getb S hS, sub32_255 _ hA, word_lanes4 (S ||| 0xFF000000), word_lanes4 D,
    g0, g1, g2, g3, C64_mask, C64_half]
  rw [lanes4_blend _ _ _ _ _ _ _ _ _ _ b0 b2 b1 b3]
  rw [lanes4_step _ _ _ _ (by omega) (by omega) (by omega) (by omega)]
  rw [blinn_div255 _ (by omega), blinn_div255 _ (by omega), blinn_div255 _ (by omega),
    blinn_div255 _ (by omega)]
  exact lanes4_to_word _ _ _ _ (by have := rdiv255_le _ b0; unfold rdiv255 at this; omega)
    (by have := rdiv255_le _ b1; unfold rdiv255 at this; omega)
    (by have := rdiv255_le _ b2; unfold rdiv255 at this; omega)
    (by have := rdiv255_le _ b3; unfold rdiv255 at this; omega)

theorem rdiv255_mul_255 (d : Nat) : rdiv255 (255 * d) = d := by
  unfold rdiv255; omega

/-- Closed form of `dbcB_bla_1_c` on every platform and every path. -/
theorem dbcB_bla_1_c_eq (P : Platform) (S D : Nat) (hS : S < 2 ^ 32) (hD : D < 2 ^ 32) :
    dbcB_bla_1_c P S D = pix4
      (rdiv255 (dbcB_getb S 3 * dbcB_getb S 0 + (255 - dbcB_getb S 3) * dbcB_getb D 0))
      (rdiv255 (dbcB_getb S 3 * dbcB_getb S 1 + (255 - dbcB_getb S 3) * dbcB_getb D 1))
      (rdiv255 (dbcB_getb S 3 * dbcB_getb S 2 + (255 - dbcB_getb S 3) * dbcB_getb D 2))
      (rdiv255 (dbcB_getb S 3 * 255 + (255 - dbcB_getb S 3) * dbcB_getb D 3)) := by
  have hA := getb_lt S 3
  unfold dbcB_bla_1_c
  split
  · have c0 := dbcB_cla_eq P _ _ _ (getb_lt S 0) (getb_lt D 0) hA
    have c1 := dbcB_cla_eq P _ _ _ (getb_lt S 1) (getb_lt D 1) hA
    have c2 := dbcB_cla_eq P _ _ _ (getb_lt S 2) (getb_lt D 2) hA
    have c3 := dbcB_cla_eq P 255 _ _ (by norm_num) (getb_lt D 3) hA
    have b0 := blend_le (dbcB_getb S 0) (dbcB_getb D 0) _ (getb_lt S 0) (getb_lt D 0) hA
    have b1 := blend_le (dbcB_getb S 1) (dbcB_getb D 1) _ (getb_lt S 1) (getb_lt D 1) hA
    have b2 := blend_le (dbcB_getb S 2) (dbcB_getb D 2) _ (getb_lt S 2) (getb_lt D 2) hA
    have b3 := blend_le 255 (dbcB_getb D 3) _ (by norm_num) (getb_lt D 3) hA
    rw [c0, c1, c2, c3, dbcB_4x8to32_eq _ _ _ _
      (Nat.lt_succ_of_le (rdiv255_le _ b0)) (Nat.lt_succ_of_le (rdiv255_le _ b1))
      (Nat.lt_succ_of_le (rdiv255_le _ b2)) (Nat.lt_succ_of_le (rdiv255_le _ b3))]
    simp only [Nat.mul_comm]
  · split
    · split
      · split
        · exact bla_blend64_eq S D hS
        · exact bla_blend32_eq S D hS
      · rename_i h1 h2
        have e3 : dbcB_getb S 3 = 255 := by
          rw [← shr24_eq_getb S hS, Nat.shiftRight_eq_div_pow]; omega
        rw [e3]
        simp only [Nat.sub_self, Nat.zero_mul, Nat.add_zero, rdiv255_mul_255]
        have := pix4_getb S hS
        rw [e3] at this
        exact this.symm
    · rename_i h1
      have e3 : dbcB_getb S 3 = 0 := by
        rw [← shr24_eq_getb S hS, Nat.shiftRight_eq_div_pow]; omega
      rw [e3]
      simp only [Nat.zero_mul, Nat.zero_add, Nat.sub_zero, rdiv255_mul_255]
      exact (pix4_getb D hD).symm

/-- Rounded quotient as a rational rounding, for a blend written with rational weights. -/
theorem rdiv255_blend_round (a s d : Nat) (ha : a < 256) :
    ((rdiv255 (a * s + (255 - a) * d) : ℕ) : ℤ)
      = round (((s : ℚ) * a + d * (255 - a)) / 255) := by
  have h := round_div_255 (a * s + (255 - a) * d)
  have e : ((a * s + (255 - a) * d : ℕ) : ℚ) = (s : ℚ) * a + d * (255 - a) := by
    have : a ≤ 255 := by omega
    push_cast [Nat.cast_sub this]
    ring
  rw [e] at h
  rw [h]
  rfl

/-! ## The premultiplied alpha blend -/

/-- Bitwise or acts separately below and above bit `k`. -/
theorem or_add_shift (a b c d k : Nat) (ha : a < 2 ^ k) (hc : c < 2 ^ k) :
    (a + b * 2 ^ k) ||| (c + d * 2 ^ k) = (a ||| c) + (b ||| d) * 2 ^ k := by
  rw [← or_low_high a b k ha, ← or_low_high c d k hc,
    ← or_low_high (a ||| c) (b ||| d) k (Nat.or_lt_two_pow ha hc)]
  apply Nat.eq_of_testBit_eq
  intro i
  simp only [Nat.testBit_or, Nat.testBit_shiftLeft]
  cases a.testBit i <;> cases c.testBit i <;> cases decide (i ≥ k) <;> simp

/-- The carry trick on one lane: a sum of two bytes saturates at 255. -/
theorem carry_or (t : Nat) (ht : t ≤ 510) : t % 256 ||| 255 * (t / 256) = min 255 t := by
  by_cases h : t < 256
  · have e1 : t / 256 = 0 := by omega
    have e2 : t % 256 = t := by omega
    rw [e1, e2, Nat.mul_zero, Nat.or_zero]
    omega
  · have e1 : t / 256 = 1 := by omega
    rw [e1, Nat.mul_one]
    have e3 : min 255 t = 255 := by omega
    rw [e3]
    have ha : t % 256 < 2 ^ 8 := Nat.mod_lt _ (by norm_num)
    generalize t % 256 = a at ha
    have e255 : (255 : Nat) = 2 ^ 8 - 1 := by norm_num
    apply Nat.eq_of_testBit_eq
    intro i
    rw [Nat.testBit_or, e255, Nat.testBit_two_pow_sub_one]
    by_cases hi : i < 8
    · simp [hi]
    · have : a < 2 ^ i :=
        Nat.lt_of_lt_of_le ha (Nat.pow_le_pow_right (by norm_num) (by omega))
      simp [hi, Nat.testBit_lt_two_pow this]

theorem lanes2_or (a b c d : Nat) (ha : a < 65536) (hc : c < 65536) :
    lanes2 a b ||| lanes2 c d = lanes2 (a ||| c) (b ||| d) := by
  have := or_add_shift a b c d 16 (by omega) (by omega)
  unfold lanes2
  norm_num at this
  rw [Nat.mul_comm 65536 b, Nat.mul_comm 65536 d, Nat.mul_comm 65536 (b ||| d)]
  exact this

/-- The saturating addition of `dbcB_blp_1_c` on two packed lanes. -/
theorem lanes2_saturate (x y : Nat) (hx : x ≤ 510) (hy : y ≤ 510) :
    (lanes2 x y &&& 0x00FF00FF)
        ||| sub32 (lanes2 x y &&& u32 (0x00FF00FF <<< 8))
              ((lanes2 x y &&& u32 (0x00FF00FF <<< 8)) >>> 8)
      = lanes2 (min 255 x) (min 255 y) := by
  have em : u32 (0x00FF00FF <<< 8) = (0x00FF00FF : Nat) <<< 8 := by decide
  rw [em, and_shiftLeft_mask, lanes2_shr8_mask x y (by omega), lanes2_mask x y (by omega)]
  have e1 : lanes2 (x / 256) (y / 256 % 256) <<< 8 = lanes2 (256 * (x / 256)) (256 * (y / 256)) := by
    unfold lanes2; rw [Nat.shiftLeft_eq]; omega
  have e2 : lanes2 (256 * (x / 256)) (256 * (y / 256)) >>> 8 = lanes2 (x / 256) (y / 256) := by
    unfold lanes2; rw [Nat.shiftRight_eq_div_pow]; omega
  have e3 : sub32 (lanes2 (256 * (x / 256)) (256 * (y / 256))) (lanes2 (x / 256) (y / 256))
      = lanes2 (255 * (x / 256)) (255 * (y / 256)) := by
    unfold sub32 lanes2; omega
  rw [e1, e2, e3, lanes2_or _ _ _ _ (by omega) (by omega), carry_or x hx, carry_or y hy]

theorem lanes2_scale (b z w : Nat) (h1 : b * z ≤ 65025) (h2 : b * w ≤ 65025) :
    u32 (u32 (b * lanes2 z w) + 0x00800080) = lanes2 (b * z + 128) (b * w + 128) := by
  rw [mul_lanes2]
  unfold lanes2 u32
  generalize b * z = q at *
  generalize b * w = t at *
  omega

theorem lanes2_add (x y z w : Nat) (h1 : x + z ≤ 65535) (h2 : y + w ≤ 65535) :
    u32 (lanes2 x y + lanes2 z w) = lanes2 (x + z) (y + w) := by
  unfold lanes2 u32
  omega

theorem scale_le (d a : Nat) (hd : d < 256) : (255 - a) * d ≤ 65025 := by
  have h1 : (255 - a) * d ≤ 255 * d := Nat.mul_le_mul_right d (by omega)
  omega

/-- The 32-bit block of the premultiplied blend: scaled destination plus source, saturated. -/
theorem blp_blend32_eq (S D : Nat) (hS : S < 2 ^ 32) :
    blp_blend32 S D = pix4
      (min 255 (rdiv255 ((255 - dbcB_getb S 3) * dbcB_getb D 0) + dbcB_getb S 0))
      (min 255 (rdiv255 ((255 - dbcB_getb S 3) * dbcB_getb D 1) + dbcB_getb S 1))
      (min 255 (rdiv255 ((255 - dbcB_getb S 3) * dbcB_getb D 2) + dbcB_getb S 2))
      (min 255 (rdiv255 ((255 - dbcB_getb S 3) * dbcB_getb D 3) + dbcB_getb S 3)) := by
  have hA := getb_lt S 3
  have s0 := getb_lt S 0
  have s1 := getb_lt S 1
  have s2 := getb_lt S 2
  have b0 := scale_le (dbcB_getb D 0) (dbcB_getb S 3) (getb_lt D 0)
  have b1 := scale_le (dbcB_getb D 1) (dbcB_getb S 3) (getb_lt D 1)
  have b2 := scale_le (dbcB_getb D 2) (dbcB_getb S 3) (getb_lt D 2)
  have b3 := scale_le (dbcB_getb D 3) (dbcB_getb S 3) (getb_lt D 3)
  have r0 := rdiv255_le _ b0
  have r1 := rdiv255_le _ b1
  have r2 := rdiv255_le _ b2
  have r3 := rdiv255_le _ b3
  unfold blp_blend32
  simp only [shr24_eq_getb S hS, sub32_255 _ hA, word_even S, word_odd S, word_even D,
    word_odd D]
  rw [lanes2_scale _ _ _ b0 b2, lanes2_scale _ _ _ b1 b3]
  rw [lanes2_step _ _ (by omega) (by omega) (by omega),
    lanes2_step _ _ (by omega) (by omega) (by omega)]
  rw [blinn_div255 _ (by omega), blinn_div255 _ (by omega), blinn_div255 _ (by omega),
    blinn_div255 _ (by omega)]
  unfold rdiv255 at r0 r1 r2 r3 ⊢
  rw [lanes2_add _ _ _ _ (by omega) (by omega), lanes2_add _ _ _ _ (by omega) (by omega),
    lanes2_saturate _ _ (by omega) (by omega), lanes2_saturate _ _ (by omega) (by omega)]
  exact lanes2_interleave _ _ _ _ (by omega) (by omega) (by omega) (by omega)

theorem lanes4_or (a0 a1 a2 a3 c0 c1 c2 c3 : Nat) (ha0 : a0 < 65536) (hc0 : c0 < 65536)
    (ha1 : a1 < 65536) (hc1 : c1 < 65536) (ha2 : a2 < 65536) (hc2 : c2 < 65536) :
    lanes4 a0 a1 a2 a3 ||| lanes4 c0 c1 c2 c3
      = lanes4 (a0 ||| c0) (a1 ||| c1) (a2 ||| c2) (a3 ||| c3) := by
  have h2 := or_add_shift a2 a3 c2 c3 16 (by omega) (by omega)
  have l2 : (a2 ||| c2) < 2 ^ 16 := Nat.or_lt_two_pow (by omega) (by omega)
  have h1 := or_add_shift a1 (a2 + a3 * 2 ^ 16) c1 (c2 + c3 * 2 ^ 16) 16 (by omega) (by omega)
  have h0 := or_add_shift a0 (a1 + (a2 + a3 * 2 ^ 16) * 2 ^ 16) c0
    (c1 + (c2 + c3 * 2 ^ 16) * 2 ^ 16) 16 (by omega) (by omega)
  rw [h1, h2] at h0
  have ea : lanes4 a0 a1 a2 a3 = a0 + (a1 + (a2 + a3 * 2 ^ 16) * 2 ^ 16) * 2 ^ 16 := by
    unfold lanes4; omega
  have ec : lanes4 c0 c1 c2 c3 = c0 + (c1 + (c2 + c3 * 2 ^ 16) * 2 ^ 16) * 2 ^ 16 := by
    unfold lanes4; omega
  rw [ea, ec, h0]
  unfold lanes4
  omega

theorem lanes4_mask (x0 x1 x2 x3 : Nat) (h0 : x0 ≤ 65535) (h1 : x1 ≤ 65535) (h2 : x2 ≤ 65535) :
    lanes4 x0 x1 x2 x3 &&& 0x00FF00FF00FF00FF
      = lanes4 (x0 % 256) (x1 % 256) (x2 % 256) (x3 % 256) := by
  rw [and_00FF00FF00FF00FF]
  unfold lanes4
  have e1 : (x0 + 65536 * x1 + 4294967296 * x2 + 281474976710656 * x3) % 256 = x0 % 256 := by
    omega
  have e2 : (x0 + 65536 * x1 + 4294967296 * x2 + 281474976710656 * x3) / 65536 % 256
      = x1 % 256 := by omega
  have e3 : (x0 + 65536 * x1 + 4294967296 * x2 + 281474976710656 * x3) / 4294967296 % 256
      = x2 % 256 := by omega
  have e4 : (x0 + 65536 * x1 + 4294967296 * x2 + 281474976710656 * x3) / 281474976710656
      = x3 := by omega
  rw [e1, e2, e3, e4]

/-- The saturating addition of `dbcB_blp_1_c` on four packed lanes. -/
theorem lanes4_saturate (x0 x1 x2 x3 : Nat) (h0 : x0 ≤ 510) (h1 : x1 ≤ 510) (h2 : x2 ≤ 510)
    (h3 : x3 ≤ 510) :
    (lanes4 x0 x1 x2 x3 &&& 0x00FF00FF00FF00FF)
        ||| sub64 (lanes4 x0 x1 x2 x3 &&& u64 (0x00FF00FF00FF00FF <<< 8))
              ((lanes4 x0 x1 x2 x3 &&& u64 (0x00FF00FF00FF00FF <<< 8)) >>> 8)
      = lanes4 (min 255 x0) (min 255 x1) (min 255 x2) (min 255 x3) := by
  have em : u64 (0x00FF00FF00FF00FF <<< 8) = (0x00FF00FF00FF00FF : Nat) <<< 8 := by decide
  rw [em, and_shiftLeft_mask, lanes4_shr8_mask _ _ _ _ (by omega) (by omega) (by omega),
    lanes4_mask _ _ _ _ (by omega) (by omega) (by omega)]
  have e1 : lanes4 (x0 / 256) (x1 / 256) (x2 / 256) (x3 / 256 % 256) <<< 8
      = lanes4 (256 * (x0 / 256)) (256 * (x1 / 256)) (256 * (x2 / 256)) (256 * (x3 / 256)) := by
    unfold lanes4; rw [Nat.shiftLeft_eq]; omega
  have e2 : lanes4 (256 * (x0 / 256)) (256 * (x1 / 256)) (256 * (x2 / 256)) (256 * (x3 / 256))
      >>> 8 = lanes4 (x0 / 256) (x1 / 256) (x2 / 256) (x3 / 256) := by
    unfold lanes4; rw [Nat.shiftRight_eq_div_pow]; omega
  have e3 : sub64 (lanes4 (256 * (x0 / 256)) (256 * (x1 / 256)) (256 * (x2 / 256))
        (256 * (x3 / 256))) (lanes4 (x0 / 256) (x1 / 256) (x2 / 256) (x3 / 256))
      = lanes4 (255 * (x0 / 256)) (255 * (x1 / 256)) (255 * (x2 / 256)) (255 * (x3 / 256)) := by
    unfold sub64 lanes4; omega
  rw [e1, e2, e3, lanes4_or _ _ _ _ _ _ _ _ (by omega) (by omega) (by omega) (by omega)
    (by omega) (by omega), carry_or x0 h0, carry_or x1 h1, carry_or x2 h2, carry_or x3 h3]

theorem lanes4_scale (b z0 z1 z2 z3 : Nat) (h0 : b * z0 ≤ 65025) (h1 : b * z1 ≤ 65025)
    (h2 : b * z2 ≤ 65025) (h3 : b * z3 ≤ 65025) :
    u64 (u64 (b * lanes4 z0 z1 z2 z3) + lanes4 128 128 128 128)
      = lanes4 (b * z0 + 128) (b * z1 + 128) (b * z2 + 128) (b * z3 + 128) := by
  rw [mul_lanes4]
  unfold lanes4 u64
  generalize b * z0 = q0 at *
  generalize b * z1 = q1 at *
  generalize b * z2 = q2 at *
  generalize b * z3 = q3 at *
  omega

theorem lanes4_add (x0 x1 x2 x3 z0 z1 z2 z3 : Nat) (h0 : x0 + z0 ≤ 65535)
    (h1 : x1 + z1 ≤ 65535) (h2 : x2 + z2 ≤ 65535) (h3 : x3 + z3 ≤ 65535) :
    u64 (lanes4 x0 x1 x2 x3 + lanes4 z0 z1 z2 z3)
      = lanes4 (x0 + z0) (x1 + z1) (x2 + z2) (x3 + z3) := by
  unfold lanes4 u64
  omega

/-- The 64-bit block of the premultiplied blend: scaled destination plus source, saturated. -/
theorem blp_blend64_eq (S D : Nat) (hS : S < 2 ^ 32) :
    blp_blend64 S D = pix4
      (min 255 (rdiv255 ((255 - dbcB_getb S 3) * dbcB_getb D 0) + dbcB_getb S 0))
      (min 255 (rdiv255 ((255 - dbcB_getb S 3) * dbcB_getb D 1) + dbcB_getb S 1))
      (min 255 (rdiv255 ((255 - dbcB_getb S 3) * dbcB_getb D 2) + dbcB_getb S 2))
      (min 255 (rdiv255 ((255 - dbcB_getb S 3) * dbcB_getb D 3) + dbcB_getb S 3)) := by
  have hA := getb_lt S 3
  have s0 := getb_lt S 0
  have s1 := getb_lt S 1
  have s2 := getb_lt S 2
  have b0 := scale_le (dbcB_getb D 0) (dbcB_getb S 3) (getb_lt D 0)
  have b1 := scale_le (dbcB_getb D 1) (dbcB_getb S 3) (getb_lt D 1)
  have b2 := scale_le (dbcB_getb D 2) (dbcB_getb S 3) (getb_lt D 2)
  have b3 := scale_le (dbcB_getb D 3) (dbcB_getb S 3) (getb_lt D 3)
  have r0 := rdiv255_le _ b0
  have r1 := rdiv255_le _ b1
  have r2 := rdiv255_le _ b2
  have r3 := rdiv255_le _ b3
  unfold blp_blend64
  simp only [shr24_eq_getb S hS, sub32_255 _ hA, word_lanes4 S, word_lanes4 D, C64_mask,
    C64_half]
  rw [lanes4_scale _ _ _ _ _ b0 b2 b1 b3]
  rw [lanes4_step _ _ _ _ (by omega) (by omega) (by omega) (by omega)]
  rw [blinn_div255 _ (by omega), blinn_div255 _ (by omega), blinn_div255 _ (by omega),
    blinn_div255 _ (by omega)]
  unfold rdiv255 at r0 r1 r2 r3 ⊢
  rw [lanes4_add _ _ _ _ _ _ _ _ (by omega) (by omega) (by omega) (by omega),
    lanes4_saturate _ _ _ _ (by omega) (by omega) (by omega) (by omega)]
  exact lanes4_to_word _ _ _ _ (by omega) (by omega) (by omega) (by omega)

theorem or_mod_256 (x y : Nat) : (x ||| y) % 256 = x % 256 ||| y % 256 := by
  have e : (256 : Nat) = 2 ^ 8 := by norm_num
  rw [e]
  apply Nat.eq_of_testBit_eq
  intro i
  simp only [Nat.testBit_or, Nat.testBit_mod_two_pow]
  cases decide (i < 8) <;> simp

theorem dbcB_clp_eq (P : Platform) (s d a : Nat) (hs : s < 256) (hd : d < 256) (ha : a < 256) :
    dbcB_clp P s d a = min 255 (rdiv255 ((255 - a) * d) + s) := by
  have hb := scale_le d a hd
  have hr := rdiv255_le _ hb
  unfold dbcB_clp
  simp only [sub32_255 a ha, u32, Nat.mul_comm d (255 - a),
    Nat.mod_eq_of_lt (show (255 - a) * d < 2 ^ 32 by omega)]
  rw [div255_round_eq P _ (by omega)]
  change u8 (_ ||| _) = min 255 (rdiv255 ((255 - a) * d) + s)
  unfold rdiv255 at hr ⊢
  generalize (2 * ((255 - a) * d) + 255) / 510 = r at hr
  have e1 : (r + s) % 2 ^ 32 = r + s := Nat.mod_eq_of_lt (by omega)
  rw [e1, Nat.shiftRight_eq_div_pow]
  have e2 : ((r + s) / 2 ^ 8 * 255) % 2 ^ 32 = 255 * ((r + s) / 256) := by omega
  rw [e2, u8]
  have e3 : (2 : Nat) ^ 8 = 256 := by norm_num
  rw [e3, or_mod_256]
  have e4 : 255 * ((r + s) / 256) % 256 = 255 * ((r + s) / 256) := by omega
  rw [e4]
  exact carry_or (r + s) (by omega)

/-- Closed form of `dbcB_blp_1_c` on every platform and every path. -/
theorem dbcB_blp_1_c_eq (P : Platform) (S D : Nat) (hS : S < 2 ^ 32) (hD : D < 2 ^ 32) :
    dbcB_blp_1_c P S D = pix4
      (min 255 (rdiv255 ((255 - dbcB_getb S 3) * dbcB_getb D 0) + dbcB_getb S 0))
      (min 255 (rdiv255 ((255 - dbcB_getb S 3) * dbcB_getb D 1) + dbcB_getb S 1))
      (min 255 (rdiv255 ((255 - dbcB_getb S 3) * dbcB_getb D 2) + dbcB_getb S 2))
      (min 255 (rdiv255 ((255 - dbcB_getb S 3) * dbcB_getb D 3) + dbcB_getb S 3)) := by
  have hA := getb_lt S 3
  have s0 := getb_lt S 0
  have s1 := getb_lt S 1
  have s2 := getb_lt S 2
  unfold dbcB_blp_1_c
  split
  · rw [dbcB_clp_eq P _ _ _ s0 (getb_lt D 0) hA, dbcB_clp_eq P _ _ _ s1 (getb_lt D 1) hA,
      dbcB_clp_eq P _ _ _ s2 (getb_lt D 2) hA, dbcB_clp_eq P _ _ _ hA (getb_lt D 3) hA]
    exact dbcB_4x8to32_eq _ _ _ _ (by omega) (by omega) (by omega) (by omega)
  · split
    · split
      · exact blp_blend64_eq S D hS
      · exact blp_blend32_eq S D hS
    · rename_i h1 h2
      have hcase : dbcB_getb S 3 = 255 ∨ D = 0 := by
        rw [← shr24_eq_getb S hS, Nat.shiftRight_eq_div_pow]; omega
      have hz : rdiv255 0 = 0 := by decide
      have key : ∀ c, rdiv255 ((255 - dbcB_getb S 3) * dbcB_getb D c) = 0 := by
        intro c
        rcases hcase with e | e
        · rw [e]; simp [hz]
        · rw [e]
          have : dbcB_getb 0 c = 0 := by
            unfold dbcB_getb u8; simp
          rw [this]; simp [hz]
      rw [key 0, key 1, key 2, key 3]
      simp only [Nat.zero_add]
      rw [Nat.min_eq_right (by omega), Nat.min_eq_right (by omega), Nat.min_eq_right (by omega),
        Nat.min_eq_right (by omega)]
      exact (pix4_getb S hS).symm

/-! ## The linear multiplication -/

theorem mul_bytes_le (s d : Nat) (hs : s < 256) (hd : d < 256) : s * d ≤ 65025 := by
  have h1 : s * d ≤ 255 * d := Nat.mul_le_mul_right d (by omega)
  omega

theorem dbcB_clx_eq (P : Platform) (s d : Nat) (hs : s < 256) (hd : d < 256) :
    dbcB_clx P s d = rdiv255 (s * d) := by
  have hb := mul_bytes_le s d hs hd
  have hr := rdiv255_le _ hb
  unfold dbcB_clx
  simp only [u32, Nat.mod_eq_of_lt (show s * d < 2 ^ 32 by omega)]
  rw [div255_round_eq P _ (by omega), u8]
  unfold rdiv255 at hr ⊢
  omega

/-- Closed form of `dbcB_blx_1_c`, early exits included. -/
theorem dbcB_blx_1_c_eq (P : Platform) (S D : Nat) (hS : S < 2 ^ 32) (hD : D < 2 ^ 32) :
    dbcB_blx_1_c P S D = pix4
      (rdiv255 (dbcB_getb S 0 * dbcB_getb D 0)) (rdiv255 (dbcB_getb S 1 * dbcB_getb D 1))
      (rdiv255 (dbcB_getb S 2 * dbcB_getb D 2)) (rdiv255 (dbcB_getb S 3 * dbcB_getb D 3)) := by
  have hz : rdiv255 0 = 0 := by decide
  have g0 : ∀ c, dbcB_getb 0 c = 0 := by
    intro c; unfold dbcB_getb u8; simp
  unfold dbcB_blx_1_c
  split
  · split
    · rename_i h1 h2
      rw [h2]
      simp [g0, hz, pix4]
    · split
      · rw [dbcB_clx_eq P _ _ (getb_lt S 0) (getb_lt D 0),
          dbcB_clx_eq P _ _ (getb_lt S 1) (getb_lt D 1),
          dbcB_clx_eq P _ _ (getb_lt S 2) (getb_lt D 2),
          dbcB_clx_eq P _ _ (getb_lt S 3) (getb_lt D 3)]
        exact dbcB_4x8to32_eq _ _ _ _
          (Nat.lt_succ_of_le (rdiv255_le _ (mul_bytes_le _ _ (getb_lt S 0) (getb_lt D 0))))
          (Nat.lt_succ_of_le (rdiv255_le _ (mul_bytes_le _ _ (getb_lt S 1) (getb_lt D 1))))
          (Nat.lt_succ_of_le (rdiv255_le _ (mul_bytes_le _ _ (getb_lt S 2) (getb_lt D 2))))
          (Nat.lt_succ_of_le (rdiv255_le _ (mul_bytes_le _ _ (getb_lt S 3) (getb_lt D 3))))
      · rename_i h1 h2 h3
        have e : D = 0 := by omega
        rw [e]
        simp [g0, hz, pix4]
  · rename_i h1
    have e : S = 0xFFFFFFFF := by omega
    have g : ∀ c, c < 4 → dbcB_getb S c = 255 := by
      intro c hc
      rw [e]
      unfold dbcB_getb u8
      interval_cases c <;> decide
    rw [g 0 (by norm_num), g 1 (by norm_num), g 2 (by norm_num), g 3 (by norm_num)]
    simp only [rdiv255_mul_255]
    exact (pix4_getb D hD).symm

theorem rdiv255_round (n : Nat) : ((rdiv255 n : ℕ) : ℤ) = round ((n : ℚ) / 255) :=
  (round_div_255 n).symm

theorem rdiv255_scale_round (a d : Nat) (ha : a < 256) :
    ((rdiv255 ((255 - a) * d) : ℕ) : ℤ) = round ((d : ℚ) * (255 - a) / 255) := by
  have h := round_div_255 ((255 - a) * d)
  have e : (((255 - a) * d : ℕ) : ℚ) = (d : ℚ) * (255 - a) := by
    have : a ≤ 255 := by omega
    push_cast [Nat.cast_sub this]
    ring
  rw [e] at h
  exact h.symm

theorem rdiv255_mul_round (s d : Nat) :
    ((rdiv255 (s * d) : ℕ) : ℤ) = round ((s : ℚ) * d / 255) := by
  have h := round_div_255 (s * d)
  rw [Nat.cast_mul] at h
  exact h.symm

/-! # The claims -/

/-- C1. For all 32-bit pixels `S` and `D` the non-modulated ALPHA kernel `dbcB_bla_1_c`
leaves a 32-bit pixel whose colour bytes `c = 0, 1, 2` are
`round((Sc*Sa + Dc*(255-Sa))/255)` and whose alpha byte is
`round((255*Sa + Da*(255-Sa))/255)`, on every platform path; the rounded quotients are never
half-integers; and `0x80AABBCC` over `0x7F112233` gives `0xBF5E6F80`. -/
theorem C1_bla_1_c_rounded (P : Platform) (S D : Nat) (hS : S < 2 ^ 32) (hD : D < 2 ^ 32) :
    dbcB_bla_1_c P S D < 2 ^ 32 ∧
    (∀ c, c < 3 → (dbcB_getb (dbcB_bla_1_c P S D) c : ℤ)
        = round (((dbcB_getb S c : ℚ) * dbcB_getb S 3
            + dbcB_getb D c * (255 - dbcB_getb S 3)) / 255)) ∧
    (dbcB_getb (dbcB_bla_1_c P S D) 3 : ℤ)
        = round (((255 : ℚ) * dbcB_getb S 3 + dbcB_getb D 3 * (255 - dbcB_getb S 3)) / 255) ∧
    (∀ n : ℕ, Int.fract ((n : ℚ) / 255) ≠ 1 / 2) ∧
    dbcB_bla_1_c P 0x80AABBCC 0x7F112233 = 0xBF5E6F80 := by
  have hA := getb_lt S 3
  have b0 := blend_le (dbcB_getb S 0) (dbcB_getb D 0) _ (getb_lt S 0) (getb_lt D 0) hA
  have b1 := blend_le (dbcB_getb S 1) (dbcB_getb D 1) _ (getb_lt S 1) (getb_lt D 1) hA
  have b2 := blend_le (dbcB_getb S 2) (dbcB_getb D 2) _ (getb_lt S 2) (getb_lt D 2) hA
  have b3 := blend_le 255 (dbcB_getb D 3) _ (by norm_num) (getb_lt D 3) hA
  rw [Nat.mul_comm (dbcB_getb S 0), Nat.mul_comm (dbcB_getb D 0)] at b0
  rw [Nat.mul_comm (dbcB_getb S 1), Nat.mul_comm (dbcB_getb D 1)] at b1
  rw [Nat.mul_comm (dbcB_getb S 2), Nat.mul_comm (dbcB_getb D 2)] at b2
  rw [Nat.mul_comm 255, Nat.mul_comm (dbcB_getb D 3)] at b3
  have r0 := Nat.lt_succ_of_le (rdiv255_le _ b0)
  have r1 := Nat.lt_succ_of_le (rdiv255_le _ b1)
  have r2 := Nat.lt_succ_of_le (rdiv255_le _ b2)
  have r3 := Nat.lt_succ_of_le (rdiv255_le _ b3)
  obtain ⟨g0, g1, g2, g3⟩ := getb_pix4 _ _ _ _ r0 r1 r2 r3
  refine ⟨?_, ?_, ?_, no_tie_255, ?_⟩
  · rw [dbcB_bla_1_c_eq P S D hS hD]
    exact pix4_lt _ _ _ _ r0 r1 r2 r3
  · intro c hc
    rw [dbcB_bla_1_c_eq P S D hS hD]
    have hc' : c = 0 ∨ c = 1 ∨ c = 2 := by omega
    rcases hc' with e | e | e <;> subst e
    · rw [g0]; exact rdiv255_blend_round _ _ _ hA
    · rw [g1]; exact rdiv255_blend_round _ _ _ hA
    · rw [g2]; exact rdiv255_blend_round _ _ _ hA
  · rw [dbcB_bla_1_c_eq P S D hS hD, g3]
    have := rdiv255_blend_round (dbcB_getb S 3) 255 (dbcB_getb D 3) hA
    rw [this]
    norm_num
  · rw [dbcB_bla_1_c_eq P _ _ (by norm_num) (by norm_num)]
    decide

/-- Witness of C1 on the 64-bit path, at the pixel pair of the link test. -/
theorem C1_bla_1_c_rounded_witness :
    (0x80AABBCC < 2 ^ 32 ∧ 0x7F112233 < 2 ^ 32) ∧
    dbcB_bla_1_c Platform.lp64 0x80AABBCC 0x7F112233 < 2 ^ 32 ∧
    (dbcB_getb (dbcB_bla_1_c Platform.lp64 0x80AABBCC 0x7F112233) 3 : ℤ)
      = round (((255 : ℚ) * dbcB_getb 0x80AABBCC 3
          + dbcB_getb 0x7F112233 3 * (255 - dbcB_getb 0x80AABBCC 3)) / 255) ∧
    dbcB_bla_1_c Platform.lp64 0x80AABBCC 0x7F112233 = 0xBF5E6F80 :=
  have h := C1_bla_1_c_rounded Platform.lp64 0x80AABBCC 0x7F112233 (by norm_num) (by norm_num)
  ⟨⟨by norm_num, by norm_num⟩, h.1, h.2.2.1, h.2.2.2.2⟩

/-- C2, counterexample. Where `unsigned` has 16 bits the first branch of `dbcB_div255_round`
wraps: at `n = 65535` it returns 0, while `65535 / 255` rounds to 257. -/
theorem C2_div255_round_wraps_at_65535 :
    Platform.int16.sizeof_unsigned = 2 ∧
    dbcB_div255_round Platform.int16 65535 = 0 ∧
    round ((65535 : ℚ) / 255) = 257 := by
  refine ⟨rfl, by decide, ?_⟩
  have h := round_div_255 65535
  have e : (((2 * 65535 + 255) / 510 : ℕ) : ℤ) = 257 := by norm_num
  rw [e] at h
  exact_mod_cast h

/-- C2, amended. `dbcB_div255_round(n)` is `n / 255` rounded to the nearest integer for every
`n` in `0..65535` where `unsigned` is wider than 16 bits, and for every `n` in `0..65152`
(which contains `0..255*255`, the values the kernels pass) where `unsigned` has 16 bits. -/
theorem C2_div255_round_nearest (P : Platform) (n : Nat) (h : n ≤ 65535)
    (hP : P.sizeof_unsigned = 2 → n ≤ 65152) :
    (dbcB_div255_round P n : ℤ) = round ((n : ℚ) / 255) := by
  rw [round_div_255]
  by_cases e : P.sizeof_unsigned = 2
  · rw [div255_round_eq P n (hP e)]
  · rw [div255_round_eq_wide P n h e]

/-- Witness of C2 (amended): the top of the 16-bit range on a platform with 32-bit `unsigned`. -/
theorem C2_div255_round_nearest_witness :
    (65535 ≤ 65535 ∧ (Platform.lp64.sizeof_unsigned = 2 → 65535 ≤ 65152)) ∧
    (dbcB_div255_round Platform.lp64 65535 : ℤ) = round (((65535 : ℕ) : ℚ) / 255) :=
  ⟨⟨by norm_num, by decide⟩, C2_div255_round_nearest Platform.lp64 65535 (by norm_num) (by decide)⟩

/-- C3. For all 32-bit pixels `S` and `D` the non-modulated PMA kernel `dbcB_blp_1_c` leaves
in every byte position `c` the value `min(255, Sc + round(Dc*(255-Sa)/255))`, on every platform
path; in particular a byte sum above 255 gives exactly `0xFF` in that position. -/
theorem C3_blp_1_c_saturating (P : Platform) (S D : Nat) (hS : S < 2 ^ 32) (hD : D < 2 ^ 32) :
    dbcB_blp_1_c P S D < 2 ^ 32 ∧
    (∀ c, c < 4 → (dbcB_getb (dbcB_blp_1_c P S D) c : ℤ)
        = min 255 ((dbcB_getb S c : ℤ)
            + round ((dbcB_getb D c : ℚ) * (255 - dbcB_getb S 3) / 255))) ∧
    (∀ c, c < 4 →
        255 < (dbcB_getb S c : ℤ) + round ((dbcB_getb D c : ℚ) * (255 - dbcB_getb S 3) / 255) →
        dbcB_getb (dbcB_blp_1_c P S D) c = 0xFF) := by
  have hA := getb_lt S 3
  have key : ∀ c, c < 4 → (dbcB_getb (dbcB_blp_1_c P S D) c : ℤ)
      = min 255 ((dbcB_getb S c : ℤ)
          + round ((dbcB_getb D c : ℚ) * (255 - dbcB_getb S 3) / 255)) := by
    intro c hc
    rw [dbcB_blp_1_c_eq P S D hS hD]
    obtain ⟨g0, g1, g2, g3⟩ := getb_pix4
      (min 255 (rdiv255 ((255 - dbcB_getb S 3) * dbcB_getb D 0) + dbcB_getb S 0))
      (min 255 (rdiv255 ((255 - dbcB_getb S 3) * dbcB_getb D 1) + dbcB_getb S 1))
      (min 255 (rdiv255 ((255 - dbcB_getb S 3) * dbcB_getb D 2) + dbcB_getb S 2))
      (min 255 (rdiv255 ((255 - dbcB_getb S 3) * dbcB_getb D 3) + dbcB_getb S 3))
      (by omega) (by omega) (by omega) (by omega)
    have hc' : c = 0 ∨ c = 1 ∨ c = 2 ∨ c = 3 := by omega
    rcases hc' with e | e | e | e <;> subst e
    · rw [g0, ← rdiv255_scale_round _ _ hA]; push_cast; rw [add_comm]
    · rw [g1, ← rdiv255_scale_round _ _ hA]; push_cast; rw [add_comm]
    · rw [g2, ← rdiv255_scale_round _ _ hA]; push_cast; rw [add_comm]
    · rw [g3, ← rdiv255_scale_round _ _ hA]; push_cast; rw [add_comm]
  refine ⟨?_, key, ?_⟩
  · rw [dbcB_blp_1_c_eq P S D hS hD]
    exact pix4_lt _ _ _ _ (by omega) (by omega) (by omega) (by omega)
  · intro c hc hgt
    have h := key c hc
    rw [min_eq_left (le_of_lt hgt)] at h
    exact_mod_cast h

/-- Witness of C3: the red byte `0xCC + round(0x33*127/255)` stays below 255, the alpha byte
`0x80 + 63`, too. -/
theorem C3_blp_1_c_saturating_witness :
    (0x80AABBCC < 2 ^ 32 ∧ 0x7F112233 < 2 ^ 32) ∧
    dbcB_blp_1_c Platform.lp64 0x80AABBCC 0x7F112233 < 2 ^ 32 :=
  ⟨⟨by norm_num, by norm_num⟩,
    (C3_blp_1_c_saturating Platform.lp64 0x80AABBCC 0x7F112233 (by norm_num) (by norm_num)).1⟩

/-- C4. For all 32-bit pixels `S` and `D` the non-modulated MUL kernel `dbcB_blx_1_c` leaves
in every byte position `c` the value `round(Sc*Dc/255)`; the early exits (`S = 0xFFFFFFFF`
keeps `D`, `S = 0` stores 0, `D = 0` keeps 0) agree with that formula. -/
theorem C4_blx_1_c_rounded (P : Platform) (S D : Nat) (hS : S < 2 ^ 32) (hD : D < 2 ^ 32) :
    dbcB_blx_1_c P S D < 2 ^ 32 ∧
    (∀ c, c < 4 → (dbcB_getb (dbcB_blx_1_c P S D) c : ℤ)
        = round ((dbcB_getb S c : ℚ) * dbcB_getb D c / 255)) ∧
    dbcB_blx_1_c P 0xFFFFFFFF D = D ∧ dbcB_blx_1_c P 0 D = 0 ∧ dbcB_blx_1_c P S 0 = 0 := by
  have r0 := Nat.lt_succ_of_le (rdiv255_le _ (mul_bytes_le _ _ (getb_lt S 0) (getb_lt D 0)))
  have r1 := Nat.lt_succ_of_le (rdiv255_le _ (mul_bytes_le _ _ (getb_lt S 1) (getb_lt D 1)))
  have r2 := Nat.lt_succ_of_le (rdiv255_le _ (mul_bytes_le _ _ (getb_lt S 2) (getb_lt D 2)))
  have r3 := Nat.lt_succ_of_le (rdiv255_le _ (mul_bytes_le _ _ (getb_lt S 3) (getb_lt D 3)))
  obtain ⟨g0, g1, g2, g3⟩ := getb_pix4 _ _ _ _ r0 r1 r2 r3
  refine ⟨?_, ?_, ?_, ?_, ?_⟩
  · rw [dbcB_blx_1_c_eq P S D hS hD]
    exact pix4_lt _ _ _ _ r0 r1 r2 r3
  · intro c hc
    rw [dbcB_blx_1_c_eq P S D hS hD]
    have hc' : c = 0 ∨ c = 1 ∨ c = 2 ∨ c = 3 := by omega
    rcases hc' with e | e | e | e <;> subst e
    · rw [g0]; exact rdiv255_mul_round _ _
    · rw [g1]; exact rdiv255_mul_round _ _
    · rw [g2]; exact rdiv255_mul_round _ _
    · rw [g3]; exact rdiv255_mul_round _ _
  · unfold dbcB_blx_1_c; simp
  · unfold dbcB_blx_1_c; simp
  · unfold dbcB_blx_1_c
    split
    · split
      · assumption
      · simp
    · rfl

/-- Witness of C4 at a generic pixel pair. -/
theorem C4_blx_1_c_rounded_witness :
    (0x80AABBCC < 2 ^ 32 ∧ 0x7F112233 < 2 ^ 32) ∧
    dbcB_blx_1_c Platform.lp64 0x80AABBCC 0x7F112233 < 2 ^ 32 ∧
    dbcB_blx_1_c Platform.lp64 0xFFFFFFFF 0x7F112233 = 0x7F112233 :=
  have h := C4_blx_1_c_rounded Platform.lp64 0x80AABBCC 0x7F112233 (by norm_num) (by norm_num)
  ⟨⟨by norm_num, by norm_num⟩, h.1, h.2.2.1⟩

/-! # The blitter -/

/-! ## Frames of the kernels -/

theorem Frames.mono {K : Kernel} {n m : Nat} (h : Frames K n) (hnm : n ≤ m) : Frames K m := by
  intro src s dst d a ha
  apply h
  intro ⟨h1, h2⟩
  apply ha
  constructor
  · exact h1
  · have : (n : Int) ≤ m := by exact_mod_cast hnm
    omega

theorem frames_id (n : Nat) : Frames (fun _ _ dst _ => dst) n := by
  intro src s dst d a _
  rfl

theorem frames_pix8 (f : Nat → Nat → Nat) : Frames (pix8 f) 1 := by
  intro src s dst d a ha
  unfold pix8
  rw [Function.update_noteq]
  intro e
  apply ha
  omega

theorem frames_pix16 (big : Bool) (f : Nat → Nat → Nat) : Frames (pix16 big f) 2 := by
  intro src s dst d a ha
  unfold pix16 dbcb_store16
  split <;>
  · rw [Function.update_noteq (by omega), Function.update_noteq (by omega)]

theorem frames_pix32 (big : Bool) (f : Nat → Nat → Nat) : Frames (pix32 big f) 4 := by
  intro src s dst d a ha
  unfold pix32 dbcb_store32
  split <;>
  · rw [Function.update_noteq (by omega), Function.update_noteq (by omega),
      Function.update_noteq (by omega), Function.update_noteq (by omega)]

theorem frames_pix64 (big : Bool) (f : Nat → Nat → Nat) : Frames (pix64 big f) 8 := by
  intro src s dst d a ha
  unfold pix64 dbcb_store64
  split <;>
  · rw [Function.update_noteq (by omega), Function.update_noteq (by omega),
      Function.update_noteq (by omega), Function.update_noteq (by omega),
      Function.update_noteq (by omega), Function.update_noteq (by omega),
      Function.update_noteq (by omega), Function.update_noteq (by omega)]

theorem frames_twice (K : Kernel) (n : Nat) (h : Frames K n) : Frames (twice K n) (2 * n) := by
  intro src s dst d a ha
  unfold twice
  rw [h src (s + n) _ (d + n) a (by push_cast at ha ⊢; omega), h src s dst d a (by push_cast at ha ⊢; omega)]

theorem frames_runKernel (n : Nat) (f : List Byte → List Byte → List Byte) :
    Frames (runKernel n f) n := by
  intro src s dst d a ha
  unfold runKernel
  rw [if_neg ha]

theorem frames_ite (c : Prop) [Decidable c] (K1 K2 : Kernel) (n : Nat) (h1 : Frames K1 n)
    (h2 : Frames K2 n) : Frames (if c then K1 else K2) n := by
  split <;> assumption

theorem frames_twice4 (K : Kernel) (h : Frames K 4) : Frames (twice K 4) 8 :=
  frames_twice K 4 h
theorem frames_twice8 (K : Kernel) (h : Frames K 8) : Frames (twice K 8) 16 :=
  frames_twice K 8 h
theorem frames_twice2 (K : Kernel) (h : Frames K 2) : Frames (twice K 2) 4 :=
  frames_twice K 2 h
theorem frames_twice1 (K : Kernel) (h : Frames K 1) : Frames (twice K 1) 2 :=
  frames_twice K 1 h

/-- Every C kernel writes inside its run of `2 ^ k` pixels. -/
theorem scalarKernel_frames (env : Env) (fn : Fn) (k : Nat) (p : Params) :
    Frames (scalarKernel env fn k p) (2 ^ k * fn.pixel_size) := by
  cases fn <;> simp only [scalarKernel, Fn.pixel_size] <;>
    first
    | with_reducible exact frames_id _
    | (split <;>
        first
        | with_reducible exact frames_id _
        | (simp only [pow_zero, pow_one, Nat.reducePow, Nat.reduceMul, one_mul, mul_one]
           with_reducible repeat first
              | exact frames_pix8 _
              | exact frames_pix16 _ _
              | exact frames_pix32 _ _
              | exact frames_pix64 _ _
              | apply frames_ite
              | apply frames_twice8
              | apply frames_twice4
              | apply frames_twice2
              | apply frames_twice1))

theorem frames_lanesKernel (K1 : Kernel) (ps : Nat) (h : Frames K1 ps) :
    ∀ k, Frames (lanesKernel K1 ps k) (2 ^ k * ps) := by
  intro k
  induction k with
  | zero => simpa [lanesKernel] using h
  | succ k ih =>
    have := frames_twice _ _ ih
    rw [show 2 ^ (k + 1) * ps = 2 * (2 ^ k * ps) by ring]
    exact this

theorem storeWords_frame (big : Bool) :
    ∀ (ws : List Nat) (m : Mem) (p a : Int), ¬ (p ≤ a ∧ a < p + 4 * ws.length) →
      storeWords big ws m p a = m a := by
  intro ws
  induction ws with
  | nil => intro m p a _; rfl
  | cons w ws ih =>
    intro m p a ha
    rw [storeWords]
    simp only [List.length_cons, Nat.cast_add, Nat.cast_one] at ha
    rw [ih _ _ _ (by omega)]
    exact frames_pix32 big (fun _ _ => w) m p m p a (by omega)

theorem frames_pixN (big : Bool) (n : Nat) (f : List Nat → List Nat → List Nat) :
    Frames (pixN big n f) (4 * n) := by
  intro src s dst d a ha
  unfold pixN
  apply storeWords_frame
  have : ((f (loadWords big src n s) (loadWords big dst n d)).take n).length ≤ n :=
    List.length_take_le _ _
  push_cast at ha
  omega

theorem simdKernel_frames (env : Env) (tier : Tier) (fn : Fn) (k : Nat) (p : Params)
    (K : Kernel) (h : simdKernel env tier fn k p = some K) :
    Frames K (2 ^ k * fn.pixel_size) := by
  have hl8 : ∀ (K1 : Kernel) (j : Nat), Frames K1 1 → Frames (lanesKernel K1 1 j) (2 ^ j * 1) :=
    fun K1 j h1 => frames_lanesKernel K1 1 h1 j
  have hl16 : ∀ (K1 : Kernel) (j : Nat), Frames K1 2 → Frames (lanesKernel K1 2 j) (2 ^ j * 2) :=
    fun K1 j h1 => frames_lanesKernel K1 2 h1 j
  have hl32 : ∀ (K1 : Kernel) (j : Nat), Frames K1 4 → Frames (lanesKernel K1 4 j) (2 ^ j * 4) :=
    fun K1 j h1 => frames_lanesKernel K1 4 h1 j
  cases fn
  case f32m =>
    cases tier
    · simp [simdKernel] at h
    · rcases k with _ | k
      · simp only [simdKernel, Option.some.injEq] at h
        subst h
        exact frames_pix32 _ _
      · simp [simdKernel] at h
    · rcases k with _ | _ | k
      · simp only [simdKernel, Option.some.injEq] at h
        subst h
        exact frames_pix32 _ _
      · simp only [simdKernel, Option.some.injEq] at h
        subst h
        exact frames_twice _ 4 (frames_pix32 _ _)
      · simp [simdKernel] at h
  case flam =>
    cases tier
    · simp [simdKernel] at h
    · rcases k with _ | k
      · simp only [simdKernel, Option.some.injEq] at h
        subst h
        exact frames_pix32 _ _
      · simp [simdKernel] at h
    · rcases k with _ | _ | k
      · simp only [simdKernel, Option.some.injEq] at h
        subst h
        exact frames_pix32 _ _
      · simp only [simdKernel, Option.some.injEq] at h
        subst h
        exact frames_twice _ 4 (frames_pix32 _ _)
      · simp [simdKernel] at h
  case fla =>
    cases tier
    · simp [simdKernel] at h
    · rcases k with _ | _ | _ | k
      · simp only [simdKernel, Option.some.injEq] at h
        subst h
        exact frames_pixN _ 1 _
      · simp only [simdKernel, Option.some.injEq] at h
        subst h
        exact frames_pixN _ 2 _
      · simp only [simdKernel, Option.some.injEq] at h
        subst h
        exact frames_pixN _ 4 _
      · simp [simdKernel] at h
    · simp [simdKernel] at h
  case f8m =>
    cases tier
    · simp [simdKernel] at h
    · rcases k with _ | _ | _ | _ | _ | k <;>
        first
          | (simp [simdKernel] at h; done)
          | (simp only [simdKernel, Option.some.injEq] at h
             subst h
             exact hl8 _ _ (frames_pix8 _))
    · rcases k with _ | _ | _ | _ | _ | _ | k <;>
        first
          | (simp [simdKernel] at h; done)
          | (simp only [simdKernel, Option.some.injEq] at h
             subst h
             exact hl8 _ _ (frames_pix8 _))
  case f16m =>
    cases tier
    · simp [simdKernel] at h
    · rcases k with _ | _ | _ | _ | k <;>
        first
          | (simp [simdKernel] at h; done)
          | (simp only [simdKernel, Option.some.injEq] at h
             subst h
             exact hl16 _ _ (frames_pix16 _ _))
    · rcases k with _ | _ | _ | _ | _ | k <;>
        first
          | (simp [simdKernel] at h; done)
          | (simp only [simdKernel, Option.some.injEq] at h
             subst h
             exact hl16 _ _ (frames_pix16 _ _))
  case f5551 =>
    cases tier
    · simp [simdKernel] at h
    · rcases k with _ | _ | _ | _ | k <;>
        first
          | (simp [simdKernel] at h; done)
          | (simp only [simdKernel, Option.some.injEq] at h
             subst h
             exact hl16 _ _ (frames_pix16 _ _))
    · rcases k with _ | _ | _ | _ | _ | k <;>
        first
          | (simp [simdKernel] at h; done)
          | (simp only [simdKernel, Option.some.injEq] at h
             subst h
             exact hl16 _ _ (frames_pix16 _ _))
  case f32t =>
    cases tier
    · simp [simdKernel] at h
    · rcases k with _ | _ | _ | k <;>
        first
          | (simp [simdKernel] at h; done)
          | (simp only [simdKernel, Option.some.injEq] at h
             subst h
             exact hl32 _ _ (frames_pix32 _ _))
    · rcases k with _ | _ | _ | _ | k <;>
        first
          | (simp [simdKernel] at h; done)
          | (simp only [simdKernel, Option.some.injEq] at h
             subst h
             exact hl32 _ _ (frames_pix32 _ _))
  case f32s =>
    cases tier
    · simp [simdKernel] at h
    · rcases k with _ | _ | _ | k <;>
        first
          | (simp [simdKernel] at h; done)
          | (simp only [simdKernel, Option.some.injEq] at h
             subst h
             exact hl32 _ _ (frames_pix32 _ _))
    · rcases k with _ | _ | _ | _ | k <;>
        first
          | (simp [simdKernel] at h; done)
          | (simp only [simdKernel, Option.some.injEq] at h
             subst h
             exact hl32 _ _ (frames_pix32 _ _))
  all_goals simp [simdKernel] at h

theorem kernelOf_frames (env : Env) (tier : Tier) (fn : Fn) (k : Nat) (p : Params) :
    Frames (kernelOf env tier fn k p) (2 ^ k * fn.pixel_size) := by
  unfold kernelOf
  cases tier
  · exact scalarKernel_frames env fn k p
  · simp only
    split
    · exact scalarKernel_frames env fn k p
    · split
      · rename_i K hK
        exact simdKernel_frames env _ fn k p K hK
      · exact frames_runKernel _ _
  · simp only
    split
    · exact scalarKernel_frames env fn k p
    · split
      · rename_i K hK
        exact simdKernel_frames env _ fn k p K hK
      · exact frames_runKernel _ _

/-! ## Sequences of operations -/

theorem execOps_nil (kern : Nat → Kernel) (src dst : Mem) : execOps kern src [] dst = dst := rfl

theorem execOps_cons (kern : Nat → Kernel) (src dst : Mem) (op : Op) (ops : List Op) :
    execOps kern src (op :: ops) dst = execOps kern src ops (execOp kern src dst op) := rfl

theorem execOps_append (kern : Nat → Kernel) (src dst : Mem) (ops1 ops2 : List Op) :
    execOps kern src (ops1 ++ ops2) dst
      = execOps kern src ops2 (execOps kern src ops1 dst) := by
  unfold execOps
  rw [List.foldl_append]

/-- An operation changes no byte outside the range it may write. -/
theorem execOp_frame (kern : Nat → Kernel) (ps : Nat) (hk : ∀ k, Frames (kern k) (2 ^ k * ps))
    (src dst : Mem) (op : Op) (a : Int) (h : ¬ opWrites ps op a) :
    execOp kern src dst op a = dst a := by
  cases op with
  | copy d s n =>
    simp only [opWrites] at h
    simp only [execOp, dbcb_memcpy]
    rw [if_neg h]
  | call k s d =>
    simp only [opWrites] at h
    simp only [execOp]
    exact hk k src s dst d a h

/-- A sequence of operations changes no byte outside the ranges they may write. -/
theorem execOps_frame (kern : Nat → Kernel) (ps : Nat) (hk : ∀ k, Frames (kern k) (2 ^ k * ps))
    (src : Mem) (a : Int) :
    ∀ (ops : List Op) (dst : Mem), (∀ op ∈ ops, ¬ opWrites ps op a) →
      execOps kern src ops dst a = dst a := by
  intro ops
  induction ops with
  | nil => intro dst _; rfl
  | cons op ops ih =>
    intro dst h
    rw [execOps_cons, ih _ (fun o ho => h o (List.mem_cons_of_mem _ ho)),
      execOp_frame kern ps hk src dst op a (h op (List.mem_cons_self _ _))]

/-! ## Shape of the operation lists -/

theorem mem_rowsFrom (row : Int → Int → List Op) (ss ds : Int) (op : Op) :
    ∀ (n : Nat) (s d : Int), op ∈ rowsFrom row ss ds n s d →
      ∃ i : Nat, i < n ∧ op ∈ row (s + i * ss) (d + i * ds) := by
  intro n
  induction n with
  | zero => intro s d h; simp [rowsFrom] at h
  | succ n ih =>
    intro s d h
    rw [rowsFrom, List.mem_append] at h
    rcases h with h | h
    · exact ⟨0, by omega, by simpa using h⟩
    · obtain ⟨i, hi, hm⟩ := ih _ _ h
      refine ⟨i + 1, by omega, ?_⟩
      have e1 : s + ((i + 1 : Nat) : Int) * ss = s + ss + i * ss := by push_cast; ring
      have e2 : d + ((i + 1 : Nat) : Int) * ds = d + ds + i * ds := by push_cast; ring
      rw [e1, e2]
      exact hm

theorem mem_emitRuns (ps : Nat) (op : Op) :
    ∀ (js : List Nat) (s d : Int), op ∈ emitRuns ps js s d →
      ∃ j off : Nat, op = Op.call j (s + off * ps) (d + off * ps) ∧ off + 2 ^ j ≤ runsTotal js := by
  intro js
  induction js with
  | nil => intro s d h; simp [emitRuns] at h
  | cons j js ih =>
    intro s d h
    rw [emitRuns, List.mem_cons] at h
    rcases h with h | h
    · refine ⟨j, 0, ?_, ?_⟩
      · simpa using h
      · simp [runsTotal]
    · obtain ⟨j', off, he, hle⟩ := ih _ _ h
      refine ⟨j', 2 ^ j + off, ?_, ?_⟩
      · rw [he]
        push_cast
        congr 1 <;> ring
      · simp only [runsTotal]
        omega

theorem runsTotal_append (a b : List Nat) : runsTotal (a ++ b) = runsTotal a + runsTotal b := by
  induction a with
  | nil => simp [runsTotal]
  | cons j js ih =>
    show runsTotal (j :: (js ++ b)) = runsTotal (j :: js) + runsTotal b
    simp only [runsTotal, ih]; omega

theorem runsTotal_replicate (n k : Nat) : runsTotal (List.replicate n k) = n * 2 ^ k := by
  induction n with
  | zero => simp [runsTotal]
  | succ n ih => simp only [List.replicate_succ, runsTotal, ih]; ring

theorem runsTotal_expandSlot (k j : Nat) : runsTotal (expandSlot k j) = 2 ^ j := by
  unfold expandSlot
  split
  · simp [runsTotal]
  · rename_i h
    rw [runsTotal_replicate, ← pow_add]
    congr 1
    omega

theorem runsTotal_switchRuns_le (k w : Nat) : runsTotal (switchRuns k w) ≤ w := by
  have key : ∀ l : List Nat, runsTotal (l.foldr (fun j acc => expandSlot k j ++ acc) [])
      = runsTotal l := by
    intro l
    induction l with
    | nil => rfl
    | cons j js ih =>
      simp only [List.foldr_cons, runsTotal_append, runsTotal_expandSlot, ih, runsTotal]
  unfold switchRuns
  rw [key]
  by_cases h : w ≤ 32
  · interval_cases w <;> simp [switchSlots, runsTotal]
  · have : switchSlots w = [] := by
      unfold switchSlots
      split <;> first | omega | rfl
    rw [this]
    simp [runsTotal]

theorem and_two_pow_cases (w k : Nat) :
    (w &&& 2 ^ k = 0 ∧ w / 2 ^ k % 2 = 0) ∨ (w &&& 2 ^ k = 2 ^ k ∧ w / 2 ^ k % 2 = 1) := by
  rw [Nat.and_two_pow, Nat.testBit_to_div_mod]
  by_cases h : w / 2 ^ k % 2 = 1
  · right; simp [h]
  · left
    have : w / 2 ^ k % 2 = 0 := by omega
    simp [this]

theorem runsTotal_loop_tail (w : Nat) :
    ∀ k, runsTotal ((List.range k).reverse.filter (fun j => w &&& 2 ^ j ≠ 0)) = w % 2 ^ k := by
  intro k
  induction k with
  | zero => simp [runsTotal, Nat.mod_one]
  | succ k ih =>
    rw [List.range_succ, List.reverse_append, List.reverse_singleton, List.singleton_append,
      List.filter_cons, Nat.mod_pow_succ]
    have hpos : 0 < 2 ^ k := Nat.pow_pos (by norm_num)
    rcases and_two_pow_cases w k with ⟨h1, h2⟩ | ⟨h1, h2⟩
    · simp only [h1, ne_eq, not_true_eq_false, decide_False, Bool.false_eq_true, ↓reduceIte, ih, h2]
      omega
    · have hne : w &&& 2 ^ k ≠ 0 := by omega
      simp only [hne, ne_eq, not_false_eq_true, decide_True, ↓reduceIte, runsTotal, ih, h2]
      omega

/-- The runs of the generic loop add up to the width of the row. -/
theorem runsTotal_loopRuns (k w : Nat) : runsTotal (loopRuns k w) = w := by
  unfold loopRuns
  rw [runsTotal_append, runsTotal_replicate, runsTotal_loop_tail, Nat.shiftRight_eq_div_pow]
  exact Nat.div_add_mod' w (2 ^ k)

/-- A kernel call emitted for a row of `w` pixels writes inside the `w * ps` bytes of the row. -/
theorem emitRuns_writes (ps : Nat) (js : List Nat) (w : Nat) (hjs : runsTotal js ≤ w)
    (s d : Int) (op : Op) (a : Int) (hop : op ∈ emitRuns ps js s d) (hw : opWrites ps op a) :
    d ≤ a ∧ a < d + w * ps := by
  obtain ⟨j, off, he, hle⟩ := mem_emitRuns ps op js s d hop
  subst he
  simp only [opWrites] at hw
  obtain ⟨h1, h2⟩ := hw
  have h3 : ((off + 2 ^ j : Nat) : Int) * ps ≤ (w : Int) * ps := by
    apply mul_le_mul_of_nonneg_right
    · exact_mod_cast (le_trans hle hjs)
    · exact_mod_cast Nat.zero_le ps
  have h4 : (0 : Int) ≤ (off : Int) * ps := by positivity
  push_cast at h2 h3
  constructor
  · omega
  · have : ((off : Int) + 2 ^ j) * ps = off * ps + 2 ^ j * ps := by ring
    rw [this] at h3
    omega

/-- Every byte a row driver may write belongs to a row of the clipped rectangle. -/
theorem driver_writes (env : Env) (tier : Tier) (fn : Fn)
    (src_stride dst_stride x0 y0 x1 y1 x y : Int) (op : Op) (a : Int)
    (hop : op ∈ driver env tier fn src_stride dst_stride x0 y0 x1 y1 x y)
    (hw : opWrites fn.pixel_size op a) :
    ∃ iy : Nat, (iy : Int) < y1 - y0 ∧
      (y0 + y + iy) * dst_stride + (x0 + x) * fn.pixel_size ≤ a ∧
      a < (y0 + y + iy) * dst_stride + (x0 + x) * fn.pixel_size + (x1 - x0) * fn.pixel_size := by
  unfold driver at hop
  simp only at hop
  split at hop
  · simp at hop
  · rename_i hwh
    have hwpos : 0 < x1 - x0 := by omega
    have hhpos : 0 < y1 - y0 := by omega
    have hwn : (((x1 - x0).toNat : Nat) : Int) = x1 - x0 := Int.toNat_of_nonneg (by omega)
    have hhn : (((y1 - y0).toNat : Nat) : Int) = y1 - y0 := Int.toNat_of_nonneg (by omega)
    have rowcase : ∀ (row : Int → Int → List Op),
        (∀ s d o, o ∈ row s d → opWrites fn.pixel_size o a →
          d ≤ a ∧ a < d + (x1 - x0) * fn.pixel_size) →
        op ∈ rowsFrom row src_stride dst_stride (y1 - y0).toNat
          (y0 * src_stride + x0 * fn.pixel_size)
          ((y0 + y) * dst_stride + (x0 + x) * fn.pixel_size) →
        ∃ iy : Nat, (iy : Int) < y1 - y0 ∧
          (y0 + y + iy) * dst_stride + (x0 + x) * fn.pixel_size ≤ a ∧
          a < (y0 + y + iy) * dst_stride + (x0 + x) * fn.pixel_size
            + (x1 - x0) * fn.pixel_size := by
      intro row hrow hmem
      obtain ⟨i, hi, hm⟩ := mem_rowsFrom row _ _ op _ _ _ hmem
      have := hrow _ _ op hm hw
      refine ⟨i, by omega, ?_⟩
      have e : (y0 + y + i) * dst_stride + (x0 + x) * fn.pixel_size
          = (y0 + y) * dst_stride + (x0 + x) * fn.pixel_size + i * dst_stride := by ring
      rw [e]
      exact this
    split at hop
    · apply rowcase _ _ hop
      intro s d o ho how
      simp only [List.mem_singleton] at ho
      subst ho
      simp only [opWrites] at how
      have hle : (u32 ((x1 - x0) * fn.pixel_size).toNat : Int) ≤ (x1 - x0) * fn.pixel_size := by
        have h1 : u32 ((x1 - x0) * fn.pixel_size).toNat ≤ ((x1 - x0) * fn.pixel_size).toNat :=
          Nat.mod_le _ _
        have h2 : ((((x1 - x0) * fn.pixel_size).toNat : Nat) : Int) = (x1 - x0) * fn.pixel_size :=
          Int.toNat_of_nonneg (by positivity)
        rw [← h2]
        exact_mod_cast h1
      omega
    · split at hop
      · apply rowcase _ _ hop
        intro s d o ho how
        have := emitRuns_writes _ _ (x1 - x0).toNat (runsTotal_switchRuns_le _ _) s d o a ho how
        rw [hwn] at this
        exact this
      · apply rowcase _ _ hop
        intro s d o ho how
        have := emitRuns_writes _ _ (x1 - x0).toNat (le_of_eq (runsTotal_loopRuns _ _)) s d o a
          ho how
        rw [hwn] at this
        exact this

/-! ## The dispatcher -/

theorem selectFn_pixel_size (mode : Int) (m a : Bool) (fn : Fn)
    (h : selectFn mode m a = some fn) : fn.pixel_size = modePixelSize mode := by
  by_cases hm : 0 ≤ mode ∧ mode ≤ 11
  · obtain ⟨h0, h1⟩ := hm
    interval_cases mode <;> cases m <;> cases a <;> simp [selectFn] at h <;> subst h <;> rfl
  · have : selectFn mode m a = none := by
      unfold selectFn
      have n0 : ¬ mode = 0 := by omega
      have n1 : ¬ mode = 1 := by omega
      have n2 : ¬ mode = 2 := by omega
      have n3 : ¬ mode = 3 := by omega
      have n4 : ¬ mode = 4 := by omega
      have n5 : ¬ mode = 5 := by omega
      have n6 : ¬ mode = 6 := by omega
      have n7 : ¬ mode = 7 := by omega
      have n8 : ¬ mode = 8 := by omega
      have n9 : ¬ mode = 9 := by omega
      have n10 : ¬ mode = 10 := by omega
      have n11 : ¬ mode = 11 := by omega
      simp [n0, n1, n2, n3, n4, n5, n6, n7, n8, n9, n10, n11]
    rw [this] at h
    simp at h

/-- What a launch of `dbc_blit` consists of. -/
theorem launch_some (env : Env) (src_w src_h dst_w dst_h x y : Int) (color : Option Color)
    (mode : Int) (L : Launch)
    (h : dbc_blit_launch env src_w src_h dst_w dst_h x y color mode = some L) :
    L.fn.pixel_size = modePixelSize mode ∧ L.x0 = clip_lo x ∧ L.x1 = clip_hi x src_w dst_w ∧
    L.y0 = clip_lo y ∧ L.y1 = clip_hi y src_h dst_h := by
  unfold dbc_blit_launch at h
  split at h
  · simp at h
  · simp only at h
    split at h
    · simp at h
    · split at h
      · simp at h
      · rename_i fn hfn
        injection h with h
        subst h
        exact ⟨selectFn_pixel_size _ _ _ _ hfn, rfl, rfl, rfl, rfl⟩

theorem clip_x (x src_w dst_w : Int) :
    clip_lo x + x = max 0 x ∧ clip_hi x src_w dst_w + x = min dst_w (x + src_w) := by
  unfold clip_lo clip_hi
  constructor
  · split <;> omega
  · split <;> omega

/-- A call of `dbc_blit` changes no destination byte outside the image of the clipped
rectangle. -/
theorem dbc_blit_frame (env : Env) (src_w src_h src_stride : Int) (src : Mem)
    (dst_w dst_h dst_stride : Int) (dst : Mem) (x y : Int) (color : Option Color) (mode : Int)
    (a : Int)
    (hout : ¬ inBlitRect src_w src_h dst_w dst_h dst_stride x y (modePixelSize mode) a) :
    dbc_blit env src_w src_h src_stride src dst_w dst_h dst_stride dst x y color mode a
      = dst a := by
  unfold dbc_blit dbc_blit_ops dbc_blit_kernel
  cases hL : dbc_blit_launch env src_w src_h dst_w dst_h x y color mode with
  | none => rfl
  | some L =>
    simp only
    obtain ⟨hps, hx0, hx1, hy0, hy1⟩ := launch_some _ _ _ _ _ _ _ _ _ L hL
    apply execOps_frame _ L.fn.pixel_size (fun k => kernelOf_frames env L.tier L.fn k _)
    intro op hop hw
    obtain ⟨iy, hiy, hlo, hhi⟩ := driver_writes _ _ _ _ _ _ _ _ _ _ _ op a hop hw
    apply hout
    have hpos : 0 < L.fn.pixel_size := by
      cases L.fn <;> simp [Fn.pixel_size]
    rw [hps] at hlo hhi hpos
    rw [hx0, hy0] at hlo hhi
    rw [hx1] at hhi
    rw [hy0, hy1] at hiy
    obtain ⟨cx0, cx1⟩ := clip_x x src_w dst_w
    obtain ⟨cy0, cy1⟩ := clip_x y src_h dst_h
    generalize modePixelSize mode = ps at *
    have hpsI : (0 : Int) < ps := by exact_mod_cast hpos
    set t := a - ((clip_lo y + y + iy) * dst_stride + (clip_lo x + x) * ps) with ht
    have ht0 : 0 ≤ t := by omega
    have ht1 : t < (clip_hi x src_w dst_w - clip_lo x) * ps := by omega
    refine ⟨clip_lo x + x + t / ps, clip_lo y + y + iy, t % ps, ?_, ?_, ?_, ?_, ?_, ?_, ?_⟩
    · rw [← cx0]
      have : 0 ≤ t / ps := Int.ediv_nonneg ht0 (le_of_lt hpsI)
      omega
    · rw [← cx1]
      have : t / ps < clip_hi x src_w dst_w - clip_lo x :=
        Int.ediv_lt_of_lt_mul hpsI ht1
      omega
    · rw [← cy0]; omega
    · rw [← cy1]; omega
    · exact Int.emod_nonneg _ (ne_of_gt hpsI)
    · exact Int.emod_lt_of_pos _ hpsI
    · have hdm := Int.ediv_add_emod t ps
      have e : (clip_lo x + x + t / ps) * ps = (clip_lo x + x) * ps + ps * (t / ps) := by ring
      rw [e]
      omega

/-! ## Rows copied by `dbcb_memcpy` -/

/-- A sequence of operations none of which changes the byte at `a` leaves it unchanged. -/
theorem execOps_unchanged (kern : Nat → Kernel) (src : Mem) (a : Int) :
    ∀ (ops : List Op) (dst : Mem), (∀ op ∈ ops, ∀ m : Mem, execOp kern src m op a = m a) →
      execOps kern src ops dst a = dst a := by
  intro ops
  induction ops with
  | nil => intro dst _; rfl
  | cons op ops ih =>
    intro dst h
    rw [execOps_cons, ih _ (fun o ho => h o (List.mem_cons_of_mem _ ho)),
      h op (List.mem_cons_self _ _)]

/-- Rows of `n` bytes copied with a destination stride of at least `n`: every byte of every
row holds the corresponding source byte afterwards. -/
theorem execOps_copy_rows (kern : Nat → Kernel) (src : Mem) (ss ds : Int) (n : Nat)
    (hn : (n : Int) ≤ ds) :
    ∀ (h : Nat) (s d : Int) (dst : Mem) (i : Nat) (t : Int), i < h → 0 ≤ t → t < n →
      execOps kern src (rowsFrom (fun s d => [Op.copy d s n]) ss ds h s d) dst
        (d + i * ds + t) = src (s + i * ss + t) := by
  intro h
  induction h with
  | zero => intro s d dst i t hi; omega
  | succ h ih =>
    intro s d dst i t hi ht0 ht1
    rw [rowsFrom, execOps_append]
    cases i with
    | zero =>
      rw [execOps_unchanged]
      · simp only [execOps, List.foldl_cons, List.foldl_nil, execOp, dbcb_memcpy]
        rw [if_pos (by push_cast; omega)]
        congr 1
        push_cast
        ring
      · intro op hop m
        obtain ⟨j, _, hm⟩ := mem_rowsFrom _ _ _ _ _ _ _ hop
        simp only [List.mem_singleton] at hm
        subst hm
        simp only [execOp, dbcb_memcpy]
        have : (0 : Int) ≤ j * ds := by
          apply mul_nonneg
          · exact_mod_cast Nat.zero_le j
          · omega
        rw [if_neg (by push_cast; omega)]
    | succ i =>
      have := ih (s + ss) (d + ds) (execOps kern src [Op.copy d s n] dst) i t (by omega) ht0 ht1
      have e1 : d + ((i + 1 : Nat) : Int) * ds + t = d + ds + i * ds + t := by push_cast; ring
      have e2 : s + ((i + 1 : Nat) : Int) * ss + t = s + ss + i * ss + t := by push_cast; ring
      rw [e1, e2]
      exact this

/-- For a plain copy `dbc_blit` launches `dbcB_f32_*` with a null `color`. -/
theorem launch_copy (env : Env) (src_w src_h dst_w dst_h x y : Int) :
    dbc_blit_launch env src_w src_h dst_w dst_h x y none 0
      = some ⟨selectTier env 0 false, Fn.f32, none, clip_lo x, clip_lo y,
          clip_hi x src_w dst_w, clip_hi y src_h dst_h⟩ := by
  simp [dbc_blit_launch, modulatedFlags, selectFn]

/-- For a gamma-corrected copy without color `dbc_blit` launches `dbcB_f32c_*`. -/
theorem launch_cpyg (env : Env) (src_w src_h dst_w dst_h x y : Int) :
    dbc_blit_launch env src_w src_h dst_w dst_h x y none 11
      = some ⟨selectTier env 11 false, Fn.f32c, none, clip_lo x, clip_lo y,
          clip_hi x src_w dst_w, clip_hi y src_h dst_h⟩ := by
  simp [dbc_blit_launch, modulatedFlags, selectFn]

/-- A `DBCB_DEF_FN_0` driver copies the rows of the clipped rectangle. -/
theorem driver_copy (env : Env) (tier : Tier) (fn : Fn) (hfn : fnTop tier fn = none)
    (src_stride dst_stride x0 y0 x1 y1 x y : Int) (hw : 0 < x1 - x0) (hh : 0 < y1 - y0) :
    driver env tier fn src_stride dst_stride x0 y0 x1 y1 x y
      = rowsFrom (fun s d => [Op.copy d s (u32 ((x1 - x0) * fn.pixel_size).toNat)])
          src_stride dst_stride (y1 - y0).toNat (y0 * src_stride + x0 * fn.pixel_size)
          ((y0 + y) * dst_stride + (x0 + x) * fn.pixel_size) := by
  unfold driver
  simp only
  rw [if_neg (by omega), hfn]

/-- Effect of a plain copy on the pixels of the image of the clipped rectangle. -/
theorem dbc_blit_copy_region (env : Env) (src_w src_h src_stride : Int) (src : Mem)
    (dst_w dst_h dst_stride : Int) (dst : Mem) (x y : Int) (mode : Int)
    (hm : mode = 0 ∨ mode = 11) (hd : dst_w * 4 ≤ dst_stride) (hds : dst_stride < 2 ^ 31)
    (X Y b : Int) (hX0 : max 0 x ≤ X) (hX1 : X < min dst_w (x + src_w)) (hY0 : max 0 y ≤ Y)
    (hY1 : Y < min dst_h (y + src_h)) (hb0 : 0 ≤ b) (hb1 : b < 4) :
    dbc_blit env src_w src_h src_stride src dst_w dst_h dst_stride dst x y none mode
        (Y * dst_stride + X * 4 + b)
      = src ((Y - y) * src_stride + (X - x) * 4 + b) := by
  obtain ⟨cx0, cx1⟩ := clip_x x src_w dst_w
  obtain ⟨cy0, cy1⟩ := clip_x y src_h dst_h
  have hw : 0 < clip_hi x src_w dst_w - clip_lo x := by omega
  have hh : 0 < clip_hi y src_h dst_h - clip_lo y := by omega
  have hwle : (clip_hi x src_w dst_w - clip_lo x) * 4 ≤ dst_stride := by
    have : clip_hi x src_w dst_w - clip_lo x ≤ dst_w := by
      have h1 : (0 : Int) ≤ max 0 x := le_max_left _ _
      have h2 : min dst_w (x + src_w) ≤ dst_w := min_le_left _ _
      omega
    omega
  have key : ∀ (tier : Tier) (fn : Fn) (kern : Nat → Kernel), fnTop tier fn = none →
      fn.pixel_size = 4 →
      execOps kern src (driver env tier fn src_stride dst_stride (clip_lo x) (clip_lo y)
        (clip_hi x src_w dst_w) (clip_hi y src_h dst_h) x y) dst (Y * dst_stride + X * 4 + b)
      = src ((Y - y) * src_stride + (X - x) * 4 + b) := by
    intro tier fn kern hfn hps
    rw [driver_copy env tier fn hfn _ _ _ _ _ _ _ _ hw hh, hps]
    have hn : ((clip_hi x src_w dst_w - clip_lo x) * ((4 : Nat) : Int)).toNat
        = ((clip_hi x src_w dst_w - clip_lo x) * 4).toNat := by norm_num
    have hcast : ((((clip_hi x src_w dst_w - clip_lo x) * 4).toNat : Nat) : Int)
        = (clip_hi x src_w dst_w - clip_lo x) * 4 := Int.toNat_of_nonneg (by omega)
    have hu : u32 ((clip_hi x src_w dst_w - clip_lo x) * ((4 : Nat) : Int)).toNat
        = ((clip_hi x src_w dst_w - clip_lo x) * 4).toNat := by
      rw [hn, u32]
      apply Nat.mod_eq_of_lt
      have : ((((clip_hi x src_w dst_w - clip_lo x) * 4).toNat : Nat) : Int) < 2 ^ 32 := by
        rw [hcast]; omega
      exact_mod_cast this
    rw [hu]
    have hi : (((Y - (clip_lo y + y)).toNat : Nat) : Int) = Y - (clip_lo y + y) :=
      Int.toNat_of_nonneg (by omega)
    have hrows := execOps_copy_rows kern src src_stride dst_stride
      ((clip_hi x src_w dst_w - clip_lo x) * 4).toNat (by rw [hcast]; exact hwle)
      (clip_hi y src_h dst_h - clip_lo y).toNat
      (clip_lo y * src_stride + clip_lo x * ((4 : Nat) : Int))
      ((clip_lo y + y) * dst_stride + (clip_lo x + x) * ((4 : Nat) : Int)) dst
      (Y - (clip_lo y + y)).toNat ((X - (clip_lo x + x)) * 4 + b)
      (by
        have : (((Y - (clip_lo y + y)).toNat : Nat) : Int)
            < (((clip_hi y src_h dst_h - clip_lo y).toNat : Nat) : Int) := by
          rw [hi, Int.toNat_of_nonneg (by omega)]; omega
        exact_mod_cast this)
      (by omega) (by rw [hcast]; omega)
    rw [hi] at hrows
    have e1 : (clip_lo y + y) * dst_stride + (clip_lo x + x) * ((4 : Nat) : Int)
        + (Y - (clip_lo y + y)) * dst_stride + ((X - (clip_lo x + x)) * 4 + b)
        = Y * dst_stride + X * 4 + b := by push_cast; ring
    have e2 : clip_lo y * src_stride + clip_lo x * ((4 : Nat) : Int)
        + (Y - (clip_lo y + y)) * src_stride + ((X - (clip_lo x + x)) * 4 + b)
        = (Y - y) * src_stride + (X - x) * 4 + b := by push_cast; ring
    rw [e1, e2] at hrows
    exact hrows
  unfold dbc_blit dbc_blit_ops dbc_blit_kernel
  rcases hm with e | e <;> subst e
  · rw [launch_copy]
    exact key _ _ _ (by simp only [fnTop]) rfl
  · rw [launch_cpyg]
    exact key _ _ _ (by simp only [fnTop]) rfl

/-! ## Calls that do nothing -/

/-- Without memory operations the destination is the one passed in. -/
theorem dbc_blit_of_ops_nil (env : Env) (src_w src_h src_stride : Int) (src : Mem)
    (dst_w dst_h dst_stride : Int) (dst : Mem) (x y : Int) (color : Option Color) (mode : Int)
    (h : dbc_blit_ops env src_w src_h src_stride dst_w dst_h dst_stride x y color mode = []) :
    dbc_blit env src_w src_h src_stride src dst_w dst_h dst_stride dst x y color mode = dst := by
  unfold dbc_blit
  rw [h]
  rfl

/-- A driver entered with an empty rectangle returns from `DBCB_FN_HEADER`. -/
theorem driver_empty (env : Env) (tier : Tier) (fn : Fn)
    (src_stride dst_stride x0 y0 x1 y1 x y : Int) (h : x1 ≤ x0 ∨ y1 ≤ y0) :
    driver env tier fn src_stride dst_stride x0 y0 x1 y1 x y = [] := by
  unfold driver
  simp only
  rw [if_pos (by omega)]

/-- An empty clipped rectangle gives no memory operation. -/
theorem dbc_blit_ops_empty (env : Env) (src_w src_h src_stride dst_w dst_h dst_stride x y : Int)
    (color : Option Color) (mode : Int)
    (h : clip_hi x src_w dst_w ≤ clip_lo x ∨ clip_hi y src_h dst_h ≤ clip_lo y) :
    dbc_blit_ops env src_w src_h src_stride dst_w dst_h dst_stride x y color mode = [] := by
  unfold dbc_blit_ops
  cases hL : dbc_blit_launch env src_w src_h dst_w dst_h x y color mode with
  | none => rfl
  | some L =>
    obtain ⟨_, hx0, hx1, hy0, hy1⟩ := launch_some _ _ _ _ _ _ _ _ _ L hL
    simp only
    apply driver_empty
    rw [hx0, hx1, hy0, hy1]
    exact h

/-- A mode outside `DBCB_MODE_COPY..DBCB_MODE_CPYG` launches nothing. -/
theorem launch_bad_mode (env : Env) (src_w src_h dst_w dst_h x y : Int) (color : Option Color)
    (mode : Int) (h : mode < 0 ∨ mode > 11) :
    dbc_blit_launch env src_w src_h dst_w dst_h x y color mode = none := by
  unfold dbc_blit_launch
  rw [if_pos h]

/-- The flags of `dbc_blit` for the color `{1,1,1,1}` in a non-key 32-bit mode are those of a
null color. -/
theorem modulatedFlags_ones (mode : Int)
    (hm : mode = 0 ∨ mode = 1 ∨ mode = 2 ∨ mode = 3 ∨ mode = 4 ∨ mode = 8 ∨ mode = 9
      ∨ mode = 11) :
    modulatedFlags mode (some (fun _ => F32.fin 1)) = modulatedFlags mode none := by
  rcases hm with e | e | e | e | e | e | e | e <;> subst e <;>
    simp [modulatedFlags, F32.eq]

/-- The launch of `dbc_blit` for the color `{1,1,1,1}` in a non-key 32-bit mode is that for a
null color. -/
theorem launch_ones (env : Env) (src_w src_h dst_w dst_h x y : Int) (mode : Int)
    (hm : mode = 0 ∨ mode = 1 ∨ mode = 2 ∨ mode = 3 ∨ mode = 4 ∨ mode = 8 ∨ mode = 9
      ∨ mode = 11) :
    dbc_blit_launch env src_w src_h dst_w dst_h x y (some (fun _ => F32.fin 1)) mode
      = dbc_blit_launch env src_w src_h dst_w dst_h x y none mode := by
  have hf := modulatedFlags_ones mode hm
  have h10 : mode ≠ 10 := by omega
  unfold dbc_blit_launch
  rw [hf]
  simp [h10, modulatedFlags]

/-- The 2x2 source at (-1,-1) on a 4x4 destination: the image of the clipped rectangle is
destination pixel (0,0). -/
theorem inBlitRect_corner (dst_stride a : Int) :
    inBlitRect 2 2 4 4 dst_stride (-1) (-1) 4 a ↔ 0 ≤ a ∧ a < 4 := by
  unfold inBlitRect
  constructor
  · rintro ⟨X, Y, b, h1, h2, h3, h4, h5, h6, h7⟩
    have hX : X = 0 := by
      have e1 : max (0 : Int) (-1) = 0 := by decide
      have e2 : min (4 : Int) (-1 + 2) = 1 := by decide
      rw [e1] at h1; rw [e2] at h2; omega
    have hY : Y = 0 := by
      have e1 : max (0 : Int) (-1) = 0 := by decide
      have e2 : min (4 : Int) (-1 + 2) = 1 := by decide
      rw [e1] at h3; rw [e2] at h4; omega
    subst hX hY
    push_cast at h6
    omega
  · rintro ⟨h0, h1⟩
    exact ⟨0, 0, a, by decide, by decide, by decide, by decide, h0, by push_cast; omega,
      by ring⟩

/-! # The claims about clipping and dispatch -/

/-- C5. For COPY and CPYG with a null color, every surface size, every placement and a
destination stride of at least `dst_w*4` bytes (an `int`, so below `2^31`): after `dbc_blit`
every byte `b` of every destination pixel `(X, Y)` with `max(0,x) <= X < min(dst_w, x+src_w)`
and `max(0,y) <= Y < min(dst_h, y+src_h)` holds byte `b` of source pixel `(X-x, Y-y)`, and
every destination byte outside these pixels is unchanged; a 2x2 source placed at (-1,-1) on a
4x4 destination replaces destination pixel (0,0) by source pixel (1,1) and nothing else. -/
theorem C5_copy_exact (env : Env) (src_w src_h src_stride : Int) (src : Mem)
    (dst_w dst_h dst_stride : Int) (dst : Mem) (x y mode : Int) (hm : mode = 0 ∨ mode = 11)
    (hd : dst_w * 4 ≤ dst_stride) (hds : dst_stride < 2 ^ 31) :
    (∀ X Y b : Int, max 0 x ≤ X → X < min dst_w (x + src_w) → max 0 y ≤ Y →
        Y < min dst_h (y + src_h) → 0 ≤ b → b < 4 →
        dbc_blit env src_w src_h src_stride src dst_w dst_h dst_stride dst x y none mode
            (Y * dst_stride + X * 4 + b)
          = src ((Y - y) * src_stride + (X - x) * 4 + b)) ∧
    (∀ a : Int, ¬ inBlitRect src_w src_h dst_w dst_h dst_stride x y 4 a →
        dbc_blit env src_w src_h src_stride src dst_w dst_h dst_stride dst x y none mode a
          = dst a) ∧
    (16 ≤ dst_stride →
      (∀ b : Int, 0 ≤ b → b < 4 →
        dbc_blit env 2 2 src_stride src 4 4 dst_stride dst (-1) (-1) none mode b
          = src (1 * src_stride + 1 * 4 + b)) ∧
      (∀ a : Int, ¬ (0 ≤ a ∧ a < 4) →
        dbc_blit env 2 2 src_stride src 4 4 dst_stride dst (-1) (-1) none mode a = dst a)) := by
  have hps : modePixelSize mode = 4 := by
    rcases hm with e | e <;> subst e <;> rfl
  refine ⟨?_, ?_, ?_⟩
  · intro X Y b hX0 hX1 hY0 hY1 hb0 hb1
    exact dbc_blit_copy_region env _ _ _ _ _ _ _ _ _ _ mode hm hd hds X Y b hX0 hX1 hY0 hY1
      hb0 hb1
  · intro a ha
    apply dbc_blit_frame
    rw [hps]
    exact ha
  · intro h16
    constructor
    · intro b hb0 hb1
      have h := dbc_blit_copy_region env 2 2 src_stride src 4 4 dst_stride dst (-1) (-1) mode hm
        (by omega) hds 0 0 b (by decide) (by decide) (by decide) (by decide) hb0 hb1
      have e1 : (0 : Int) * dst_stride + 0 * 4 + b = b := by ring
      have e2 : ((0 : Int) - -1) * src_stride + (0 - -1) * 4 + b = 1 * src_stride + 1 * 4 + b := by
        ring
      rw [e1, e2] at h
      exact h
    · intro a ha
      apply dbc_blit_frame
      rw [hps, inBlitRect_corner]
      exact ha

/-- Witness of C5: the 2x2 source at (-1,-1) on the 4x4 destination, with strides of 8 and 16
bytes; source pixel (1,1) starts at offset 12. -/
theorem C5_copy_exact_witness :
    (((0 : Int) = 0 ∨ (0 : Int) = 11) ∧ (4 : Int) * 4 ≤ 16 ∧ (16 : Int) < 2 ^ 31) ∧
    (∀ b : Int, 0 ≤ b → b < 4 →
      dbc_blit Env.sample 2 2 8 srcSample 4 4 16 dstSample (-1) (-1) none 0 b
        = srcSample (1 * 8 + 1 * 4 + b)) ∧
    (∀ a : Int, ¬ (0 ≤ a ∧ a < 4) →
      dbc_blit Env.sample 2 2 8 srcSample 4 4 16 dstSample (-1) (-1) none 0 a
        = dstSample a) :=
  ⟨⟨Or.inl rfl, by decide, by decide⟩,
    (C5_copy_exact Env.sample 2 2 8 srcSample 4 4 16 dstSample (-1) (-1) 0 (Or.inl rfl)
      (by decide) (by decide)).2.2 (by decide)⟩

/-- C6. For every mode, every color and every placement, `dbc_blit` changes no destination
byte outside the pixels `(X, Y)` with `max(0,x) <= X < min(dst_w, x+src_w)` and
`max(0,y) <= Y < min(dst_h, y+src_h)` (source and destination are separate memories; no
condition on the strides is needed); the drivers are launched with the clipped source range
`x0 = max(0,-x)`, `x1 = min(src_w, dst_w-x)` (same for y), and these pixels are its image
shifted by `(x, y)`. -/
theorem C6_writes_inside_clipped_rect (env : Env) (src_w src_h src_stride : Int) (src : Mem)
    (dst_w dst_h dst_stride : Int) (dst : Mem) (x y : Int) (color : Option Color)
    (mode : Int) :
    (∀ a : Int, ¬ inBlitRect src_w src_h dst_w dst_h dst_stride x y (modePixelSize mode) a →
      dbc_blit env src_w src_h src_stride src dst_w dst_h dst_stride dst x y color mode a
        = dst a) ∧
    (∀ L : Launch, dbc_blit_launch env src_w src_h dst_w dst_h x y color mode = some L →
      L.fn.pixel_size = modePixelSize mode ∧
      L.x0 = max 0 (-x) ∧ L.x1 = min src_w (dst_w - x) ∧
      L.y0 = max 0 (-y) ∧ L.y1 = min src_h (dst_h - y) ∧
      L.x0 + x = max 0 x ∧ L.x1 + x = min dst_w (x + src_w) ∧
      L.y0 + y = max 0 y ∧ L.y1 + y = min dst_h (y + src_h)) := by
  constructor
  · intro a ha
    exact dbc_blit_frame env _ _ _ _ _ _ _ _ _ _ color mode a ha
  · intro L hL
    obtain ⟨hps, hx0, hx1, hy0, hy1⟩ := launch_some _ _ _ _ _ _ _ _ _ L hL
    obtain ⟨cx0, cx1⟩ := clip_x x src_w dst_w
    obtain ⟨cy0, cy1⟩ := clip_x y src_h dst_h
    rw [hx0, hx1, hy0, hy1]
    refine ⟨hps, ?_, ?_, ?_, ?_, cx0, cx1, cy0, cy1⟩
    · unfold clip_lo; split <;> omega
    · unfold clip_hi; split <;> omega
    · unfold clip_lo; split <;> omega
    · unfold clip_hi; split <;> omega

/-- Witness of C6: an ALPHA blit of the 2x2 source at (-1,-1) leaves byte 4 of the 4x4
destination, the first byte of pixel (1,0), as it was. -/
theorem C6_writes_inside_clipped_rect_witness :
    ¬ inBlitRect 2 2 4 4 16 (-1) (-1) (modePixelSize 1) 4 ∧
    dbc_blit Env.sample 2 2 8 srcSample 4 4 16 dstSample (-1) (-1) none 1 4 = dstSample 4 :=
  have h : ¬ inBlitRect 2 2 4 4 16 (-1) (-1) (modePixelSize 1) 4 := by
    rw [show modePixelSize 1 = 4 from rfl, inBlitRect_corner]
    decide
  ⟨h, (C6_writes_inside_clipped_rect Env.sample 2 2 8 srcSample 4 4 16 dstSample (-1) (-1)
    none 1).1 4 h⟩

/-- The conditions under which the clipped rectangle is empty: the source lies entirely left
of, right of, above or below the destination, or a surface has a zero or negative dimension. -/
theorem clip_empty_of_offscreen (src_w src_h dst_w dst_h x y : Int)
    (h : x + src_w ≤ 0 ∨ dst_w ≤ x ∨ y + src_h ≤ 0 ∨ dst_h ≤ y ∨ src_w ≤ 0 ∨ src_h ≤ 0
      ∨ dst_w ≤ 0 ∨ dst_h ≤ 0) :
    clip_hi x src_w dst_w ≤ clip_lo x ∨ clip_hi y src_h dst_h ≤ clip_lo y := by
  unfold clip_hi clip_lo
  split_ifs <;> omega

/-- C7. For every mode and color, if the clipped rectangle is empty (`x1 <= x0` or
`y1 <= y0`) then `dbc_blit` performs no memory operation (it reads no source byte) and the
destination is the one passed in; the rectangle is empty when the source lies entirely left
of, right of, above or below the destination (`x+src_w <= 0`, `x >= dst_w`, `y+src_h <= 0`,
`y >= dst_h`) and when a surface has a zero or negative dimension; the initialization call
`dbc_blit(0,0,0,0,0,0,0,0,0,0,0,0)` performs no memory operation. -/
theorem C7_empty_rect_noop (env : Env) (src_w src_h src_stride dst_w dst_h dst_stride x y : Int)
    (color : Option Color) (mode : Int) :
    ((clip_hi x src_w dst_w ≤ clip_lo x ∨ clip_hi y src_h dst_h ≤ clip_lo y) →
      dbc_blit_ops env src_w src_h src_stride dst_w dst_h dst_stride x y color mode = [] ∧
      ∀ src dst : Mem,
        dbc_blit env src_w src_h src_stride src dst_w dst_h dst_stride dst x y color mode
          = dst) ∧
    ((x + src_w ≤ 0 ∨ dst_w ≤ x ∨ y + src_h ≤ 0 ∨ dst_h ≤ y ∨ src_w ≤ 0 ∨ src_h ≤ 0
        ∨ dst_w ≤ 0 ∨ dst_h ≤ 0) →
      (clip_hi x src_w dst_w ≤ clip_lo x ∨ clip_hi y src_h dst_h ≤ clip_lo y) ∧
      dbc_blit_ops env src_w src_h src_stride dst_w dst_h dst_stride x y color mode = [] ∧
      ∀ src dst : Mem,
        dbc_blit env src_w src_h src_stride src dst_w dst_h dst_stride dst x y color mode
          = dst) ∧
    (dbc_blit_ops env 0 0 0 0 0 0 0 0 none 0 = [] ∧
      ∀ src dst : Mem, dbc_blit env 0 0 0 src 0 0 0 dst 0 0 none 0 = dst) := by
  have key : ∀ (src_w src_h src_stride dst_w dst_h dst_stride x y : Int)
      (color : Option Color) (mode : Int),
      (clip_hi x src_w dst_w ≤ clip_lo x ∨ clip_hi y src_h dst_h ≤ clip_lo y) →
      dbc_blit_ops env src_w src_h src_stride dst_w dst_h dst_stride x y color mode = [] ∧
      ∀ src dst : Mem,
        dbc_blit env src_w src_h src_stride src dst_w dst_h dst_stride dst x y color mode
          = dst := by
    intro src_w src_h src_stride dst_w dst_h dst_stride x y color mode h
    exact ⟨dbc_blit_ops_empty env _ _ _ _ _ _ _ _ color mode h,
      fun src dst => dbc_blit_of_ops_nil env _ _ _ src _ _ _ dst _ _ color mode
        (dbc_blit_ops_empty env _ _ _ _ _ _ _ _ color mode h)⟩
  refine ⟨key _ _ _ _ _ _ _ _ _ _, ?_, ?_⟩
  · intro h
    have he := clip_empty_of_offscreen src_w src_h dst_w dst_h x y h
    exact ⟨he, key _ _ _ _ _ _ _ _ _ _ he⟩
  · exact key 0 0 0 0 0 0 0 0 none 0 (Or.inl (by decide))

/-- Witness of C7: the 2x2 source placed at (4,0), entirely right of the 4x4 destination, in
ALPHA mode. -/
theorem C7_empty_rect_noop_witness :
    ((4 : Int) + 2 ≤ 0 ∨ (4 : Int) ≤ 4 ∨ (0 : Int) + 2 ≤ 0 ∨ (4 : Int) ≤ 0 ∨ (2 : Int) ≤ 0
      ∨ (2 : Int) ≤ 0 ∨ (4 : Int) ≤ 0 ∨ (4 : Int) ≤ 0) ∧
    dbc_blit_ops Env.sample 2 2 8 4 4 16 4 0 none 1 = [] ∧
    dbc_blit Env.sample 2 2 8 srcSample 4 4 16 dstSample 4 0 none 1 = dstSample :=
  have h : ((4 : Int) + 2 ≤ 0 ∨ (4 : Int) ≤ 4 ∨ (0 : Int) + 2 ≤ 0 ∨ (4 : Int) ≤ 0
      ∨ (2 : Int) ≤ 0 ∨ (2 : Int) ≤ 0 ∨ (4 : Int) ≤ 0 ∨ (4 : Int) ≤ 0) :=
    Or.inr (Or.inl (by decide))
  have t := (C7_empty_rect_noop Env.sample 2 2 8 4 4 16 4 0 none 1).2.1 h
  ⟨h, t.2.1, t.2.2 srcSample dstSample⟩

/-- C8. For every mode below `DBCB_MODE_COPY` (0) or above `DBCB_MODE_CPYG` (11) and every
other argument, `dbc_blit` returns before the launch: it performs no memory operation, so it
reads no source byte, and the destination is the one passed in. -/
theorem C8_bad_mode_noop (env : Env) (src_w src_h src_stride dst_w dst_h dst_stride x y : Int)
    (color : Option Color) (mode : Int) (h : mode < 0 ∨ mode > 11) :
    dbc_blit_launch env src_w src_h dst_w dst_h x y color mode = none ∧
    dbc_blit_ops env src_w src_h src_stride dst_w dst_h dst_stride x y color mode = [] ∧
    ∀ src dst : Mem,
      dbc_blit env src_w src_h src_stride src dst_w dst_h dst_stride dst x y color mode
        = dst := by
  have hL := launch_bad_mode env src_w src_h dst_w dst_h x y color mode h
  have hops : dbc_blit_ops env src_w src_h src_stride dst_w dst_h dst_stride x y color mode
      = [] := by
    unfold dbc_blit_ops
    rw [hL]
  exact ⟨hL, hops, fun src dst => dbc_blit_of_ops_nil env _ _ _ src _ _ _ dst _ _ color mode hops⟩

/-- Witness of C8: mode 12 on overlapping 2x2 and 4x4 surfaces. -/
theorem C8_bad_mode_noop_witness :
    ((12 : Int) < 0 ∨ (12 : Int) > 11) ∧
    dbc_blit_ops Env.sample 2 2 8 4 4 16 1 1 none 12 = [] ∧
    dbc_blit Env.sample 2 2 8 srcSample 4 4 16 dstSample 1 1 none 12 = dstSample :=
  have t := C8_bad_mode_noop Env.sample 2 2 8 4 4 16 1 1 none 12 (Or.inr (by decide))
  ⟨Or.inr (by decide), t.2.1, t.2.2 srcSample dstSample⟩

/-- C9. For each of the eight non-key 32-bit modes (COPY 0, ALPHA 1, PMA 2, GAMMA 3, PMG 4,
MUL 8, MUG 9, CPYG 11), in every configuration and for every source, destination and
placement, `dbc_blit` with `color = {1,1,1,1}` launches the same driver with the same (null)
color, performs the same memory operations and leaves the same destination as with
`color = NULL`. -/
theorem C9_ones_is_null (env : Env) (src_w src_h src_stride : Int) (src : Mem)
    (dst_w dst_h dst_stride : Int) (dst : Mem) (x y mode : Int)
    (hm : mode = 0 ∨ mode = 1 ∨ mode = 2 ∨ mode = 3 ∨ mode = 4 ∨ mode = 8 ∨ mode = 9
      ∨ mode = 11) :
    dbc_blit_launch env src_w src_h dst_w dst_h x y (some (fun _ => F32.fin 1)) mode
      = dbc_blit_launch env src_w src_h dst_w dst_h x y none mode ∧
    dbc_blit_ops env src_w src_h src_stride dst_w dst_h dst_stride x y
        (some (fun _ => F32.fin 1)) mode
      = dbc_blit_ops env src_w src_h src_stride dst_w dst_h dst_stride x y none mode ∧
    dbc_blit env src_w src_h src_stride src dst_w dst_h dst_stride dst x y
        (some (fun _ => F32.fin 1)) mode
      = dbc_blit env src_w src_h src_stride src dst_w dst_h dst_stride dst x y none mode := by
  have hL := launch_ones env src_w src_h dst_w dst_h x y mode hm
  refine ⟨hL, ?_, ?_⟩
  · unfold dbc_blit_ops
    rw [hL]
  · unfold dbc_blit dbc_blit_ops dbc_blit_kernel
    rw [hL]

/-- Witness of C9: an ALPHA blit of a 2x2 source at (1,1) on a 4x4 destination. -/
theorem C9_ones_is_null_witness :
    ((1 : Int) = 0 ∨ (1 : Int) = 1 ∨ (1 : Int) = 2 ∨ (1 : Int) = 3 ∨ (1 : Int) = 4
      ∨ (1 : Int) = 8 ∨ (1 : Int) = 9 ∨ (1 : Int) = 11) ∧
    dbc_blit Env.sample 2 2 8 srcSample 4 4 16 dstSample 1 1 (some (fun _ => F32.fin 1)) 1
      = dbc_blit Env.sample 2 2 8 srcSample 4 4 16 dstSample 1 1 none 1 :=
  ⟨Or.inr (Or.inl rfl),
    (C9_ones_is_null Env.sample 2 2 8 srcSample 4 4 16 dstSample 1 1 1
      (Or.inr (Or.inl rfl))).2.2⟩

/-! ## The modulated ALPHA blend with a zero alpha modulation -/

theorem or4_eq_pix4 (b0 b1 b2 b3 : Nat) (h0 : b0 < 256) (h1 : b1 < 256) (h2 : b2 < 256)
    (_h3 : b3 < 256) : b0 ||| (b1 <<< 8) ||| (b2 <<< 16) ||| (b3 <<< 24) = pix4 b0 b1 b2 b3 := by
  rw [or_low_high b0 b1 8 (by omega), or_low_high _ b2 16 (by omega),
    or_low_high _ b3 24 (by omega)]
  unfold pix4
  omega

theorem toByte_pix4 (b0 b1 b2 b3 : Byte) :
    toByte (pix4 b0.val b1.val b2.val b3.val) = b0 ∧
    toByte (pix4 b0.val b1.val b2.val b3.val >>> 8) = b1 ∧
    toByte (pix4 b0.val b1.val b2.val b3.val >>> 16) = b2 ∧
    toByte (pix4 b0.val b1.val b2.val b3.val >>> 24) = b3 := by
  have h0 := b0.isLt
  have h1 := b1.isLt
  have h2 := b2.isLt
  have h3 := b3.isLt
  refine ⟨?_, ?_, ?_, ?_⟩
  · apply Fin.ext
    show pix4 b0.val b1.val b2.val b3.val % 256 = b0.val
    unfold pix4; omega
  · apply Fin.ext
    show (pix4 b0.val b1.val b2.val b3.val >>> 8) % 256 = b1.val
    rw [Nat.shiftRight_eq_div_pow]; unfold pix4; omega
  · apply Fin.ext
    show (pix4 b0.val b1.val b2.val b3.val >>> 16) % 256 = b2.val
    rw [Nat.shiftRight_eq_div_pow]; unfold pix4; omega
  · apply Fin.ext
    show (pix4 b0.val b1.val b2.val b3.val >>> 24) % 256 = b3.val
    rw [Nat.shiftRight_eq_div_pow]; unfold pix4; omega

theorem dbcb_load32_lt (big : Bool) (m : Mem) (p : Int) : dbcb_load32 big m p < 2 ^ 32 := by
  unfold dbcb_load32
  cases big
  · simp only [Bool.false_eq_true, if_false]
    rw [or4_eq_pix4 _ _ _ _ (m p).isLt (m (p + 1)).isLt (m (p + 2)).isLt (m (p + 3)).isLt]
    exact pix4_lt _ _ _ _ (m p).isLt (m (p + 1)).isLt (m (p + 2)).isLt (m (p + 3)).isLt
  · simp only [if_true]
    rw [or4_eq_pix4 _ _ _ _ (m (p + 3)).isLt (m (p + 2)).isLt (m (p + 1)).isLt (m p).isLt]
    exact pix4_lt _ _ _ _ (m (p + 3)).isLt (m (p + 2)).isLt (m (p + 1)).isLt (m p).isLt

/-- Storing the word just loaded changes nothing. -/
theorem store32_load32 (big : Bool) (m : Mem) (p : Int) :
    dbcb_store32 big (dbcb_load32 big m p) m p = m := by
  unfold dbcb_store32 dbcb_load32
  cases big
  · simp only [Bool.false_eq_true, if_false]
    rw [or4_eq_pix4 _ _ _ _ (m p).isLt (m (p + 1)).isLt (m (p + 2)).isLt (m (p + 3)).isLt]
    obtain ⟨e0, e1, e2, e3⟩ := toByte_pix4 (m p) (m (p + 1)) (m (p + 2)) (m (p + 3))
    rw [e0, e1, e2, e3]
    simp only [Function.update_eq_self]
  · simp only [if_true]
    rw [or4_eq_pix4 _ _ _ _ (m (p + 3)).isLt (m (p + 2)).isLt (m (p + 1)).isLt (m p).isLt]
    obtain ⟨e0, e1, e2, e3⟩ := toByte_pix4 (m (p + 3)) (m (p + 2)) (m (p + 1)) (m p)
    rw [e0, e1, e2, e3]
    simp only [Function.update_eq_self]

/-- A one-pixel kernel whose result is the destination word leaves the memory as it is. -/
theorem pix32_id (big : Bool) (f : Nat → Nat → Nat) (src : Mem) (s : Int) (dst : Mem) (d : Int)
    (h : f (dbcb_load32 big src s) (dbcb_load32 big dst d) = dbcb_load32 big dst d) :
    pix32 big f src s dst d = dst := by
  unfold pix32
  rw [h, store32_load32]

/-- The C kernel returns at once when `color[3]` is zero. -/
theorem dbcB_blam_1_c_alpha0 (env : Env) (color : Color) (S D : Nat)
    (h3 : color 3 = F32.fin 0) : dbcB_blam_1_c env color S D = D := by
  unfold dbcB_blam_1_c
  rw [if_neg]
  rw [h3]
  simp [F32.ne, F32.eq]

theorem rnd_zero : F32.rnd 0 = F32.fin 0 := by
  unfold F32.rnd
  rw [if_pos rfl]

/-- The rounding on sample values, as binary32 arithmetic gives them: a third, a negative
value, ties to even at 25 bits, ties among the subnormals, the largest finite `float`, the
first value that overflows, and the constant `DBCB_1div255f` (`0x1.010102p-8`). -/
theorem rnd_samples :
    F32.rnd (1 / 3) = F32.fin (11184811 / 33554432) ∧
    F32.rnd (-5 / 3) = F32.fin (-13981013 / 8388608) ∧
    F32.rnd 16777217 = F32.fin 16777216 ∧
    F32.rnd 16777219 = F32.fin 16777220 ∧
    F32.rnd (1 / 2 ^ 150) = F32.fin 0 ∧
    F32.rnd (3 / 2 ^ 150) = F32.fin (2 / 2 ^ 149) ∧
    F32.rnd (2 ^ 128 - 2 ^ 103 - 1) = F32.fin (2 ^ 128 - 2 ^ 104) ∧
    F32.rnd (2 ^ 128 - 2 ^ 103) = F32.inf false ∧
    DBCB_1div255f = F32.fin (8421505 / 2147483648) := by
  decide!

/-- Below the overflow threshold the rounded result is finite. -/
theorem rnd_finite (q : ℚ) (h : |q| < 2 ^ 128 - 2 ^ 103) : ∃ r, F32.rnd q = F32.fin r := by
  unfold F32.rnd
  split_ifs with h0 h1
  · exact ⟨0, rfl⟩
  · exact absurd h (not_lt.mpr h1)
  · exact ⟨_, rfl⟩

/-- The conversion of a byte to `float` is exact. -/
theorem cvtepi32_byte : ∀ d : Fin 256, F32.cvtepi32 (d.val : Int) = F32.fin (d.val : ℚ) := by
  decide!

/-- With `A = 0` and `C = 255` a lane gives back the destination byte: `255*d` is exact, and
the product with `DBCB_1div255f`, clamped and rounded, is `d` for each of the 256 bytes. -/
theorem blam_lane_zero : ∀ d : Fin 256,
    packus32 (dbcB_float2byte_clamp_128 (F32.mul (F32.add (F32.fin 0)
      (F32.mul (F32.fin 255) (F32.cvtepi32 (d.val : Int)))) DBCB_1div255f)) = d.val := by
  decide!

theorem sub_255_zero : F32.sub (F32.fin 255) (F32.fin 0) = F32.fin 255 := by decide!

/-- A lane of the SIMD blend with `color[3] = 0` and a color whose products with a byte stay
in the range of `float`. -/
theorem dbcB_blam_lane_alpha0 (color : Color) (S D : Nat) (c : Fin 4)
    (h3 : color 3 = F32.fin 0)
    (hc : ∀ i : Fin 4, ∃ q : ℚ, color i = F32.fin q ∧ 255 * |q| < 2 ^ 128 - 2 ^ 103) :
    dbcB_blam_lane color S D c = dbcB_getb D c := by
  have hS : ∀ i : Fin 4, ∃ r,
      F32.mul (F32.cvtepi32 ((dbcB_getb S i : Nat) : Int)) (color i) = F32.fin r := by
    intro i
    obtain ⟨q, hq, hb⟩ := hc i
    have hbyte := cvtepi32_byte ⟨dbcB_getb S i, getb_lt S i⟩
    simp only at hbyte
    rw [hq, hbyte]
    show ∃ r, F32.rnd (((dbcB_getb S i : Nat) : ℚ) * q) = F32.fin r
    apply rnd_finite
    rw [abs_mul]
    have h1 : |((dbcB_getb S i : Nat) : ℚ)| ≤ 255 := by
      rw [abs_of_nonneg (by positivity)]
      have := getb_lt S i
      exact_mod_cast Nat.le_of_lt_succ this
    calc |((dbcB_getb S i : Nat) : ℚ)| * |q| ≤ 255 * |q| :=
          mul_le_mul_of_nonneg_right h1 (abs_nonneg q)
      _ < 2 ^ 128 - 2 ^ 103 := hb
  have hA : F32.mul (F32.cvtepi32 ((dbcB_getb S (3 : Fin 4) : Nat) : Int)) (color 3)
      = F32.fin 0 := by
    have hbyte := cvtepi32_byte ⟨dbcB_getb S (3 : Fin 4), getb_lt S _⟩
    simp only at hbyte
    rw [h3, hbyte]
    show F32.rnd (((dbcB_getb S (3 : Fin 4) : Nat) : ℚ) * 0) = F32.fin 0
    rw [mul_zero, rnd_zero]
  have hAS : F32.mul (F32.fin 0) (if c = 3 then F32.fin 255
      else F32.mul (F32.cvtepi32 ((dbcB_getb S c : Nat) : Int)) (color c)) = F32.fin 0 := by
    split_ifs
    · show F32.rnd (0 * 255) = F32.fin 0
      rw [zero_mul, rnd_zero]
    · obtain ⟨r, hr⟩ := hS c
      rw [hr]
      show F32.rnd (0 * r) = F32.fin 0
      rw [zero_mul, rnd_zero]
  unfold dbcB_blam_lane
  simp only
  rw [hA, sub_255_zero, hAS]
  exact blam_lane_zero ⟨dbcB_getb D c, getb_lt D c⟩

/-- The SSE2 kernel with `color[3] = 0` and a color in range stores the destination pixel. -/
theorem dbcB_blam_1_sse2_alpha0 (color : Color) (S D : Nat) (hD : D < 2 ^ 32)
    (h3 : color 3 = F32.fin 0)
    (hc : ∀ i : Fin 4, ∃ q : ℚ, color i = F32.fin q ∧ 255 * |q| < 2 ^ 128 - 2 ^ 103) :
    dbcB_blam_1_sse2 color S D = D := by
  unfold dbcB_blam_1_sse2
  rw [dbcB_blam_lane_alpha0 color S D 0 h3 hc, dbcB_blam_lane_alpha0 color S D 1 h3 hc,
    dbcB_blam_lane_alpha0 color S D 2 h3 hc, dbcB_blam_lane_alpha0 color S D 3 h3 hc]
  show dbcB_4x8to32 (dbcB_getb D 0) (dbcB_getb D 1) (dbcB_getb D 2) (dbcB_getb D 3) = D
  rw [dbcB_4x8to32_eq _ _ _ _ (getb_lt _ _) (getb_lt _ _) (getb_lt _ _) (getb_lt _ _)]
  exact pix4_getb D hD

/-- The AVX2 kernel with `color[3] = 0` and a color in range stores the destination pixel. -/
theorem dbcB_blam_1_avx2_alpha0 (color : Color) (S D : Nat) (hD : D < 2 ^ 32)
    (h3 : color 3 = F32.fin 0)
    (hc : ∀ i : Fin 4, ∃ q : ℚ, color i = F32.fin q ∧ 255 * |q| < 2 ^ 128 - 2 ^ 103) :
    dbcB_blam_1_avx2 color S D = D :=
  dbcB_blam_1_sse2_alpha0 color S D hD h3 hc

theorem mem_expandSlot (k j i : Nat) (h : i ∈ expandSlot k j) : i ≤ k := by
  unfold expandSlot at h
  split at h
  · rw [List.mem_singleton] at h
    omega
  · have := List.eq_of_mem_replicate h
    omega

theorem mem_switchRuns (k w i : Nat) (h : i ∈ switchRuns k w) : i ≤ k := by
  unfold switchRuns at h
  generalize switchSlots w = l at h
  induction l with
  | nil => simp at h
  | cons j js ih =>
    simp only [List.foldr_cons, List.mem_append] at h
    rcases h with h | h
    · exact mem_expandSlot _ _ _ h
    · exact ih h

theorem mem_loopRuns (k w i : Nat) (h : i ∈ loopRuns k w) : i ≤ k := by
  unfold loopRuns at h
  rw [List.mem_append] at h
  rcases h with h | h
  · have := List.eq_of_mem_replicate h
    omega
  · have := (List.mem_filter.mp h).1
    rw [List.mem_reverse, List.mem_range] at this
    omega

theorem mem_emitRuns_call (ps : Nat) (op : Op) :
    ∀ (js : List Nat) (s d : Int), op ∈ emitRuns ps js s d →
      ∃ j ∈ js, ∃ s1 d1 : Int, op = Op.call j s1 d1 := by
  intro js
  induction js with
  | nil => intro s d h; simp [emitRuns] at h
  | cons j js ih =>
    intro s d h
    rw [emitRuns, List.mem_cons] at h
    rcases h with h | h
    · exact ⟨j, List.mem_cons_self _ _, s, d, h⟩
    · obtain ⟨j1, hj1, s1, d1, e⟩ := ih _ _ h
      exact ⟨j1, List.mem_cons_of_mem _ hj1, s1, d1, e⟩

/-- A driver `DBCB_DEF_FN_<2^k>` calls kernels for runs of at most `2 ^ k` pixels only. -/
theorem driver_calls (env : Env) (tier : Tier) (fn : Fn) (k : Nat)
    (hk : fnTop tier fn = some k) (src_stride dst_stride x0 y0 x1 y1 x y : Int) (op : Op)
    (hop : op ∈ driver env tier fn src_stride dst_stride x0 y0 x1 y1 x y) :
    ∃ (j : Nat) (s1 d1 : Int), j ≤ k ∧ op = Op.call j s1 d1 := by
  unfold driver at hop
  simp only at hop
  split at hop
  · simp at hop
  · rw [hk] at hop
    simp only at hop
    split at hop
    · obtain ⟨i, _, hm⟩ := mem_rowsFrom _ _ _ _ _ _ _ hop
      obtain ⟨j, hj, s1, d1, e⟩ := mem_emitRuns_call _ _ _ _ _ hm
      exact ⟨j, s1, d1, mem_switchRuns _ _ _ hj, e⟩
    · obtain ⟨i, _, hm⟩ := mem_rowsFrom _ _ _ _ _ _ _ hop
      obtain ⟨j, hj, s1, d1, e⟩ := mem_emitRuns_call _ _ _ _ _ hm
      exact ⟨j, s1, d1, mem_loopRuns _ _ _ hj, e⟩

/-- The kernels of the modulated ALPHA drivers with `color[3] = 0`: the C kernel for every
color, the SSE2 and AVX2 kernels for a color in range, leave the destination as it is. -/
theorem kernelOf_flam_alpha0 (env : Env) (tier : Tier) (color : Color) (k8 k16 : Nat)
    (h3 : color 3 = F32.fin 0)
    (hc : tier ≠ Tier.c →
      ∀ i : Fin 4, ∃ q : ℚ, color i = F32.fin q ∧ 255 * |q| < 2 ^ 128 - 2 ^ 103)
    (k j : Nat) (hk : fnTop tier Fn.flam = some k) (hj : j ≤ k)
    (src : Mem) (s : Int) (dst : Mem) (d : Int) :
    kernelOf env tier Fn.flam j ⟨some color, k8, k16⟩ src s dst d = dst := by
  cases tier with
  | c =>
    have e : k = 0 := by simp [fnTop] at hk; omega
    have ej : j = 0 := by omega
    subst ej
    show pix32 env.big_endian (dbcB_blam_1_c env color) src s dst d = dst
    exact pix32_id _ _ _ _ _ _ (dbcB_blam_1_c_alpha0 env color _ _ h3)
  | sse2 =>
    have e : k = 0 := by simp [fnTop] at hk; omega
    have ej : j = 0 := by omega
    subst ej
    show pix32 env.big_endian (dbcB_blam_1_sse2 color) src s dst d = dst
    exact pix32_id _ _ _ _ _ _
      (dbcB_blam_1_sse2_alpha0 color _ _ (dbcb_load32_lt _ _ _) h3 (hc (by decide)))
  | avx2 =>
    have e : k = 1 := by simp [fnTop] at hk; omega
    have ej : j = 0 ∨ j = 1 := by omega
    rcases ej with ej | ej <;> subst ej
    · show pix32 env.big_endian (dbcB_blam_1_avx2 color) src s dst d = dst
      exact pix32_id _ _ _ _ _ _
        (dbcB_blam_1_avx2_alpha0 color _ _ (dbcb_load32_lt _ _ _) h3 (hc (by decide)))
    · show twice (pix32 env.big_endian (dbcB_blam_1_avx2 color)) 4 src s dst d = dst
      unfold twice
      rw [pix32_id _ _ _ s dst d
        (dbcB_blam_1_avx2_alpha0 color _ _ (dbcb_load32_lt _ _ _) h3 (hc (by decide)))]
      exact pix32_id _ _ _ _ _ _
        (dbcB_blam_1_avx2_alpha0 color _ _ (dbcb_load32_lt _ _ _) h3 (hc (by decide)))

/-- The launch of an ALPHA blit with a color whose alpha is zero: the modulated driver. -/
theorem launch_alpha0 (env : Env) (src_w src_h dst_w dst_h x y : Int) (color : Color)
    (h3 : color 3 = F32.fin 0) :
    dbc_blit_launch env src_w src_h dst_w dst_h x y (some color) 1
      = some ⟨selectTier env 1 true, Fn.flam, some color, clip_lo x, clip_lo y,
          clip_hi x src_w dst_w, clip_hi y src_h dst_h⟩ := by
  simp [dbc_blit_launch, modulatedFlags, selectFn, h3, F32.eq]

/-- An ALPHA blit with `color[3] = 0` leaves the destination as it is: on the C tier for every
color, on the SSE2 and AVX2 tiers for a color in range. -/
theorem dbc_blit_alpha0 (env : Env) (src_w src_h src_stride : Int) (src : Mem)
    (dst_w dst_h dst_stride : Int) (dst : Mem) (x y : Int) (color : Color)
    (h3 : color 3 = F32.fin 0)
    (hc : selectTier env 1 true ≠ Tier.c →
      ∀ i : Fin 4, ∃ q : ℚ, color i = F32.fin q ∧ 255 * |q| < 2 ^ 128 - 2 ^ 103) :
    dbc_blit env src_w src_h src_stride src dst_w dst_h dst_stride dst x y (some color) 1
      = dst := by
  unfold dbc_blit dbc_blit_ops dbc_blit_kernel
  rw [launch_alpha0 env src_w src_h dst_w dst_h x y color h3]
  simp only
  funext a
  apply execOps_unchanged
  intro op hop m
  have hk : ∃ k, fnTop (selectTier env 1 true) Fn.flam = some k := by
    cases selectTier env 1 true <;> exact ⟨_, rfl⟩
  obtain ⟨k, hk⟩ := hk
  obtain ⟨j, s1, d1, hj, e⟩ := driver_calls env _ _ k hk _ _ _ _ _ _ _ _ op hop
  subst e
  show kernelOf env (selectTier env 1 true) Fn.flam j ⟨some color, _, _⟩ src s1 m d1 a = m a
  rw [kernelOf_flam_alpha0 env _ color _ _ h3 hc k j hk hj]

/-! # The claim about a zero alpha modulation -/

/-- C10, counterexample. On a CPU with SSE2 (the default configuration allows SSE2 in every
mode) an ALPHA blit of one pixel with the color `{2^127, 1, 1, 0}`, whose alpha is 0, runs
`dbcB_blam_1_sse2`: the red lane of `S` is `100 * 2^127`, which overflows to `+inf`; `A * S` is
`0 * inf`, a NaN; `maxps` with 0 turns the NaN into 0; and the red byte of the destination,
200 before, is 0 after. -/
theorem C10_sse2_overflow_changes_dst :
    colorOverflow 3 = F32.fin 0 ∧
    selectTier Env.sampleSse2 1 true = Tier.sse2 ∧
    (srcSample 0).val = 100 ∧
    F32.mul (F32.cvtepi32 100) (colorOverflow 0) = F32.inf false ∧
    F32.mul (F32.fin 0) (F32.inf false) = F32.nan ∧
    F32.maxps F32.nan (F32.fin 0) = F32.fin 0 ∧
    dstSample 0 = toByte 200 ∧
    dbc_blit Env.sampleSse2 1 1 4 srcSample 1 1 4 dstSample 0 0 (some colorOverflow) 1 0
      = toByte 0 := by
  decide!

/-- C10, amended. For every source, destination, placement and every modulation color whose
alpha component `color[3]` is 0, a blit in ALPHA mode leaves the destination unchanged when it
runs on the C tier; when it runs on the SSE2 or AVX2 tier it does so if the components of the
color are finite with `255*|color[c]| < 2^128 - 2^103`, so that no product of a source byte and
a component overflows. -/
theorem C10_alpha_zero_identity (env : Env) (src_w src_h src_stride : Int) (src : Mem)
    (dst_w dst_h dst_stride : Int) (dst : Mem) (x y : Int) (color : Color)
    (h3 : color 3 = F32.fin 0)
    (hc : selectTier env 1 true ≠ Tier.c →
      ∀ i : Fin 4, ∃ q : ℚ, color i = F32.fin q ∧ 255 * |q| < 2 ^ 128 - 2 ^ 103) :
    dbc_blit env src_w src_h src_stride src dst_w dst_h dst_stride dst x y (some color) 1
      = dst :=
  dbc_blit_alpha0 env src_w src_h src_stride src dst_w dst_h dst_stride dst x y color h3 hc

/-- Witness of C10 (amended): the color `{1/2, 1/2, 1/2, 0}` on the SSE2 tier, a 2x2 source
at (1,1) on a 4x4 destination. -/
theorem C10_alpha_zero_identity_witness :
    colorHalf 3 = F32.fin 0 ∧
    (selectTier Env.sampleSse2 1 true ≠ Tier.c →
      ∀ i : Fin 4, ∃ q : ℚ, colorHalf i = F32.fin q ∧ 255 * |q| < 2 ^ 128 - 2 ^ 103) ∧
    dbc_blit Env.sampleSse2 2 2 8 srcSample 4 4 16 dstSample 1 1 (some colorHalf) 1
      = dstSample :=
  have h3 : colorHalf 3 = F32.fin 0 := rfl
  have hc : selectTier Env.sampleSse2 1 true ≠ Tier.c →
      ∀ i : Fin 4, ∃ q : ℚ, colorHalf i = F32.fin q ∧ 255 * |q| < 2 ^ 128 - 2 ^ 103 := by
    intro _ i
    by_cases h : i = 3
    · exact ⟨0, by simp [colorHalf, h], by norm_num⟩
    · exact ⟨1 / 2, by simp [colorHalf, h], by norm_num [abs_of_pos]⟩
  ⟨h3, hc, C10_alpha_zero_identity Env.sampleSse2 2 2 8 srcSample 4 4 16 dstSample 1 1
    colorHalf h3 hc⟩

/-! ## Reading pixels -/

theorem rdLocal_rd8 : RdLocal rd8 1 := by
  intro m1 m2 a1 a2 h
  unfold rd8
  have := h 0 (le_refl _) (by norm_num)
  rw [add_zero, add_zero] at this
  rw [this]

theorem rdLocal_load16 (big : Bool) : RdLocal (dbcb_load16 big) 2 := by
  intro m1 m2 a1 a2 h
  unfold dbcb_load16
  have h0 := h 0 (le_refl _) (by norm_num)
  have h1 := h 1 (by norm_num) (by norm_num)
  rw [add_zero, add_zero] at h0
  rw [h0, h1]

theorem rdLocal_load32 (big : Bool) : RdLocal (dbcb_load32 big) 4 := by
  intro m1 m2 a1 a2 h
  unfold dbcb_load32
  have h0 := h 0 (le_refl _) (by norm_num)
  have h1 := h 1 (by norm_num) (by norm_num)
  have h2 := h 2 (by norm_num) (by norm_num)
  have h3 := h 3 (by norm_num) (by norm_num)
  rw [add_zero, add_zero] at h0
  rw [h0, h1, h2, h3]

/-- Calls for a list of runs: pixel `t` of the row becomes `f` of the source pixel and of its
old value. -/
theorem row_pixel (kern : Nat → Kernel) (ps : Nat) (rd : Mem → Int → Nat)
    (f : Nat → Nat → Nat) (hrd : RdLocal rd ps) (hF : ∀ k, Frames (kern k) (2 ^ k * ps))
    (src : Mem) :
    ∀ (runs : List Nat), (∀ j ∈ runs, PixelSpec (kern j) (2 ^ j) ps rd f) →
      ∀ (s d : Int) (m : Mem) (t : Nat), t < runsTotal runs →
        rd (execOps kern src (emitRuns ps runs s d) m) (d + t * ps)
          = f (rd src (s + t * ps)) (rd m (d + t * ps)) := by
  intro runs
  induction runs with
  | nil => intro _ s d m t ht; simp [runsTotal] at ht
  | cons j js ih =>
    intro hspec s d m t ht
    rw [emitRuns, execOps_cons]
    simp only [execOp]
    have hjs : ∀ j1 ∈ js, PixelSpec (kern j1) (2 ^ j1) ps rd f :=
      fun j1 h1 => hspec j1 (List.mem_cons_of_mem _ h1)
    by_cases hlt : t < 2 ^ j
    · have hsame : rd (execOps kern src (emitRuns ps js (s + 2 ^ j * ps) (d + 2 ^ j * ps))
          (kern j src s m d)) (d + t * ps) = rd (kern j src s m d) (d + t * ps) := by
        apply hrd
        intro b hb0 hb1
        apply execOps_frame kern ps hF
        intro op hop hw
        have := emitRuns_writes ps js (runsTotal js) (le_refl _) _ _ op _ hop hw
        have h1 : ((t + 1 : Nat) : Int) * ps ≤ ((2 ^ j : Nat) : Int) * ps := by
          apply mul_le_mul_of_nonneg_right
          · exact_mod_cast hlt
          · exact_mod_cast Nat.zero_le ps
        push_cast at h1 this
        have h2 : ((t : Int) + 1) * ps = t * ps + ps := by ring
        rw [h2] at h1
        omega
      rw [hsame]
      exact hspec j (List.mem_cons_self _ _) src s m d t hlt
    · have hge : 2 ^ j ≤ t := Nat.le_of_not_lt hlt
      obtain ⟨t1, rfl⟩ := Nat.exists_eq_add_of_le hge
      have ht1 : t1 < runsTotal js := by simp only [runsTotal] at ht; omega
      have := ih hjs (s + 2 ^ j * ps) (d + 2 ^ j * ps) (kern j src s m d) t1 ht1
      have e1 : d + ((2 ^ j + t1 : Nat) : Int) * ps = d + 2 ^ j * ps + t1 * ps := by
        push_cast; ring
      have e2 : s + ((2 ^ j + t1 : Nat) : Int) * ps = s + 2 ^ j * ps + t1 * ps := by
        push_cast; ring
      rw [e1, e2, this]
      congr 1
      apply hrd
      intro b hb0 hb1
      apply hF j
      intro hw
      have h4 : (0 : Int) ≤ (t1 : Int) * ps := by positivity
      push_cast at hw
      omega

/-- Rows of calls for a list of runs that tile a row of `w` pixels, with a destination stride
of at least the row: pixel `t` of row `i` becomes `f` of the source pixel and of its old
value. -/
theorem rows_pixel (kern : Nat → Kernel) (ps : Nat) (rd : Mem → Int → Nat)
    (f : Nat → Nat → Nat) (hrd : RdLocal rd ps) (hF : ∀ k, Frames (kern k) (2 ^ k * ps))
    (src : Mem) (runs : List Nat) (hspec : ∀ j ∈ runs, PixelSpec (kern j) (2 ^ j) ps rd f)
    (ss ds : Int) (hds : ((runsTotal runs * ps : Nat) : Int) ≤ ds) :
    ∀ (h : Nat) (s d : Int) (m : Mem) (i t : Nat), i < h → t < runsTotal runs →
      rd (execOps kern src (rowsFrom (emitRuns ps runs) ss ds h s d) m) (d + i * ds + t * ps)
        = f (rd src (s + i * ss + t * ps)) (rd m (d + i * ds + t * ps)) := by
  intro h
  induction h with
  | zero => intro s d m i t hi; omega
  | succ h ih =>
    intro s d m i t hi ht
    rw [rowsFrom, execOps_append]
    have hds0 : (0 : Int) ≤ ds := le_trans (by positivity) hds
    have hin : ((t + 1 : Nat) : Int) * ps ≤ ((runsTotal runs : Nat) : Int) * ps := by
      apply mul_le_mul_of_nonneg_right
      · exact_mod_cast ht
      · exact_mod_cast Nat.zero_le ps
    have hin2 : ((t : Int) + 1) * ps = t * ps + ps := by ring
    push_cast at hin hds
    rw [hin2] at hin
    have ht0 : (0 : Int) ≤ (t : Int) * ps := by positivity
    cases i with
    | zero =>
      have hsame : rd (execOps kern src (rowsFrom (emitRuns ps runs) ss ds h (s + ss) (d + ds))
          (execOps kern src (emitRuns ps runs s d) m)) (d + ((0 : Nat) : Int) * ds + t * ps)
          = rd (execOps kern src (emitRuns ps runs s d) m) (d + ((0 : Nat) : Int) * ds + t * ps) := by
        apply hrd
        intro b hb0 hb1
        apply execOps_frame kern ps hF
        intro op hop hw
        obtain ⟨i1, _, hm⟩ := mem_rowsFrom _ _ _ _ _ _ _ hop
        have := emitRuns_writes ps runs (runsTotal runs) (le_refl _) _ _ op _ hm hw
        have hi1 : (0 : Int) ≤ (i1 : Int) * ds := by positivity
        push_cast at this
        omega
      rw [hsame]
      have := row_pixel kern ps rd f hrd hF src runs hspec s d m t ht
      simp only [Nat.cast_zero, zero_mul, add_zero]
      exact this
    | succ i =>
      have := ih (s + ss) (d + ds) (execOps kern src (emitRuns ps runs s d) m) i t
        (by omega) ht
      have e1 : d + ((i + 1 : Nat) : Int) * ds + t * ps = d + ds + i * ds + t * ps := by
        push_cast; ring
      have e2 : s + ((i + 1 : Nat) : Int) * ss + t * ps = s + ss + i * ss + t * ps := by
        push_cast; ring
      rw [e1, e2, this]
      congr 1
      apply hrd
      intro b hb0 hb1
      apply execOps_frame kern ps hF
      intro op hop hw
      have := emitRuns_writes ps runs (runsTotal runs) (le_refl _) _ _ op _ hop hw
      have hi1 : (0 : Int) ≤ (i : Int) * ds := by positivity
      push_cast at this
      omega

theorem runsTotal_switchSlots (w : Nat) (h : w ≤ 32) : runsTotal (switchSlots w) = w := by
  interval_cases w <;> simp [switchSlots, runsTotal]

theorem runsTotal_switchRuns (k w : Nat) (h : w ≤ 32) : runsTotal (switchRuns k w) = w := by
  have key : ∀ l : List Nat, runsTotal (l.foldr (fun j acc => expandSlot k j ++ acc) [])
      = runsTotal l := by
    intro l
    induction l with
    | nil => rfl
    | cons j js ih =>
      simp only [List.foldr_cons, runsTotal_append, runsTotal_expandSlot, ih, runsTotal]
  unfold switchRuns
  rw [key, runsTotal_switchSlots w h]

/-! ## Bytes of words -/

theorem getb_testBit (x j i : Nat) :
    (dbcB_getb x j).testBit i = (decide (i < 8) && x.testBit (8 * j + i)) := by
  unfold dbcB_getb u8
  rw [Nat.testBit_mod_two_pow, Nat.testBit_shiftRight]

theorem getb_and (x y j : Nat) : dbcB_getb (x &&& y) j = dbcB_getb x j &&& dbcB_getb y j := by
  apply Nat.eq_of_testBit_eq
  intro i
  simp only [getb_testBit, Nat.testBit_and]
  cases decide (i < 8) <;> simp

theorem getb_or (x y j : Nat) : dbcB_getb (x ||| y) j = dbcB_getb x j ||| dbcB_getb y j := by
  apply Nat.eq_of_testBit_eq
  intro i
  simp only [getb_testBit, Nat.testBit_or]
  cases decide (i < 8) <;> simp

theorem getb_xor (x y j : Nat) : dbcB_getb (x ^^^ y) j = dbcB_getb x j ^^^ dbcB_getb y j := by
  apply Nat.eq_of_testBit_eq
  intro i
  simp only [getb_testBit, Nat.testBit_xor]
  cases decide (i < 8) <;> simp

/-- A right shift by fewer than 8 bits, seen through a mask that clears the bits coming from
the next byte, acts on every byte by itself. -/
theorem getb_shr_and (x j r c : Nat) (hc : c < 2 ^ (8 - r)) :
    dbcB_getb (x >>> r) j &&& c = (dbcB_getb x j >>> r) &&& c := by
  apply Nat.eq_of_testBit_eq
  intro i
  simp only [getb_testBit, Nat.testBit_and, Nat.testBit_shiftRight]
  by_cases hi : r + i < 8
  · have h1 : i < 8 := by omega
    have e : 8 * j + (r + i) = r + (8 * j + i) := by omega
    simp [hi, h1, e]
  · have hci : c.testBit i = false := by
      apply Nat.testBit_lt_two_pow
      calc c < 2 ^ (8 - r) := hc
        _ ≤ 2 ^ i := Nat.pow_le_pow_right (by norm_num) (by omega)
    simp [hci]

/-- One step of the OR-fold `m=(m|(m>>r))&C` on a byte of the word. -/
theorem getb_fold (m j r C c : Nat) (hC : dbcB_getb C j = c) (hc : c < 2 ^ (8 - r)) :
    dbcB_getb ((m ||| (m >>> r)) &&& C) j
      = (dbcB_getb m j ||| (dbcB_getb m j >>> r)) &&& c := by
  rw [getb_and, getb_or, hC]
  apply Nat.eq_of_testBit_eq
  intro i
  have := congrArg (fun z => z.testBit i) (getb_shr_and m j r c hc)
  simp only [Nat.testBit_and, Nat.testBit_or] at this ⊢
  cases h1 : (dbcB_getb m j).testBit i <;> simp [this]

theorem getb_u32 (x j : Nat) (hj : j < 4) : dbcB_getb (u32 x) j = dbcB_getb x j := by
  apply Nat.eq_of_testBit_eq
  intro i
  unfold u32
  simp only [getb_testBit, Nat.testBit_mod_two_pow]
  by_cases hi : i < 8
  · have : 8 * j + i < 32 := by omega
    simp [hi, this]
  · simp [hi]

theorem getb_u64 (x j : Nat) (hj : j < 8) : dbcB_getb (u64 x) j = dbcB_getb x j := by
  apply Nat.eq_of_testBit_eq
  intro i
  unfold u64
  simp only [getb_testBit, Nat.testBit_mod_two_pow]
  by_cases hi : i < 8
  · have : 8 * j + i < 64 := by omega
    simp [hi, this]
  · simp [hi]

/-- The OR-fold of a byte: 1 for a nonzero byte, 0 for zero. -/
theorem fold_byte : ∀ y : Fin 256,
    ((((y.val ||| (y.val >>> 1)) &&& 0x55) ||| ((((y.val ||| (y.val >>> 1)) &&& 0x55)) >>> 2))
        &&& 0x33 |||
      (((((y.val ||| (y.val >>> 1)) &&& 0x55) ||| ((((y.val ||| (y.val >>> 1)) &&& 0x55)) >>> 2))
        &&& 0x33) >>> 4)) &&& 0x0F = if y.val = 0 then 0 else 1 := by
  decide!

/-- Selection by a mask whose byte is `0xFF` or 0. -/
theorem select_byte (s d e : Nat) (hs : s < 256) (hd : d < 256) (he : e ≤ 1) :
    (s &&& (255 * e)) ^^^ (d &&& ((255 * e) ^^^ 255)) = if e = 1 then s else d := by
  have h255 : ∀ z, z < 256 → z &&& 255 = z := by
    intro z hz
    have := Nat.and_pow_two_sub_one_eq_mod z 8
    norm_num at this
    rw [this]
    omega
  interval_cases e
  · simp [h255 d hd]
  · simp [h255 s hs]

theorem word4_getb (x : Nat) (h : x < 2 ^ 32) :
    x = dbcB_getb x 0 + 256 * dbcB_getb x 1 + 65536 * dbcB_getb x 2
      + 16777216 * dbcB_getb x 3 := by
  have := pix4_getb x h
  unfold pix4 at this
  omega

theorem getb_word4 (b0 b1 b2 b3 : Nat) (h0 : b0 < 256) (h1 : b1 < 256) (h2 : b2 < 256)
    (h3 : b3 < 256) (j : Nat) (hj : j < 4) :
    dbcB_getb (b0 + 256 * b1 + 65536 * b2 + 16777216 * b3) j
      = if j = 0 then b0 else if j = 1 then b1 else if j = 2 then b2 else b3 := by
  obtain ⟨g0, g1, g2, g3⟩ := getb_pix4 b0 b1 b2 b3 h0 h1 h2 h3
  unfold pix4 at g0 g1 g2 g3
  interval_cases j
  · simpa using g0
  · simpa using g1
  · simpa using g2
  · simpa using g3

theorem getb_const32 (c j : Nat) (hc : c < 256) (hj : j < 4) :
    dbcB_getb (c * 0x01010101) j = c := by
  have e : c * 0x01010101 = c + 256 * c + 65536 * c + 16777216 * c := by omega
  rw [e, getb_word4 c c c c hc hc hc hc j hj]
  split_ifs <;> rfl

/-! ## The packed colorkey kernel for four 8-bit pixels -/

/-- Every byte of the result of the packed block of `dbcB_b8m_4_c` is what `dbcB_b8m_1_c` gives
for that byte. -/
theorem dbcB_b8m_4_c_packed_lane (key S D j : Nat) (hkey : key < 256) (hj : j < 4) :
    dbcB_getb (dbcB_b8m_4_c_packed key S D) j
      = dbcB_b8m_1_c key (dbcB_getb S j) (dbcB_getb D j) := by
  unfold dbcB_b8m_4_c_packed dbcB_b8m_1_c
  simp only
  set m0 := u32 (S ^^^ u32 (key * 0x01010101)) with hm0
  set m1 := (m0 ||| (m0 >>> 1)) &&& 0x55555555 with hm1
  set m2 := (m1 ||| (m1 >>> 2)) &&& 0x33333333 with hm2
  set m3 := (m2 ||| (m2 >>> 4)) &&& 0x0F0F0F0F with hm3
  have c55 : ∀ i, i < 4 → dbcB_getb 0x55555555 i = 0x55 := by
    intro i hi; interval_cases i <;> rfl
  have c33 : ∀ i, i < 4 → dbcB_getb 0x33333333 i = 0x33 := by
    intro i hi; interval_cases i <;> rfl
  have c0F : ∀ i, i < 4 → dbcB_getb 0x0F0F0F0F i = 0x0F := by
    intro i hi; interval_cases i <;> rfl
  have cFF : ∀ i, i < 4 → dbcB_getb 0xFFFFFFFF i = 0xFF := by
    intro i hi; interval_cases i <;> rfl
  have b0 : ∀ i, i < 4 → dbcB_getb m0 i = dbcB_getb S i ^^^ key := by
    intro i hi
    rw [hm0, getb_u32 _ _ hi, getb_xor, getb_u32 _ _ hi, getb_const32 key i hkey hi]
  have b3 : ∀ i, i < 4 → dbcB_getb m3 i = if dbcB_getb S i = key then 0 else 1 := by
    intro i hi
    rw [hm3, getb_fold m2 i 4 _ _ (c0F i hi) (by norm_num),
      hm2, getb_fold m1 i 2 _ _ (c33 i hi) (by norm_num),
      hm1, getb_fold m0 i 1 _ _ (c55 i hi) (by norm_num), b0 i hi]
    have hlt : dbcB_getb S i ^^^ key < 256 :=
      Nat.xor_lt_two_pow (n := 8) (getb_lt S i) hkey
    have := fold_byte ⟨dbcB_getb S i ^^^ key, hlt⟩
    simp only at this
    rw [this]
    by_cases h : dbcB_getb S i = key
    · simp [h]
    · have : dbcB_getb S i ^^^ key ≠ 0 := fun h0 => h (Nat.xor_eq_zero.mp h0)
      simp [h, this]
  have hm3lt : m3 < 2 ^ 32 := by
    rw [hm3]
    exact lt_of_le_of_lt Nat.and_le_right (by norm_num)
  have e0 := b3 0 (by norm_num)
  have e1 := b3 1 (by norm_num)
  have e2 := b3 2 (by norm_num)
  have e3 := b3 3 (by norm_num)
  have hw := word4_getb m3 hm3lt
  have le0 : dbcB_getb m3 0 ≤ 1 := by rw [e0]; split_ifs <;> omega
  have le1 : dbcB_getb m3 1 ≤ 1 := by rw [e1]; split_ifs <;> omega
  have le2 : dbcB_getb m3 2 ≤ 1 := by rw [e2]; split_ifs <;> omega
  have le3 : dbcB_getb m3 3 ≤ 1 := by rw [e3]; split_ifs <;> omega
  have hsub : sub32 (u32 (m3 <<< 8)) m3
      = 255 * dbcB_getb m3 0 + 256 * (255 * dbcB_getb m3 1) + 65536 * (255 * dbcB_getb m3 2)
        + 16777216 * (255 * dbcB_getb m3 3) := by
    unfold sub32 u32
    rw [Nat.shiftLeft_eq]
    omega
  have hm4 : ∀ i, i < 4 → dbcB_getb (sub32 (u32 (m3 <<< 8)) m3) i = 255 * dbcB_getb m3 i := by
    intro i hi
    rw [hsub, getb_word4 _ _ _ _ (by omega) (by omega) (by omega) (by omega) i hi]
    interval_cases i <;> rfl
  rw [getb_xor, getb_and, getb_and, getb_xor, hm4 j hj, cFF j hj,
    select_byte _ _ _ (getb_lt S j) (getb_lt D j) (by interval_cases j <;> assumption), b3 j hj]
  by_cases h : dbcB_getb S j = key
  · simp [h]
  · simp [h]


/-! ## Words of eight bytes -/

theorem word8_getb (x : Nat) (h : x < 2 ^ 64) :
    x = dbcB_getb x 0 + 256 * dbcB_getb x 1 + 65536 * dbcB_getb x 2
      + 16777216 * dbcB_getb x 3 + 4294967296 * dbcB_getb x 4
      + 1099511627776 * dbcB_getb x 5 + 281474976710656 * dbcB_getb x 6
      + 72057594037927936 * dbcB_getb x 7 := by
  unfold dbcB_getb u8
  simp only [Nat.shiftRight_eq_div_pow]
  norm_num
  omega

theorem getb_word8 (b0 b1 b2 b3 b4 b5 b6 b7 : Nat) (h0 : b0 < 256) (h1 : b1 < 256)
    (h2 : b2 < 256) (h3 : b3 < 256) (h4 : b4 < 256) (h5 : b5 < 256) (h6 : b6 < 256)
    (h7 : b7 < 256) :
    dbcB_getb (b0 + 256 * b1 + 65536 * b2 + 16777216 * b3 + 4294967296 * b4
      + 1099511627776 * b5 + 281474976710656 * b6 + 72057594037927936 * b7) 0 = b0 ∧
    dbcB_getb (b0 + 256 * b1 + 65536 * b2 + 16777216 * b3 + 4294967296 * b4
      + 1099511627776 * b5 + 281474976710656 * b6 + 72057594037927936 * b7) 1 = b1 ∧
    dbcB_getb (b0 + 256 * b1 + 65536 * b2 + 16777216 * b3 + 4294967296 * b4
      + 1099511627776 * b5 + 281474976710656 * b6 + 72057594037927936 * b7) 2 = b2 ∧
    dbcB_getb (b0 + 256 * b1 + 65536 * b2 + 16777216 * b3 + 4294967296 * b4
      + 1099511627776 * b5 + 281474976710656 * b6 + 72057594037927936 * b7) 3 = b3 ∧
    dbcB_getb (b0 + 256 * b1 + 65536 * b2 + 16777216 * b3 + 4294967296 * b4
      + 1099511627776 * b5 + 281474976710656 * b6 + 72057594037927936 * b7) 4 = b4 ∧
    dbcB_getb (b0 + 256 * b1 + 65536 * b2 + 16777216 * b3 + 4294967296 * b4
      + 1099511627776 * b5 + 281474976710656 * b6 + 72057594037927936 * b7) 5 = b5 ∧
    dbcB_getb (b0 + 256 * b1 + 65536 * b2 + 16777216 * b3 + 4294967296 * b4
      + 1099511627776 * b5 + 281474976710656 * b6 + 72057594037927936 * b7) 6 = b6 ∧
    dbcB_getb (b0 + 256 * b1 + 65536 * b2 + 16777216 * b3 + 4294967296 * b4
      + 1099511627776 * b5 + 281474976710656 * b6 + 72057594037927936 * b7) 7 = b7 := by
  unfold dbcB_getb u8
  simp only [Nat.shiftRight_eq_div_pow]
  norm_num
  refine ⟨?_, ?_, ?_, ?_, ?_, ?_, ?_, ?_⟩ <;> omega

/-- Selection by a mask whose bytes are `0xFF` or 0, byte by byte. -/
theorem select_word (S D m ones j e : Nat) (hm : dbcB_getb m j = 255 * e) (he : e ≤ 1)
    (hones : dbcB_getb ones j = 255) :
    dbcB_getb ((S &&& m) ^^^ (D &&& (m ^^^ ones))) j
      = if e = 1 then dbcB_getb S j else dbcB_getb D j := by
  rw [getb_xor, getb_and, getb_and, getb_xor, hm, hones,
    select_byte _ _ _ (getb_lt S j) (getb_lt D j) he]

theorem and_0x80 : ∀ y : Fin 256, y.val &&& 0x80 = 128 * (y.val / 128) := by decide!

theorem getb_shr8 (x j : Nat) : dbcB_getb (x >>> 8) j = dbcB_getb x (j + 1) := by
  unfold dbcB_getb
  rw [← Nat.shiftRight_add]
  congr 2
  omega

/-! ## The packed colorkey kernel for eight 8-bit pixels -/

theorem dbcB_b8m_8_c_packed_lane (key S D j : Nat) (hkey : key < 256) (hj : j < 8) :
    dbcB_getb (dbcB_b8m_8_c_packed key S D) j
      = dbcB_b8m_1_c key (dbcB_getb S j) (dbcB_getb D j) := by
  unfold dbcB_b8m_8_c_packed dbcB_b8m_1_c
  simp only
  have k1 : DBCB_C64 0x01010101 0x01010101 = 0x0101010101010101 := by decide
  have k55 : DBCB_C64 0x55555555 0x55555555 = 0x5555555555555555 := by decide
  have k33 : DBCB_C64 0x33333333 0x33333333 = 0x3333333333333333 := by decide
  have k0F : DBCB_C64 0x0F0F0F0F 0x0F0F0F0F = 0x0F0F0F0F0F0F0F0F := by decide
  rw [k1, k55, k33, k0F]
  set m0 := S ^^^ u64 (key * 0x0101010101010101) with hm0
  set m1 := (m0 ||| (m0 >>> 1)) &&& 0x5555555555555555 with hm1
  set m2 := (m1 ||| (m1 >>> 2)) &&& 0x3333333333333333 with hm2
  set m3 := (m2 ||| (m2 >>> 4)) &&& 0x0F0F0F0F0F0F0F0F with hm3
  have c55 : ∀ i, i < 8 → dbcB_getb 0x5555555555555555 i = 0x55 := by
    intro i hi; interval_cases i <;> rfl
  have c33 : ∀ i, i < 8 → dbcB_getb 0x3333333333333333 i = 0x33 := by
    intro i hi; interval_cases i <;> rfl
  have c0F : ∀ i, i < 8 → dbcB_getb 0x0F0F0F0F0F0F0F0F i = 0x0F := by
    intro i hi; interval_cases i <;> rfl
  have cFF : ∀ i, i < 8 → dbcB_getb 0xFFFFFFFFFFFFFFFF i = 0xFF := by
    intro i hi; interval_cases i <;> rfl
  have ck : ∀ i, i < 8 → dbcB_getb (key * 0x0101010101010101) i = key := by
    intro i hi
    have e : key * 0x0101010101010101 = key + 256 * key + 65536 * key + 16777216 * key
        + 4294967296 * key + 1099511627776 * key + 281474976710656 * key
        + 72057594037927936 * key := by omega
    rw [e]
    obtain ⟨g0, g1, g2, g3, g4, g5, g6, g7⟩ :=
      getb_word8 key key key key key key key key hkey hkey hkey hkey hkey hkey hkey hkey
    interval_cases i <;> assumption
  have b0 : ∀ i, i < 8 → dbcB_getb m0 i = dbcB_getb S i ^^^ key := by
    intro i hi
    rw [hm0, getb_xor, getb_u64 _ _ hi, ck i hi]
  have b3 : ∀ i, i < 8 → dbcB_getb m3 i = if dbcB_getb S i = key then 0 else 1 := by
    intro i hi
    rw [hm3, getb_fold m2 i 4 _ _ (c0F i hi) (by norm_num),
      hm2, getb_fold m1 i 2 _ _ (c33 i hi) (by norm_num),
      hm1, getb_fold m0 i 1 _ _ (c55 i hi) (by norm_num), b0 i hi]
    have hlt : dbcB_getb S i ^^^ key < 256 :=
      Nat.xor_lt_two_pow (n := 8) (getb_lt S i) hkey
    have := fold_byte ⟨dbcB_getb S i ^^^ key, hlt⟩
    simp only at this
    rw [this]
    by_cases h : dbcB_getb S i = key
    · simp [h]
    · have : dbcB_getb S i ^^^ key ≠ 0 := fun h0 => h (Nat.xor_eq_zero.mp h0)
      simp [h, this]
  have hm3lt : m3 < 2 ^ 64 := by
    rw [hm3]
    exact lt_of_le_of_lt Nat.and_le_right (by norm_num)
  have le : ∀ i, i < 8 → dbcB_getb m3 i ≤ 1 := by
    intro i hi; rw [b3 i hi]; split_ifs <;> omega
  have hw := word8_getb m3 hm3lt
  have l0 := le 0 (by norm_num)
  have l1 := le 1 (by norm_num)
  have l2 := le 2 (by norm_num)
  have l3 := le 3 (by norm_num)
  have l4 := le 4 (by norm_num)
  have l5 := le 5 (by norm_num)
  have l6 := le 6 (by norm_num)
  have l7 := le 7 (by norm_num)
  have hsub : sub64 (u64 (m3 <<< 8)) m3
      = 255 * dbcB_getb m3 0 + 256 * (255 * dbcB_getb m3 1) + 65536 * (255 * dbcB_getb m3 2)
        + 16777216 * (255 * dbcB_getb m3 3) + 4294967296 * (255 * dbcB_getb m3 4)
        + 1099511627776 * (255 * dbcB_getb m3 5) + 281474976710656 * (255 * dbcB_getb m3 6)
        + 72057594037927936 * (255 * dbcB_getb m3 7) := by
    unfold sub64 u64
    rw [Nat.shiftLeft_eq]
    omega
  have hm4 : ∀ i, i < 8 → dbcB_getb (sub64 (u64 (m3 <<< 8)) m3) i = 255 * dbcB_getb m3 i := by
    intro i hi
    rw [hsub]
    obtain ⟨g0, g1, g2, g3, g4, g5, g6, g7⟩ :=
      getb_word8 (255 * dbcB_getb m3 0) (255 * dbcB_getb m3 1) (255 * dbcB_getb m3 2)
        (255 * dbcB_getb m3 3) (255 * dbcB_getb m3 4) (255 * dbcB_getb m3 5)
        (255 * dbcB_getb m3 6) (255 * dbcB_getb m3 7) (by omega) (by omega) (by omega)
        (by omega) (by omega) (by omega) (by omega) (by omega)
    interval_cases i <;> assumption
  rw [select_word S D _ _ j _ (hm4 j hj) (le j hj) (cFF j hj), b3 j hj]
  by_cases h : dbcB_getb S j = key
  · simp [h]
  · simp [h]

/-! ## The packed 5551 kernels -/

theorem top_bit_byte (x : Nat) (hx : x < 256) : x / 128 ≤ 1 ∧ (x / 128 = 1 ↔ 128 ≤ x) := by
  omega

theorem dbcB_b5551_2_c_packed_byte (S D i : Nat) (hi : i < 4) :
    dbcB_getb (dbcB_b5551_2_c_packed S D) i
      = if dbcB_getb S (2 * (i / 2) + 1) / 128 = 1 then dbcB_getb S i else dbcB_getb D i := by
  unfold dbcB_b5551_2_c_packed
  simp only
  set m0 := u32 (S &&& 0x80008000) with hm0
  have cFF : ∀ i, i < 4 → dbcB_getb 0xFFFFFFFF i = 0xFF := by
    intro i hi; interval_cases i <;> rfl
  have a80 : ∀ x, x < 256 → x &&& 0x80 = 128 * (x / 128) := by
    intro x hx
    exact and_0x80 ⟨x, hx⟩
  have g0 : dbcB_getb m0 0 = 0 := by
    rw [hm0, getb_u32 _ _ (by norm_num), getb_and]
    show dbcB_getb S 0 &&& 0 = 0
    simp
  have g1 : dbcB_getb m0 1 = 128 * (dbcB_getb S 1 / 128) := by
    rw [hm0, getb_u32 _ _ (by norm_num), getb_and]
    exact a80 _ (getb_lt S 1)
  have g2 : dbcB_getb m0 2 = 0 := by
    rw [hm0, getb_u32 _ _ (by norm_num), getb_and]
    show dbcB_getb S 2 &&& 0 = 0
    simp
  have g3 : dbcB_getb m0 3 = 128 * (dbcB_getb S 3 / 128) := by
    rw [hm0, getb_u32 _ _ (by norm_num), getb_and]
    exact a80 _ (getb_lt S 3)
  have hlt : m0 < 2 ^ 32 := by rw [hm0]; unfold u32; exact Nat.mod_lt _ (by norm_num)
  have hw := word4_getb m0 hlt
  rw [g0, g1, g2, g3] at hw
  obtain ⟨t0le, _⟩ := top_bit_byte _ (getb_lt S 1)
  obtain ⟨t1le, _⟩ := top_bit_byte _ (getb_lt S 3)
  have hsub : sub32 (u32 (m0 <<< 1)) (m0 >>> 15)
      = 255 * (dbcB_getb S 1 / 128) + 256 * (255 * (dbcB_getb S 1 / 128))
        + 65536 * (255 * (dbcB_getb S 3 / 128))
        + 16777216 * (255 * (dbcB_getb S 3 / 128)) := by
    unfold sub32 u32
    rw [Nat.shiftLeft_eq, Nat.shiftRight_eq_div_pow]
    generalize dbcB_getb S 1 / 128 = t0 at *
    generalize dbcB_getb S 3 / 128 = t1 at *
    omega
  have hm4 : ∀ i, i < 4 → dbcB_getb (sub32 (u32 (m0 <<< 1)) (m0 >>> 15)) i
      = 255 * (dbcB_getb S (2 * (i / 2) + 1) / 128) := by
    intro i hi
    rw [hsub, getb_word4 _ _ _ _ (by omega) (by omega) (by omega) (by omega) i hi]
    interval_cases i <;> rfl
  rw [select_word S D _ _ i _ (hm4 i hi)
    (by interval_cases i <;> assumption) (cFF i hi)]

theorem lane16_ge (x j : Nat) : 0x8000 ≤ lane16 x j ↔ dbcB_getb x (2 * j + 1) / 128 = 1 := by
  unfold lane16
  have h0 := getb_lt x (2 * j)
  have h1 := getb_lt x (2 * j + 1)
  omega

/-- Every 16-bit lane of the result of the packed block of `dbcB_b5551_2_c` is what
`dbcB_b5551_1_c` gives for that lane. -/
theorem dbcB_b5551_2_c_packed_lane (S D j : Nat) (hj : j < 2) :
    lane16 (dbcB_b5551_2_c_packed S D) j = dbcB_b5551_1_c (lane16 S j) (lane16 D j) := by
  unfold dbcB_b5551_1_c
  have e0 : 2 * j / 2 = j := by omega
  have e1 : (2 * j + 1) / 2 = j := by omega
  have b0 := dbcB_b5551_2_c_packed_byte S D (2 * j) (by omega)
  have b1 := dbcB_b5551_2_c_packed_byte S D (2 * j + 1) (by omega)
  rw [e0] at b0
  rw [e1] at b1
  have hge := lane16_ge S j
  by_cases h : dbcB_getb S (2 * j + 1) / 128 = 1
  · rw [if_pos h] at b0 b1
    rw [if_pos (ge_iff_le.mpr (hge.mpr h))]
    unfold lane16
    rw [b0, b1]
  · rw [if_neg h] at b0 b1
    rw [if_neg (fun hh => h (hge.mp hh))]
    unfold lane16
    rw [b0, b1]

theorem dbcB_b5551_4_c_packed_byte (S D i : Nat) (hi : i < 8) :
    dbcB_getb (dbcB_b5551_4_c_packed S D) i
      = if dbcB_getb S (2 * (i / 2) + 1) / 128 = 1 then dbcB_getb S i else dbcB_getb D i := by
  unfold dbcB_b5551_4_c_packed
  simp only
  have k80 : DBCB_C64 0x80008000 0x80008000 = 0x8000800080008000 := by decide
  rw [k80]
  set m0 := u64 (S &&& 0x8000800080008000) with hm0
  have cFF : ∀ i, i < 8 → dbcB_getb 0xFFFFFFFFFFFFFFFF i = 0xFF := by
    intro i hi; interval_cases i <;> rfl
  have a80 : ∀ x, x < 256 → x &&& 0x80 = 128 * (x / 128) := by
    intro x hx
    exact and_0x80 ⟨x, hx⟩
  have gz : ∀ i, i < 4 → dbcB_getb m0 (2 * i) = 0 := by
    intro i hi
    rw [hm0, getb_u64 _ _ (by omega), getb_and]
    have : dbcB_getb 0x8000800080008000 (2 * i) = 0 := by interval_cases i <;> rfl
    rw [this]
    simp
  have gt : ∀ i, i < 4 → dbcB_getb m0 (2 * i + 1) = 128 * (dbcB_getb S (2 * i + 1) / 128) := by
    intro i hi
    rw [hm0, getb_u64 _ _ (by omega), getb_and]
    have : dbcB_getb 0x8000800080008000 (2 * i + 1) = 0x80 := by interval_cases i <;> rfl
    rw [this]
    exact a80 _ (getb_lt S _)
  have hlt : m0 < 2 ^ 64 := by rw [hm0]; unfold u64; exact Nat.mod_lt _ (by norm_num)
  have hw := word8_getb m0 hlt
  have z0 := gz 0 (by norm_num)
  have z1 := gz 1 (by norm_num)
  have z2 := gz 2 (by norm_num)
  have z3 := gz 3 (by norm_num)
  have t0 := gt 0 (by norm_num)
  have t1 := gt 1 (by norm_num)
  have t2 := gt 2 (by norm_num)
  have t3 := gt 3 (by norm_num)
  norm_num at z0 z1 z2 z3 t0 t1 t2 t3
  rw [z0, z1, z2, z3, t0, t1, t2, t3] at hw
  obtain ⟨l0, _⟩ := top_bit_byte _ (getb_lt S 1)
  obtain ⟨l1, _⟩ := top_bit_byte _ (getb_lt S 3)
  obtain ⟨l2, _⟩ := top_bit_byte _ (getb_lt S 5)
  obtain ⟨l3, _⟩ := top_bit_byte _ (getb_lt S 7)
  have hsub : sub64 (u64 (m0 <<< 1)) (m0 >>> 15)
      = 255 * (dbcB_getb S 1 / 128) + 256 * (255 * (dbcB_getb S 1 / 128))
        + 65536 * (255 * (dbcB_getb S 3 / 128))
        + 16777216 * (255 * (dbcB_getb S 3 / 128))
        + 4294967296 * (255 * (dbcB_getb S 5 / 128))
        + 1099511627776 * (255 * (dbcB_getb S 5 / 128))
        + 281474976710656 * (255 * (dbcB_getb S 7 / 128))
        + 72057594037927936 * (255 * (dbcB_getb S 7 / 128)) := by
    unfold sub64 u64
    rw [Nat.shiftLeft_eq, Nat.shiftRight_eq_div_pow]
    generalize dbcB_getb S 1 / 128 = t0 at *
    generalize dbcB_getb S 3 / 128 = t1 at *
    generalize dbcB_getb S 5 / 128 = t2 at *
    generalize dbcB_getb S 7 / 128 = t3 at *
    omega
  have hm4 : ∀ i, i < 8 → dbcB_getb (sub64 (u64 (m0 <<< 1)) (m0 >>> 15)) i
      = 255 * (dbcB_getb S (2 * (i / 2) + 1) / 128) := by
    intro i hi
    rw [hsub]
    obtain ⟨g0, g1, g2, g3, g4, g5, g6, g7⟩ :=
      getb_word8 (255 * (dbcB_getb S 1 / 128)) (255 * (dbcB_getb S 1 / 128))
        (255 * (dbcB_getb S 3 / 128)) (255 * (dbcB_getb S 3 / 128))
        (255 * (dbcB_getb S 5 / 128)) (255 * (dbcB_getb S 5 / 128))
        (255 * (dbcB_getb S 7 / 128)) (255 * (dbcB_getb S 7 / 128))
        (by omega) (by omega) (by omega) (by omega) (by omega) (by omega) (by omega) (by omega)
    interval_cases i <;> assumption
  rw [select_word S D _ _ i _ (hm4 i hi)
    (by interval_cases i <;> assumption) (cFF i hi)]

/-- Every 16-bit lane of the result of the packed block of `dbcB_b5551_4_c` is what
`dbcB_b5551_1_c` gives for that lane. -/
theorem dbcB_b5551_4_c_packed_lane (S D j : Nat) (hj : j < 4) :
    lane16 (dbcB_b5551_4_c_packed S D) j = dbcB_b5551_1_c (lane16 S j) (lane16 D j) := by
  unfold dbcB_b5551_1_c
  have e0 : 2 * j / 2 = j := by omega
  have e1 : (2 * j + 1) / 2 = j := by omega
  have b0 := dbcB_b5551_4_c_packed_byte S D (2 * j) (by omega)
  have b1 := dbcB_b5551_4_c_packed_byte S D (2 * j + 1) (by omega)
  rw [e0] at b0
  rw [e1] at b1
  have hge := lane16_ge S j
  by_cases h : dbcB_getb S (2 * j + 1) / 128 = 1
  · rw [if_pos h] at b0 b1
    rw [if_pos (ge_iff_le.mpr (hge.mpr h))]
    unfold lane16
    rw [b0, b1]
  · rw [if_neg h] at b0 b1
    rw [if_neg (fun hh => h (hge.mp hh))]
    unfold lane16
    rw [b0, b1]

/-! ## The packed alpha-test kernel with threshold 128 -/

theorem dbcB_b32s_2_c_packed_byte (S D i : Nat) (hi : i < 8) :
    dbcB_getb (dbcB_b32s_2_c_packed S D) i
      = if dbcB_getb S (4 * (i / 4) + 3) / 128 = 1 then dbcB_getb S i else dbcB_getb D i := by
  unfold dbcB_b32s_2_c_packed
  simp only
  have k80 : DBCB_C64 0x80000000 0x80000000 = 0x8000000080000000 := by decide
  rw [k80]
  set m0 := u64 (S &&& 0x8000000080000000) with hm0
  have cFF : ∀ i, i < 8 → dbcB_getb 0xFFFFFFFFFFFFFFFF i = 0xFF := by
    intro i hi; interval_cases i <;> rfl
  have a80 : ∀ x, x < 256 → x &&& 0x80 = 128 * (x / 128) := by
    intro x hx
    exact and_0x80 ⟨x, hx⟩
  have gz : ∀ i, i < 8 → i ≠ 3 → i ≠ 7 → dbcB_getb m0 i = 0 := by
    intro i hi h3 h7
    rw [hm0, getb_u64 _ _ hi, getb_and]
    have : dbcB_getb 0x8000000080000000 i = 0 := by interval_cases i <;> first | rfl | omega
    rw [this]
    simp
  have gt : ∀ i, i = 3 ∨ i = 7 → dbcB_getb m0 i = 128 * (dbcB_getb S i / 128) := by
    intro i hi
    rw [hm0, getb_u64 _ _ (by omega), getb_and]
    have : dbcB_getb 0x8000000080000000 i = 0x80 := by rcases hi with e | e <;> subst e <;> rfl
    rw [this]
    exact a80 _ (getb_lt S _)
  have hlt : m0 < 2 ^ 64 := by rw [hm0]; unfold u64; exact Nat.mod_lt _ (by norm_num)
  have hw := word8_getb m0 hlt
  rw [gz 0 (by norm_num) (by norm_num) (by norm_num),
    gz 1 (by norm_num) (by norm_num) (by norm_num),
    gz 2 (by norm_num) (by norm_num) (by norm_num),
    gz 4 (by norm_num) (by norm_num) (by norm_num),
    gz 5 (by norm_num) (by norm_num) (by norm_num),
    gz 6 (by norm_num) (by norm_num) (by norm_num),
    gt 3 (Or.inl rfl), gt 7 (Or.inr rfl)] at hw
  obtain ⟨l0, _⟩ := top_bit_byte _ (getb_lt S 3)
  obtain ⟨l1, _⟩ := top_bit_byte _ (getb_lt S 7)
  have hsub : sub64 (u64 (m0 <<< 1)) (m0 >>> 31)
      = 255 * (dbcB_getb S 3 / 128) + 256 * (255 * (dbcB_getb S 3 / 128))
        + 65536 * (255 * (dbcB_getb S 3 / 128))
        + 16777216 * (255 * (dbcB_getb S 3 / 128))
        + 4294967296 * (255 * (dbcB_getb S 7 / 128))
        + 1099511627776 * (255 * (dbcB_getb S 7 / 128))
        + 281474976710656 * (255 * (dbcB_getb S 7 / 128))
        + 72057594037927936 * (255 * (dbcB_getb S 7 / 128)) := by
    unfold sub64 u64
    rw [Nat.shiftLeft_eq, Nat.shiftRight_eq_div_pow]
    generalize dbcB_getb S 3 / 128 = t0 at *
    generalize dbcB_getb S 7 / 128 = t1 at *
    omega
  have hm4 : ∀ i, i < 8 → dbcB_getb (sub64 (u64 (m0 <<< 1)) (m0 >>> 31)) i
      = 255 * (dbcB_getb S (4 * (i / 4) + 3) / 128) := by
    intro i hi
    rw [hsub]
    obtain ⟨g0, g1, g2, g3, g4, g5, g6, g7⟩ :=
      getb_word8 (255 * (dbcB_getb S 3 / 128)) (255 * (dbcB_getb S 3 / 128))
        (255 * (dbcB_getb S 3 / 128)) (255 * (dbcB_getb S 3 / 128))
        (255 * (dbcB_getb S 7 / 128)) (255 * (dbcB_getb S 7 / 128))
        (255 * (dbcB_getb S 7 / 128)) (255 * (dbcB_getb S 7 / 128))
        (by omega) (by omega) (by omega) (by omega) (by omega) (by omega) (by omega) (by omega)
    interval_cases i <;> assumption
  rw [select_word S D _ _ i _ (hm4 i hi)
    (by interval_cases i <;> assumption) (cFF i hi)]

theorem lane32_ge (x j : Nat) : 0x80000000 ≤ lane32 x j ↔ dbcB_getb x (4 * j + 3) / 128 = 1 := by
  unfold lane32
  have h0 := getb_lt x (4 * j)
  have h1 := getb_lt x (4 * j + 1)
  have h2 := getb_lt x (4 * j + 2)
  have h3 := getb_lt x (4 * j + 3)
  omega

/-- Every 32-bit lane of the result of the packed block of `dbcB_b32s_2_c` is what
`dbcB_b32s_1_c` gives for that lane. -/
theorem dbcB_b32s_2_c_packed_lane (S D j : Nat) (hj : j < 2) :
    lane32 (dbcB_b32s_2_c_packed S D) j = dbcB_b32s_1_c (lane32 S j) (lane32 D j) := by
  unfold dbcB_b32s_1_c
  have e0 : 4 * j / 4 = j := by omega
  have e1 : (4 * j + 1) / 4 = j := by omega
  have e2 : (4 * j + 2) / 4 = j := by omega
  have e3 : (4 * j + 3) / 4 = j := by omega
  have b0 := dbcB_b32s_2_c_packed_byte S D (4 * j) (by omega)
  have b1 := dbcB_b32s_2_c_packed_byte S D (4 * j + 1) (by omega)
  have b2 := dbcB_b32s_2_c_packed_byte S D (4 * j + 2) (by omega)
  have b3 := dbcB_b32s_2_c_packed_byte S D (4 * j + 3) (by omega)
  rw [e0] at b0
  rw [e1] at b1
  rw [e2] at b2
  rw [e3] at b3
  have hge := lane32_ge S j
  by_cases h : dbcB_getb S (4 * j + 3) / 128 = 1
  · rw [if_pos h] at b0 b1 b2 b3
    rw [if_pos (ge_iff_le.mpr (hge.mpr h))]
    unfold lane32
    rw [b0, b1, b2, b3]
  · rw [if_neg h] at b0 b1 b2 b3
    rw [if_neg (fun hh => h (hge.mp hh))]
    unfold lane32
    rw [b0, b1, b2, b3]

/-! ## The packed colorkey kernel for four 16-bit pixels -/

theorem or_and_bits (a b : Nat) (ha : a ≤ 1) (hb : b ≤ 1) :
    (a ||| b) &&& 0xFF = if a = 0 ∧ b = 0 then 0 else 1 := by
  interval_cases a <;> interval_cases b <;> rfl

theorem lane16_eq_key (x j key : Nat) :
    lane16 x j = key ↔ dbcB_getb x (2 * j) = key % 256 ∧ dbcB_getb x (2 * j + 1) = key / 256 := by
  unfold lane16
  have h0 := getb_lt x (2 * j)
  have h1 := getb_lt x (2 * j + 1)
  omega

theorem dbcB_b16m_4_c_packed_byte (key S D i : Nat) (hkey : key < 65536) (hi : i < 8) :
    dbcB_getb (dbcB_b16m_4_c_packed key S D) i
      = if lane16 S (i / 2) ≠ key then dbcB_getb S i else dbcB_getb D i := by
  unfold dbcB_b16m_4_c_packed
  simp only
  have k1 : DBCB_C64 0x00010001 0x00010001 = 0x0001000100010001 := by decide
  have k55 : DBCB_C64 0x55555555 0x55555555 = 0x5555555555555555 := by decide
  have k33 : DBCB_C64 0x33333333 0x33333333 = 0x3333333333333333 := by decide
  have k0F : DBCB_C64 0x0F0F0F0F 0x0F0F0F0F = 0x0F0F0F0F0F0F0F0F := by decide
  have kFF : DBCB_C64 0x00FF00FF 0x00FF00FF = 0x00FF00FF00FF00FF := by decide
  rw [k1, k55, k33, k0F, kFF]
  set m0 := S ^^^ u64 (key * 0x0001000100010001) with hm0
  set m1 := (m0 ||| (m0 >>> 1)) &&& 0x5555555555555555 with hm1
  set m2 := (m1 ||| (m1 >>> 2)) &&& 0x3333333333333333 with hm2
  set m3 := (m2 ||| (m2 >>> 4)) &&& 0x0F0F0F0F0F0F0F0F with hm3
  set m4 := (m3 ||| (m3 >>> 8)) &&& 0x00FF00FF00FF00FF with hm4
  have c55 : ∀ i, i < 8 → dbcB_getb 0x5555555555555555 i = 0x55 := by
    intro i hi; interval_cases i <;> rfl
  have c33 : ∀ i, i < 8 → dbcB_getb 0x3333333333333333 i = 0x33 := by
    intro i hi; interval_cases i <;> rfl
  have c0F : ∀ i, i < 8 → dbcB_getb 0x0F0F0F0F0F0F0F0F i = 0x0F := by
    intro i hi; interval_cases i <;> rfl
  have cFF : ∀ i, i < 8 → dbcB_getb 0xFFFFFFFFFFFFFFFF i = 0xFF := by
    intro i hi; interval_cases i <;> rfl
  have cM0 : ∀ j, j < 4 → dbcB_getb 0x00FF00FF00FF00FF (2 * j) = 0xFF := by
    intro i hi; interval_cases i <;> rfl
  have cM1 : ∀ j, j < 4 → dbcB_getb 0x00FF00FF00FF00FF (2 * j + 1) = 0 := by
    intro i hi; interval_cases i <;> rfl
  have hlo : key % 256 < 256 := Nat.mod_lt _ (by norm_num)
  have hhi : key / 256 < 256 := by omega
  have ck0 : ∀ j, j < 4 → dbcB_getb (key * 0x0001000100010001) (2 * j) = key % 256 := by
    intro j hj
    have e : key * 0x0001000100010001 = key % 256 + 256 * (key / 256) + 65536 * (key % 256)
        + 16777216 * (key / 256) + 4294967296 * (key % 256) + 1099511627776 * (key / 256)
        + 281474976710656 * (key % 256) + 72057594037927936 * (key / 256) := by omega
    rw [e]
    obtain ⟨g0, g1, g2, g3, g4, g5, g6, g7⟩ :=
      getb_word8 (key % 256) (key / 256) (key % 256) (key / 256) (key % 256) (key / 256)
        (key % 256) (key / 256) hlo hhi hlo hhi hlo hhi hlo hhi
    interval_cases j <;> assumption
  have ck1 : ∀ j, j < 4 → dbcB_getb (key * 0x0001000100010001) (2 * j + 1) = key / 256 := by
    intro j hj
    have e : key * 0x0001000100010001 = key % 256 + 256 * (key / 256) + 65536 * (key % 256)
        + 16777216 * (key / 256) + 4294967296 * (key % 256) + 1099511627776 * (key / 256)
        + 281474976710656 * (key % 256) + 72057594037927936 * (key / 256) := by omega
    rw [e]
    obtain ⟨g0, g1, g2, g3, g4, g5, g6, g7⟩ :=
      getb_word8 (key % 256) (key / 256) (key % 256) (key / 256) (key % 256) (key / 256)
        (key % 256) (key / 256) hlo hhi hlo hhi hlo hhi hlo hhi
    interval_cases j <;> assumption
  have b3 : ∀ i kb, i < 8 → kb < 256 → dbcB_getb (key * 0x0001000100010001) i = kb →
      dbcB_getb m3 i = if dbcB_getb S i = kb then 0 else 1 := by
    intro i kb hi hkb hck
    rw [hm3, getb_fold m2 i 4 _ _ (c0F i hi) (by norm_num),
      hm2, getb_fold m1 i 2 _ _ (c33 i hi) (by norm_num),
      hm1, getb_fold m0 i 1 _ _ (c55 i hi) (by norm_num), hm0, getb_xor, getb_u64 _ _ hi, hck]
    have hlt : dbcB_getb S i ^^^ kb < 256 :=
      Nat.xor_lt_two_pow (n := 8) (getb_lt S i) hkb
    have := fold_byte ⟨dbcB_getb S i ^^^ kb, hlt⟩
    simp only at this
    rw [this]
    by_cases h : dbcB_getb S i = kb
    · simp [h]
    · have : dbcB_getb S i ^^^ kb ≠ 0 := fun h0 => h (Nat.xor_eq_zero.mp h0)
      simp [h, this]
  obtain ⟨E, hE⟩ : ∃ E : Nat → Nat, ∀ j, E j = if lane16 S j = key then 0 else 1 :=
    ⟨fun j => if lane16 S j = key then 0 else 1, fun _ => rfl⟩
  have hE1 : ∀ j, E j ≤ 1 := by
    intro j; rw [hE]; split_ifs <;> omega
  have b4e : ∀ j, j < 4 → dbcB_getb m4 (2 * j) = E j := by
    intro j hj
    rw [hm4, getb_and, getb_or, getb_shr8, cM0 j hj,
      b3 (2 * j) _ (by omega) hlo (ck0 j hj), b3 (2 * j + 1) _ (by omega) hhi (ck1 j hj),
      or_and_bits _ _ (by split_ifs <;> omega) (by split_ifs <;> omega), hE]
    have hk := lane16_eq_key S j key
    by_cases h0 : dbcB_getb S (2 * j) = key % 256 <;>
      by_cases h1 : dbcB_getb S (2 * j + 1) = key / 256 <;> simp [h0, h1, hk]
  have b4o : ∀ j, j < 4 → dbcB_getb m4 (2 * j + 1) = 0 := by
    intro j hj
    rw [hm4, getb_and, cM1 j hj, Nat.and_zero]
  have hm4lt : m4 < 2 ^ 64 := by
    rw [hm4]
    exact lt_of_le_of_lt Nat.and_le_right (by norm_num)
  have hw := word8_getb m4 hm4lt
  have e0 := b4e 0 (by norm_num)
  have e1 := b4e 1 (by norm_num)
  have e2 := b4e 2 (by norm_num)
  have e3 := b4e 3 (by norm_num)
  have o0 := b4o 0 (by norm_num)
  have o1 := b4o 1 (by norm_num)
  have o2 := b4o 2 (by norm_num)
  have o3 := b4o 3 (by norm_num)
  norm_num at e0 e1 e2 e3 o0 o1 o2 o3
  rw [e0, e1, e2, e3, o0, o1, o2, o3] at hw
  have l0 := hE1 0
  have l1 := hE1 1
  have l2 := hE1 2
  have l3 := hE1 3
  have hsub : sub64 (u64 (m4 <<< 16)) m4
      = 255 * E 0 + 256 * (255 * E 0) + 65536 * (255 * E 1) + 16777216 * (255 * E 1)
        + 4294967296 * (255 * E 2) + 1099511627776 * (255 * E 2)
        + 281474976710656 * (255 * E 3) + 72057594037927936 * (255 * E 3) := by
    unfold sub64 u64
    rw [Nat.shiftLeft_eq]
    omega
  have hm5 : ∀ i, i < 8 → dbcB_getb (sub64 (u64 (m4 <<< 16)) m4) i = 255 * E (i / 2) := by
    intro i hi
    rw [hsub]
    obtain ⟨g0, g1, g2, g3, g4, g5, g6, g7⟩ :=
      getb_word8 (255 * E 0) (255 * E 0) (255 * E 1) (255 * E 1) (255 * E 2) (255 * E 2)
        (255 * E 3) (255 * E 3) (by omega) (by omega) (by omega)
        (by omega) (by omega) (by omega) (by omega) (by omega)
    interval_cases i <;> assumption
  rw [select_word S D _ _ i _ (hm5 i hi) (hE1 _) (cFF i hi), hE]
  by_cases h : lane16 S (i / 2) = key
  · simp [h]
  · simp [h]

/-- Every 16-bit lane of the result of the packed block of `dbcB_b16m_4_c` is what
`dbcB_b16m_1_c` gives for that lane. -/
theorem dbcB_b16m_4_c_packed_lane (key S D j : Nat) (hkey : key < 65536) (hj : j < 4) :
    lane16 (dbcB_b16m_4_c_packed key S D) j = dbcB_b16m_1_c key (lane16 S j) (lane16 D j) := by
  unfold dbcB_b16m_1_c
  have e0 : 2 * j / 2 = j := by omega
  have e1 : (2 * j + 1) / 2 = j := by omega
  have b0 := dbcB_b16m_4_c_packed_byte key S D (2 * j) hkey (by omega)
  have b1 := dbcB_b16m_4_c_packed_byte key S D (2 * j + 1) hkey (by omega)
  rw [e0] at b0
  rw [e1] at b1
  by_cases h : lane16 S j ≠ key
  · rw [if_pos h] at b0 b1 ⊢
    unfold lane16
    rw [b0, b1]
  · rw [if_neg h] at b0 b1 ⊢
    unfold lane16
    rw [b0, b1]

/-! ## Loads and stores, byte by byte -/

theorem toByte_val_getb (v k : Nat) : (toByte (v >>> (8 * k))).val = dbcB_getb v k := rfl

theorem dbcb_load16_eq (big : Bool) (m : Mem) (p : Int) :
    dbcb_load16 big m p
      = if big then (m (p + 1)).val + 256 * (m p).val else (m p).val + 256 * (m (p + 1)).val := by
  unfold dbcb_load16
  have h0 := (m p).isLt
  have h1 := (m (p + 1)).isLt
  cases big
  · simp only [Bool.false_eq_true, if_false]
    rw [or_low_high _ _ 8 (by omega)]
    omega
  · simp only [if_true]
    rw [or_low_high _ _ 8 (by omega)]
    omega

theorem dbcb_load32_eq (big : Bool) (m : Mem) (p : Int) :
    dbcb_load32 big m p
      = if big then pix4 (m (p + 3)).val (m (p + 2)).val (m (p + 1)).val (m p).val
        else pix4 (m p).val (m (p + 1)).val (m (p + 2)).val (m (p + 3)).val := by
  unfold dbcb_load32
  cases big
  · simp only [Bool.false_eq_true, if_false]
    exact or4_eq_pix4 _ _ _ _ (m p).isLt (m (p + 1)).isLt (m (p + 2)).isLt (m (p + 3)).isLt
  · simp only [if_true]
    exact or4_eq_pix4 _ _ _ _ (m (p + 3)).isLt (m (p + 2)).isLt (m (p + 1)).isLt (m p).isLt

theorem or8_eq (b0 b1 b2 b3 b4 b5 b6 b7 : Nat) (h0 : b0 < 256) (h1 : b1 < 256)
    (h2 : b2 < 256) (h3 : b3 < 256) (h4 : b4 < 256) (h5 : b5 < 256) (h6 : b6 < 256)
    (_h7 : b7 < 256) :
    b0 ||| (b1 <<< 8) ||| (b2 <<< 16) ||| (b3 <<< 24) ||| (b4 <<< 32) ||| (b5 <<< 40)
      ||| (b6 <<< 48) ||| (b7 <<< 56)
      = b0 + 256 * b1 + 65536 * b2 + 16777216 * b3 + 4294967296 * b4
        + 1099511627776 * b5 + 281474976710656 * b6 + 72057594037927936 * b7 := by
  rw [or_low_high b0 b1 8 (by omega), or_low_high _ b2 16 (by omega),
    or_low_high _ b3 24 (by omega), or_low_high _ b4 32 (by omega),
    or_low_high _ b5 40 (by omega), or_low_high _ b6 48 (by omega),
    or_low_high _ b7 56 (by omega)]
  omega

theorem dbcb_load64_eq (big : Bool) (m : Mem) (p : Int) :
    dbcb_load64 big m p
      = if big then
          (m (p + 7)).val + 256 * (m (p + 6)).val + 65536 * (m (p + 5)).val
            + 16777216 * (m (p + 4)).val + 4294967296 * (m (p + 3)).val
            + 1099511627776 * (m (p + 2)).val + 281474976710656 * (m (p + 1)).val
            + 72057594037927936 * (m p).val
        else
          (m p).val + 256 * (m (p + 1)).val + 65536 * (m (p + 2)).val
            + 16777216 * (m (p + 3)).val + 4294967296 * (m (p + 4)).val
            + 1099511627776 * (m (p + 5)).val + 281474976710656 * (m (p + 6)).val
            + 72057594037927936 * (m (p + 7)).val := by
  unfold dbcb_load64
  cases big
  · simp only [Bool.false_eq_true, if_false]
    exact or8_eq _ _ _ _ _ _ _ _ (m p).isLt (m (p + 1)).isLt (m (p + 2)).isLt (m (p + 3)).isLt
      (m (p + 4)).isLt (m (p + 5)).isLt (m (p + 6)).isLt (m (p + 7)).isLt
  · simp only [if_true]
    exact or8_eq _ _ _ _ _ _ _ _ (m (p + 7)).isLt (m (p + 6)).isLt (m (p + 5)).isLt
      (m (p + 4)).isLt (m (p + 3)).isLt (m (p + 2)).isLt (m (p + 1)).isLt (m p).isLt

/-- The byte of a loaded 32-bit word that comes from offset `i` of the pixel. -/
theorem load32_byte (big : Bool) (m : Mem) (p : Int) (i : Nat) (hi : i < 4) :
    dbcB_getb (dbcb_load32 big m p) (if big then 3 - i else i) = (m (p + i)).val := by
  rw [dbcb_load32_eq]
  cases big
  · simp only [Bool.false_eq_true, if_false]
    obtain ⟨g0, g1, g2, g3⟩ := getb_pix4 _ _ _ _ (m p).isLt (m (p + 1)).isLt (m (p + 2)).isLt
      (m (p + 3)).isLt
    interval_cases i
    · simpa using g0
    · simpa using g1
    · simpa using g2
    · simpa using g3
  · simp only [if_true]
    obtain ⟨g0, g1, g2, g3⟩ := getb_pix4 _ _ _ _ (m (p + 3)).isLt (m (p + 2)).isLt
      (m (p + 1)).isLt (m p).isLt
    interval_cases i
    · simpa using g3
    · simpa using g2
    · simpa using g1
    · simpa using g0

/-- The byte a 32-bit store leaves at offset `i` of the pixel. -/
theorem store32_byte (big : Bool) (v : Nat) (m : Mem) (p : Int) (i : Nat) (hi : i < 4) :
    (dbcb_store32 big v m p (p + i)).val = dbcB_getb v (if big then 3 - i else i) := by
  unfold dbcb_store32
  have t0 : (toByte v).val = dbcB_getb v 0 := rfl
  have t1 : (toByte (v >>> 8)).val = dbcB_getb v 1 := rfl
  have t2 : (toByte (v >>> 16)).val = dbcB_getb v 2 := rfl
  have t3 : (toByte (v >>> 24)).val = dbcB_getb v 3 := rfl
  cases big <;> interval_cases i <;>
    simp [Function.update_apply, t0, t1, t2, t3]

/-- The byte of a loaded 64-bit word that comes from offset `i` of the run. -/
theorem load64_byte (big : Bool) (m : Mem) (p : Int) (i : Nat) (hi : i < 8) :
    dbcB_getb (dbcb_load64 big m p) (if big then 7 - i else i) = (m (p + i)).val := by
  rw [dbcb_load64_eq]
  cases big
  · simp only [Bool.false_eq_true, if_false]
    obtain ⟨g0, g1, g2, g3, g4, g5, g6, g7⟩ := getb_word8 _ _ _ _ _ _ _ _ (m p).isLt
      (m (p + 1)).isLt (m (p + 2)).isLt (m (p + 3)).isLt (m (p + 4)).isLt (m (p + 5)).isLt
      (m (p + 6)).isLt (m (p + 7)).isLt
    interval_cases i
    · simpa using g0
    · simpa using g1
    · simpa using g2
    · simpa using g3
    · simpa using g4
    · simpa using g5
    · simpa using g6
    · simpa using g7
  · simp only [if_true]
    obtain ⟨g0, g1, g2, g3, g4, g5, g6, g7⟩ := getb_word8 _ _ _ _ _ _ _ _ (m (p + 7)).isLt
      (m (p + 6)).isLt (m (p + 5)).isLt (m (p + 4)).isLt (m (p + 3)).isLt (m (p + 2)).isLt
      (m (p + 1)).isLt (m p).isLt
    interval_cases i
    · simpa using g7
    · simpa using g6
    · simpa using g5
    · simpa using g4
    · simpa using g3
    · simpa using g2
    · simpa using g1
    · simpa using g0

/-- The byte a 64-bit store leaves at offset `i` of the run. -/
theorem store64_byte (big : Bool) (v : Nat) (m : Mem) (p : Int) (i : Nat) (hi : i < 8) :
    (dbcb_store64 big v m p (p + i)).val = dbcB_getb v (if big then 7 - i else i) := by
  unfold dbcb_store64
  have t0 : (toByte v).val = dbcB_getb v 0 := rfl
  have t1 : (toByte (v >>> 8)).val = dbcB_getb v 1 := rfl
  have t2 : (toByte (v >>> 16)).val = dbcB_getb v 2 := rfl
  have t3 : (toByte (v >>> 24)).val = dbcB_getb v 3 := rfl
  have t4 : (toByte (v >>> 32)).val = dbcB_getb v 4 := rfl
  have t5 : (toByte (v >>> 40)).val = dbcB_getb v 5 := rfl
  have t6 : (toByte (v >>> 48)).val = dbcB_getb v 6 := rfl
  have t7 : (toByte (v >>> 56)).val = dbcB_getb v 7 := rfl
  cases big <;> interval_cases i <;>
    simp [Function.update_apply, t0, t1, t2, t3, t4, t5, t6, t7]

theorem store16_byte (big : Bool) (v : Nat) (m : Mem) (p : Int) (i : Nat) (hi : i < 2) :
    (dbcb_store16 big v m p (p + i)).val = dbcB_getb v (if big then 1 - i else i) := by
  unfold dbcb_store16
  have t0 : (toByte v).val = dbcB_getb v 0 := rfl
  have t1 : (toByte (v >>> 8)).val = dbcB_getb v 1 := rfl
  cases big <;> interval_cases i <;>
    simp [Function.update_apply, t0, t1]

/-- A 16-bit word read at pixel `j` of a run, from the bytes of the run. -/
theorem load16_bytes (big : Bool) (m : Mem) (p : Int) (j : Nat) (x : Nat) (n : Nat)
    (hn : 2 * j + 1 < n) (hne : n % 2 = 0)
    (h : ∀ i, i < n → (m (p + i)).val = dbcB_getb x (if big then n - 1 - i else i)) :
    dbcb_load16 big m (p + j * 2) = lane16 x (if big then n / 2 - 1 - j else j) := by
  rw [dbcb_load16_eq]
  have h0 := h (2 * j) (by omega)
  have h1 := h (2 * j + 1) (by omega)
  have a0 : p + ((2 * j : Nat) : Int) = p + j * 2 := by push_cast; ring
  have a1 : p + ((2 * j + 1 : Nat) : Int) = p + j * 2 + 1 := by push_cast; ring
  rw [a0] at h0
  rw [a1] at h1
  rw [h0, h1]
  unfold lane16
  cases big
  · simp only [Bool.false_eq_true, if_false]
  · simp only [if_true]
    have i0 : n - 1 - (2 * j + 1) = 2 * (n / 2 - 1 - j) := by omega
    have i1 : n - 1 - 2 * j = 2 * (n / 2 - 1 - j) + 1 := by omega
    rw [i0, i1]

/-- A 32-bit word read at pixel `j` of a run, from the bytes of the run. -/
theorem load32_bytes (big : Bool) (m : Mem) (p : Int) (j : Nat) (x : Nat) (n : Nat)
    (hn : 4 * j + 3 < n) (hne : n % 4 = 0)
    (h : ∀ i, i < n → (m (p + i)).val = dbcB_getb x (if big then n - 1 - i else i)) :
    dbcb_load32 big m (p + j * 4) = lane32 x (if big then n / 4 - 1 - j else j) := by
  rw [dbcb_load32_eq]
  have h0 := h (4 * j) (by omega)
  have h1 := h (4 * j + 1) (by omega)
  have h2 := h (4 * j + 2) (by omega)
  have h3 := h (4 * j + 3) (by omega)
  have a0 : p + ((4 * j : Nat) : Int) = p + j * 4 := by push_cast; ring
  have a1 : p + ((4 * j + 1 : Nat) : Int) = p + j * 4 + 1 := by push_cast; ring
  have a2 : p + ((4 * j + 2 : Nat) : Int) = p + j * 4 + 2 := by push_cast; ring
  have a3 : p + ((4 * j + 3 : Nat) : Int) = p + j * 4 + 3 := by push_cast; ring
  rw [a0] at h0
  rw [a1] at h1
  rw [a2] at h2
  rw [a3] at h3
  rw [h0, h1, h2, h3]
  unfold lane32 pix4
  cases big
  · simp only [Bool.false_eq_true, if_false]
  · simp only [if_true]
    have i0 : n - 1 - (4 * j + 3) = 4 * (n / 4 - 1 - j) := by omega
    have i1 : n - 1 - (4 * j + 2) = 4 * (n / 4 - 1 - j) + 1 := by omega
    have i2 : n - 1 - (4 * j + 1) = 4 * (n / 4 - 1 - j) + 2 := by omega
    have i3 : n - 1 - 4 * j = 4 * (n / 4 - 1 - j) + 3 := by omega
    rw [i0, i1, i2, i3]

theorem dbcb_load16_lt (big : Bool) (m : Mem) (p : Int) : dbcb_load16 big m p < 65536 := by
  unfold dbcb_load16
  split <;> exact Nat.mod_lt _ (by norm_num)

theorem load16_store16 (big : Bool) (v : Nat) (m : Mem) (p : Int) :
    dbcb_load16 big (dbcb_store16 big v m p) p = v % 65536 := by
  have h := load16_bytes big (dbcb_store16 big v m p) p 0 v 2 (by norm_num) (by norm_num)
    (fun i hi => store16_byte big v m p i hi)
  simp only [Nat.cast_zero, zero_mul, add_zero] at h
  rw [h]
  have e : (if big = true then 2 / 2 - 1 - 0 else 0) = 0 := by cases big <;> rfl
  rw [e]
  unfold lane16 dbcB_getb u8
  simp only [Nat.shiftRight_eq_div_pow]
  omega

theorem load32_store32 (big : Bool) (v : Nat) (m : Mem) (p : Int) :
    dbcb_load32 big (dbcb_store32 big v m p) p = v % 2 ^ 32 := by
  have h := load32_bytes big (dbcb_store32 big v m p) p 0 v 4 (by norm_num) (by norm_num)
    (fun i hi => store32_byte big v m p i hi)
  simp only [Nat.cast_zero, zero_mul, add_zero] at h
  rw [h]
  have e : (if big = true then 4 / 4 - 1 - 0 else 0) = 0 := by cases big <;> rfl
  rw [e]
  unfold lane32 dbcB_getb u8
  simp only [Nat.shiftRight_eq_div_pow]
  omega

/-! ## Kernels as pixelwise functions -/

theorem pixelSpec_pix8 (f g : Nat → Nat → Nat)
    (h : ∀ s d, s < 256 → d < 256 → f s d % 256 = g s d) : PixelSpec (pix8 f) 1 1 rd8 g := by
  intro src s dst d i hi
  have : i = 0 := by omega
  subst this
  unfold pix8 rd8
  have e : d + ((0 : Nat) : Int) * ((1 : Nat) : Int) = d := by simp
  have e2 : s + ((0 : Nat) : Int) * ((1 : Nat) : Int) = s := by simp
  rw [e, e2, Function.update_same]
  exact h _ _ (src s).isLt (dst d).isLt

theorem pixelSpec_pix16 (big : Bool) (f g : Nat → Nat → Nat)
    (h : ∀ s d, s < 65536 → d < 65536 → f s d % 65536 = g s d) :
    PixelSpec (pix16 big f) 1 2 (dbcb_load16 big) g := by
  intro src s dst d i hi
  have : i = 0 := by omega
  subst this
  unfold pix16
  simp only [Nat.cast_zero, zero_mul, add_zero]
  rw [load16_store16]
  exact h _ _ (dbcb_load16_lt _ _ _) (dbcb_load16_lt _ _ _)

theorem pixelSpec_pix32 (big : Bool) (f g : Nat → Nat → Nat)
    (h : ∀ s d, s < 2 ^ 32 → d < 2 ^ 32 → f s d % 2 ^ 32 = g s d) :
    PixelSpec (pix32 big f) 1 4 (dbcb_load32 big) g := by
  intro src s dst d i hi
  have : i = 0 := by omega
  subst this
  unfold pix32
  simp only [Nat.cast_zero, zero_mul, add_zero]
  rw [load32_store32]
  exact h _ _ (dbcb_load32_lt _ _ _) (dbcb_load32_lt _ _ _)

/-- A kernel on one 32-bit word that treats its four bytes alike works on four 8-bit pixels. -/
theorem pixelSpec_pix32_bytes (big : Bool) (F g : Nat → Nat → Nat)
    (h : ∀ S D j, j < 4 → dbcB_getb (F S D) j = g (dbcB_getb S j) (dbcB_getb D j)) :
    PixelSpec (pix32 big F) 4 1 rd8 g := by
  intro src s dst d i hi
  unfold pix32 rd8
  have e1 : d + (i : Int) * ((1 : Nat) : Int) = d + i := by simp
  have e2 : s + (i : Int) * ((1 : Nat) : Int) = s + i := by simp
  have hx : (if big then 3 - i else i) < 4 := by split <;> omega
  rw [e1, e2, store32_byte _ _ _ _ i hi, h _ _ _ hx, load32_byte big src s i hi,
    load32_byte big dst d i hi]

/-- A kernel on one 64-bit word that treats its eight bytes alike works on eight 8-bit
pixels. -/
theorem pixelSpec_pix64_bytes (big : Bool) (F g : Nat → Nat → Nat)
    (h : ∀ S D j, j < 8 → dbcB_getb (F S D) j = g (dbcB_getb S j) (dbcB_getb D j)) :
    PixelSpec (pix64 big F) 8 1 rd8 g := by
  intro src s dst d i hi
  unfold pix64 rd8
  have e1 : d + (i : Int) * ((1 : Nat) : Int) = d + i := by simp
  have e2 : s + (i : Int) * ((1 : Nat) : Int) = s + i := by simp
  have hx : (if big then 7 - i else i) < 8 := by split <;> omega
  rw [e1, e2, store64_byte _ _ _ _ i hi, h _ _ _ hx, load64_byte big src s i hi,
    load64_byte big dst d i hi]

/-- A kernel on one 32-bit word that treats its two 16-bit lanes alike works on two 16-bit
pixels. -/
theorem pixelSpec_pix32_lanes16 (big : Bool) (F g : Nat → Nat → Nat)
    (h : ∀ S D j, j < 2 → lane16 (F S D) j = g (lane16 S j) (lane16 D j)) :
    PixelSpec (pix32 big F) 2 2 (dbcb_load16 big) g := by
  intro src s dst d i hi
  unfold pix32
  have hx : (if big then 4 / 2 - 1 - i else i) < 2 := by split <;> omega
  have e2 : ((2 : Nat) : Int) = 2 := rfl
  rw [e2, load16_bytes big _ d i _ 4 (by omega) (by norm_num)
      (fun k hk => store32_byte big _ dst d k hk), h _ _ _ hx,
    load16_bytes big src s i (dbcb_load32 big src s) 4 (by omega) (by norm_num)
      (fun k hk => (load32_byte big src s k hk).symm),
    load16_bytes big dst d i (dbcb_load32 big dst d) 4 (by omega) (by norm_num)
      (fun k hk => (load32_byte big dst d k hk).symm)]

/-- A kernel on one 64-bit word that treats its four 16-bit lanes alike works on four 16-bit
pixels. -/
theorem pixelSpec_pix64_lanes16 (big : Bool) (F g : Nat → Nat → Nat)
    (h : ∀ S D j, j < 4 → lane16 (F S D) j = g (lane16 S j) (lane16 D j)) :
    PixelSpec (pix64 big F) 4 2 (dbcb_load16 big) g := by
  intro src s dst d i hi
  unfold pix64
  have hx : (if big then 8 / 2 - 1 - i else i) < 4 := by split <;> omega
  have e2 : ((2 : Nat) : Int) = 2 := rfl
  rw [e2, load16_bytes big _ d i _ 8 (by omega) (by norm_num)
      (fun k hk => store64_byte big _ dst d k hk), h _ _ _ hx,
    load16_bytes big src s i (dbcb_load64 big src s) 8 (by omega) (by norm_num)
      (fun k hk => (load64_byte big src s k hk).symm),
    load16_bytes big dst d i (dbcb_load64 big dst d) 8 (by omega) (by norm_num)
      (fun k hk => (load64_byte big dst d k hk).symm)]

/-- A kernel on one 64-bit word that treats its two 32-bit lanes alike works on two 32-bit
pixels. -/
theorem pixelSpec_pix64_lanes32 (big : Bool) (F g : Nat → Nat → Nat)
    (h : ∀ S D j, j < 2 → lane32 (F S D) j = g (lane32 S j) (lane32 D j)) :
    PixelSpec (pix64 big F) 2 4 (dbcb_load32 big) g := by
  intro src s dst d i hi
  unfold pix64
  have hx : (if big then 8 / 4 - 1 - i else i) < 2 := by split <;> omega
  have e2 : ((4 : Nat) : Int) = 4 := rfl
  rw [e2, load32_bytes big _ d i _ 8 (by omega) (by norm_num)
      (fun k hk => store64_byte big _ dst d k hk), h _ _ _ hx,
    load32_bytes big src s i (dbcb_load64 big src s) 8 (by omega) (by norm_num)
      (fun k hk => (load64_byte big src s k hk).symm),
    load32_bytes big dst d i (dbcb_load64 big dst d) 8 (by omega) (by norm_num)
      (fun k hk => (load64_byte big dst d k hk).symm)]

/-- The body `k(s,d); k(s+n,d+n);` of a kernel that works pixel by pixel does so on twice as
many pixels. -/
theorem pixelSpec_twice (K : Kernel) (n ps : Nat) (rd : Mem → Int → Nat) (f : Nat → Nat → Nat)
    (N : Int) (hN : N = ((n * ps : Nat) : Int)) (hrd : RdLocal rd ps) (hF : Frames K (n * ps))
    (h : PixelSpec K n ps rd f) : PixelSpec (twice K N) (2 * n) ps rd f := by
  subst hN
  intro src s dst d i hi
  unfold twice
  by_cases hlt : i < n
  · have hm : i * ps + ps ≤ n * ps := by
      have := Nat.mul_le_mul_right ps hlt
      rw [Nat.succ_mul] at this
      exact this
    have hm1 : (i : Int) * ps + ps ≤ (n : Int) * ps := by exact_mod_cast hm
    have e1 : rd (K src (s + ((n * ps : Nat) : Int)) (K src s dst d) (d + ((n * ps : Nat) : Int)))
        (d + i * ps) = rd (K src s dst d) (d + i * ps) := by
      apply hrd
      intro b hb0 hb1
      apply hF
      push_cast
      omega
    rw [e1, h src s dst d i hlt]
  · obtain ⟨j, rfl⟩ : ∃ j, i = n + j := ⟨i - n, by omega⟩
    have hj : j < n := by omega
    have a1 : d + ((n + j : Nat) : Int) * ps = (d + ((n * ps : Nat) : Int)) + j * ps := by
      push_cast; ring
    have a2 : s + ((n + j : Nat) : Int) * ps = (s + ((n * ps : Nat) : Int)) + j * ps := by
      push_cast; ring
    rw [a1, a2, h src _ _ _ j hj]
    congr 1
    apply hrd
    intro b hb0 hb1
    apply hF
    have hp : (0 : Int) ≤ (j : Int) * ps := by positivity
    push_cast
    omega

theorem pixelSpec_lanes (K1 : Kernel) (ps : Nat) (rd : Mem → Int → Nat) (f : Nat → Nat → Nat)
    (hrd : RdLocal rd ps) (hF : Frames K1 ps) (h : PixelSpec K1 1 ps rd f) :
    ∀ k, PixelSpec (lanesKernel K1 ps k) (2 ^ k) ps rd f := by
  intro k
  induction k with
  | zero => simpa [lanesKernel] using h
  | succ k ih =>
    rw [lanesKernel, pow_succ, Nat.mul_comm (2 ^ k) 2]
    exact pixelSpec_twice _ (2 ^ k) ps rd f _ rfl hrd (frames_lanesKernel K1 ps hF k) ih

theorem pixelSpec_ite (c : Prop) [Decidable c] (K1 K2 : Kernel) (n ps : Nat)
    (rd : Mem → Int → Nat) (f : Nat → Nat → Nat) (h1 : PixelSpec K1 n ps rd f)
    (h2 : PixelSpec K2 n ps rd f) : PixelSpec (if c then K1 else K2) n ps rd f := by
  split
  · exact h1
  · exact h2

/-! ## The SSE2 and AVX2 lanes of the key modes are the C kernels -/

theorem and_ones (bits d : Nat) (hd : d < 2 ^ bits) : (2 ^ bits - 1) &&& d = d := by
  rw [Nat.and_comm, Nat.and_pow_two_sub_one_eq_mod, Nat.mod_eq_of_lt hd]

/-- The selection `xor(and(m,d),andnot(m,s))` with a mask of all ones. -/
theorem sel_ones (bits d s : Nat) (hd : d < 2 ^ bits) :
    ((2 ^ bits - 1) &&& d) ^^^ mm_andnot bits (2 ^ bits - 1) s = d := by
  unfold mm_andnot
  rw [Nat.xor_self, Nat.zero_and, Nat.xor_zero, and_ones bits d hd]

/-- The selection `xor(and(m,d),andnot(m,s))` with a zero mask. -/
theorem sel_zero (bits d s : Nat) (hs : s < 2 ^ bits) :
    (0 &&& d) ^^^ mm_andnot bits 0 s = s := by
  unfold mm_andnot
  rw [Nat.zero_and, Nat.zero_xor, Nat.zero_xor, and_ones bits s hs]

theorem getb0_byte (b : Nat) (hb : b < 2 ^ 8) : dbcB_getb b 0 = b := by
  unfold dbcB_getb u8
  simp only [Nat.shiftRight_eq_div_pow]
  omega

theorem lane16_word (b : Nat) (hb : b < 2 ^ 16) :
    dbcB_getb b 0 + 256 * dbcB_getb b 1 = b := by
  unfold dbcB_getb u8
  simp only [Nat.shiftRight_eq_div_pow]
  omega

theorem blendv_ones1 (a b : Nat) (hb : b < 2 ^ 8) : mm256_blendv_epi8 1 a b (2 ^ 8 - 1) = b := by
  have g : dbcB_getb (2 ^ 8 - 1) 0 = 255 := by decide
  simp only [mm256_blendv_epi8, blendv_byte, g]
  rw [if_pos (by norm_num)]
  exact getb0_byte b hb

theorem blendv_zero1 (a b : Nat) (ha : a < 2 ^ 8) : mm256_blendv_epi8 1 a b 0 = a := by
  have g : dbcB_getb 0 0 = 0 := by decide
  simp only [mm256_blendv_epi8, blendv_byte, g]
  rw [if_neg (by norm_num)]
  exact getb0_byte a ha

theorem blendv_ones2 (a b : Nat) (hb : b < 2 ^ 16) :
    mm256_blendv_epi8 2 a b (2 ^ 16 - 1) = b := by
  have g0 : dbcB_getb (2 ^ 16 - 1) 0 = 255 := by decide
  have g1 : dbcB_getb (2 ^ 16 - 1) 1 = 255 := by decide
  simp only [mm256_blendv_epi8, blendv_byte, g0, g1]
  rw [if_pos (by norm_num)]
  exact lane16_word b hb

theorem blendv_zero2 (a b : Nat) (ha : a < 2 ^ 16) : mm256_blendv_epi8 2 a b 0 = a := by
  have g0 : dbcB_getb 0 0 = 0 := by decide
  have g1 : dbcB_getb 0 1 = 0 := by decide
  simp only [mm256_blendv_epi8, blendv_byte, g0, g1]
  rw [if_neg (by norm_num)]
  exact lane16_word a ha

theorem blendv_ones4 (a b : Nat) (hb : b < 2 ^ 32) :
    mm256_blendv_epi8 4 a b (2 ^ 32 - 1) = b := by
  have g0 : dbcB_getb (2 ^ 32 - 1) 0 = 255 := by decide
  have g1 : dbcB_getb (2 ^ 32 - 1) 1 = 255 := by decide
  have g2 : dbcB_getb (2 ^ 32 - 1) 2 = 255 := by decide
  have g3 : dbcB_getb (2 ^ 32 - 1) 3 = 255 := by decide
  simp only [mm256_blendv_epi8, blendv_byte, g0, g1, g2, g3]
  rw [if_pos (by norm_num)]
  exact (word4_getb b hb).symm

theorem blendv_zero4 (a b : Nat) (ha : a < 2 ^ 32) : mm256_blendv_epi8 4 a b 0 = a := by
  have g0 : dbcB_getb 0 0 = 0 := by decide
  have g1 : dbcB_getb 0 1 = 0 := by decide
  have g2 : dbcB_getb 0 2 = 0 := by decide
  have g3 : dbcB_getb 0 3 = 0 := by decide
  simp only [mm256_blendv_epi8, blendv_byte, g0, g1, g2, g3]
  rw [if_neg (by norm_num)]
  exact (word4_getb a ha).symm

/-- A 16-bit lane is negative as a signed integer exactly when its top bit is set. -/
theorem cmpgt16_zero (s : Nat) (hs : s < 2 ^ 16) :
    mm_cmpgt 16 0 s = if 0x8000 ≤ s then 2 ^ 16 - 1 else 0 := by
  unfold mm_cmpgt toSigned
  norm_num
  by_cases h : s < 32768
  · rw [if_pos h, if_neg (by omega)]
    rw [if_neg (by omega)]
  · rw [if_neg h, if_pos (by omega)]
    rw [if_pos (by omega)]

/-- A 32-bit lane is negative as a signed integer exactly when its top bit is set. -/
theorem cmpgt32_zero (s : Nat) (hs : s < 2 ^ 32) :
    mm_cmpgt 32 0 s = if 0x80000000 ≤ s then 2 ^ 32 - 1 else 0 := by
  unfold mm_cmpgt toSigned
  norm_num
  by_cases h : s < 2147483648
  · rw [if_pos h, if_neg (by omega)]
    rw [if_neg (by omega)]
  · rw [if_neg h, if_pos (by omega)]
    rw [if_pos (by omega)]

theorem xor_0x80 : ∀ y : Fin 256,
    0x80 ^^^ y.val = if y.val < 128 then y.val + 128 else y.val - 128 := by decide!

/-- Flipping the top bit of a 32-bit word. -/
theorem xor_top (x : Nat) (hx : x < 2 ^ 32) :
    0x80000000 ^^^ x = if x < 2 ^ 31 then x + 2 ^ 31 else x - 2 ^ 31 := by
  have hlt : 0x80000000 ^^^ x < 2 ^ 32 := Nat.xor_lt_two_pow (n := 32) (by norm_num) hx
  have hw := word4_getb _ hlt
  have c0 : dbcB_getb 0x80000000 0 = 0 := by decide
  have c1 : dbcB_getb 0x80000000 1 = 0 := by decide
  have c2 : dbcB_getb 0x80000000 2 = 0 := by decide
  have c3 : dbcB_getb 0x80000000 3 = 0x80 := by decide
  rw [getb_xor, getb_xor, getb_xor, getb_xor, c0, c1, c2, c3, Nat.zero_xor, Nat.zero_xor,
    Nat.zero_xor] at hw
  have h3 := xor_0x80 ⟨dbcB_getb x 3, getb_lt x 3⟩
  simp only at h3
  rw [h3] at hw
  have hx4 := word4_getb x hx
  have b3 := getb_lt x 3
  have b2 := getb_lt x 2
  have b1 := getb_lt x 1
  have b0 := getb_lt x 0
  rw [hw]
  by_cases h : dbcB_getb x 3 < 128
  · rw [if_pos h, if_pos (by omega)]
    omega
  · rw [if_neg h, if_neg (by omega)]
    omega

theorem toSigned_xor_top (x : Nat) (hx : x < 2 ^ 32) :
    toSigned 32 (0x80000000 ^^^ x) = (x : Int) - 2 ^ 31 := by
  rw [xor_top x hx]
  unfold toSigned
  norm_num
  by_cases h : x < 2147483648
  · rw [if_pos h, if_neg (by omega)]
    omega
  · rw [if_neg h, if_pos (by omega)]
    omega

/-- The signed comparison after flipping the top bits is the unsigned comparison. -/
theorem cmpgt32_biased (t s : Nat) (ht : t < 2 ^ 32) (hs : s < 2 ^ 32) :
    mm_cmpgt 32 (0x80000000 ^^^ t) (0x80000000 ^^^ s) = if s < t then 2 ^ 32 - 1 else 0 := by
  unfold mm_cmpgt
  rw [toSigned_xor_top t ht, toSigned_xor_top s hs]
  by_cases h : s < t
  · rw [if_pos h, if_pos (by omega)]
  · rw [if_neg h, if_neg (by omega)]

theorem dbcB_b8m_sse2_lane_eq (key s d : Nat) (hkey : key < 256) (hs : s < 2 ^ 8)
    (hd : d < 2 ^ 8) : dbcB_b8m_sse2_lane key s d = dbcB_b8m_1_c key s d := by
  unfold dbcB_b8m_sse2_lane dbcB_b8m_1_c mm_cmpeq
  have ek : u8 key = key := Nat.mod_eq_of_lt hkey
  simp only [ek]
  by_cases h : s = key
  · rw [if_pos h, if_neg (not_not.mpr h)]
    exact sel_ones 8 d s hd
  · rw [if_neg h, if_pos h]
    exact sel_zero 8 d s hs

theorem dbcB_b8m_avx2_lane_eq (key s d : Nat) (hkey : key < 256) (hs : s < 2 ^ 8)
    (hd : d < 2 ^ 8) : dbcB_b8m_avx2_lane key s d = dbcB_b8m_1_c key s d := by
  unfold dbcB_b8m_avx2_lane dbcB_b8m_1_c mm_cmpeq
  have ek : u8 key = key := Nat.mod_eq_of_lt hkey
  simp only [ek]
  by_cases h : s = key
  · rw [if_pos h, if_neg (not_not.mpr h)]
    exact blendv_ones1 s d hd
  · rw [if_neg h, if_pos h]
    exact blendv_zero1 s d hs

theorem dbcB_b16m_sse2_lane_eq (key s d : Nat) (hkey : key < 65536) (hs : s < 2 ^ 16)
    (hd : d < 2 ^ 16) : dbcB_b16m_sse2_lane key s d = dbcB_b16m_1_c key s d := by
  unfold dbcB_b16m_sse2_lane dbcB_b16m_1_c mm_cmpeq
  have ek : key % 2 ^ 16 = key := Nat.mod_eq_of_lt hkey
  simp only [ek]
  by_cases h : s = key
  · rw [if_pos h, if_neg (not_not.mpr h)]
    exact sel_ones 16 d s hd
  · rw [if_neg h, if_pos h]
    exact sel_zero 16 d s hs

theorem dbcB_b16m_avx2_lane_eq (key s d : Nat) (hkey : key < 65536) (hs : s < 2 ^ 16)
    (hd : d < 2 ^ 16) : dbcB_b16m_avx2_lane key s d = dbcB_b16m_1_c key s d := by
  unfold dbcB_b16m_avx2_lane dbcB_b16m_1_c mm_cmpeq
  have ek : key % 2 ^ 16 = key := Nat.mod_eq_of_lt hkey
  simp only [ek]
  by_cases h : s = key
  · rw [if_pos h, if_neg (not_not.mpr h)]
    exact blendv_ones2 s d hd
  · rw [if_neg h, if_pos h]
    exact blendv_zero2 s d hs

theorem dbcB_b5551_sse2_lane_eq (s d : Nat) (hs : s < 2 ^ 16) (hd : d < 2 ^ 16) :
    dbcB_b5551_sse2_lane s d = dbcB_b5551_1_c s d := by
  unfold dbcB_b5551_sse2_lane dbcB_b5551_1_c
  simp only [cmpgt16_zero s hs]
  by_cases h : 0x8000 ≤ s
  · rw [if_pos h, if_pos h]
    exact sel_ones 16 s d hs
  · rw [if_neg h, if_neg h]
    exact sel_zero 16 s d hd

theorem dbcB_b5551_avx2_lane_eq (s d : Nat) (hs : s < 2 ^ 16) (hd : d < 2 ^ 16) :
    dbcB_b5551_avx2_lane s d = dbcB_b5551_1_c s d := by
  unfold dbcB_b5551_avx2_lane dbcB_b5551_1_c
  simp only [cmpgt16_zero s hs]
  by_cases h : 0x8000 ≤ s
  · rw [if_pos h, if_pos h]
    exact blendv_ones2 d s hs
  · rw [if_neg h, if_neg h]
    exact blendv_zero2 d s hd

theorem threshold_lt (key : Nat) : u32 (u32 key <<< 24) < 2 ^ 32 := by
  unfold u32
  exact Nat.mod_lt _ (by norm_num)

/-- The SSE2 alpha-test lane gives what `dbcB_b32t_1_c` gives, for every threshold. -/
theorem dbcB_b32t_sse2_lane_eq (key s d : Nat) (hs : s < 2 ^ 32) (hd : d < 2 ^ 32) :
    dbcB_b32t_sse2_lane key s d = dbcB_b32t_1_c key s d := by
  unfold dbcB_b32t_sse2_lane dbcB_b32t_1_c
  simp only [cmpgt32_biased _ s (threshold_lt key) hs]
  by_cases h : s < u32 (u32 key <<< 24)
  · rw [if_pos h, if_neg (by omega)]
    exact sel_ones 32 d s hd
  · rw [if_neg h, if_pos (by omega)]
    exact sel_zero 32 d s hs

/-- The AVX2 alpha-test lane gives what `dbcB_b32t_1_c` gives, for every threshold. -/
theorem dbcB_b32t_avx2_lane_eq (key s d : Nat) (hs : s < 2 ^ 32) (hd : d < 2 ^ 32) :
    dbcB_b32t_avx2_lane key s d = dbcB_b32t_1_c key s d := by
  unfold dbcB_b32t_avx2_lane dbcB_b32t_1_c
  simp only [cmpgt32_biased _ s (threshold_lt key) hs]
  by_cases h : s < u32 (u32 key <<< 24)
  · rw [if_pos h, if_neg (by omega)]
    exact blendv_ones4 s d hd
  · rw [if_neg h, if_pos (by omega)]
    exact blendv_zero4 s d hs

theorem dbcB_b32s_sse2_lane_eq (s d : Nat) (hs : s < 2 ^ 32) (hd : d < 2 ^ 32) :
    dbcB_b32s_sse2_lane s d = dbcB_b32s_1_c s d := by
  unfold dbcB_b32s_sse2_lane dbcB_b32s_1_c
  simp only [cmpgt32_zero s hs]
  by_cases h : 0x80000000 ≤ s
  · rw [if_pos h, if_pos h]
    exact sel_ones 32 s d hs
  · rw [if_neg h, if_neg h]
    exact sel_zero 32 s d hd

theorem dbcB_b32s_avx2_lane_eq (s d : Nat) (hs : s < 2 ^ 32) (hd : d < 2 ^ 32) :
    dbcB_b32s_avx2_lane s d = dbcB_b32s_1_c s d := by
  unfold dbcB_b32s_avx2_lane dbcB_b32s_1_c
  simp only [cmpgt32_zero s hs]
  by_cases h : 0x80000000 ≤ s
  · rw [if_pos h, if_pos h]
    exact blendv_ones4 d s hs
  · rw [if_neg h, if_neg h]
    exact blendv_zero4 d s hd

/-! ## The kernels of the key modes, pixel by pixel -/

theorem kernelOf_c (env : Env) (fn : Fn) (k : Nat) (p : Params) :
    kernelOf env Tier.c fn k p = scalarKernel env fn k p := rfl

theorem kernelOf_simdC (env : Env) (tier : Tier) (fn : Fn) (k : Nat) (p : Params)
    (h : simdUsesC fn k = true) : kernelOf env tier fn k p = scalarKernel env fn k p := by
  cases tier <;> simp [kernelOf, h]

theorem kernelOf_simd (env : Env) (tier : Tier) (fn : Fn) (k : Nat) (p : Params) (K : Kernel)
    (ht : tier ≠ Tier.c) (h : simdUsesC fn k = false) (hK : simdKernel env tier fn k p = some K) :
    kernelOf env tier fn k p = K := by
  cases tier
  · exact absurd rfl ht
  · simp [kernelOf, h, hK]
  · simp [kernelOf, h, hK]

theorem b8m_mod (key s d : Nat) (hs : s < 256) (hd : d < 256) :
    dbcB_b8m_1_c key s d % 256 = dbcB_b8m_1_c key s d := by
  unfold dbcB_b8m_1_c
  split
  · exact Nat.mod_eq_of_lt hs
  · exact Nat.mod_eq_of_lt hd

theorem b16m_mod (key s d : Nat) (hs : s < 65536) (hd : d < 65536) :
    dbcB_b16m_1_c key s d % 65536 = dbcB_b16m_1_c key s d := by
  unfold dbcB_b16m_1_c
  split
  · exact Nat.mod_eq_of_lt hs
  · exact Nat.mod_eq_of_lt hd

theorem b5551_mod (s d : Nat) (hs : s < 65536) (hd : d < 65536) :
    dbcB_b5551_1_c s d % 65536 = dbcB_b5551_1_c s d := by
  unfold dbcB_b5551_1_c
  split
  · exact Nat.mod_eq_of_lt hs
  · exact Nat.mod_eq_of_lt hd

theorem b32t_mod (key s d : Nat) (hs : s < 2 ^ 32) (hd : d < 2 ^ 32) :
    dbcB_b32t_1_c key s d % 2 ^ 32 = dbcB_b32t_1_c key s d := by
  unfold dbcB_b32t_1_c
  split
  · exact Nat.mod_eq_of_lt hs
  · exact Nat.mod_eq_of_lt hd

theorem b32s_mod (s d : Nat) (hs : s < 2 ^ 32) (hd : d < 2 ^ 32) :
    dbcB_b32s_1_c s d % 2 ^ 32 = dbcB_b32s_1_c s d := by
  unfold dbcB_b32s_1_c
  split
  · exact Nat.mod_eq_of_lt hs
  · exact Nat.mod_eq_of_lt hd

/-- The C kernels of the 8-bit colorkey work pixel by pixel as `dbcB_b8m_1_c`. -/
theorem scalarKernel_f8m_spec (env : Env) (k : Nat) (p : Params) (hk : k ≤ 4)
    (hkey : p.key8 < 256) :
    PixelSpec (scalarKernel env Fn.f8m k p) (2 ^ k) 1 rd8 (dbcB_b8m_1_c p.key8) := by
  have h1 : PixelSpec (pix8 (dbcB_b8m_1_c p.key8)) 1 1 rd8 (dbcB_b8m_1_c p.key8) :=
    pixelSpec_pix8 _ _ (b8m_mod p.key8)
  have F1 : Frames (pix8 (dbcB_b8m_1_c p.key8)) (1 * 1) := frames_pix8 _
  have h2 := pixelSpec_twice _ 1 1 rd8 _ 1 (by norm_num) rdLocal_rd8 F1 h1
  have F2 : Frames (twice (pix8 (dbcB_b8m_1_c p.key8)) 1) (2 * 1) :=
    frames_twice _ 1 (frames_pix8 _)
  have h4a := pixelSpec_twice _ 2 1 rd8 _ 2 (by norm_num) rdLocal_rd8 F2 h2
  have F4a : Frames (twice (twice (pix8 (dbcB_b8m_1_c p.key8)) 1) 2) (4 * 1) :=
    frames_twice _ 2 F2
  have h4b : PixelSpec (pix32 env.big_endian (dbcB_b8m_4_c_packed p.key8)) 4 1 rd8
      (dbcB_b8m_1_c p.key8) :=
    pixelSpec_pix32_bytes _ _ _ (fun S D j hj => dbcB_b8m_4_c_packed_lane p.key8 S D j hkey hj)
  have h4 := pixelSpec_ite (env.platform.sizeof_unsigned ≥ 4) _ _ 4 1 rd8 _ h4b h4a
  have F4 := frames_ite (env.platform.sizeof_unsigned ≥ 4) _ _ (4 * 1)
    (frames_pix32 env.big_endian (dbcB_b8m_4_c_packed p.key8)) F4a
  have h8a := pixelSpec_twice _ 4 1 rd8 _ 4 (by norm_num) rdLocal_rd8 F4 h4
  have F8a := frames_twice _ 4 F4
  have h8b : PixelSpec (pix64 env.big_endian (dbcB_b8m_8_c_packed p.key8)) 8 1 rd8
      (dbcB_b8m_1_c p.key8) :=
    pixelSpec_pix64_bytes _ _ _ (fun S D j hj => dbcB_b8m_8_c_packed_lane p.key8 S D j hkey hj)
  have h8 := pixelSpec_ite (env.platform.use64 = true) _ _ 8 1 rd8 _ h8b h8a
  have F8 := frames_ite (env.platform.use64 = true) _ _ (8 * 1)
    (frames_pix64 env.big_endian (dbcB_b8m_8_c_packed p.key8)) F8a
  have h16 := pixelSpec_twice _ 8 1 rd8 _ 8 (by norm_num) rdLocal_rd8 F8 h8
  interval_cases k
  · simp only [scalarKernel]; exact h1
  · simp only [scalarKernel]; exact h2
  · simp only [scalarKernel]; exact h4
  · simp only [scalarKernel]; exact h8
  · simp only [scalarKernel]; exact h16

/-- The C kernels of the 16-bit colorkey work pixel by pixel as `dbcB_b16m_1_c`. -/
theorem scalarKernel_f16m_spec (env : Env) (k : Nat) (p : Params) (hk : k ≤ 3)
    (hkey : p.key16 < 65536) :
    PixelSpec (scalarKernel env Fn.f16m k p) (2 ^ k) 2 (dbcb_load16 env.big_endian)
      (dbcB_b16m_1_c p.key16) := by
  have hrd := rdLocal_load16 env.big_endian
  have h1 : PixelSpec (pix16 env.big_endian (dbcB_b16m_1_c p.key16)) 1 2
      (dbcb_load16 env.big_endian) (dbcB_b16m_1_c p.key16) :=
    pixelSpec_pix16 _ _ _ (b16m_mod p.key16)
  have F1 : Frames (pix16 env.big_endian (dbcB_b16m_1_c p.key16)) (1 * 2) := frames_pix16 _ _
  have h2 := pixelSpec_twice _ 1 2 _ _ 2 (by norm_num) hrd F1 h1
  have F2 : Frames (twice (pix16 env.big_endian (dbcB_b16m_1_c p.key16)) 2) (2 * 2) :=
    frames_twice _ 2 (frames_pix16 _ _)
  have h4a := pixelSpec_twice _ 2 2 _ _ 4 (by norm_num) hrd F2 h2
  have F4a : Frames (twice (twice (pix16 env.big_endian (dbcB_b16m_1_c p.key16)) 2) 4) (4 * 2) :=
    frames_twice _ 4 F2
  have h4b : PixelSpec (pix64 env.big_endian (dbcB_b16m_4_c_packed p.key16)) 4 2
      (dbcb_load16 env.big_endian) (dbcB_b16m_1_c p.key16) :=
    pixelSpec_pix64_lanes16 _ _ _
      (fun S D j hj => dbcB_b16m_4_c_packed_lane p.key16 S D j hkey hj)
  have h4 := pixelSpec_ite (env.platform.use64 = true) _ _ 4 2 _ _ h4b h4a
  have F4 := frames_ite (env.platform.use64 = true) _ _ (4 * 2)
    (frames_pix64 env.big_endian (dbcB_b16m_4_c_packed p.key16)) F4a
  have h8 := pixelSpec_twice _ 4 2 _ _ 8 (by norm_num) hrd F4 h4
  interval_cases k
  · simp only [scalarKernel]; exact h1
  · simp only [scalarKernel]; exact h2
  · simp only [scalarKernel]; exact h4
  · simp only [scalarKernel]; exact h8

/-- The C kernels of the 5551 mode work pixel by pixel as `dbcB_b5551_1_c`. -/
theorem scalarKernel_f5551_spec (env : Env) (k : Nat) (p : Params) (hk : k ≤ 3) :
    PixelSpec (scalarKernel env Fn.f5551 k p) (2 ^ k) 2 (dbcb_load16 env.big_endian)
      dbcB_b5551_1_c := by
  have hrd := rdLocal_load16 env.big_endian
  have h1 : PixelSpec (pix16 env.big_endian dbcB_b5551_1_c) 1 2
      (dbcb_load16 env.big_endian) dbcB_b5551_1_c :=
    pixelSpec_pix16 _ _ _ b5551_mod
  have F1 : Frames (pix16 env.big_endian dbcB_b5551_1_c) (1 * 2) := frames_pix16 _ _
  have h2a := pixelSpec_twice _ 1 2 _ _ 2 (by norm_num) hrd F1 h1
  have F2a : Frames (twice (pix16 env.big_endian dbcB_b5551_1_c) 2) (2 * 2) :=
    frames_twice _ 2 (frames_pix16 _ _)
  have h2b : PixelSpec (pix32 env.big_endian dbcB_b5551_2_c_packed) 2 2
      (dbcb_load16 env.big_endian) dbcB_b5551_1_c :=
    pixelSpec_pix32_lanes16 _ _ _ (fun S D j hj => dbcB_b5551_2_c_packed_lane S D j hj)
  have h2 := pixelSpec_ite (env.platform.sizeof_unsigned ≥ 4) _ _ 2 2 _ _ h2b h2a
  have F2 := frames_ite (env.platform.sizeof_unsigned ≥ 4) _ _ (2 * 2)
    (frames_pix32 env.big_endian dbcB_b5551_2_c_packed) F2a
  have h4a := pixelSpec_twice _ 2 2 _ _ 4 (by norm_num) hrd F2 h2
  have F4a := frames_twice _ 4 F2
  have h4b : PixelSpec (pix64 env.big_endian dbcB_b5551_4_c_packed) 4 2
      (dbcb_load16 env.big_endian) dbcB_b5551_1_c :=
    pixelSpec_pix64_lanes16 _ _ _ (fun S D j hj => dbcB_b5551_4_c_packed_lane S D j hj)
  have h4 := pixelSpec_ite (env.platform.use64 = true) _ _ 4 2 _ _ h4b h4a
  have F4 := frames_ite (env.platform.use64 = true) _ _ (4 * 2)
    (frames_pix64 env.big_endian dbcB_b5551_4_c_packed) F4a
  have h8 := pixelSpec_twice _ 4 2 _ _ 8 (by norm_num) hrd F4 h4
  interval_cases k
  · simp only [scalarKernel]; exact h1
  · simp only [scalarKernel]; exact h2
  · simp only [scalarKernel]; exact h4
  · simp only [scalarKernel]; exact h8

/-- The C kernels of the alpha test work pixel by pixel as `dbcB_b32t_1_c`. -/
theorem scalarKernel_f32t_spec (env : Env) (k : Nat) (p : Params) (hk : k ≤ 2) :
    PixelSpec (scalarKernel env Fn.f32t k p) (2 ^ k) 4 (dbcb_load32 env.big_endian)
      (dbcB_b32t_1_c p.key8) := by
  have hrd := rdLocal_load32 env.big_endian
  have h1 : PixelSpec (pix32 env.big_endian (dbcB_b32t_1_c p.key8)) 1 4
      (dbcb_load32 env.big_endian) (dbcB_b32t_1_c p.key8) :=
    pixelSpec_pix32 _ _ _ (b32t_mod p.key8)
  have F1 : Frames (pix32 env.big_endian (dbcB_b32t_1_c p.key8)) (1 * 4) := frames_pix32 _ _
  have h2 := pixelSpec_twice _ 1 4 _ _ 4 (by norm_num) hrd F1 h1
  have F2 : Frames (twice (pix32 env.big_endian (dbcB_b32t_1_c p.key8)) 4) (2 * 4) :=
    frames_twice _ 4 (frames_pix32 _ _)
  have h4 := pixelSpec_twice _ 2 4 _ _ 8 (by norm_num) hrd F2 h2
  interval_cases k
  · simp only [scalarKernel]; exact h1
  · simp only [scalarKernel]; exact h2
  · simp only [scalarKernel]; exact h4

/-- The C kernels of the alpha test with threshold 128 work pixel by pixel as
`dbcB_b32s_1_c`. -/
theorem scalarKernel_f32s_spec (env : Env) (k : Nat) (p : Params) (hk : k ≤ 2) :
    PixelSpec (scalarKernel env Fn.f32s k p) (2 ^ k) 4 (dbcb_load32 env.big_endian)
      dbcB_b32s_1_c := by
  have hrd := rdLocal_load32 env.big_endian
  have h1 : PixelSpec (pix32 env.big_endian dbcB_b32s_1_c) 1 4
      (dbcb_load32 env.big_endian) dbcB_b32s_1_c :=
    pixelSpec_pix32 _ _ _ b32s_mod
  have F1 : Frames (pix32 env.big_endian dbcB_b32s_1_c) (1 * 4) := frames_pix32 _ _
  have h2a := pixelSpec_twice _ 1 4 _ _ 4 (by norm_num) hrd F1 h1
  have F2a : Frames (twice (pix32 env.big_endian dbcB_b32s_1_c) 4) (2 * 4) :=
    frames_twice _ 4 (frames_pix32 _ _)
  have h2b : PixelSpec (pix64 env.big_endian dbcB_b32s_2_c_packed) 2 4
      (dbcb_load32 env.big_endian) dbcB_b32s_1_c :=
    pixelSpec_pix64_lanes32 _ _ _ (fun S D j hj => dbcB_b32s_2_c_packed_lane S D j hj)
  have h2 := pixelSpec_ite (env.platform.use64 = true) _ _ 2 4 _ _ h2b h2a
  have F2 := frames_ite (env.platform.use64 = true) _ _ (2 * 4)
    (frames_pix64 env.big_endian dbcB_b32s_2_c_packed) F2a
  have h4 := pixelSpec_twice _ 2 4 _ _ 8 (by norm_num) hrd F2 h2
  interval_cases k
  · simp only [scalarKernel]; exact h1
  · simp only [scalarKernel]; exact h2
  · simp only [scalarKernel]; exact h4

/-- Every kernel an 8-bit colorkey driver calls works pixel by pixel as `dbcB_b8m_1_c`, in
every tier. -/
theorem kernelOf_f8m_spec (env : Env) (tier : Tier) (k top : Nat) (p : Params)
    (ht : fnTop tier Fn.f8m = some top) (hk : k ≤ top) (hkey : p.key8 < 256) :
    PixelSpec (kernelOf env tier Fn.f8m k p) (2 ^ k) 1 rd8 (dbcB_b8m_1_c p.key8) := by
  have hs : ∀ j, PixelSpec (lanesKernel (pix8 (dbcB_b8m_sse2_lane p.key8)) 1 j) (2 ^ j) 1 rd8
      (dbcB_b8m_1_c p.key8) :=
    pixelSpec_lanes _ 1 rd8 _ rdLocal_rd8 (frames_pix8 _) (pixelSpec_pix8 _ _
      (fun s d hs hd => by
        rw [dbcB_b8m_sse2_lane_eq p.key8 s d hkey hs hd]; exact b8m_mod _ s d hs hd))
  have ha : ∀ j, PixelSpec (lanesKernel (pix8 (dbcB_b8m_avx2_lane p.key8)) 1 j) (2 ^ j) 1 rd8
      (dbcB_b8m_1_c p.key8) :=
    pixelSpec_lanes _ 1 rd8 _ rdLocal_rd8 (frames_pix8 _) (pixelSpec_pix8 _ _
      (fun s d hs hd => by
        rw [dbcB_b8m_avx2_lane_eq p.key8 s d hkey hs hd]; exact b8m_mod _ s d hs hd))
  cases tier
  · simp only [fnTop, Option.some.injEq] at ht
    subst ht
    rw [kernelOf_c]
    exact scalarKernel_f8m_spec env k p hk hkey
  · simp only [fnTop, Option.some.injEq] at ht
    subst ht
    interval_cases k
    · rw [kernelOf_simdC env _ Fn.f8m 0 p rfl]; exact scalarKernel_f8m_spec env 0 p (by norm_num) hkey
    · rw [kernelOf_simdC env _ Fn.f8m 1 p rfl]; exact scalarKernel_f8m_spec env 1 p (by norm_num) hkey
    · rw [kernelOf_simd env Tier.sse2 Fn.f8m 2 p _ (fun h => Tier.noConfusion h) rfl rfl]
      exact hs 2
    · rw [kernelOf_simd env Tier.sse2 Fn.f8m 3 p _ (fun h => Tier.noConfusion h) rfl rfl]
      exact hs 3
    · rw [kernelOf_simd env Tier.sse2 Fn.f8m 4 p _ (fun h => Tier.noConfusion h) rfl rfl]
      exact hs 4
  · simp only [fnTop, Option.some.injEq] at ht
    subst ht
    interval_cases k
    · rw [kernelOf_simdC env _ Fn.f8m 0 p rfl]; exact scalarKernel_f8m_spec env 0 p (by norm_num) hkey
    · rw [kernelOf_simdC env _ Fn.f8m 1 p rfl]; exact scalarKernel_f8m_spec env 1 p (by norm_num) hkey
    · rw [kernelOf_simd env Tier.avx2 Fn.f8m 2 p _ (fun h => Tier.noConfusion h) rfl rfl]
      exact ha 2
    · rw [kernelOf_simd env Tier.avx2 Fn.f8m 3 p _ (fun h => Tier.noConfusion h) rfl rfl]
      exact ha 3
    · rw [kernelOf_simd env Tier.avx2 Fn.f8m 4 p _ (fun h => Tier.noConfusion h) rfl rfl]
      exact ha 4
    · rw [kernelOf_simd env Tier.avx2 Fn.f8m 5 p _ (fun h => Tier.noConfusion h) rfl rfl]
      exact ha 5

/-- Every kernel a 16-bit colorkey driver calls works pixel by pixel as `dbcB_b16m_1_c`, in
every tier. -/
theorem kernelOf_f16m_spec (env : Env) (tier : Tier) (k top : Nat) (p : Params)
    (ht : fnTop tier Fn.f16m = some top) (hk : k ≤ top) (hkey : p.key16 < 65536) :
    PixelSpec (kernelOf env tier Fn.f16m k p) (2 ^ k) 2 (dbcb_load16 env.big_endian)
      (dbcB_b16m_1_c p.key16) := by
  have hrd := rdLocal_load16 env.big_endian
  have hs : ∀ j, PixelSpec (lanesKernel (pix16 env.big_endian (dbcB_b16m_sse2_lane p.key16)) 2 j)
      (2 ^ j) 2 (dbcb_load16 env.big_endian) (dbcB_b16m_1_c p.key16) :=
    pixelSpec_lanes _ 2 _ _ hrd (frames_pix16 _ _) (pixelSpec_pix16 _ _ _
      (fun s d hs hd => by
        rw [dbcB_b16m_sse2_lane_eq p.key16 s d hkey hs hd]; exact b16m_mod _ s d hs hd))
  have ha : ∀ j, PixelSpec (lanesKernel (pix16 env.big_endian (dbcB_b16m_avx2_lane p.key16)) 2 j)
      (2 ^ j) 2 (dbcb_load16 env.big_endian) (dbcB_b16m_1_c p.key16) :=
    pixelSpec_lanes _ 2 _ _ hrd (frames_pix16 _ _) (pixelSpec_pix16 _ _ _
      (fun s d hs hd => by
        rw [dbcB_b16m_avx2_lane_eq p.key16 s d hkey hs hd]; exact b16m_mod _ s d hs hd))
  cases tier
  · simp only [fnTop, Option.some.injEq] at ht
    subst ht
    rw [kernelOf_c]
    exact scalarKernel_f16m_spec env k p hk hkey
  · simp only [fnTop, Option.some.injEq] at ht
    subst ht
    interval_cases k
    · rw [kernelOf_simdC env _ Fn.f16m 0 p rfl]; exact scalarKernel_f16m_spec env 0 p (by norm_num) hkey
    · rw [kernelOf_simd env Tier.sse2 Fn.f16m 1 p _ (fun h => Tier.noConfusion h) rfl rfl]
      exact hs 1
    · rw [kernelOf_simd env Tier.sse2 Fn.f16m 2 p _ (fun h => Tier.noConfusion h) rfl rfl]
      exact hs 2
    · rw [kernelOf_simd env Tier.sse2 Fn.f16m 3 p _ (fun h => Tier.noConfusion h) rfl rfl]
      exact hs 3
  · simp only [fnTop, Option.some.injEq] at ht
    subst ht
    interval_cases k
    · rw [kernelOf_simdC env _ Fn.f16m 0 p rfl]; exact scalarKernel_f16m_spec env 0 p (by norm_num) hkey
    · rw [kernelOf_simd env Tier.avx2 Fn.f16m 1 p _ (fun h => Tier.noConfusion h) rfl rfl]
      exact ha 1
    · rw [kernelOf_simd env Tier.avx2 Fn.f16m 2 p _ (fun h => Tier.noConfusion h) rfl rfl]
      exact ha 2
    · rw [kernelOf_simd env Tier.avx2 Fn.f16m 3 p _ (fun h => Tier.noConfusion h) rfl rfl]
      exact ha 3
    · rw [kernelOf_simd env Tier.avx2 Fn.f16m 4 p _ (fun h => Tier.noConfusion h) rfl rfl]
      exact ha 4

/-- Every kernel a 5551 driver calls works pixel by pixel as `dbcB_b5551_1_c`, in every
tier. -/
theorem kernelOf_f5551_spec (env : Env) (tier : Tier) (k top : Nat) (p : Params)
    (ht : fnTop tier Fn.f5551 = some top) (hk : k ≤ top) :
    PixelSpec (kernelOf env tier Fn.f5551 k p) (2 ^ k) 2 (dbcb_load16 env.big_endian)
      dbcB_b5551_1_c := by
  have hrd := rdLocal_load16 env.big_endian
  have hs : ∀ j, PixelSpec (lanesKernel (pix16 env.big_endian dbcB_b5551_sse2_lane) 2 j)
      (2 ^ j) 2 (dbcb_load16 env.big_endian) dbcB_b5551_1_c :=
    pixelSpec_lanes _ 2 _ _ hrd (frames_pix16 _ _) (pixelSpec_pix16 _ _ _
      (fun s d hs hd => by
        rw [dbcB_b5551_sse2_lane_eq s d hs hd]; exact b5551_mod s d hs hd))
  have ha : ∀ j, PixelSpec (lanesKernel (pix16 env.big_endian dbcB_b5551_avx2_lane) 2 j)
      (2 ^ j) 2 (dbcb_load16 env.big_endian) dbcB_b5551_1_c :=
    pixelSpec_lanes _ 2 _ _ hrd (frames_pix16 _ _) (pixelSpec_pix16 _ _ _
      (fun s d hs hd => by
        rw [dbcB_b5551_avx2_lane_eq s d hs hd]; exact b5551_mod s d hs hd))
  cases tier
  · simp only [fnTop, Option.some.injEq] at ht
    subst ht
    rw [kernelOf_c]
    exact scalarKernel_f5551_spec env k p hk
  · simp only [fnTop, Option.some.injEq] at ht
    subst ht
    interval_cases k
    · rw [kernelOf_simdC env _ Fn.f5551 0 p rfl]; exact scalarKernel_f5551_spec env 0 p (by norm_num)
    · rw [kernelOf_simd env Tier.sse2 Fn.f5551 1 p _ (fun h => Tier.noConfusion h) rfl rfl]
      exact hs 1
    · rw [kernelOf_simd env Tier.sse2 Fn.f5551 2 p _ (fun h => Tier.noConfusion h) rfl rfl]
      exact hs 2
    · rw [kernelOf_simd env Tier.sse2 Fn.f5551 3 p _ (fun h => Tier.noConfusion h) rfl rfl]
      exact hs 3
  · simp only [fnTop, Option.some.injEq] at ht
    subst ht
    interval_cases k
    · rw [kernelOf_simdC env _ Fn.f5551 0 p rfl]; exact scalarKernel_f5551_spec env 0 p (by norm_num)
    · rw [kernelOf_simd env Tier.avx2 Fn.f5551 1 p _ (fun h => Tier.noConfusion h) rfl rfl]
      exact ha 1
    · rw [kernelOf_simd env Tier.avx2 Fn.f5551 2 p _ (fun h => Tier.noConfusion h) rfl rfl]
      exact ha 2
    · rw [kernelOf_simd env Tier.avx2 Fn.f5551 3 p _ (fun h => Tier.noConfusion h) rfl rfl]
      exact ha 3
    · rw [kernelOf_simd env Tier.avx2 Fn.f5551 4 p _ (fun h => Tier.noConfusion h) rfl rfl]
      exact ha 4

/-- Every kernel an alpha-test driver calls works pixel by pixel as `dbcB_b32t_1_c`, in every
tier. -/
theorem kernelOf_f32t_spec (env : Env) (tier : Tier) (k top : Nat) (p : Params)
    (ht : fnTop tier Fn.f32t = some top) (hk : k ≤ top) :
    PixelSpec (kernelOf env tier Fn.f32t k p) (2 ^ k) 4 (dbcb_load32 env.big_endian)
      (dbcB_b32t_1_c p.key8) := by
  have hrd := rdLocal_load32 env.big_endian
  have hs : ∀ j, PixelSpec (lanesKernel (pix32 env.big_endian (dbcB_b32t_sse2_lane p.key8)) 4 j)
      (2 ^ j) 4 (dbcb_load32 env.big_endian) (dbcB_b32t_1_c p.key8) :=
    pixelSpec_lanes _ 4 _ _ hrd (frames_pix32 _ _) (pixelSpec_pix32 _ _ _
      (fun s d hs hd => by
        rw [dbcB_b32t_sse2_lane_eq p.key8 s d hs hd]; exact b32t_mod _ s d hs hd))
  have ha : ∀ j, PixelSpec (lanesKernel (pix32 env.big_endian (dbcB_b32t_avx2_lane p.key8)) 4 j)
      (2 ^ j) 4 (dbcb_load32 env.big_endian) (dbcB_b32t_1_c p.key8) :=
    pixelSpec_lanes _ 4 _ _ hrd (frames_pix32 _ _) (pixelSpec_pix32 _ _ _
      (fun s d hs hd => by
        rw [dbcB_b32t_avx2_lane_eq p.key8 s d hs hd]; exact b32t_mod _ s d hs hd))
  cases tier
  · simp only [fnTop, Option.some.injEq] at ht
    subst ht
    rw [kernelOf_c]
    exact scalarKernel_f32t_spec env k p hk
  · simp only [fnTop, Option.some.injEq] at ht
    subst ht
    interval_cases k
    · rw [kernelOf_simdC env _ Fn.f32t 0 p rfl]; exact scalarKernel_f32t_spec env 0 p (by norm_num)
    · rw [kernelOf_simd env Tier.sse2 Fn.f32t 1 p _ (fun h => Tier.noConfusion h) rfl rfl]
      exact hs 1
    · rw [kernelOf_simd env Tier.sse2 Fn.f32t 2 p _ (fun h => Tier.noConfusion h) rfl rfl]
      exact hs 2
  · simp only [fnTop, Option.some.injEq] at ht
    subst ht
    interval_cases k
    · rw [kernelOf_simdC env _ Fn.f32t 0 p rfl]; exact scalarKernel_f32t_spec env 0 p (by norm_num)
    · rw [kernelOf_simd env Tier.avx2 Fn.f32t 1 p _ (fun h => Tier.noConfusion h) rfl rfl]
      exact ha 1
    · rw [kernelOf_simd env Tier.avx2 Fn.f32t 2 p _ (fun h => Tier.noConfusion h) rfl rfl]
      exact ha 2
    · rw [kernelOf_simd env Tier.avx2 Fn.f32t 3 p _ (fun h => Tier.noConfusion h) rfl rfl]
      exact ha 3

/-- Every kernel a driver of the alpha test with threshold 128 calls works pixel by pixel as
`dbcB_b32s_1_c`, in every tier. -/
theorem kernelOf_f32s_spec (env : Env) (tier : Tier) (k top : Nat) (p : Params)
    (ht : fnTop tier Fn.f32s = some top) (hk : k ≤ top) :
    PixelSpec (kernelOf env tier Fn.f32s k p) (2 ^ k) 4 (dbcb_load32 env.big_endian)
      dbcB_b32s_1_c := by
  have hrd := rdLocal_load32 env.big_endian
  have hs : ∀ j, PixelSpec (lanesKernel (pix32 env.big_endian dbcB_b32s_sse2_lane) 4 j)
      (2 ^ j) 4 (dbcb_load32 env.big_endian) dbcB_b32s_1_c :=
    pixelSpec_lanes _ 4 _ _ hrd (frames_pix32 _ _) (pixelSpec_pix32 _ _ _
      (fun s d hs hd => by
        rw [dbcB_b32s_sse2_lane_eq s d hs hd]; exact b32s_mod s d hs hd))
  have ha : ∀ j, PixelSpec (lanesKernel (pix32 env.big_endian dbcB_b32s_avx2_lane) 4 j)
      (2 ^ j) 4 (dbcb_load32 env.big_endian) dbcB_b32s_1_c :=
    pixelSpec_lanes _ 4 _ _ hrd (frames_pix32 _ _) (pixelSpec_pix32 _ _ _
      (fun s d hs hd => by
        rw [dbcB_b32s_avx2_lane_eq s d hs hd]; exact b32s_mod s d hs hd))
  cases tier
  · simp only [fnTop, Option.some.injEq] at ht
    subst ht
    rw [kernelOf_c]
    exact scalarKernel_f32s_spec env k p hk
  · simp only [fnTop, Option.some.injEq] at ht
    subst ht
    interval_cases k
    · rw [kernelOf_simdC env _ Fn.f32s 0 p rfl]; exact scalarKernel_f32s_spec env 0 p (by norm_num)
    · rw [kernelOf_simd env Tier.sse2 Fn.f32s 1 p _ (fun h => Tier.noConfusion h) rfl rfl]
      exact hs 1
    · rw [kernelOf_simd env Tier.sse2 Fn.f32s 2 p _ (fun h => Tier.noConfusion h) rfl rfl]
      exact hs 2
  · simp only [fnTop, Option.some.injEq] at ht
    subst ht
    interval_cases k
    · rw [kernelOf_simdC env _ Fn.f32s 0 p rfl]; exact scalarKernel_f32s_spec env 0 p (by norm_num)
    · rw [kernelOf_simd env Tier.avx2 Fn.f32s 1 p _ (fun h => Tier.noConfusion h) rfl rfl]
      exact ha 1
    · rw [kernelOf_simd env Tier.avx2 Fn.f32s 2 p _ (fun h => Tier.noConfusion h) rfl rfl]
      exact ha 2
    · rw [kernelOf_simd env Tier.avx2 Fn.f32s 3 p _ (fun h => Tier.noConfusion h) rfl rfl]
      exact ha 3

/-! ## Drivers with kernels, pixel by pixel -/

theorem unroll_val_le (u : Unroll) : u.val ≤ 32 := by
  cases u <;> simp [Unroll.val]

/-- A driver with kernels makes, for every row of the clipped rectangle, the calls of a list of
runs that tiles the row and holds no run longer than the driver's largest. -/
theorem driver_rows (env : Env) (tier : Tier) (fn : Fn) (k : Nat) (hk : fnTop tier fn = some k)
    (ss ds x0 y0 x1 y1 x y : Int) (hw : 0 < x1 - x0) (hh : 0 < y1 - y0) :
    ∃ runs : List Nat, runsTotal runs = (x1 - x0).toNat ∧ (∀ j ∈ runs, j ≤ k) ∧
      driver env tier fn ss ds x0 y0 x1 y1 x y
        = rowsFrom (emitRuns fn.pixel_size runs) ss ds (y1 - y0).toNat
            (y0 * ss + x0 * fn.pixel_size) ((y0 + y) * ds + (x0 + x) * fn.pixel_size) := by
  unfold driver
  simp only
  rw [if_neg (by omega), hk]
  simp only
  split
  · rename_i hu
    refine ⟨switchRuns k (x1 - x0).toNat, runsTotal_switchRuns _ _ ?_,
      fun j hj => mem_switchRuns _ _ _ hj, rfl⟩
    simp only [Bool.and_eq_true, decide_eq_true_eq] at hu
    have := unroll_val_le env.unroll
    omega
  · exact ⟨loopRuns k _, runsTotal_loopRuns _ _, fun j hj => mem_loopRuns _ _ _ hj, rfl⟩

/-- A driver whose kernels work pixel by pixel as `f` leaves in pixel `t` of row `i` of the
clipped rectangle `f` of the source pixel and of the old destination pixel. -/
theorem driver_pixel (env : Env) (tier : Tier) (fn : Fn) (k : Nat) (hk : fnTop tier fn = some k)
    (kern : Nat → Kernel) (rd : Mem → Int → Nat) (f : Nat → Nat → Nat)
    (hrd : RdLocal rd fn.pixel_size) (hF : ∀ j, Frames (kern j) (2 ^ j * fn.pixel_size))
    (hspec : ∀ j, j ≤ k → PixelSpec (kern j) (2 ^ j) fn.pixel_size rd f)
    (src dst : Mem) (ss ds x0 y0 x1 y1 x y : Int) (hd : (x1 - x0) * fn.pixel_size ≤ ds)
    (i t : Nat) (hi : (i : Int) < y1 - y0) (ht : (t : Int) < x1 - x0) :
    rd (execOps kern src (driver env tier fn ss ds x0 y0 x1 y1 x y) dst)
        ((y0 + y) * ds + (x0 + x) * fn.pixel_size + i * ds + t * fn.pixel_size)
      = f (rd src (y0 * ss + x0 * fn.pixel_size + i * ss + t * fn.pixel_size))
          (rd dst ((y0 + y) * ds + (x0 + x) * fn.pixel_size + i * ds + t * fn.pixel_size)) := by
  obtain ⟨runs, htot, hle, hdrv⟩ := driver_rows env tier fn k hk ss ds x0 y0 x1 y1 x y
    (by omega) (by omega)
  rw [hdrv]
  have hcast : (((x1 - x0).toNat : Nat) : Int) = x1 - x0 := Int.toNat_of_nonneg (by omega)
  exact rows_pixel kern fn.pixel_size rd f hrd hF src runs (fun j hj => hspec j (hle j hj)) ss ds
    (by rw [htot]; push_cast; rw [hcast]; exact hd) (y1 - y0).toNat _ _ dst i t (by omega)
    (by rw [htot]; omega)

/-- A call of `dbc_blit` that launches a driver whose kernels work pixel by pixel as `f`: every
pixel of the image of the clipped rectangle becomes `f` of its source pixel and of its old
value. -/
theorem dbc_blit_pixel (env : Env) (src_w src_h ss : Int) (src : Mem) (dst_w dst_h ds : Int)
    (dst : Mem) (x y : Int) (color : Option Color) (mode : Int) (L : Launch)
    (hL : dbc_blit_launch env src_w src_h dst_w dst_h x y color mode = some L) (k : Nat)
    (hk : fnTop L.tier L.fn = some k) (rd : Mem → Int → Nat) (f : Nat → Nat → Nat)
    (hrd : RdLocal rd L.fn.pixel_size)
    (hspec : ∀ j, j ≤ k → PixelSpec (kernelOf env L.tier L.fn j
      ⟨L.color, (headerKeys L.fn L.color).1, (headerKeys L.fn L.color).2⟩) (2 ^ j)
      L.fn.pixel_size rd f)
    (hd : dst_w * L.fn.pixel_size ≤ ds) (X Y : Int) (hX0 : max 0 x ≤ X)
    (hX1 : X < min dst_w (x + src_w)) (hY0 : max 0 y ≤ Y) (hY1 : Y < min dst_h (y + src_h)) :
    rd (dbc_blit env src_w src_h ss src dst_w dst_h ds dst x y color mode)
        (Y * ds + X * L.fn.pixel_size)
      = f (rd src ((Y - y) * ss + (X - x) * L.fn.pixel_size))
          (rd dst (Y * ds + X * L.fn.pixel_size)) := by
  obtain ⟨_, hx0, hx1, hy0, hy1⟩ := launch_some _ _ _ _ _ _ _ _ _ L hL
  obtain ⟨cx0, cx1⟩ := clip_x x src_w dst_w
  obtain ⟨cy0, cy1⟩ := clip_x y src_h dst_h
  unfold dbc_blit dbc_blit_ops dbc_blit_kernel
  rw [hL]
  simp only
  have hwle : (L.x1 - L.x0) * L.fn.pixel_size ≤ ds := by
    have h1 : (0 : Int) ≤ max 0 x := le_max_left _ _
    have h2 : min dst_w (x + src_w) ≤ dst_w := min_le_left _ _
    have h3 : L.x1 - L.x0 ≤ dst_w := by rw [hx0, hx1]; omega
    have h4 : (L.x1 - L.x0) * L.fn.pixel_size ≤ dst_w * L.fn.pixel_size :=
      mul_le_mul_of_nonneg_right h3 (by positivity)
    omega
  have hi : (((Y - (L.y0 + y)).toNat : Nat) : Int) = Y - (L.y0 + y) :=
    Int.toNat_of_nonneg (by rw [hy0]; omega)
  have ht : (((X - (L.x0 + x)).toNat : Nat) : Int) = X - (L.x0 + x) :=
    Int.toNat_of_nonneg (by rw [hx0]; omega)
  have h := driver_pixel env L.tier L.fn k hk
    (fun j => kernelOf env L.tier L.fn j
      ⟨L.color, (headerKeys L.fn L.color).1, (headerKeys L.fn L.color).2⟩) rd f hrd
    (fun j => kernelOf_frames env L.tier L.fn j _) hspec src dst ss ds L.x0 L.y0 L.x1 L.y1 x y
    hwle (Y - (L.y0 + y)).toNat (X - (L.x0 + x)).toNat (by rw [hi, hy0, hy1]; omega)
    (by rw [ht, hx0, hx1]; omega)
  rw [hi, ht] at h
  have e1 : (L.y0 + y) * ds + (L.x0 + x) * (L.fn.pixel_size : Int) + (Y - (L.y0 + y)) * ds
      + (X - (L.x0 + x)) * (L.fn.pixel_size : Int) = Y * ds + X * L.fn.pixel_size := by ring
  have e2 : L.y0 * ss + L.x0 * (L.fn.pixel_size : Int) + (Y - (L.y0 + y)) * ss
      + (X - (L.x0 + x)) * (L.fn.pixel_size : Int)
      = (Y - y) * ss + (X - x) * L.fn.pixel_size := by ring
  rw [e1, e2] at h
  exact h

/-! ## Drivers without kernels -/

/-- A `DBCB_DEF_FN_0` driver leaves in every byte of the image of the clipped rectangle the
source byte. -/
theorem driver_memcpy_region (env : Env) (tier : Tier) (fn : Fn) (hfn : fnTop tier fn = none)
    (kern : Nat → Kernel) (src dst : Mem) (ss ds x0 y0 x1 y1 x y : Int)
    (hd : (x1 - x0) * fn.pixel_size ≤ ds) (hds : ds < 2 ^ 32) (i : Nat) (t : Int)
    (hi : (i : Int) < y1 - y0) (ht0 : 0 ≤ t) (ht1 : t < (x1 - x0) * fn.pixel_size) :
    execOps kern src (driver env tier fn ss ds x0 y0 x1 y1 x y) dst
        ((y0 + y) * ds + (x0 + x) * fn.pixel_size + i * ds + t)
      = src (y0 * ss + x0 * fn.pixel_size + i * ss + t) := by
  have hw : 0 < x1 - x0 := by
    by_contra hn
    have : (x1 - x0) * (fn.pixel_size : Int) ≤ 0 :=
      mul_nonpos_of_nonpos_of_nonneg (by omega) (by positivity)
    omega
  rw [driver_copy env tier fn hfn _ _ _ _ _ _ _ _ hw (by omega)]
  have hcast : ((((x1 - x0) * (fn.pixel_size : Int)).toNat : Nat) : Int)
      = (x1 - x0) * fn.pixel_size := Int.toNat_of_nonneg (by omega)
  have hu : u32 ((x1 - x0) * (fn.pixel_size : Int)).toNat
      = ((x1 - x0) * (fn.pixel_size : Int)).toNat := by
    rw [u32]
    apply Nat.mod_eq_of_lt
    have : ((((x1 - x0) * (fn.pixel_size : Int)).toNat : Nat) : Int) < 2 ^ 32 := by
      rw [hcast]; omega
    exact_mod_cast this
  rw [hu]
  exact execOps_copy_rows kern src ss ds _ (by rw [hcast]; exact hd) (y1 - y0).toNat _ _ dst i t
    (by omega) ht0 (by rw [hcast]; exact ht1)

/-- A call of `dbc_blit` that launches a `DBCB_DEF_FN_0` driver copies the bytes of the clipped
rectangle. -/
theorem dbc_blit_memcpy_region (env : Env) (src_w src_h ss : Int) (src : Mem)
    (dst_w dst_h ds : Int) (dst : Mem) (x y : Int) (color : Option Color) (mode : Int)
    (L : Launch) (hL : dbc_blit_launch env src_w src_h dst_w dst_h x y color mode = some L)
    (hfn : fnTop L.tier L.fn = none) (hd : dst_w * L.fn.pixel_size ≤ ds) (hds : ds < 2 ^ 32)
    (X Y b : Int) (hX0 : max 0 x ≤ X) (hX1 : X < min dst_w (x + src_w)) (hY0 : max 0 y ≤ Y)
    (hY1 : Y < min dst_h (y + src_h)) (hb0 : 0 ≤ b) (hb1 : b < L.fn.pixel_size) :
    dbc_blit env src_w src_h ss src dst_w dst_h ds dst x y color mode
        (Y * ds + X * L.fn.pixel_size + b)
      = src ((Y - y) * ss + (X - x) * L.fn.pixel_size + b) := by
  obtain ⟨_, hx0, hx1, hy0, hy1⟩ := launch_some _ _ _ _ _ _ _ _ _ L hL
  obtain ⟨cx0, cx1⟩ := clip_x x src_w dst_w
  obtain ⟨cy0, cy1⟩ := clip_x y src_h dst_h
  unfold dbc_blit dbc_blit_ops dbc_blit_kernel
  rw [hL]
  simp only
  have hwle : (L.x1 - L.x0) * L.fn.pixel_size ≤ ds := by
    have h1 : (0 : Int) ≤ max 0 x := le_max_left _ _
    have h2 : min dst_w (x + src_w) ≤ dst_w := min_le_left _ _
    have h3 : L.x1 - L.x0 ≤ dst_w := by rw [hx0, hx1]; omega
    have h4 : (L.x1 - L.x0) * L.fn.pixel_size ≤ dst_w * L.fn.pixel_size :=
      mul_le_mul_of_nonneg_right h3 (by positivity)
    omega
  have hi : (((Y - (L.y0 + y)).toNat : Nat) : Int) = Y - (L.y0 + y) :=
    Int.toNat_of_nonneg (by rw [hy0]; omega)
  have hX : (X - (L.x0 + x)) * (L.fn.pixel_size : Int) + (L.fn.pixel_size : Int)
      ≤ (L.x1 - L.x0) * L.fn.pixel_size := by
    have h3 : X - (L.x0 + x) + 1 ≤ L.x1 - L.x0 := by rw [hx0, hx1]; omega
    have h4 := mul_le_mul_of_nonneg_right h3
      (show (0 : Int) ≤ (L.fn.pixel_size : Int) by positivity)
    linarith
  have hX2 : 0 ≤ (X - (L.x0 + x)) * (L.fn.pixel_size : Int) :=
    mul_nonneg (by rw [hx0]; omega) (by positivity)
  have h := driver_memcpy_region env L.tier L.fn hfn
    (fun j => kernelOf env L.tier L.fn j
      ⟨L.color, (headerKeys L.fn L.color).1, (headerKeys L.fn L.color).2⟩) src dst ss ds
    L.x0 L.y0 L.x1 L.y1 x y hwle hds (Y - (L.y0 + y)).toNat
    ((X - (L.x0 + x)) * L.fn.pixel_size + b) (by rw [hi, hy0, hy1]; omega) (by omega) (by omega)
  rw [hi] at h
  have e1 : (L.y0 + y) * ds + (L.x0 + x) * (L.fn.pixel_size : Int) + (Y - (L.y0 + y)) * ds
      + ((X - (L.x0 + x)) * (L.fn.pixel_size : Int) + b)
      = Y * ds + X * L.fn.pixel_size + b := by ring
  have e2 : L.y0 * ss + L.x0 * (L.fn.pixel_size : Int) + (Y - (L.y0 + y)) * ss
      + ((X - (L.x0 + x)) * (L.fn.pixel_size : Int) + b)
      = (Y - y) * ss + (X - x) * L.fn.pixel_size + b := by ring
  rw [e1, e2] at h
  exact h

/-! ## What `dbc_blit` launches in the key modes -/

theorem fnTop_key (tier : Tier) (fn : Fn)
    (h : fn = Fn.f8m ∨ fn = Fn.f16m ∨ fn = Fn.f5551 ∨ fn = Fn.f32t ∨ fn = Fn.f32s) :
    ∃ k, fnTop tier fn = some k := by
  rcases h with e | e | e | e | e <;> subst e <;> cases tier <;> exact ⟨_, rfl⟩

/-- With a key in range the 8-bit colorkey launches `dbcB_f8m_*` with the color. -/
theorem launch_key8 (env : Env) (src_w src_h dst_w dst_h x y : Int) (c : Color) (t : ℚ)
    (hc : c 0 = F32.fin t) (h0 : 0 ≤ t) (h1 : t ≤ 255) :
    dbc_blit_launch env src_w src_h dst_w dst_h x y (some c) 5
      = some ⟨selectTier env 5 true, Fn.f8m, some c, clip_lo x, clip_lo y,
          clip_hi x src_w dst_w, clip_hi y src_h dst_h⟩ := by
  simp [dbc_blit_launch, modulatedFlags, selectFn, hc, F32.ge, F32.le, h0, h1]

/-- With a key in range the 16-bit colorkey launches `dbcB_f16m_*` with the color. -/
theorem launch_key16 (env : Env) (src_w src_h dst_w dst_h x y : Int) (c : Color) (t : ℚ)
    (hc : c 0 = F32.fin t) (h0 : 0 ≤ t) (h1 : t ≤ 65535) :
    dbc_blit_launch env src_w src_h dst_w dst_h x y (some c) 6
      = some ⟨selectTier env 6 true, Fn.f16m, some c, clip_lo x, clip_lo y,
          clip_hi x src_w dst_w, clip_hi y src_h dst_h⟩ := by
  simp [dbc_blit_launch, modulatedFlags, selectFn, hc, F32.ge, F32.le, h0, h1]

/-- With a threshold in range the alpha test launches `dbcB_f32s_*` for a threshold in
`(127, 128]` and `dbcB_f32t_*` otherwise, with the color. -/
theorem launch_alphatest (env : Env) (src_w src_h dst_w dst_h x y : Int) (c : Color) (t : ℚ)
    (hc : c 0 = F32.fin t) (h0 : 0 ≤ t) (h1 : t ≤ 255) :
    dbc_blit_launch env src_w src_h dst_w dst_h x y (some c) 10
      = some ⟨selectTier env 10 true, if 127 < t ∧ t ≤ 128 then Fn.f32s else Fn.f32t, some c,
          clip_lo x, clip_lo y, clip_hi x src_w dst_w, clip_hi y src_h dst_h⟩ := by
  have h2 : ¬ (255 : ℚ) < t := not_lt.mpr h1
  by_cases h : 127 < t ∧ t ≤ 128
  · simp [dbc_blit_launch, modulatedFlags, selectFn, hc, F32.ge, F32.le, F32.gt, h0, h1, h2,
      h.1, h.2]
  · rw [if_neg h]
    by_cases h3 : 127 < t
    · have h4 : ¬ t ≤ 128 := fun h5 => h ⟨h3, h5⟩
      simp [dbc_blit_launch, modulatedFlags, selectFn, hc, F32.ge, F32.le, F32.gt, h0, h1, h2,
        h3, h4]
    · simp [dbc_blit_launch, modulatedFlags, selectFn, hc, F32.ge, F32.le, F32.gt, h0, h1, h2,
        h3]

/-- Whether `color[0]` is a key of the mode, as `dbc_blit` decides it. -/
theorem modulated_key (mode : Int) (c : Color) (hm : mode = 5 ∨ mode = 6 ∨ mode = 10) :
    (modulatedFlags mode (some c)).1
      = ((c 0).ge 0 && (c 0).le (if mode = 6 then 65535 else 255)) := by
  rcases hm with e | e | e <;> subst e <;> simp [modulatedFlags]

/-- Without a key (a null color, or a `color[0]` that is no key and does not exceed 255 in the
alpha test) the key modes launch the `DBCB_DEF_FN_0` driver of their pixel size. -/
theorem launch_nokey (env : Env) (src_w src_h dst_w dst_h x y : Int) (color : Option Color)
    (mode : Int) (hm : mode = 5 ∨ mode = 6 ∨ mode = 10)
    (hc : ∀ c, color = some c →
      ((c 0).ge 0 && (c 0).le (if mode = 6 then 65535 else 255)) = false ∧
      (mode = 10 → (c 0).gt 255 = false)) :
    dbc_blit_launch env src_w src_h dst_w dst_h x y color mode
      = some ⟨selectTier env mode false,
          if mode = 5 then Fn.f8 else if mode = 6 then Fn.f16 else Fn.f32a, none, clip_lo x,
          clip_lo y, clip_hi x src_w dst_w, clip_hi y src_h dst_h⟩ := by
  cases color with
  | none => rcases hm with e | e | e <;> subst e <;> simp [dbc_blit_launch, modulatedFlags, selectFn]
  | some c =>
    obtain ⟨h1, h2⟩ := hc c rfl
    rcases hm with e | e | e <;> subst e
    · simp only [show ((5 : Int) = 6) = False by simp, if_false] at h1
      simp [dbc_blit_launch, modulatedFlags, selectFn, h1]
    · simp only [if_true] at h1
      simp [dbc_blit_launch, modulatedFlags, selectFn, h1]
    · simp only [show ((10 : Int) = 6) = False by simp, if_false] at h1
      have h3 := h2 rfl
      simp [dbc_blit_launch, modulatedFlags, selectFn, h1, h3]

/-- In the 5551 mode `dbc_blit` launches `dbcB_f5551_*` without color, whatever the color
argument. -/
theorem launch_5551 (env : Env) (src_w src_h dst_w dst_h x y : Int) (color : Option Color) :
    dbc_blit_launch env src_w src_h dst_w dst_h x y color 7
      = some ⟨selectTier env 7 false, Fn.f5551, none, clip_lo x, clip_lo y,
          clip_hi x src_w dst_w, clip_hi y src_h dst_h⟩ := by
  cases color <;> simp [dbc_blit_launch, modulatedFlags, selectFn]

/-- In the alpha test a `color[0]` above 255 makes `dbc_blit` return before the launch. -/
theorem launch_alphatest_above (env : Env) (src_w src_h dst_w dst_h x y : Int) (c : Color)
    (h : (c 0).gt 255 = true) :
    dbc_blit_launch env src_w src_h dst_w dst_h x y (some c) 10 = none := by
  simp [dbc_blit_launch, h]

/-! ## The keys of `DBCB_FN_HEADER` -/

theorem toInt32_floor (t : ℚ) (h0 : 0 ≤ t) : (F32.fin t).toInt32 = ⌊t⌋ := by
  simp only [F32.toInt32, h0, if_true]
  rfl

/-- For a `color[0]` in `[0, 65535]` in a colorkey mode `key16` is its integer part and `key8`
the low byte of that. -/
theorem headerKeys_colorkey (fn : Fn) (c : Color) (t : ℚ) (hc : c 0 = F32.fin t) (h0 : 0 ≤ t)
    (h1 : t ≤ 65535) (hm : fn.mode ≠ 10) :
    headerKeys fn (some c) = (⌊t⌋.toNat % 256, ⌊t⌋.toNat) := by
  have hf0 : 0 ≤ ⌊t⌋ := Int.floor_nonneg.mpr h0
  have hf1 : ⌊t⌋ ≤ 65535 := by
    have : ⌊t⌋ ≤ ⌊(65535 : ℚ)⌋ := Int.floor_le_floor h1
    simpa using this
  have hlt : ⌊t⌋.toNat < 65536 := by omega
  unfold headerKeys
  simp only [hc, F32.ge, F32.le, h0, h1, decide_True, Bool.and_self, if_true, toInt32_floor t h0]
  rw [if_neg (fun h => hm h.1)]
  rw [Nat.mod_eq_of_lt (show ⌊t⌋.toNat < 2 ^ 16 from hlt)]
  norm_num

/-- For a threshold in `[0, 255]` the alpha test computes `key8` as the threshold rounded up. -/
theorem headerKeys_alphatest (fn : Fn) (c : Color) (t : ℚ) (hc : c 0 = F32.fin t) (h0 : 0 ≤ t)
    (h1 : t ≤ 255) (hm : fn.mode = 10) :
    (headerKeys fn (some c)).1 = ⌈t⌉.toNat ∧ ⌈t⌉.toNat ≤ 255 := by
  have hf0 : 0 ≤ ⌊t⌋ := Int.floor_nonneg.mpr h0
  have hf1 : ⌊t⌋ ≤ 255 := by
    have : ⌊t⌋ ≤ ⌊(255 : ℚ)⌋ := Int.floor_le_floor h1
    simpa using this
  have hc1 : ⌈t⌉ ≤ 255 := Int.ceil_le.mpr (by exact_mod_cast h1)
  have hc0 : 0 ≤ ⌈t⌉ := Int.ceil_nonneg h0
  have hn : ((⌊t⌋.toNat : Nat) : Int) = ⌊t⌋ := Int.toNat_of_nonneg hf0
  have hlt : ⌊t⌋.toNat < 256 := by omega
  refine ⟨?_, by omega⟩
  unfold headerKeys
  have h1' : t ≤ 65535 := le_trans h1 (by norm_num)
  simp only [hc, F32.ge, F32.le, h0, h1', decide_True, Bool.and_self, if_true,
    toInt32_floor t h0]
  rw [Nat.mod_eq_of_lt (show ⌊t⌋.toNat < 2 ^ 16 by omega),
    Nat.mod_eq_of_lt (show ⌊t⌋.toNat < 2 ^ 8 by omega)]
  by_cases hint : t = (⌊t⌋.toNat : ℚ)
  · have hne : (F32.fin t).ne ((⌊t⌋.toNat : Nat) : ℚ) = false := by
      simp [F32.ne, F32.eq, ← hint]
    rw [if_neg (by rw [hne]; simp)]
    show ⌊t⌋.toNat = ⌈t⌉.toNat
    have : ⌈t⌉ = ⌊t⌋ := by
      rw [Int.ceil_eq_iff]
      have e : (⌊t⌋ : ℚ) = ((⌊t⌋.toNat : Nat) : ℚ) := by
        rw [← hn]; push_cast; rfl
      constructor
      · rw [e, ← hint]; linarith
      · rw [e, ← hint]
    rw [this]
  · have hne : (F32.fin t).ne ((⌊t⌋.toNat : Nat) : ℚ) = true := by
      simp [F32.ne, F32.eq, hint]
    rw [if_pos ⟨hm, hne⟩]
    show (⌊t⌋.toNat + 1) % 2 ^ 8 = ⌈t⌉.toNat
    have hfl : (⌊t⌋ : ℚ) ≤ t := Int.floor_le t
    have hfl2 : t < ⌊t⌋ + 1 := Int.lt_floor_add_one t
    have e : (⌊t⌋ : ℚ) = ((⌊t⌋.toNat : Nat) : ℚ) := by
      rw [← hn]; push_cast; rfl
    have hlt2 : (⌊t⌋ : ℚ) < t := lt_of_le_of_ne hfl (fun h => hint (by rw [← e, h]))
    have hce : ⌈t⌉ = ⌊t⌋ + 1 := by
      rw [Int.ceil_eq_iff]
      constructor
      · push_cast; linarith
      · push_cast; linarith
    rw [hce]
    have : ⌊t⌋ + 1 ≤ 255 := by rw [← hce]; exact hc1
    have e2 : (⌊t⌋ + 1).toNat = ⌊t⌋.toNat + 1 := by omega
    rw [e2]
    apply Nat.mod_eq_of_lt
    omega

/-! ## Pixels determine bytes -/

theorem rd8_inj (m1 m2 : Mem) (a1 a2 : Int) (h : rd8 m1 a1 = rd8 m2 a2) (b : Int) (hb0 : 0 ≤ b)
    (hb1 : b < ((1 : Nat) : Int)) : m1 (a1 + b) = m2 (a2 + b) := by
  have : b = 0 := by omega
  subst this
  rw [add_zero, add_zero]
  exact Fin.ext h

theorem load16_inj (big : Bool) (m1 m2 : Mem) (a1 a2 : Int)
    (h : dbcb_load16 big m1 a1 = dbcb_load16 big m2 a2) (b : Int) (hb0 : 0 ≤ b)
    (hb1 : b < ((2 : Nat) : Int)) : m1 (a1 + b) = m2 (a2 + b) := by
  rw [dbcb_load16_eq, dbcb_load16_eq] at h
  have p0 := (m1 a1).isLt
  have p1 := (m1 (a1 + 1)).isLt
  have q0 := (m2 a2).isLt
  have q1 := (m2 (a2 + 1)).isLt
  have hb : b = 0 ∨ b = 1 := by omega
  cases big
  · simp only [Bool.false_eq_true, if_false] at h
    rcases hb with e | e <;> subst e
    · rw [add_zero, add_zero]; apply Fin.ext; omega
    · apply Fin.ext; omega
  · simp only [if_true] at h
    rcases hb with e | e <;> subst e
    · rw [add_zero, add_zero]; apply Fin.ext; omega
    · apply Fin.ext; omega

theorem load32_inj (big : Bool) (m1 m2 : Mem) (a1 a2 : Int)
    (h : dbcb_load32 big m1 a1 = dbcb_load32 big m2 a2) (b : Int) (hb0 : 0 ≤ b)
    (hb1 : b < ((4 : Nat) : Int)) : m1 (a1 + b) = m2 (a2 + b) := by
  have hb : ((b.toNat : Nat) : Int) = b := Int.toNat_of_nonneg hb0
  have hlt : b.toNat < 4 := by omega
  have e1 := load32_byte big m1 a1 b.toNat hlt
  have e2 := load32_byte big m2 a2 b.toNat hlt
  rw [hb] at e1 e2
  apply Fin.ext
  rw [← e1, ← e2, h]

/-! ## Rows that copy, rows that keep -/

/-- A position inside a row of `n` pixels of `ps` bytes is a byte of one of the pixels. -/
theorem row_position (ps n : Nat) (hps : 0 < ps) (d a : Int) (h0 : d ≤ a)
    (h1 : a < d + ((n * ps : Nat) : Int)) :
    ∃ (t : Nat) (b : Int), t < n ∧ 0 ≤ b ∧ b < ps ∧ a = d + t * ps + b := by
  have hp : (0 : Int) < ps := by exact_mod_cast hps
  refine ⟨((a - d) / ps).toNat, (a - d) % ps, ?_, Int.emod_nonneg _ (by omega),
    Int.emod_lt_of_pos _ hp, ?_⟩
  · have hq0 : 0 ≤ (a - d) / ps := Int.ediv_nonneg (by omega) (by omega)
    have hq1 : (a - d) / ps < n := by
      apply Int.ediv_lt_of_lt_mul hp
      push_cast at h1
      omega
    omega
  · have hq0 : 0 ≤ (a - d) / ps := Int.ediv_nonneg (by omega) (by omega)
    rw [Int.toNat_of_nonneg hq0]
    have := Int.emod_add_ediv (a - d) ps
    linarith [mul_comm ((a - d) / (ps : Int)) (ps : Int)]

/-- The calls of one row, when every pixel of the row passes the test of the kernel, leave what
`dbcb_memcpy` of the row leaves. -/
theorem row_eq_copy (kern : Nat → Kernel) (ps : Nat) (hps : 0 < ps) (rd : Mem → Int → Nat)
    (f : Nat → Nat → Nat) (hrd : RdLocal rd ps)
    (hinj : ∀ (m1 m2 : Mem) (a1 a2 : Int), rd m1 a1 = rd m2 a2 →
      ∀ b : Int, 0 ≤ b → b < ps → m1 (a1 + b) = m2 (a2 + b))
    (hF : ∀ k, Frames (kern k) (2 ^ k * ps)) (src : Mem) (runs : List Nat)
    (hspec : ∀ j ∈ runs, PixelSpec (kern j) (2 ^ j) ps rd f) (s d : Int) (m : Mem)
    (hsel : ∀ t, t < runsTotal runs → ∀ D, f (rd src (s + t * ps)) D = rd src (s + t * ps)) :
    execOps kern src (emitRuns ps runs s d) m
      = dbcb_memcpy m d src s (runsTotal runs * ps) := by
  funext a
  unfold dbcb_memcpy
  by_cases h : d ≤ a ∧ a < d + ((runsTotal runs * ps : Nat) : Int)
  · rw [if_pos h]
    obtain ⟨t, b, ht, hb0, hb1, rfl⟩ := row_position ps _ hps d a h.1 h.2
    have hp := row_pixel kern ps rd f hrd hF src runs hspec s d m t ht
    rw [hsel t ht] at hp
    have := hinj _ _ _ _ hp b hb0 hb1
    rw [this]
    congr 1
    ring
  · rw [if_neg h]
    apply execOps_frame kern ps hF src a
    intro op hop hw
    exact h (emitRuns_writes ps runs (runsTotal runs) (le_refl _) s d op a hop hw)

/-- The calls of one row, when no pixel of the row passes the test of the kernel, change
nothing. -/
theorem row_eq_id (kern : Nat → Kernel) (ps : Nat) (hps : 0 < ps) (rd : Mem → Int → Nat)
    (f : Nat → Nat → Nat) (hrd : RdLocal rd ps)
    (hinj : ∀ (m1 m2 : Mem) (a1 a2 : Int), rd m1 a1 = rd m2 a2 →
      ∀ b : Int, 0 ≤ b → b < ps → m1 (a1 + b) = m2 (a2 + b))
    (hF : ∀ k, Frames (kern k) (2 ^ k * ps)) (src : Mem) (runs : List Nat)
    (hspec : ∀ j ∈ runs, PixelSpec (kern j) (2 ^ j) ps rd f) (s d : Int) (m : Mem)
    (hsel : ∀ t, t < runsTotal runs → ∀ D, f (rd src (s + t * ps)) D = D) :
    execOps kern src (emitRuns ps runs s d) m = m := by
  funext a
  by_cases h : d ≤ a ∧ a < d + ((runsTotal runs * ps : Nat) : Int)
  · obtain ⟨t, b, ht, hb0, hb1, rfl⟩ := row_position ps _ hps d a h.1 h.2
    have hp := row_pixel kern ps rd f hrd hF src runs hspec s d m t ht
    rw [hsel t ht] at hp
    have := hinj _ _ _ _ hp b hb0 hb1
    exact this
  · apply execOps_frame kern ps hF src a
    intro op hop hw
    exact h (emitRuns_writes ps runs (runsTotal runs) (le_refl _) s d op a hop hw)

/-- Rows of calls whose pixels all pass the test leave what rows of `dbcb_memcpy` leave,
whatever the strides. -/
theorem rows_eq_copy (kern kern0 : Nat → Kernel) (ps : Nat) (hps : 0 < ps)
    (rd : Mem → Int → Nat) (f : Nat → Nat → Nat) (hrd : RdLocal rd ps)
    (hinj : ∀ (m1 m2 : Mem) (a1 a2 : Int), rd m1 a1 = rd m2 a2 →
      ∀ b : Int, 0 ≤ b → b < ps → m1 (a1 + b) = m2 (a2 + b))
    (hF : ∀ k, Frames (kern k) (2 ^ k * ps)) (src : Mem) (runs : List Nat)
    (hspec : ∀ j ∈ runs, PixelSpec (kern j) (2 ^ j) ps rd f) (ss ds : Int) :
    ∀ (h : Nat) (s d : Int) (m : Mem),
      (∀ i t : Nat, i < h → t < runsTotal runs →
        ∀ D, f (rd src (s + i * ss + t * ps)) D = rd src (s + i * ss + t * ps)) →
      execOps kern src (rowsFrom (emitRuns ps runs) ss ds h s d) m
        = execOps kern0 src
            (rowsFrom (fun s d => [Op.copy d s (runsTotal runs * ps)]) ss ds h s d) m := by
  intro h
  induction h with
  | zero => intro s d m _; rfl
  | succ h ih =>
    intro s d m hsel
    rw [rowsFrom, rowsFrom, execOps_append, execOps_append,
      row_eq_copy kern ps hps rd f hrd hinj hF src runs hspec s d m
        (fun t ht D => by
          have := hsel 0 t (by omega) ht D
          simpa using this)]
    have e : execOps kern0 src [Op.copy d s (runsTotal runs * ps)] m
        = dbcb_memcpy m d src s (runsTotal runs * ps) := rfl
    rw [e]
    apply ih
    intro i t hi ht D
    have := hsel (i + 1) t (by omega) ht D
    have a1 : s + ((i + 1 : Nat) : Int) * ss + t * ps = s + ss + i * ss + t * ps := by
      push_cast; ring
    rw [a1] at this
    exact this

/-- Rows of calls whose pixels all fail the test change nothing, whatever the strides. -/
theorem rows_eq_id (kern : Nat → Kernel) (ps : Nat) (hps : 0 < ps)
    (rd : Mem → Int → Nat) (f : Nat → Nat → Nat) (hrd : RdLocal rd ps)
    (hinj : ∀ (m1 m2 : Mem) (a1 a2 : Int), rd m1 a1 = rd m2 a2 →
      ∀ b : Int, 0 ≤ b → b < ps → m1 (a1 + b) = m2 (a2 + b))
    (hF : ∀ k, Frames (kern k) (2 ^ k * ps)) (src : Mem) (runs : List Nat)
    (hspec : ∀ j ∈ runs, PixelSpec (kern j) (2 ^ j) ps rd f) (ss ds : Int) :
    ∀ (h : Nat) (s d : Int) (m : Mem),
      (∀ i t : Nat, i < h → t < runsTotal runs →
        ∀ D, f (rd src (s + i * ss + t * ps)) D = D) →
      execOps kern src (rowsFrom (emitRuns ps runs) ss ds h s d) m = m := by
  intro h
  induction h with
  | zero => intro s d m _; rfl
  | succ h ih =>
    intro s d m hsel
    rw [rowsFrom, execOps_append,
      row_eq_id kern ps hps rd f hrd hinj hF src runs hspec s d m
        (fun t ht D => by
          have := hsel 0 t (by omega) ht D
          simpa using this)]
    apply ih
    intro i t hi ht D
    have := hsel (i + 1) t (by omega) ht D
    have a1 : s + ((i + 1 : Nat) : Int) * ss + t * ps = s + ss + i * ss + t * ps := by
      push_cast; ring
    rw [a1] at this
    exact this

/-! ## Blits that copy, blits that keep -/

theorem execOps_copy_kern (k1 k2 : Nat → Kernel) (src : Mem) :
    ∀ (ops : List Op) (m : Mem), (∀ op ∈ ops, ∃ d s n, op = Op.copy d s n) →
      execOps k1 src ops m = execOps k2 src ops m := by
  intro ops
  induction ops with
  | nil => intro m _; rfl
  | cons op ops ih =>
    intro m h
    obtain ⟨d, s, n, e⟩ := h op (List.mem_cons_self _ _)
    subst e
    rw [execOps_cons, execOps_cons]
    exact ih _ (fun o ho => h o (List.mem_cons_of_mem _ ho))

/-- The operations of a `DBCB_DEF_FN_0` driver are calls of `dbcb_memcpy`, the same for every
driver of that pixel size. -/
theorem driver_none (env : Env) (tier : Tier) (fn : Fn) (hfn : fnTop tier fn = none)
    (ss ds x0 y0 x1 y1 x y : Int) :
    (∀ op ∈ driver env tier fn ss ds x0 y0 x1 y1 x y, ∃ d s n, op = Op.copy d s n) ∧
    ∀ (tier0 : Tier) (fn0 : Fn), fnTop tier0 fn0 = none → fn0.pixel_size = fn.pixel_size →
      driver env tier0 fn0 ss ds x0 y0 x1 y1 x y = driver env tier fn ss ds x0 y0 x1 y1 x y := by
  constructor
  · intro op hop
    unfold driver at hop
    simp only [hfn] at hop
    split at hop
    · simp at hop
    · obtain ⟨i, _, hm⟩ := mem_rowsFrom _ _ _ _ _ _ _ hop
      simp only [List.mem_singleton] at hm
      exact ⟨_, _, _, hm⟩
  · intro tier0 fn0 h0 hps
    unfold driver
    simp only [hfn, h0, hps]

/-- Two calls of `dbc_blit` that launch `DBCB_DEF_FN_0` drivers of the same pixel size leave
the same destination. -/
theorem dbc_blit_none_eq (env : Env) (src_w src_h ss : Int) (src : Mem) (dst_w dst_h ds : Int)
    (dst : Mem) (x y : Int) (color color0 : Option Color) (mode mode0 : Int) (L L0 : Launch)
    (hL : dbc_blit_launch env src_w src_h dst_w dst_h x y color mode = some L)
    (hL0 : dbc_blit_launch env src_w src_h dst_w dst_h x y color0 mode0 = some L0)
    (hfn : fnTop L.tier L.fn = none) (hfn0 : fnTop L0.tier L0.fn = none)
    (hps : L0.fn.pixel_size = L.fn.pixel_size) :
    dbc_blit env src_w src_h ss src dst_w dst_h ds dst x y color mode
      = dbc_blit env src_w src_h ss src dst_w dst_h ds dst x y color0 mode0 := by
  obtain ⟨_, hx0, hx1, hy0, hy1⟩ := launch_some _ _ _ _ _ _ _ _ _ L hL
  obtain ⟨_, gx0, gx1, gy0, gy1⟩ := launch_some _ _ _ _ _ _ _ _ _ L0 hL0
  unfold dbc_blit dbc_blit_ops dbc_blit_kernel
  rw [hL, hL0]
  simp only
  obtain ⟨hcp, heq⟩ := driver_none env L.tier L.fn hfn ss ds L.x0 L.y0 L.x1 L.y1 x y
  rw [gx0, gx1, gy0, gy1, ← hx0, ← hx1, ← hy0, ← hy1, heq L0.tier L0.fn hfn0 hps]
  exact execOps_copy_kern _ _ src _ dst hcp

theorem clip_le (x src_w dst_w : Int) : clip_hi x src_w dst_w - clip_lo x ≤ src_w := by
  unfold clip_hi clip_lo
  split <;> split <;> omega

/-- A call of `dbc_blit` that launches a driver with kernels, on a source all of whose pixels in
the clipped rectangle pass the test of the kernels, leaves the destination that a call
launching a `DBCB_DEF_FN_0` driver of the same pixel size leaves. -/
theorem dbc_blit_eq_copy (env : Env) (src_w src_h ss : Int) (src : Mem) (dst_w dst_h ds : Int)
    (dst : Mem) (x y : Int) (color color0 : Option Color) (mode mode0 : Int) (L L0 : Launch)
    (hL : dbc_blit_launch env src_w src_h dst_w dst_h x y color mode = some L)
    (hL0 : dbc_blit_launch env src_w src_h dst_w dst_h x y color0 mode0 = some L0)
    (k : Nat) (hk : fnTop L.tier L.fn = some k) (hfn0 : fnTop L0.tier L0.fn = none)
    (hps : L0.fn.pixel_size = L.fn.pixel_size) (hpos : 0 < L.fn.pixel_size)
    (rd : Mem → Int → Nat) (f : Nat → Nat → Nat) (hrd : RdLocal rd L.fn.pixel_size)
    (hinj : ∀ (m1 m2 : Mem) (a1 a2 : Int), rd m1 a1 = rd m2 a2 →
      ∀ b : Int, 0 ≤ b → b < L.fn.pixel_size → m1 (a1 + b) = m2 (a2 + b))
    (hspec : ∀ j, j ≤ k → PixelSpec (kernelOf env L.tier L.fn j
      ⟨L.color, (headerKeys L.fn L.color).1, (headerKeys L.fn L.color).2⟩) (2 ^ j)
      L.fn.pixel_size rd f)
    (hw : src_w * L.fn.pixel_size < 2 ^ 32)
    (hsel : ∀ X Y : Int, max 0 x ≤ X → X < min dst_w (x + src_w) → max 0 y ≤ Y →
      Y < min dst_h (y + src_h) →
      ∀ D, f (rd src ((Y - y) * ss + (X - x) * L.fn.pixel_size)) D
        = rd src ((Y - y) * ss + (X - x) * L.fn.pixel_size)) :
    dbc_blit env src_w src_h ss src dst_w dst_h ds dst x y color mode
      = dbc_blit env src_w src_h ss src dst_w dst_h ds dst x y color0 mode0 := by
  obtain ⟨_, hx0, hx1, hy0, hy1⟩ := launch_some _ _ _ _ _ _ _ _ _ L hL
  obtain ⟨_, gx0, gx1, gy0, gy1⟩ := launch_some _ _ _ _ _ _ _ _ _ L0 hL0
  obtain ⟨cx0, cx1⟩ := clip_x x src_w dst_w
  obtain ⟨cy0, cy1⟩ := clip_x y src_h dst_h
  unfold dbc_blit dbc_blit_ops dbc_blit_kernel
  rw [hL, hL0]
  simp only
  rw [gx0, gx1, gy0, gy1, ← hx0, ← hx1, ← hy0, ← hy1]
  by_cases he : L.x1 ≤ L.x0 ∨ L.y1 ≤ L.y0
  · rw [driver_empty _ _ _ _ _ _ _ _ _ _ _ he, driver_empty _ _ _ _ _ _ _ _ _ _ _ he,
      execOps_nil, execOps_nil]
  · have hw0 : 0 < L.x1 - L.x0 := by omega
    have hh0 : 0 < L.y1 - L.y0 := by omega
    obtain ⟨runs, htot, hle, hdrv⟩ := driver_rows env L.tier L.fn k hk ss ds L.x0 L.y0 L.x1 L.y1
      x y hw0 hh0
    rw [hdrv, driver_copy env L0.tier L0.fn hfn0 _ _ _ _ _ _ _ _ hw0 hh0, hps]
    have hcast : (((L.x1 - L.x0).toNat : Nat) : Int) = L.x1 - L.x0 :=
      Int.toNat_of_nonneg (by omega)
    have hsz : u32 ((L.x1 - L.x0) * (L.fn.pixel_size : Int)).toNat
        = runsTotal runs * L.fn.pixel_size := by
      have e : ((L.x1 - L.x0) * (L.fn.pixel_size : Int)).toNat
          = runsTotal runs * L.fn.pixel_size := by
        rw [htot]
        have : (L.x1 - L.x0) * (L.fn.pixel_size : Int)
            = (((L.x1 - L.x0).toNat * L.fn.pixel_size : Nat) : Int) := by
          push_cast; rw [hcast]
        rw [this, Int.toNat_natCast]
      rw [e, u32]
      apply Nat.mod_eq_of_lt
      have h1 : L.x1 - L.x0 ≤ src_w := by rw [hx0, hx1]; exact clip_le x src_w dst_w
      have h2 : (L.x1 - L.x0) * (L.fn.pixel_size : Int) ≤ src_w * L.fn.pixel_size :=
        mul_le_mul_of_nonneg_right h1 (by positivity)
      have h3 : ((runsTotal runs * L.fn.pixel_size : Nat) : Int) < 2 ^ 32 := by
        rw [htot]; push_cast; rw [hcast]; omega
      exact_mod_cast h3
    rw [hsz]
    apply rows_eq_copy _ _ L.fn.pixel_size hpos rd f hrd hinj
      (fun j => kernelOf_frames env L.tier L.fn j _) src runs (fun j hj => hspec j (hle j hj))
    intro i t hi ht D
    have hi1 : (i : Int) < L.y1 - L.y0 := by omega
    have ht1 : (t : Int) < L.x1 - L.x0 := by rw [htot] at ht; omega
    have := hsel (L.x0 + x + t) (L.y0 + y + i) (by rw [hx0]; omega) (by rw [hx0]; rw [hx0, hx1] at ht1; omega)
      (by rw [hy0]; omega) (by rw [hy0]; rw [hy0, hy1] at hi1; omega) D
    have a1 : (L.y0 + y + i - y) * ss + (L.x0 + x + t - x) * (L.fn.pixel_size : Int)
        = L.y0 * ss + L.x0 * L.fn.pixel_size + i * ss + t * L.fn.pixel_size := by ring
    rw [a1] at this
    exact this

/-- A call of `dbc_blit` that launches a driver with kernels, on a source none of whose pixels
in the clipped rectangle passes the test of the kernels, leaves the destination as it was. -/
theorem dbc_blit_eq_id (env : Env) (src_w src_h ss : Int) (src : Mem) (dst_w dst_h ds : Int)
    (dst : Mem) (x y : Int) (color : Option Color) (mode : Int) (L : Launch)
    (hL : dbc_blit_launch env src_w src_h dst_w dst_h x y color mode = some L)
    (k : Nat) (hk : fnTop L.tier L.fn = some k) (hpos : 0 < L.fn.pixel_size)
    (rd : Mem → Int → Nat) (f : Nat → Nat → Nat) (hrd : RdLocal rd L.fn.pixel_size)
    (hinj : ∀ (m1 m2 : Mem) (a1 a2 : Int), rd m1 a1 = rd m2 a2 →
      ∀ b : Int, 0 ≤ b → b < L.fn.pixel_size → m1 (a1 + b) = m2 (a2 + b))
    (hspec : ∀ j, j ≤ k → PixelSpec (kernelOf env L.tier L.fn j
      ⟨L.color, (headerKeys L.fn L.color).1, (headerKeys L.fn L.color).2⟩) (2 ^ j)
      L.fn.pixel_size rd f)
    (hsel : ∀ X Y : Int, max 0 x ≤ X → X < min dst_w (x + src_w) → max 0 y ≤ Y →
      Y < min dst_h (y + src_h) →
      ∀ D, f (rd src ((Y - y) * ss + (X - x) * L.fn.pixel_size)) D = D) :
    dbc_blit env src_w src_h ss src dst_w dst_h ds dst x y color mode = dst := by
  obtain ⟨_, hx0, hx1, hy0, hy1⟩ := launch_some _ _ _ _ _ _ _ _ _ L hL
  obtain ⟨cx0, cx1⟩ := clip_x x src_w dst_w
  obtain ⟨cy0, cy1⟩ := clip_x y src_h dst_h
  unfold dbc_blit dbc_blit_ops dbc_blit_kernel
  rw [hL]
  simp only
  by_cases he : L.x1 ≤ L.x0 ∨ L.y1 ≤ L.y0
  · rw [driver_empty _ _ _ _ _ _ _ _ _ _ _ he, execOps_nil]
  · have hw0 : 0 < L.x1 - L.x0 := by omega
    have hh0 : 0 < L.y1 - L.y0 := by omega
    obtain ⟨runs, htot, hle, hdrv⟩ := driver_rows env L.tier L.fn k hk ss ds L.x0 L.y0 L.x1 L.y1
      x y hw0 hh0
    rw [hdrv]
    apply rows_eq_id _ L.fn.pixel_size hpos rd f hrd hinj
      (fun j => kernelOf_frames env L.tier L.fn j _) src runs (fun j hj => hspec j (hle j hj))
    intro i t hi ht D
    have hi1 : (i : Int) < L.y1 - L.y0 := by omega
    have ht1 : (t : Int) < L.x1 - L.x0 := by rw [htot] at ht; omega
    have := hsel (L.x0 + x + t) (L.y0 + y + i) (by rw [hx0]; omega) (by rw [hx0]; rw [hx0, hx1] at ht1; omega)
      (by rw [hy0]; omega) (by rw [hy0]; rw [hy0, hy1] at hi1; omega) D
    have a1 : (L.y0 + y + i - y) * ss + (L.x0 + x + t - x) * (L.fn.pixel_size : Int)
        = L.y0 * ss + L.x0 * L.fn.pixel_size + i * ss + t * L.fn.pixel_size := by ring
    rw [a1] at this
    exact this

/-- A call of `dbc_blit` that returns before the launch leaves the destination as it was. -/
theorem dbc_blit_of_launch_none (env : Env) (src_w src_h ss : Int) (src : Mem)
    (dst_w dst_h ds : Int) (dst : Mem) (x y : Int) (color : Option Color) (mode : Int)
    (h : dbc_blit_launch env src_w src_h dst_w dst_h x y color mode = none) :
    dbc_blit env src_w src_h ss src dst_w dst_h ds dst x y color mode = dst := by
  apply dbc_blit_of_ops_nil
  unfold dbc_blit_ops
  rw [h]

/-- Without a key the key modes launch a `DBCB_DEF_FN_0` driver of the pixel size of the
mode, without color. -/
theorem launch_nokey_facts (env : Env) (src_w src_h dst_w dst_h x y : Int)
    (color : Option Color) (mode : Int) (hm : mode = 5 ∨ mode = 6 ∨ mode = 10)
    (hc : ∀ c, color = some c →
      ((c 0).ge 0 && (c 0).le (if mode = 6 then 65535 else 255)) = false ∧
      (mode = 10 → (c 0).gt 255 = false)) :
    ∃ L : Launch, dbc_blit_launch env src_w src_h dst_w dst_h x y color mode = some L ∧
      fnTop L.tier L.fn = none ∧ L.fn.pixel_size = modePixelSize mode := by
  refine ⟨_, launch_nokey env src_w src_h dst_w dst_h x y color mode hm hc, ?_, ?_⟩
  · rcases hm with e | e | e <;> subst e
    · show fnTop (selectTier env 5 false) Fn.f8 = none
      cases selectTier env 5 false <;> rfl
    · show fnTop (selectTier env 6 false) Fn.f16 = none
      cases selectTier env 6 false <;> rfl
    · show fnTop (selectTier env 10 false) Fn.f32a = none
      cases selectTier env 10 false <;> rfl
  · rcases hm with e | e | e <;> subst e <;> rfl

/-- Without a key the key modes copy the bytes of the clipped rectangle. -/
theorem dbc_blit_nokey_region (env : Env) (src_w src_h ss : Int) (src : Mem)
    (dst_w dst_h ds : Int) (dst : Mem) (x y : Int) (color : Option Color) (mode : Int)
    (hm : mode = 5 ∨ mode = 6 ∨ mode = 10)
    (hc : ∀ c, color = some c →
      ((c 0).ge 0 && (c 0).le (if mode = 6 then 65535 else 255)) = false ∧
      (mode = 10 → (c 0).gt 255 = false))
    (hd : dst_w * modePixelSize mode ≤ ds) (hds : ds < 2 ^ 32)
    (X Y b : Int) (hX0 : max 0 x ≤ X) (hX1 : X < min dst_w (x + src_w)) (hY0 : max 0 y ≤ Y)
    (hY1 : Y < min dst_h (y + src_h)) (hb0 : 0 ≤ b) (hb1 : b < modePixelSize mode) :
    dbc_blit env src_w src_h ss src dst_w dst_h ds dst x y color mode
        (Y * ds + X * modePixelSize mode + b)
      = src ((Y - y) * ss + (X - x) * modePixelSize mode + b) := by
  obtain ⟨L, hL, hfn, hps⟩ := launch_nokey_facts env src_w src_h dst_w dst_h x y color mode hm hc
  rw [← hps] at hd hb1 ⊢
  exact dbc_blit_memcpy_region env src_w src_h ss src dst_w dst_h ds dst x y color mode L hL
    hfn hd hds X Y b hX0 hX1 hY0 hY1 hb0 hb1

/-! ## The alpha test -/

theorem b32t_alpha (n S D : Nat) (hn : n ≤ 255) (hS : S < 2 ^ 32) :
    dbcB_b32t_1_c n S D = if n ≤ dbcB_getb S 3 then S else D := by
  unfold dbcB_b32t_1_c
  have e : u32 (u32 n <<< 24) = n * 16777216 := by
    unfold u32
    rw [Nat.shiftLeft_eq]
    omega
  rw [e]
  have g : dbcB_getb S 3 = S / 16777216 := by
    unfold dbcB_getb u8
    simp only [Nat.shiftRight_eq_div_pow]
    omega
  rw [g]
  by_cases h : n ≤ S / 16777216
  · rw [if_pos h, if_pos (by omega)]
  · rw [if_neg h, if_neg (by omega)]

theorem b32s_alpha (S D : Nat) (hS : S < 2 ^ 32) :
    dbcB_b32s_1_c S D = if 128 ≤ dbcB_getb S 3 then S else D := by
  unfold dbcB_b32s_1_c
  have g : dbcB_getb S 3 = S / 16777216 := by
    unfold dbcB_getb u8
    simp only [Nat.shiftRight_eq_div_pow]
    omega
  rw [g]
  by_cases h : 128 ≤ S / 16777216
  · rw [if_pos h, if_pos (by omega)]
  · rw [if_neg h, if_neg (by omega)]

/-- The alpha test with a threshold in range, pixel by pixel. -/
theorem alphatest_pixel (env : Env) (src_w src_h ss : Int) (src : Mem) (dst_w dst_h ds : Int)
    (dst : Mem) (x y : Int) (c : Color) (t : ℚ) (hc : c 0 = F32.fin t) (h0 : 0 ≤ t)
    (h1 : t ≤ 255) (hd : dst_w * 4 ≤ ds) (X Y : Int) (hX0 : max 0 x ≤ X)
    (hX1 : X < min dst_w (x + src_w)) (hY0 : max 0 y ≤ Y) (hY1 : Y < min dst_h (y + src_h)) :
    dbcb_load32 env.big_endian
        (dbc_blit env src_w src_h ss src dst_w dst_h ds dst x y (some c) 10) (Y * ds + X * 4)
      = if ⌈t⌉.toNat ≤ dbcB_getb (dbcb_load32 env.big_endian src ((Y - y) * ss + (X - x) * 4)) 3
        then dbcb_load32 env.big_endian src ((Y - y) * ss + (X - x) * 4)
        else dbcb_load32 env.big_endian dst (Y * ds + X * 4) := by
  have hL := launch_alphatest env src_w src_h dst_w dst_h x y c t hc h0 h1
  have hS := dbcb_load32_lt env.big_endian src ((Y - y) * ss + (X - x) * 4)
  by_cases h128 : 127 < t ∧ t ≤ 128
  · rw [if_pos h128] at hL
    obtain ⟨k, hk⟩ := fnTop_key (selectTier env 10 true) Fn.f32s (by simp)
    have h := dbc_blit_pixel env src_w src_h ss src dst_w dst_h ds dst x y (some c) 10 _ hL k hk
      (dbcb_load32 env.big_endian) dbcB_b32s_1_c (rdLocal_load32 _)
      (fun j hj => kernelOf_f32s_spec env _ j k _ hk hj) hd X Y hX0 hX1 hY0 hY1
    have hce : ⌈t⌉ = 128 := by
      rw [Int.ceil_eq_iff]
      constructor
      · push_cast; linarith [h128.1]
      · push_cast; exact h128.2
    rw [hce]
    show _ = if 128 ≤ _ then _ else _
    rw [← b32s_alpha _ _ hS]
    exact h
  · rw [if_neg h128] at hL
    obtain ⟨k, hk⟩ := fnTop_key (selectTier env 10 true) Fn.f32t (by simp)
    have h := dbc_blit_pixel env src_w src_h ss src dst_w dst_h ds dst x y (some c) 10 _ hL k hk
      (dbcb_load32 env.big_endian) (dbcB_b32t_1_c (headerKeys Fn.f32t (some c)).1)
      (rdLocal_load32 _)
      (fun j hj => kernelOf_f32t_spec env _ j k _ hk hj) hd X Y hX0 hX1 hY0 hY1
    obtain ⟨hk8, hle⟩ := headerKeys_alphatest Fn.f32t c t hc h0 h1 rfl
    rw [hk8] at h
    rw [← b32t_alpha _ _ _ hle hS]
    exact h

/-- C11. In ALPHATEST mode with a threshold `t = color[0]` in `[0, 255]` the 8-bit threshold
the driver computes is `t` rounded up, which is at most 255 (it does not wrap), and every pixel
of the image of the clipped rectangle becomes the whole 32-bit source pixel if the alpha byte
of the source pixel is at least that threshold and keeps its value otherwise (destination rows
do not overlap: the stride is at least the row). -/
theorem C11_alphatest_threshold (env : Env) (src_w src_h ss : Int) (src : Mem)
    (dst_w dst_h ds : Int) (dst : Mem) (x y : Int) (c : Color) (t : ℚ) (hc : c 0 = F32.fin t)
    (h0 : 0 ≤ t) (h1 : t ≤ 255) (hd : dst_w * 4 ≤ ds) (X Y : Int) (hX0 : max 0 x ≤ X)
    (hX1 : X < min dst_w (x + src_w)) (hY0 : max 0 y ≤ Y) (hY1 : Y < min dst_h (y + src_h)) :
    (headerKeys Fn.f32t (some c)).1 = ⌈t⌉.toNat ∧ ⌈t⌉.toNat ≤ 255 ∧
    dbcb_load32 env.big_endian
        (dbc_blit env src_w src_h ss src dst_w dst_h ds dst x y (some c) 10) (Y * ds + X * 4)
      = if ⌈t⌉.toNat ≤ dbcB_getb (dbcb_load32 env.big_endian src ((Y - y) * ss + (X - x) * 4)) 3
        then dbcb_load32 env.big_endian src ((Y - y) * ss + (X - x) * 4)
        else dbcb_load32 env.big_endian dst (Y * ds + X * 4) := by
  obtain ⟨hk8, hle⟩ := headerKeys_alphatest Fn.f32t c t hc h0 h1 rfl
  exact ⟨hk8, hle, alphatest_pixel env src_w src_h ss src dst_w dst_h ds dst x y c t hc h0 h1 hd
    X Y hX0 hX1 hY0 hY1⟩

theorem ceil_128 : ⌈(128 : ℚ)⌉.toNat = 128 := by
  have : ⌈(128 : ℚ)⌉ = 128 := by
    rw [Int.ceil_eq_iff]; constructor <;> norm_num
  rw [this]; rfl

theorem ceil_37_5 : ⌈(75 / 2 : ℚ)⌉.toNat = 38 := by
  have : ⌈(75 / 2 : ℚ)⌉ = 38 := by
    rw [Int.ceil_eq_iff]; constructor <;> norm_num
  rw [this]; rfl

/-- Witness of C11: with `t = 128` the source alphas 127, 128, 129 leave the first pixel and
copy the other two; with `t = 37.5` the threshold is 38. -/
theorem C11_alphatest_threshold_witness :
    dbcb_load32 false (dbc_blit Env.sample 3 1 12 srcAlpha 3 1 12 dstSample 0 0
      (some (fun _ => F32.fin 128)) 10) 0 = 0xC8C8C8C8 ∧
    dbcb_load32 false (dbc_blit Env.sample 3 1 12 srcAlpha 3 1 12 dstSample 0 0
      (some (fun _ => F32.fin 128)) 10) 4 = 0x80010101 ∧
    dbcb_load32 false (dbc_blit Env.sample 3 1 12 srcAlpha 3 1 12 dstSample 0 0
      (some (fun _ => F32.fin 128)) 10) 8 = 0x81010101 ∧
    (headerKeys Fn.f32t (some (fun _ => F32.fin (75 / 2)))).1 = 38 := by
  have a0 := (C11_alphatest_threshold Env.sample 3 1 12 srcAlpha 3 1 12 dstSample 0 0
    (fun _ => F32.fin 128) 128 rfl (by norm_num) (by norm_num) (by norm_num) 0 0 (by decide)
    (by decide) (by decide) (by decide)).2.2
  have a1 := (C11_alphatest_threshold Env.sample 3 1 12 srcAlpha 3 1 12 dstSample 0 0
    (fun _ => F32.fin 128) 128 rfl (by norm_num) (by norm_num) (by norm_num) 1 0 (by decide)
    (by decide) (by decide) (by decide)).2.2
  have a2 := (C11_alphatest_threshold Env.sample 3 1 12 srcAlpha 3 1 12 dstSample 0 0
    (fun _ => F32.fin 128) 128 rfl (by norm_num) (by norm_num) (by norm_num) 2 0 (by decide)
    (by decide) (by decide) (by decide)).2.2
  have a3 := (C11_alphatest_threshold Env.sample 1 1 4 srcAlpha 1 1 4 dstSample 0 0
    (fun _ => F32.fin (75 / 2)) (75 / 2) rfl (by norm_num) (by norm_num) (by norm_num) 0 0
    (by decide) (by decide) (by decide) (by decide)).1
  rw [ceil_128] at a0 a1 a2
  rw [ceil_37_5] at a3
  exact ⟨a0.trans (by decide), a1.trans (by decide), a2.trans (by decide), a3⟩

/-- C13. In ALPHATEST mode a `color[0]` above 255 (an infinity included) makes `dbc_blit`
return before any write: the destination is unchanged for every source, destination and
placement. -/
theorem C13_alphatest_above_255_writes_nothing (env : Env) (src_w src_h ss : Int) (src : Mem)
    (dst_w dst_h ds : Int) (dst : Mem) (x y : Int) (c : Color) (h : (c 0).gt 255 = true) :
    dbc_blit env src_w src_h ss src dst_w dst_h ds dst x y (some c) 10 = dst :=
  dbc_blit_of_launch_none env src_w src_h ss src dst_w dst_h ds dst x y (some c) 10
    (launch_alphatest_above env src_w src_h dst_w dst_h x y c h)

/-- Witness of C13: the threshold 256 over the source with alphas 127, 128, 129. -/
theorem C13_alphatest_above_255_writes_nothing_witness :
    (F32.fin 256).gt 255 = true ∧
    dbc_blit Env.sample 3 1 12 srcAlpha 3 1 12 dstSample 0 0 (some (fun _ => F32.fin 256)) 10
      = dstSample :=
  ⟨by decide, C13_alphatest_above_255_writes_nothing Env.sample 3 1 12 srcAlpha 3 1 12 dstSample
    0 0 (fun _ => F32.fin 256) (by decide)⟩

/-- A plain copy launches a `DBCB_DEF_FN_0` driver of pixel size 4. -/
theorem launch_copy_facts (env : Env) (src_w src_h dst_w dst_h x y : Int) :
    ∃ L : Launch, dbc_blit_launch env src_w src_h dst_w dst_h x y none 0 = some L ∧
      fnTop L.tier L.fn = none ∧ L.fn.pixel_size = 4 := by
  refine ⟨_, launch_copy env src_w src_h dst_w dst_h x y, ?_, rfl⟩
  show fnTop (selectTier env 0 false) Fn.f32 = none
  cases selectTier env 0 false <;> rfl

/-- The alpha test with threshold 0 launches `dbcB_f32t_*`, whose kernels copy every pixel. -/
theorem launch_alphatest_zero (env : Env) (src_w src_h dst_w dst_h x y : Int) (c : Color)
    (hc : c 0 = F32.fin 0) :
    ∃ (L : Launch) (k : Nat), dbc_blit_launch env src_w src_h dst_w dst_h x y (some c) 10 = some L ∧
      fnTop L.tier L.fn = some k ∧ L.fn.pixel_size = 4 ∧
      ∀ j, j ≤ k → PixelSpec (kernelOf env L.tier L.fn j
        ⟨L.color, (headerKeys L.fn L.color).1, (headerKeys L.fn L.color).2⟩) (2 ^ j)
        L.fn.pixel_size (dbcb_load32 env.big_endian) (fun S _ => S) := by
  have hL := launch_alphatest env src_w src_h dst_w dst_h x y c 0 hc (le_refl _) (by norm_num)
  rw [if_neg (by norm_num)] at hL
  obtain ⟨k, hk⟩ := fnTop_key (selectTier env 10 true) Fn.f32t (by simp)
  refine ⟨_, k, hL, hk, rfl, ?_⟩
  intro j hj
  have h := kernelOf_f32t_spec env (selectTier env 10 true) j k
    ⟨some c, (headerKeys Fn.f32t (some c)).1, (headerKeys Fn.f32t (some c)).2⟩ hk hj
  obtain ⟨hk8, _⟩ := headerKeys_alphatest Fn.f32t c 0 hc (le_refl _) (by norm_num) rfl
  have e0 : ⌈(0 : ℚ)⌉.toNat = 0 := by simp
  rw [e0] at hk8
  have ef : dbcB_b32t_1_c (headerKeys Fn.f32t (some c)).1 = fun S _ => S := by
    funext S D
    rw [hk8]
    unfold dbcB_b32t_1_c
    rw [if_pos]
    show S ≥ u32 (u32 0 <<< 24)
    have : u32 (u32 0 <<< 24) = 0 := by decide
    rw [this]
    exact Nat.zero_le _
  simp only at h
  rw [ef] at h
  exact h

/-- C12. In ALPHATEST mode a null color, or a `color[0]` that is at most 0 (zero, a negative
number or minus infinity), leaves the destination that COPY mode with a null color leaves, for
every source, destination and placement (the row size `src_w * 4` fits the 32 bits of the
`dbcb_memcpy` size). -/
theorem C12_alphatest_no_threshold_is_copy (env : Env) (src_w src_h ss : Int) (src : Mem)
    (dst_w dst_h ds : Int) (dst : Mem) (x y : Int) (color : Option Color)
    (hc : ∀ c, color = some c → (c 0).le 0 = true) (hw : src_w * 4 < 2 ^ 32) :
    dbc_blit env src_w src_h ss src dst_w dst_h ds dst x y color 10
      = dbc_blit env src_w src_h ss src dst_w dst_h ds dst x y none 0 := by
  obtain ⟨L0, hL0, hfn0, hps0⟩ := launch_copy_facts env src_w src_h dst_w dst_h x y
  have nokey : (∀ c, color = some c →
      ((c 0).ge 0 && (c 0).le (if (10 : Int) = 6 then 65535 else 255)) = false ∧
      ((10 : Int) = 10 → (c 0).gt 255 = false)) →
      dbc_blit env src_w src_h ss src dst_w dst_h ds dst x y color 10
        = dbc_blit env src_w src_h ss src dst_w dst_h ds dst x y none 0 := by
    intro h
    obtain ⟨L, hL, hfn, hps⟩ := launch_nokey_facts env src_w src_h dst_w dst_h x y color 10
      (by simp) h
    exact dbc_blit_none_eq env src_w src_h ss src dst_w dst_h ds dst x y color none 10 0 L L0
      hL hL0 hfn hfn0 (by rw [hps0, hps]; rfl)
  cases color with
  | none => exact nokey (fun c hc => by cases hc)
  | some c =>
    have hle := hc c rfl
    cases hc0 : c 0 with
    | nan => rw [hc0] at hle; simp [F32.le] at hle
    | inf neg =>
      rw [hc0] at hle
      simp only [F32.le] at hle
      subst hle
      apply nokey
      intro c1 h1
      cases h1
      rw [hc0]
      simp [F32.ge, F32.gt]
    | fin q =>
      rw [hc0] at hle
      simp only [F32.le, decide_eq_true_eq] at hle
      by_cases hq : q < 0
      · apply nokey
        intro c1 h1
        cases h1
        rw [hc0]
        have h2 : ¬ (0 : ℚ) ≤ q := not_le.mpr hq
        have h3 : ¬ (255 : ℚ) < q := by linarith
        simp [F32.ge, F32.gt, h2, h3]
      · have hq0 : q = 0 := le_antisymm hle (not_lt.mp hq)
        subst hq0
        obtain ⟨L, k, hL, hk, hps, hspec⟩ := launch_alphatest_zero env src_w src_h dst_w dst_h
          x y c hc0
        exact dbc_blit_eq_copy env src_w src_h ss src dst_w dst_h ds dst x y (some c) none 10 0
          L L0 hL hL0 k hk hfn0 (by rw [hps0, hps]) (by rw [hps]; norm_num)
          (dbcb_load32 env.big_endian) (fun S _ => S) (by rw [hps]; exact rdLocal_load32 _)
          (by rw [hps]; exact load32_inj env.big_endian) hspec (by rw [hps]; exact hw)
          (fun _ _ _ _ _ _ _ => rfl)

/-- Witness of C12: threshold 0 over the source with alphas 127, 128, 129. -/
theorem C12_alphatest_no_threshold_is_copy_witness :
    (F32.fin 0).le 0 = true ∧
    dbc_blit Env.sample 3 1 12 srcAlpha 3 1 12 dstSample 0 0 (some (fun _ => F32.fin 0)) 10
      = dbc_blit Env.sample 3 1 12 srcAlpha 3 1 12 dstSample 0 0 none 0 :=
  ⟨by decide, C12_alphatest_no_threshold_is_copy Env.sample 3 1 12 srcAlpha 3 1 12 dstSample 0 0
    (some (fun _ => F32.fin 0)) (fun c h => by cases h; decide) (by norm_num)⟩

/-! ## The colorkey modes -/

/-- C14. In COLORKEY8 mode with `color[0]` in `[0, 255]`, and in COLORKEY16 mode with
`color[0]` in `[0, 65535]`, the key the driver computes is the integer part of `color[0]`, and
every pixel (byte, 16-bit word) of the image of the clipped rectangle becomes the source pixel
if that differs from the key and keeps its value if the source pixel is the key (destination
rows do not overlap). -/
theorem C14_colorkey_in_range (env : Env) (src_w src_h ss : Int) (src : Mem)
    (dst_w dst_h ds : Int) (dst : Mem) (x y : Int) (c : Color) (t : ℚ) (hc : c 0 = F32.fin t)
    (h0 : 0 ≤ t) (X Y : Int) (hX0 : max 0 x ≤ X) (hX1 : X < min dst_w (x + src_w))
    (hY0 : max 0 y ≤ Y) (hY1 : Y < min dst_h (y + src_h)) :
    (t ≤ 255 → dst_w ≤ ds →
      (headerKeys Fn.f8m (some c)).1 = ⌊t⌋.toNat ∧
      dbc_blit env src_w src_h ss src dst_w dst_h ds dst x y (some c) 5 (Y * ds + X)
        = if (src ((Y - y) * ss + (X - x))).val ≠ ⌊t⌋.toNat then src ((Y - y) * ss + (X - x))
          else dst (Y * ds + X)) ∧
    (t ≤ 65535 → dst_w * 2 ≤ ds →
      (headerKeys Fn.f16m (some c)).2 = ⌊t⌋.toNat ∧
      dbcb_load16 env.big_endian
          (dbc_blit env src_w src_h ss src dst_w dst_h ds dst x y (some c) 6) (Y * ds + X * 2)
        = if dbcb_load16 env.big_endian src ((Y - y) * ss + (X - x) * 2) ≠ ⌊t⌋.toNat
          then dbcb_load16 env.big_endian src ((Y - y) * ss + (X - x) * 2)
          else dbcb_load16 env.big_endian dst (Y * ds + X * 2)) := by
  have hf0 : 0 ≤ ⌊t⌋ := Int.floor_nonneg.mpr h0
  constructor
  · intro h1 hd
    have hf1 : ⌊t⌋ ≤ 255 := by
      have : ⌊t⌋ ≤ ⌊(255 : ℚ)⌋ := Int.floor_le_floor h1
      simpa using this
    have hkeys := headerKeys_colorkey Fn.f8m c t hc h0 (le_trans h1 (by norm_num))
      (by decide)
    have hk8 : (headerKeys Fn.f8m (some c)).1 = ⌊t⌋.toNat := by
      rw [hkeys]
      exact Nat.mod_eq_of_lt (by omega)
    refine ⟨hk8, ?_⟩
    have hL := launch_key8 env src_w src_h dst_w dst_h x y c t hc h0 h1
    obtain ⟨k, hk⟩ := fnTop_key (selectTier env 5 true) Fn.f8m (by simp)
    have h := dbc_blit_pixel env src_w src_h ss src dst_w dst_h ds dst x y (some c) 5 _ hL k hk
      rd8 (dbcB_b8m_1_c (headerKeys Fn.f8m (some c)).1) rdLocal_rd8
      (fun j hj => kernelOf_f8m_spec env _ j k _ hk hj (by
        show (headerKeys Fn.f8m (some c)).1 < 256
        rw [hk8]; omega))
      (by simpa [Fn.pixel_size] using hd) X Y hX0 hX1 hY0 hY1
    simp only [Fn.pixel_size, Nat.cast_one, mul_one] at h
    rw [hk8] at h
    unfold rd8 dbcB_b8m_1_c at h
    by_cases hs : (src ((Y - y) * ss + (X - x))).val ≠ ⌊t⌋.toNat
    · rw [if_pos hs] at h ⊢
      exact Fin.ext h
    · rw [if_neg hs] at h ⊢
      exact Fin.ext h
  · intro h1 hd
    have hkeys := headerKeys_colorkey Fn.f16m c t hc h0 h1 (by decide)
    have hk16 : (headerKeys Fn.f16m (some c)).2 = ⌊t⌋.toNat := by rw [hkeys]
    have hf1 : ⌊t⌋ ≤ 65535 := by
      have : ⌊t⌋ ≤ ⌊(65535 : ℚ)⌋ := Int.floor_le_floor h1
      simpa using this
    refine ⟨hk16, ?_⟩
    have hL := launch_key16 env src_w src_h dst_w dst_h x y c t hc h0 h1
    obtain ⟨k, hk⟩ := fnTop_key (selectTier env 6 true) Fn.f16m (by simp)
    have h := dbc_blit_pixel env src_w src_h ss src dst_w dst_h ds dst x y (some c) 6 _ hL k hk
      (dbcb_load16 env.big_endian) (dbcB_b16m_1_c (headerKeys Fn.f16m (some c)).2)
      (rdLocal_load16 _)
      (fun j hj => kernelOf_f16m_spec env _ j k _ hk hj (by
        show (headerKeys Fn.f16m (some c)).2 < 65536
        rw [hk16]; omega))
      hd X Y hX0 hX1 hY0 hY1
    rw [hk16] at h
    exact h

theorem floor_7 : ⌊(7 : ℚ)⌋.toNat = 7 := by
  have : ⌊(7 : ℚ)⌋ = 7 := by
    rw [Int.floor_eq_iff]; constructor <;> norm_num
  rw [this]; rfl

/-- Witness of C14: source bytes `{7,9,7,255,7,7,9,9}` over destination bytes `{1,...,8}` with
key 7 give `{1,9,3,255,5,6,9,9}`. -/
theorem C14_colorkey_in_range_witness :
    dbc_blit Env.sample 8 1 8 srcKey8 8 1 8 dstKey8 0 0 (some (fun _ => F32.fin 7)) 5
      (0 * 8 + 0) = toByte 1 ∧
    dbc_blit Env.sample 8 1 8 srcKey8 8 1 8 dstKey8 0 0 (some (fun _ => F32.fin 7)) 5
      (0 * 8 + 1) = toByte 9 ∧
    dbc_blit Env.sample 8 1 8 srcKey8 8 1 8 dstKey8 0 0 (some (fun _ => F32.fin 7)) 5
      (0 * 8 + 2) = toByte 3 ∧
    dbc_blit Env.sample 8 1 8 srcKey8 8 1 8 dstKey8 0 0 (some (fun _ => F32.fin 7)) 5
      (0 * 8 + 3) = toByte 255 ∧
    dbc_blit Env.sample 8 1 8 srcKey8 8 1 8 dstKey8 0 0 (some (fun _ => F32.fin 7)) 5
      (0 * 8 + 4) = toByte 5 ∧
    dbc_blit Env.sample 8 1 8 srcKey8 8 1 8 dstKey8 0 0 (some (fun _ => F32.fin 7)) 5
      (0 * 8 + 5) = toByte 6 ∧
    dbc_blit Env.sample 8 1 8 srcKey8 8 1 8 dstKey8 0 0 (some (fun _ => F32.fin 7)) 5
      (0 * 8 + 6) = toByte 9 ∧
    dbc_blit Env.sample 8 1 8 srcKey8 8 1 8 dstKey8 0 0 (some (fun _ => F32.fin 7)) 5
      (0 * 8 + 7) = toByte 9 := by
  have a0 := ((C14_colorkey_in_range Env.sample 8 1 8 srcKey8 8 1 8 dstKey8 0 0
    (fun _ => F32.fin 7) 7 rfl (by norm_num) 0 0 (by decide) (by decide) (by decide)
    (by decide)).1 (by norm_num) (by norm_num)).2
  have a1 := ((C14_colorkey_in_range Env.sample 8 1 8 srcKey8 8 1 8 dstKey8 0 0
    (fun _ => F32.fin 7) 7 rfl (by norm_num) 1 0 (by decide) (by decide) (by decide)
    (by decide)).1 (by norm_num) (by norm_num)).2
  have a2 := ((C14_colorkey_in_range Env.sample 8 1 8 srcKey8 8 1 8 dstKey8 0 0
    (fun _ => F32.fin 7) 7 rfl (by norm_num) 2 0 (by decide) (by decide) (by decide)
    (by decide)).1 (by norm_num) (by norm_num)).2
  have a3 := ((C14_colorkey_in_range Env.sample 8 1 8 srcKey8 8 1 8 dstKey8 0 0
    (fun _ => F32.fin 7) 7 rfl (by norm_num) 3 0 (by decide) (by decide) (by decide)
    (by decide)).1 (by norm_num) (by norm_num)).2
  have a4 := ((C14_colorkey_in_range Env.sample 8 1 8 srcKey8 8 1 8 dstKey8 0 0
    (fun _ => F32.fin 7) 7 rfl (by norm_num) 4 0 (by decide) (by decide) (by decide)
    (by decide)).1 (by norm_num) (by norm_num)).2
  have a5 := ((C14_colorkey_in_range Env.sample 8 1 8 srcKey8 8 1 8 dstKey8 0 0
    (fun _ => F32.fin 7) 7 rfl (by norm_num) 5 0 (by decide) (by decide) (by decide)
    (by decide)).1 (by norm_num) (by norm_num)).2
  have a6 := ((C14_colorkey_in_range Env.sample 8 1 8 srcKey8 8 1 8 dstKey8 0 0
    (fun _ => F32.fin 7) 7 rfl (by norm_num) 6 0 (by decide) (by decide) (by decide)
    (by decide)).1 (by norm_num) (by norm_num)).2
  have a7 := ((C14_colorkey_in_range Env.sample 8 1 8 srcKey8 8 1 8 dstKey8 0 0
    (fun _ => F32.fin 7) 7 rfl (by norm_num) 7 0 (by decide) (by decide) (by decide)
    (by decide)).1 (by norm_num) (by norm_num)).2
  rw [floor_7] at a0 a1 a2 a3 a4 a5 a6 a7
  exact ⟨a0.trans (by decide), a1.trans (by decide), a2.trans (by decide), a3.trans (by decide),
    a4.trans (by decide), a5.trans (by decide), a6.trans (by decide), a7.trans (by decide)⟩

/-- C15. In COLORKEY8 and COLORKEY16 modes, with a null color or a `color[0]` outside the key
range of the mode (a NaN included), every byte of every pixel of the image of the clipped
rectangle becomes the source byte, whatever the pixel is (destination rows do not overlap and
the stride fits 32 bits). -/
theorem C15_colorkey_out_of_range_copies (env : Env) (src_w src_h ss : Int) (src : Mem)
    (dst_w dst_h ds : Int) (dst : Mem) (x y : Int) (color : Option Color) (mode : Int)
    (hm : mode = 5 ∨ mode = 6)
    (hc : ∀ c, color = some c →
      ((c 0).ge 0 && (c 0).le (if mode = 6 then 65535 else 255)) = false)
    (hd : dst_w * modePixelSize mode ≤ ds) (hds : ds < 2 ^ 32)
    (X Y b : Int) (hX0 : max 0 x ≤ X) (hX1 : X < min dst_w (x + src_w)) (hY0 : max 0 y ≤ Y)
    (hY1 : Y < min dst_h (y + src_h)) (hb0 : 0 ≤ b) (hb1 : b < modePixelSize mode) :
    dbc_blit env src_w src_h ss src dst_w dst_h ds dst x y color mode
        (Y * ds + X * modePixelSize mode + b)
      = src ((Y - y) * ss + (X - x) * modePixelSize mode + b) :=
  dbc_blit_nokey_region env src_w src_h ss src dst_w dst_h ds dst x y color mode
    (by omega) (fun c h => ⟨hc c h, fun e => by omega⟩) hd hds X Y b hX0 hX1 hY0 hY1 hb0 hb1

/-- Witness of C15: the 8-bit colorkey with `color[0] = 263`, which is out of range and
truncates to 7, copies the source byte 7 of pixel 0. -/
theorem C15_colorkey_out_of_range_copies_witness :
    srcKey8 0 = toByte 7 ∧
    dbc_blit Env.sample 8 1 8 srcKey8 8 1 8 dstKey8 0 0 (some (fun _ => F32.fin 263)) 5
        (0 * 8 + 0 * modePixelSize 5 + 0)
      = srcKey8 ((0 - 0) * 8 + (0 - 0) * modePixelSize 5 + 0) :=
  ⟨by decide, C15_colorkey_out_of_range_copies Env.sample 8 1 8 srcKey8 8 1 8 dstKey8 0 0
    (some (fun _ => F32.fin 263)) 5 (Or.inl rfl) (fun c h => by cases h; decide)
    (by decide) (by norm_num) 0 0 0 (by decide) (by decide) (by decide) (by decide)
    (by decide) (by decide)⟩

/-- C16, counterexample. In the alpha test `color[0] = 256` is outside `[0, 255]`, yet the blit
is no copy: the destination byte of a pixel of the clipped rectangle keeps its value 200, where
the source byte is 1. -/
theorem C16_alphatest_above_range_is_no_copy :
    ((F32.fin 256).ge 0 && (F32.fin 256).le 255) = false ∧
    dbc_blit Env.sample 3 1 12 srcAlpha 3 1 12 dstSample 0 0 (some (fun _ => F32.fin 256)) 10 0
      = toByte 200 ∧
    srcAlpha 0 = toByte 1 := by
  refine ⟨by decide, ?_, by decide⟩
  rw [dbc_blit_of_launch_none Env.sample 3 1 12 srcAlpha 3 1 12 dstSample 0 0
    (some (fun _ => F32.fin 256)) 10 (launch_alphatest_above _ _ _ _ _ _ _ _ (by decide))]
  rfl

/-- C16, amended. For each key-carrying mode a null color, a NaN, or a `color[0]` outside
the range of the mode means no key and an unconditional copy of the clipped rectangle, except
in the alpha test for a `color[0]` above 255, which means that nothing is written. -/
theorem C16_no_key_copy_or_nothing (env : Env) (src_w src_h ss : Int) (src : Mem)
    (dst_w dst_h ds : Int) (dst : Mem) (x y : Int) (color : Option Color) (mode : Int)
    (hm : mode = 5 ∨ mode = 6 ∨ mode = 10)
    (hc : ∀ c, color = some c →
      ((c 0).ge 0 && (c 0).le (if mode = 6 then 65535 else 255)) = false) :
    ((∀ c, color = some c → mode = 10 → (c 0).gt 255 = false) →
      dst_w * modePixelSize mode ≤ ds → ds < 2 ^ 32 →
      ∀ X Y b : Int, max 0 x ≤ X → X < min dst_w (x + src_w) → max 0 y ≤ Y →
        Y < min dst_h (y + src_h) → 0 ≤ b → b < modePixelSize mode →
        dbc_blit env src_w src_h ss src dst_w dst_h ds dst x y color mode
            (Y * ds + X * modePixelSize mode + b)
          = src ((Y - y) * ss + (X - x) * modePixelSize mode + b)) ∧
    ((∃ c, color = some c ∧ mode = 10 ∧ (c 0).gt 255 = true) →
      dbc_blit env src_w src_h ss src dst_w dst_h ds dst x y color mode = dst) := by
  constructor
  · intro hgt hd hds X Y b hX0 hX1 hY0 hY1 hb0 hb1
    exact dbc_blit_nokey_region env src_w src_h ss src dst_w dst_h ds dst x y color mode hm
      (fun c h => ⟨hc c h, hgt c h⟩) hd hds X Y b hX0 hX1 hY0 hY1 hb0 hb1
  · rintro ⟨c, rfl, rfl, hgt⟩
    exact dbc_blit_of_launch_none env src_w src_h ss src dst_w dst_h ds dst x y (some c) 10
      (launch_alphatest_above env src_w src_h dst_w dst_h x y c hgt)

/-- Witness of C16 (amended): the alpha test with a NaN threshold copies byte 3 of pixel 0,
and with threshold 256 it writes nothing. -/
theorem C16_no_key_copy_or_nothing_witness :
    dbc_blit Env.sample 3 1 12 srcAlpha 3 1 12 dstSample 0 0 (some (fun _ => F32.nan)) 10
        (0 * 12 + 0 * modePixelSize 10 + 3)
      = srcAlpha ((0 - 0) * 12 + (0 - 0) * modePixelSize 10 + 3) ∧
    dbc_blit Env.sample 3 1 12 srcAlpha 3 1 12 dstSample 0 0 (some (fun _ => F32.fin 256)) 10
      = dstSample :=
  ⟨(C16_no_key_copy_or_nothing Env.sample 3 1 12 srcAlpha 3 1 12 dstSample 0 0
      (some (fun _ => F32.nan)) 10 (Or.inr (Or.inr rfl)) (fun c h => by cases h; decide)).1
      (fun c h _ => by cases h; decide) (by decide) (by norm_num) 0 0 3 (by decide) (by decide)
      (by decide) (by decide) (by decide) (by decide),
    (C16_no_key_copy_or_nothing Env.sample 3 1 12 srcAlpha 3 1 12 dstSample 0 0
      (some (fun _ => F32.fin 256)) 10 (Or.inr (Or.inr rfl)) (fun c h => by cases h; decide)).2
      ⟨_, rfl, rfl, by decide⟩⟩

/-! ## The 5551 mode -/

/-- In the 5551 mode `dbc_blit` launches `dbcB_f5551_*`, whose kernels work pixel by pixel as
`dbcB_b5551_1_c`. -/
theorem launch_5551_facts (env : Env) (src_w src_h dst_w dst_h x y : Int)
    (color : Option Color) :
    ∃ (L : Launch) (k : Nat), dbc_blit_launch env src_w src_h dst_w dst_h x y color 7 = some L ∧
      fnTop L.tier L.fn = some k ∧ L.fn.pixel_size = 2 ∧
      ∀ j, j ≤ k → PixelSpec (kernelOf env L.tier L.fn j
        ⟨L.color, (headerKeys L.fn L.color).1, (headerKeys L.fn L.color).2⟩) (2 ^ j)
        L.fn.pixel_size (dbcb_load16 env.big_endian) dbcB_b5551_1_c := by
  obtain ⟨k, hk⟩ := fnTop_key (selectTier env 7 false) Fn.f5551 (by simp)
  exact ⟨_, k, launch_5551 env src_w src_h dst_w dst_h x y color, hk, rfl,
    fun j hj => kernelOf_f5551_spec env _ j k _ hk hj⟩

/-- The 16-bit colorkey with a null color launches a `DBCB_DEF_FN_0` driver of pixel size 2. -/
theorem launch_copy16_facts (env : Env) (src_w src_h dst_w dst_h x y : Int) :
    ∃ L : Launch, dbc_blit_launch env src_w src_h dst_w dst_h x y none 6 = some L ∧
      fnTop L.tier L.fn = none ∧ L.fn.pixel_size = 2 := by
  obtain ⟨L, hL, hfn, hps⟩ := launch_nokey_facts env src_w src_h dst_w dst_h x y none 6
    (by simp) (fun c h => by cases h)
  exact ⟨L, hL, hfn, hps⟩

/-- C17. In FIVE551 mode every 16-bit pixel of the image of the clipped rectangle becomes the
whole source word if the high bit of the source word is set and keeps its value otherwise
(destination rows do not overlap); a source all of whose words in the clipped rectangle have
the high bit set gives the destination of a plain copy of 16-bit pixels (COLORKEY16 with a null
color), and a source all of whose words have it clear leaves the destination unchanged. -/
theorem C17_five551_high_bit (env : Env) (src_w src_h ss : Int) (src : Mem)
    (dst_w dst_h ds : Int) (dst : Mem) (x y : Int) (color : Option Color) :
    (dst_w * 2 ≤ ds → ∀ X Y : Int, max 0 x ≤ X → X < min dst_w (x + src_w) → max 0 y ≤ Y →
      Y < min dst_h (y + src_h) →
      dbcb_load16 env.big_endian
          (dbc_blit env src_w src_h ss src dst_w dst_h ds dst x y color 7) (Y * ds + X * 2)
        = if 0x8000 ≤ dbcb_load16 env.big_endian src ((Y - y) * ss + (X - x) * 2)
          then dbcb_load16 env.big_endian src ((Y - y) * ss + (X - x) * 2)
          else dbcb_load16 env.big_endian dst (Y * ds + X * 2)) ∧
    (src_w * 2 < 2 ^ 32 →
      (∀ X Y : Int, max 0 x ≤ X → X < min dst_w (x + src_w) → max 0 y ≤ Y →
        Y < min dst_h (y + src_h) →
        0x8000 ≤ dbcb_load16 env.big_endian src ((Y - y) * ss + (X - x) * 2)) →
      dbc_blit env src_w src_h ss src dst_w dst_h ds dst x y color 7
        = dbc_blit env src_w src_h ss src dst_w dst_h ds dst x y none 6) ∧
    ((∀ X Y : Int, max 0 x ≤ X → X < min dst_w (x + src_w) → max 0 y ≤ Y →
        Y < min dst_h (y + src_h) →
        dbcb_load16 env.big_endian src ((Y - y) * ss + (X - x) * 2) < 0x8000) →
      dbc_blit env src_w src_h ss src dst_w dst_h ds dst x y color 7 = dst) := by
  obtain ⟨L, k, hL, hk, hps, hspec⟩ := launch_5551_facts env src_w src_h dst_w dst_h x y color
  refine ⟨?_, ?_, ?_⟩
  · intro hd X Y hX0 hX1 hY0 hY1
    have h := dbc_blit_pixel env src_w src_h ss src dst_w dst_h ds dst x y color 7 L hL k hk
      (dbcb_load16 env.big_endian) dbcB_b5551_1_c (by rw [hps]; exact rdLocal_load16 _) hspec
      (by rw [hps]; exact hd) X Y hX0 hX1 hY0 hY1
    rw [hps] at h
    exact h
  · intro hw hall
    obtain ⟨L0, hL0, hfn0, hps0⟩ := launch_copy16_facts env src_w src_h dst_w dst_h x y
    exact dbc_blit_eq_copy env src_w src_h ss src dst_w dst_h ds dst x y color none 7 6 L L0
      hL hL0 k hk hfn0 (by rw [hps0, hps]) (by rw [hps]; norm_num)
      (dbcb_load16 env.big_endian) dbcB_b5551_1_c (by rw [hps]; exact rdLocal_load16 _)
      (by rw [hps]; exact load16_inj env.big_endian) hspec (by rw [hps]; exact hw)
      (fun X Y hX0 hX1 hY0 hY1 D => by
        have hh := hall X Y hX0 hX1 hY0 hY1
        rw [hps]
        simp only [Nat.cast_ofNat]
        unfold dbcB_b5551_1_c
        rw [if_pos hh])
  · intro hall
    exact dbc_blit_eq_id env src_w src_h ss src dst_w dst_h ds dst x y color 7 L hL k hk
      (by rw [hps]; norm_num) (dbcb_load16 env.big_endian) dbcB_b5551_1_c
      (by rw [hps]; exact rdLocal_load16 _) (by rw [hps]; exact load16_inj env.big_endian) hspec
      (fun X Y hX0 hX1 hY0 hY1 D => by
        have hh := hall X Y hX0 hX1 hY0 hY1
        rw [hps]
        simp only [Nat.cast_ofNat]
        unfold dbcB_b5551_1_c
        rw [if_neg (by omega)])

/-- Witness of C17: the source words `0x8001, 0x7FFE` over the destination words
`0x1234, 0x5678` give `0x8001, 0x5678`. -/
theorem C17_five551_high_bit_witness :
    dbcb_load16 false (dbc_blit Env.sample 2 1 4 src5551 2 1 4 dst5551 0 0 none 7) 0 = 0x8001 ∧
    dbcb_load16 false (dbc_blit Env.sample 2 1 4 src5551 2 1 4 dst5551 0 0 none 7) 2
      = 0x5678 := by
  have h := (C17_five551_high_bit Env.sample 2 1 4 src5551 2 1 4 dst5551 0 0 none).1
    (by norm_num)
  have a0 := h 0 0 (by decide) (by decide) (by decide) (by decide)
  have a1 := h 1 0 (by decide) (by decide) (by decide) (by decide)
  exact ⟨a0.trans (by decide), a1.trans (by decide)⟩

/-- C18. In FIVE551 mode the destination after `dbc_blit` is the same for any two color
arguments (null or not), for every source, destination and placement. -/
theorem C18_five551_ignores_color (env : Env) (src_w src_h ss : Int) (src : Mem)
    (dst_w dst_h ds : Int) (dst : Mem) (x y : Int) (color1 color2 : Option Color) :
    dbc_blit env src_w src_h ss src dst_w dst_h ds dst x y color1 7
      = dbc_blit env src_w src_h ss src dst_w dst_h ds dst x y color2 7 := by
  unfold dbc_blit dbc_blit_ops dbc_blit_kernel
  rw [launch_5551 env src_w src_h dst_w dst_h x y color1,
    launch_5551 env src_w src_h dst_w dst_h x y color2]

/-! ## The SSE2 kernels of the ALPHA blend -/

theorem step128_lanes (x0 x1 x2 x3 x4 x5 x6 x7 y0 y1 y2 y3 y4 y5 y6 y7 a0 a1 a2 a3 a4 a5 a6 a7 :
    Nat) :
    dbcB_step128_bla [x0, x1, x2, x3, x4, x5, x6, x7] [y0, y1, y2, y3, y4, y5, y6, y7]
        [a0, a1, a2, a3, a4, a5, a6, a7]
        (mm_xor_si128 [a0, a1, a2, a3, a4, a5, a6, a7] (mm_set1_epi16 255))
      = [blaLane x0 y0 (a0 ||| 0) (a0 ^^^ 255), blaLane x1 y1 (a1 ||| 0) (a1 ^^^ 255),
         blaLane x2 y2 (a2 ||| 0) (a2 ^^^ 255), blaLane x3 y3 (a3 ||| 255) (a3 ^^^ 255),
         blaLane x4 y4 (a4 ||| 0) (a4 ^^^ 255), blaLane x5 y5 (a5 ||| 0) (a5 ^^^ 255),
         blaLane x6 y6 (a6 ||| 0) (a6 ^^^ 255), blaLane x7 y7 (a7 ||| 255) (a7 ^^^ 255)] := rfl

theorem xor_255 : ∀ a : Fin 256, a.val ^^^ 255 = 255 - a.val := by decide!

theorem or_255 : ∀ a : Fin 256, a.val ||| 255 = 255 := by decide!

theorem packus16_byte (w : Nat) (h : w ≤ 255) : packus16 w = w := by
  unfold packus16
  have e : w % 2 ^ 16 = w := Nat.mod_eq_of_lt (by omega)
  rw [e, if_neg (by omega), if_neg (by omega)]

/-- The division by 255 of `dbcB_div255_round_128` on a lane that holds a blend of bytes. -/
theorem blaLane_of_sum (s d a c n : Nat) (hu : s * a + d * c = n) (hn : n ≤ 65025) :
    blaLane s d a c = rdiv255 n := by
  unfold blaLane
  simp only
  have h1 : s * a < 65536 := by omega
  have h2 : d * c < 65536 := by omega
  rw [Nat.mod_eq_of_lt h1, Nat.mod_eq_of_lt h2, hu, Nat.mod_eq_of_lt (show n < 65536 by omega),
    Nat.mod_eq_of_lt (show n + 128 < 65536 by omega)]
  simp only [Nat.shiftRight_eq_div_pow]
  have hb2 := blinn_div255 n (by omega)
  rw [Nat.mod_eq_of_lt (by omega)]
  unfold rdiv255
  norm_num at hb2 ⊢
  exact hb2

/-- The packed lane of a color channel. -/
theorem lane_color (s d a : Nat) (hs : s < 256) (hd : d < 256) (ha : a < 256) :
    packus16 (blaLane s d (a ||| 0) (a ^^^ 255)) = rdiv255 (a * s + (255 - a) * d) := by
  rw [Nat.or_zero, xor_255 ⟨a, ha⟩]
  show packus16 (blaLane s d a (255 - a)) = _
  have hb := blend_le s d a hs hd ha
  have e : a * s + (255 - a) * d = s * a + d * (255 - a) := by ring
  rw [e, blaLane_of_sum s d a (255 - a) _ rfl hb, packus16_byte _ (rdiv255_le _ hb)]

/-- The packed lane of the alpha channel, whose multiplier is set to 255. -/
theorem lane_alpha (d a : Nat) (hd : d < 256) (ha : a < 256) :
    packus16 (blaLane a d (a ||| 255) (a ^^^ 255)) = rdiv255 (a * 255 + (255 - a) * d) := by
  rw [or_255 ⟨a, ha⟩, xor_255 ⟨a, ha⟩]
  show packus16 (blaLane a d 255 (255 - a)) = _
  have hb : a * 255 + d * (255 - a) ≤ 65025 := by
    have h3 : d * (255 - a) ≤ 255 * (255 - a) := Nat.mul_le_mul_right _ (by omega)
    omega
  have e : a * 255 + (255 - a) * d = a * 255 + d * (255 - a) := by ring
  rw [e, blaLane_of_sum a d 255 (255 - a) _ rfl hb, packus16_byte _ (rdiv255_le _ hb)]

theorem word_bytes (S : Nat) :
    S % 65536 % 256 = dbcB_getb S 0 ∧ S % 65536 / 256 % 256 = dbcB_getb S 1 ∧
    S / 65536 % 65536 % 256 = dbcB_getb S 2 ∧ S / 65536 % 65536 / 256 % 256 = dbcB_getb S 3 := by
  unfold dbcB_getb u8
  simp only [Nat.shiftRight_eq_div_pow]
  refine ⟨?_, ?_, ?_, ?_⟩ <;> omega

/-- The pixel `dbcB_bla_1_c` computes, from packed lanes. -/
theorem bla_pixel (P : Platform) (S D : Nat) (hS : S < 2 ^ 32) (hD : D < 2 ^ 32) :
    packus16 (blaLane (dbcB_getb S 0) (dbcB_getb D 0) (dbcB_getb S 3 ||| 0)
        (dbcB_getb S 3 ^^^ 255))
      + 256 * packus16 (blaLane (dbcB_getb S 1) (dbcB_getb D 1) (dbcB_getb S 3 ||| 0)
        (dbcB_getb S 3 ^^^ 255))
      + 65536 * (packus16 (blaLane (dbcB_getb S 2) (dbcB_getb D 2) (dbcB_getb S 3 ||| 0)
        (dbcB_getb S 3 ^^^ 255))
      + 256 * packus16 (blaLane (dbcB_getb S 3) (dbcB_getb D 3) (dbcB_getb S 3 ||| 255)
        (dbcB_getb S 3 ^^^ 255)))
      = dbcB_bla_1_c P S D := by
  rw [dbcB_bla_1_c_eq P S D hS hD,
    lane_color _ _ _ (getb_lt S 0) (getb_lt D 0) (getb_lt S 3),
    lane_color _ _ _ (getb_lt S 1) (getb_lt D 1) (getb_lt S 3),
    lane_color _ _ _ (getb_lt S 2) (getb_lt D 2) (getb_lt S 3),
    lane_alpha _ _ (getb_lt D 3) (getb_lt S 3)]
  unfold pix4
  ring

/-- The kernel `dbcB_bla_1_sse2` computes the pixel `dbcB_bla_1_c` computes. -/
theorem dbcB_bla_1_sse2_eq (P : Platform) (S D : Nat) (hS : S < 2 ^ 32) (hD : D < 2 ^ 32) :
    dbcB_bla_1_sse2 [S] [D] = [dbcB_bla_1_c P S D] := by
  obtain ⟨s0, s1, s2, s3⟩ := word_bytes S
  obtain ⟨d0, d1, d2, d3⟩ := word_bytes D
  have hs : mm_unpacklo_epi8_zero (load128 [S])
      = [dbcB_getb S 0, dbcB_getb S 1, dbcB_getb S 2, dbcB_getb S 3, 0, 0, 0, 0] := by
    rw [← s0, ← s1, ← s2, ← s3]; rfl
  have hd : mm_unpacklo_epi8_zero (load128 [D])
      = [dbcB_getb D 0, dbcB_getb D 1, dbcB_getb D 2, dbcB_getb D 3, 0, 0, 0, 0] := by
    rw [← d0, ← d1, ← d2, ← d3]; rfl
  unfold dbcB_bla_1_sse2
  simp only
  rw [hs, hd]
  have ha : mm_shufflelo_epi16
      [dbcB_getb S 0, dbcB_getb S 1, dbcB_getb S 2, dbcB_getb S 3, 0, 0, 0, 0] 0xFF
      = [dbcB_getb S 3, dbcB_getb S 3, dbcB_getb S 3, dbcB_getb S 3, 0, 0, 0, 0] := rfl
  rw [ha, step128_lanes]
  show [_ + 65536 * _] = _
  rw [← bla_pixel P S D hS hD]

theorem alpha_of_lane (S : Nat) : (S / 65536 % 65536) >>> 8 = dbcB_getb S 3 := by
  unfold dbcB_getb u8
  simp only [Nat.shiftRight_eq_div_pow]
  omega

/-- The kernel `dbcB_bla_2_sse2` computes the pixels `dbcB_bla_1_c` computes. -/
theorem dbcB_bla_2_sse2_eq (P : Platform) (S0 S1 D0 D1 : Nat) (hS0 : S0 < 2 ^ 32)
    (hS1 : S1 < 2 ^ 32) (hD0 : D0 < 2 ^ 32) (hD1 : D1 < 2 ^ 32) :
    dbcB_bla_2_sse2 [S0, S1] [D0, D1] = [dbcB_bla_1_c P S0 D0, dbcB_bla_1_c P S1 D1] := by
  obtain ⟨s0, s1, s2, s3⟩ := word_bytes S0
  obtain ⟨t0, t1, t2, t3⟩ := word_bytes S1
  obtain ⟨d0, d1, d2, d3⟩ := word_bytes D0
  obtain ⟨e0, e1, e2, e3⟩ := word_bytes D1
  have hs : mm_unpacklo_epi8_zero (load128 [S0, S1])
      = [dbcB_getb S0 0, dbcB_getb S0 1, dbcB_getb S0 2, dbcB_getb S0 3,
         dbcB_getb S1 0, dbcB_getb S1 1, dbcB_getb S1 2, dbcB_getb S1 3] := by
    rw [← s0, ← s1, ← s2, ← s3, ← t0, ← t1, ← t2, ← t3]; rfl
  have hd : mm_unpacklo_epi8_zero (load128 [D0, D1])
      = [dbcB_getb D0 0, dbcB_getb D0 1, dbcB_getb D0 2, dbcB_getb D0 3,
         dbcB_getb D1 0, dbcB_getb D1 1, dbcB_getb D1 2, dbcB_getb D1 3] := by
    rw [← d0, ← d1, ← d2, ← d3, ← e0, ← e1, ← e2, ← e3]; rfl
  have ha : mm_unpacklo_epi16 (mm_srli_epi16 (mm_shufflelo_epi16 (load128 [S0, S1]) 0xF5) 8)
        (mm_srli_epi16 (mm_shufflelo_epi16 (load128 [S0, S1]) 0xF5) 8)
      = [dbcB_getb S0 3, dbcB_getb S0 3, dbcB_getb S0 3, dbcB_getb S0 3,
         dbcB_getb S1 3, dbcB_getb S1 3, dbcB_getb S1 3, dbcB_getb S1 3] := by
    rw [← alpha_of_lane S0, ← alpha_of_lane S1]; rfl
  unfold dbcB_bla_2_sse2
  simp only
  rw [hs, hd, ha, step128_lanes]
  show [_ + 65536 * _, _ + 65536 * _] = _
  rw [← bla_pixel P S0 D0 hS0 hD0, ← bla_pixel P S1 D1 hS1 hD1]

theorem unit24 (S : Nat) (hS : S < 2 ^ 32) :
    ((S % 65536 + 65536 * (S / 65536 % 65536)) >>> 24) % 65536 = dbcB_getb S 3 ∧
    ((S % 65536 + 65536 * (S / 65536 % 65536)) >>> 24) / 65536 % 65536 = 0 := by
  unfold dbcB_getb u8
  simp only [Nat.shiftRight_eq_div_pow]
  constructor <;> omega

theorem unit16 (A : Nat) (hA : A < 256) :
    ((A + 65536 * 0) <<< 16) % 65536 = 0 ∧ ((A + 65536 * 0) <<< 16) / 65536 % 65536 = A := by
  simp only [Nat.shiftLeft_eq]
  constructor <;> omega

/-- The kernel `dbcB_bla_4_sse2` computes the pixels `dbcB_bla_1_c` computes. -/
theorem dbcB_bla_4_sse2_eq (P : Platform) (S0 S1 S2 S3 D0 D1 D2 D3 : Nat) (hS0 : S0 < 2 ^ 32)
    (hS1 : S1 < 2 ^ 32) (hS2 : S2 < 2 ^ 32) (hS3 : S3 < 2 ^ 32) (hD0 : D0 < 2 ^ 32)
    (hD1 : D1 < 2 ^ 32) (hD2 : D2 < 2 ^ 32) (hD3 : D3 < 2 ^ 32) :
    dbcB_bla_4_sse2 [S0, S1, S2, S3] [D0, D1, D2, D3]
      = [dbcB_bla_1_c P S0 D0, dbcB_bla_1_c P S1 D1, dbcB_bla_1_c P S2 D2,
         dbcB_bla_1_c P S3 D3] := by
  obtain ⟨s0, s1, s2, s3⟩ := word_bytes S0
  obtain ⟨t0, t1, t2, t3⟩ := word_bytes S1
  obtain ⟨u0, u1, u2, u3⟩ := word_bytes S2
  obtain ⟨v0, v1, v2, v3⟩ := word_bytes S3
  obtain ⟨d0, d1, d2, d3⟩ := word_bytes D0
  obtain ⟨e0, e1, e2, e3⟩ := word_bytes D1
  obtain ⟨f0, f1, f2, f3⟩ := word_bytes D2
  obtain ⟨g0, g1, g2, g3⟩ := word_bytes D3
  have hsl : mm_unpacklo_epi8_zero (load128 [S0, S1, S2, S3])
      = [dbcB_getb S0 0, dbcB_getb S0 1, dbcB_getb S0 2, dbcB_getb S0 3,
         dbcB_getb S1 0, dbcB_getb S1 1, dbcB_getb S1 2, dbcB_getb S1 3] := by
    rw [← s0, ← s1, ← s2, ← s3, ← t0, ← t1, ← t2, ← t3]; rfl
  have hsh : mm_unpackhi_epi8_zero (load128 [S0, S1, S2, S3])
      = [dbcB_getb S2 0, dbcB_getb S2 1, dbcB_getb S2 2, dbcB_getb S2 3,
         dbcB_getb S3 0, dbcB_getb S3 1, dbcB_getb S3 2, dbcB_getb S3 3] := by
    rw [← u0, ← u1, ← u2, ← u3, ← v0, ← v1, ← v2, ← v3]; rfl
  have hdl : mm_unpacklo_epi8_zero (load128 [D0, D1, D2, D3])
      = [dbcB_getb D0 0, dbcB_getb D0 1, dbcB_getb D0 2, dbcB_getb D0 3,
         dbcB_getb D1 0, dbcB_getb D1 1, dbcB_getb D1 2, dbcB_getb D1 3] := by
    rw [← d0, ← d1, ← d2, ← d3, ← e0, ← e1, ← e2, ← e3]; rfl
  have hdh : mm_unpackhi_epi8_zero (load128 [D0, D1, D2, D3])
      = [dbcB_getb D2 0, dbcB_getb D2 1, dbcB_getb D2 2, dbcB_getb D2 3,
         dbcB_getb D3 0, dbcB_getb D3 1, dbcB_getb D3 2, dbcB_getb D3 3] := by
    rw [← f0, ← f1, ← f2, ← f3, ← g0, ← g1, ← g2, ← g3]; rfl
  have h24 : mm_srli_epi32 (load128 [S0, S1, S2, S3]) 24
      = [dbcB_getb S0 3, 0, dbcB_getb S1 3, 0, dbcB_getb S2 3, 0, dbcB_getb S3 3, 0] := by
    rw [← (unit24 S0 hS0).1, ← (unit24 S1 hS1).1, ← (unit24 S2 hS2).1, ← (unit24 S3 hS3).1]
    simp only [load128, mm_srli_epi32]
    rw [(unit24 S0 hS0).2, (unit24 S1 hS1).2, (unit24 S2 hS2).2, (unit24 S3 hS3).2]
  have ha : mm_xor_si128 (mm_srli_epi32 (load128 [S0, S1, S2, S3]) 24)
        (mm_slli_epi32 (mm_srli_epi32 (load128 [S0, S1, S2, S3]) 24) 16)
      = [dbcB_getb S0 3, dbcB_getb S0 3, dbcB_getb S1 3, dbcB_getb S1 3,
         dbcB_getb S2 3, dbcB_getb S2 3, dbcB_getb S3 3, dbcB_getb S3 3] := by
    rw [h24]
    simp only [mm_slli_epi32, mm_xor_si128, List.zipWith]
    rw [(unit16 _ (getb_lt S0 3)).1, (unit16 _ (getb_lt S0 3)).2,
      (unit16 _ (getb_lt S1 3)).1, (unit16 _ (getb_lt S1 3)).2,
      (unit16 _ (getb_lt S2 3)).1, (unit16 _ (getb_lt S2 3)).2,
      (unit16 _ (getb_lt S3 3)).1, (unit16 _ (getb_lt S3 3)).2]
    simp only [Nat.xor_zero, Nat.zero_xor]
  unfold dbcB_bla_4_sse2
  simp only
  rw [hsl, hsh, hdl, hdh, ha]
  have hal : mm_unpacklo_epi16
      [dbcB_getb S0 3, dbcB_getb S0 3, dbcB_getb S1 3, dbcB_getb S1 3,
         dbcB_getb S2 3, dbcB_getb S2 3, dbcB_getb S3 3, dbcB_getb S3 3]
      [dbcB_getb S0 3, dbcB_getb S0 3, dbcB_getb S1 3, dbcB_getb S1 3,
         dbcB_getb S2 3, dbcB_getb S2 3, dbcB_getb S3 3, dbcB_getb S3 3]
      = [dbcB_getb S0 3, dbcB_getb S0 3, dbcB_getb S0 3, dbcB_getb S0 3,
         dbcB_getb S1 3, dbcB_getb S1 3, dbcB_getb S1 3, dbcB_getb S1 3] := rfl
  have hah : mm_unpackhi_epi16
      [dbcB_getb S0 3, dbcB_getb S0 3, dbcB_getb S1 3, dbcB_getb S1 3,
         dbcB_getb S2 3, dbcB_getb S2 3, dbcB_getb S3 3, dbcB_getb S3 3]
      [dbcB_getb S0 3, dbcB_getb S0 3, dbcB_getb S1 3, dbcB_getb S1 3,
         dbcB_getb S2 3, dbcB_getb S2 3, dbcB_getb S3 3, dbcB_getb S3 3]
      = [dbcB_getb S2 3, dbcB_getb S2 3, dbcB_getb S2 3, dbcB_getb S2 3,
         dbcB_getb S3 3, dbcB_getb S3 3, dbcB_getb S3 3, dbcB_getb S3 3] := rfl
  rw [hal, hah, step128_lanes, step128_lanes]
  show [_ + 65536 * _, _ + 65536 * _, _ + 65536 * _, _ + 65536 * _] = _
  rw [← bla_pixel P S0 D0 hS0 hD0, ← bla_pixel P S1 D1 hS1 hD1, ← bla_pixel P S2 D2 hS2 hD2,
    ← bla_pixel P S3 D3 hS3 hD3]

/-- A 32-bit store leaves the other pixels as they were. -/
theorem load32_store32_other (big : Bool) (v : Nat) (m : Mem) (p q : Int)
    (h : q + 4 ≤ p ∨ p + 4 ≤ q) :
    dbcb_load32 big (dbcb_store32 big v m p) q = dbcb_load32 big m q := by
  apply rdLocal_load32
  intro b hb0 hb1
  have hb2 : b < 4 := by exact_mod_cast hb1
  exact frames_pix32 big (fun _ _ => v) m p m p (q + b) (by omega)

/-- The kernel `dbcB_bla_1_sse2` leaves the destination that `dbcB_bla_1_c` leaves. -/
theorem pixN_bla_1 (env : Env) (p : Params) :
    pixN env.big_endian 1 dbcB_bla_1_sse2 = scalarKernel env Fn.fla 0 p := by
  funext src s dst d
  simp only [pixN, loadWords, scalarKernel, pix32]
  rw [dbcB_bla_1_sse2_eq env.platform _ _ (dbcb_load32_lt _ _ _) (dbcb_load32_lt _ _ _)]
  rfl

/-- The kernel `dbcB_bla_2_sse2` leaves the destination that `dbcB_bla_1_c` on each of the two
pixels in turn leaves. -/
theorem pixN_bla_2 (env : Env) (p : Params) :
    pixN env.big_endian 2 dbcB_bla_2_sse2 = scalarKernel env Fn.fla 1 p := by
  funext src s dst d
  simp only [pixN, loadWords, scalarKernel, pix32, twice]
  rw [dbcB_bla_2_sse2_eq env.platform _ _ _ _ (dbcb_load32_lt _ _ _) (dbcb_load32_lt _ _ _)
    (dbcb_load32_lt _ _ _) (dbcb_load32_lt _ _ _)]
  rw [load32_store32_other _ _ _ _ _ (by omega)]
  rfl

/-- The kernel `dbcB_bla_4_sse2` leaves the destination that `dbcB_bla_1_c` on each of the
four pixels in turn leaves. -/
theorem pixN_bla_4 (env : Env) (p : Params) :
    pixN env.big_endian 4 dbcB_bla_4_sse2 = scalarKernel env Fn.fla 2 p := by
  funext src s dst d
  simp only [pixN, loadWords, scalarKernel, pix32, twice]
  rw [dbcB_bla_4_sse2_eq env.platform _ _ _ _ _ _ _ _ (dbcb_load32_lt _ _ _)
    (dbcb_load32_lt _ _ _) (dbcb_load32_lt _ _ _) (dbcb_load32_lt _ _ _) (dbcb_load32_lt _ _ _)
    (dbcb_load32_lt _ _ _) (dbcb_load32_lt _ _ _) (dbcb_load32_lt _ _ _)]
  have e1 : s + 4 + 4 = s + 8 := by ring
  have e3 : d + 4 + 4 = d + 8 := by ring
  rw [e1, e3]
  rw [load32_store32_other _ _ _ _ (d + 4) (by omega),
    load32_store32_other _ _ _ _ (d + 8) (by omega),
    load32_store32_other _ _ _ _ (d + 8) (by omega),
    load32_store32_other _ _ _ _ (d + 8 + 4) (by omega),
    load32_store32_other _ _ _ _ (d + 8 + 4) (by omega),
    load32_store32_other _ _ _ _ (d + 8 + 4) (by omega)]
  show storeWords _ [_, _, _, _] dst d = _
  simp only [storeWords, e3]

/-- C19. The SSE2 kernels `dbcB_bla_1_sse2`, `dbcB_bla_2_sse2` and `dbcB_bla_4_sse2` of the
ALPHA blend without modulation (the kernels an SSE2 driver calls for runs of 1, 2 and 4 pixels)
leave, for every source and destination memory, the destination that the C kernel of the same
run leaves, which is `dbcB_bla_1_c` applied to each pixel in turn; on the pixels themselves,
each of them returns what `dbcB_bla_1_c` returns for every pixel of its run. -/
theorem C19_bla_sse2_eq_scalar (env : Env) (p : Params) (k : Nat) (K : Kernel)
    (h : simdKernel env Tier.sse2 Fn.fla k p = some K) :
    K = scalarKernel env Fn.fla k p ∧
    scalarKernel env Fn.fla 0 p = pix32 env.big_endian (dbcB_bla_1_c env.platform) ∧
    scalarKernel env Fn.fla 1 p = twice (pix32 env.big_endian (dbcB_bla_1_c env.platform)) 4 ∧
    scalarKernel env Fn.fla 2 p
      = twice (twice (pix32 env.big_endian (dbcB_bla_1_c env.platform)) 4) 8 ∧
    (∀ S0 S1 S2 S3 D0 D1 D2 D3 : Nat, S0 < 2 ^ 32 → S1 < 2 ^ 32 → S2 < 2 ^ 32 → S3 < 2 ^ 32 →
      D0 < 2 ^ 32 → D1 < 2 ^ 32 → D2 < 2 ^ 32 → D3 < 2 ^ 32 →
      dbcB_bla_1_sse2 [S0] [D0] = [dbcB_bla_1_c env.platform S0 D0] ∧
      dbcB_bla_2_sse2 [S0, S1] [D0, D1]
        = [dbcB_bla_1_c env.platform S0 D0, dbcB_bla_1_c env.platform S1 D1] ∧
      dbcB_bla_4_sse2 [S0, S1, S2, S3] [D0, D1, D2, D3]
        = [dbcB_bla_1_c env.platform S0 D0, dbcB_bla_1_c env.platform S1 D1,
           dbcB_bla_1_c env.platform S2 D2, dbcB_bla_1_c env.platform S3 D3]) := by
  refine ⟨?_, rfl, rfl, rfl, ?_⟩
  · rcases k with _ | _ | _ | k
    · simp only [simdKernel, Option.some.injEq] at h
      rw [← h]; exact pixN_bla_1 env p
    · simp only [simdKernel, Option.some.injEq] at h
      rw [← h]; exact pixN_bla_2 env p
    · simp only [simdKernel, Option.some.injEq] at h
      rw [← h]; exact pixN_bla_4 env p
    · simp [simdKernel] at h
  · intro S0 S1 S2 S3 D0 D1 D2 D3 hS0 hS1 hS2 hS3 hD0 hD1 hD2 hD3
    exact ⟨dbcB_bla_1_sse2_eq _ _ _ hS0 hD0, dbcB_bla_2_sse2_eq _ _ _ _ _ hS0 hS1 hD0 hD1,
      dbcB_bla_4_sse2_eq _ _ _ _ _ _ _ _ _ hS0 hS1 hS2 hS3 hD0 hD1 hD2 hD3⟩

/-- Witness of C19: the four-pixel kernel of the sample SSE2 build. -/
theorem C19_bla_sse2_eq_scalar_witness :
    simdKernel Env.sampleSse2 Tier.sse2 Fn.fla 2 ⟨none, 0, 0⟩
      = some (pixN false 4 dbcB_bla_4_sse2) ∧
    pixN false 4 dbcB_bla_4_sse2 = scalarKernel Env.sampleSse2 Fn.fla 2 ⟨none, 0, 0⟩ :=
  ⟨rfl, (C19_bla_sse2_eq_scalar Env.sampleSse2 ⟨none, 0, 0⟩ 2 (pixN false 4 dbcB_bla_4_sse2)
    rfl).1⟩

/-! ## The SSE2 and AVX2 kernels of the alpha test -/

theorem pix32_congr (big : Bool) (f g : Nat → Nat → Nat)
    (h : ∀ s d, s < 2 ^ 32 → d < 2 ^ 32 → f s d = g s d) : pix32 big f = pix32 big g := by
  funext src s dst d
  unfold pix32
  rw [h _ _ (dbcb_load32_lt _ _ _) (dbcb_load32_lt _ _ _)]

/-- C20. For every threshold `key8`, the SSE2 kernels `dbcB_b32t_2_sse2`, `dbcB_b32t_4_sse2` and
the AVX2 kernels `dbcB_b32t_2_avx2`, `dbcB_b32t_4_avx2`, `dbcB_b32t_8_avx2` (the alpha-test
kernels embedded for runs of `2 ^ k` pixels) leave the destination that `dbcB_b32t_1_c` applied
to each pixel of the run in turn leaves, which for runs of 2 and 4 pixels is the C kernel of
the run; on every pair of 32-bit pixels the signed comparison of the lanes after the XOR with
`0x80000000` selects what the unsigned comparison `S >= threshold << 24` of `dbcB_b32t_1_c`
selects. -/
theorem C20_b32t_simd_eq_scalar (env : Env) (p : Params) (tier : Tier) (k : Nat) (K : Kernel)
    (h : simdKernel env tier Fn.f32t k p = some K) :
    K = lanesKernel (pix32 env.big_endian (dbcB_b32t_1_c p.key8)) 4 k ∧
    (k ≤ 2 → K = scalarKernel env Fn.f32t k p) ∧
    (∀ S D : Nat, S < 2 ^ 32 → D < 2 ^ 32 →
      dbcB_b32t_sse2_lane p.key8 S D = dbcB_b32t_1_c p.key8 S D ∧
      dbcB_b32t_avx2_lane p.key8 S D = dbcB_b32t_1_c p.key8 S D) := by
  have es : pix32 env.big_endian (dbcB_b32t_sse2_lane p.key8)
      = pix32 env.big_endian (dbcB_b32t_1_c p.key8) :=
    pix32_congr _ _ _ (fun s d hs hd => dbcB_b32t_sse2_lane_eq p.key8 s d hs hd)
  have ea : pix32 env.big_endian (dbcB_b32t_avx2_lane p.key8)
      = pix32 env.big_endian (dbcB_b32t_1_c p.key8) :=
    pix32_congr _ _ _ (fun s d hs hd => dbcB_b32t_avx2_lane_eq p.key8 s d hs hd)
  have hK : K = lanesKernel (pix32 env.big_endian (dbcB_b32t_1_c p.key8)) 4 k := by
    cases tier
    · simp [simdKernel] at h
    · rcases k with _ | _ | _ | k
      · simp [simdKernel] at h
      · simp only [simdKernel, Option.some.injEq] at h
        rw [← h, es]
      · simp only [simdKernel, Option.some.injEq] at h
        rw [← h, es]
      · simp [simdKernel] at h
    · rcases k with _ | _ | _ | _ | k
      · simp [simdKernel] at h
      · simp only [simdKernel, Option.some.injEq] at h
        rw [← h, ea]
      · simp only [simdKernel, Option.some.injEq] at h
        rw [← h, ea]
      · simp only [simdKernel, Option.some.injEq] at h
        rw [← h, ea]
      · simp [simdKernel] at h
  refine ⟨hK, ?_, fun S D hS hD =>
    ⟨dbcB_b32t_sse2_lane_eq p.key8 S D hS hD, dbcB_b32t_avx2_lane_eq p.key8 S D hS hD⟩⟩
  intro hk
  rw [hK]
  interval_cases k
  · rfl
  · rfl
  · rfl

/-- Witness of C20: the four-pixel SSE2 kernel with threshold 128. -/
theorem C20_b32t_simd_eq_scalar_witness :
    simdKernel Env.sampleSse2 Tier.sse2 Fn.f32t 2 ⟨none, 128, 128⟩
      = some (lanesKernel (pix32 false (dbcB_b32t_sse2_lane 128)) 4 2) ∧
    lanesKernel (pix32 false (dbcB_b32t_sse2_lane 128)) 4 2
      = lanesKernel (pix32 false (dbcB_b32t_1_c 128)) 4 2 :=
  ⟨rfl, (C20_b32t_simd_eq_scalar Env.sampleSse2 ⟨none, 128, 128⟩ Tier.sse2 2
    (lanesKernel (pix32 false (dbcB_b32t_sse2_lane 128)) 4 2) rfl).1⟩

/-! # The claims about paths, trivial branches and packed kernels -/

/-! ## Lanes of the packed blends -/

/-- The sum `x + ((x >> 8) & M)` on two packed lanes. -/
theorem lanes2_presum (x y : Nat) (hx' : x + x / 256 ≤ 65535) (hy' : y + y / 256 ≤ 65535) :
    u32 (lanes2 x y + ((lanes2 x y >>> 8) &&& 0x00FF00FF))
      = lanes2 (x + x / 256) (y + y / 256) := by
  rw [lanes2_shr8_mask x y (by omega)]
  have e : lanes2 x y + lanes2 (x / 256) (y / 256 % 256)
      = lanes2 (x + x / 256) (y + y / 256) := by
    unfold lanes2; omega
  have hlt : lanes2 (x + x / 256) (y + y / 256) < 2 ^ 32 := by unfold lanes2; omega
  rw [e, u32, Nat.mod_eq_of_lt hlt]

/-- The sum `x + ((x >> 8) & M)` on four packed lanes. -/
theorem lanes4_presum (x0 x1 x2 x3 : Nat) (h0 : x0 + x0 / 256 ≤ 65535)
    (h1 : x1 + x1 / 256 ≤ 65535) (h2 : x2 + x2 / 256 ≤ 65535) (h3 : x3 + x3 / 256 ≤ 65535) :
    u64 (lanes4 x0 x1 x2 x3 + ((lanes4 x0 x1 x2 x3 >>> 8) &&& 0x00FF00FF00FF00FF))
      = lanes4 (x0 + x0 / 256) (x1 + x1 / 256) (x2 + x2 / 256) (x3 + x3 / 256) := by
  rw [lanes4_shr8_mask x0 x1 x2 x3 (by omega) (by omega) (by omega)]
  have e : lanes4 x0 x1 x2 x3 + lanes4 (x0 / 256) (x1 / 256) (x2 / 256) (x3 / 256 % 256)
      = lanes4 (x0 + x0 / 256) (x1 + x1 / 256) (x2 + x2 / 256) (x3 + x3 / 256) := by
    unfold lanes4; omega
  have hlt : lanes4 (x0 + x0 / 256) (x1 + x1 / 256) (x2 + x2 / 256) (x3 + x3 / 256) < 2 ^ 64 := by
    unfold lanes4; omega
  rw [e, u64, Nat.mod_eq_of_lt hlt]

theorem blaTerm_le (S D c : Nat) : blaTerm S D c ≤ 65025 := by
  unfold blaTerm
  have hA := getb_lt S 3
  have := blend_le (if c = 3 then 255 else dbcB_getb S c) (dbcB_getb D c) (dbcB_getb S 3)
    (by split; norm_num; exact getb_lt S c) (getb_lt D c) hA
  rw [Nat.mul_comm (dbcB_getb S 3), Nat.mul_comm (255 - dbcB_getb S 3)]
  exact this

theorem blpTerm_le (S D c : Nat) : blpTerm S D c ≤ 65025 :=
  scale_le (dbcB_getb D c) (dbcB_getb S 3) (getb_lt D c)

theorem laneRound_lt (n : Nat) (h : n ≤ 65025) : laneRound n < 65536 := by
  unfold laneRound; omega

/-- The 32-bit block of `dbcB_bla_1_c` in terms of its words before the closing shift. -/
theorem bla_blend32_sum (S D : Nat) :
    bla_blend32 S D
      = ((bla_sum32 (S >>> 24) (sub32 255 (S >>> 24)) ((S ||| 0xFF000000) &&& 0x00FF00FF)
            (D &&& 0x00FF00FF) >>> 8) &&& 0x00FF00FF)
        ^^^ u32 (((bla_sum32 (S >>> 24) (sub32 255 (S >>> 24))
            (((S ||| 0xFF000000) >>> 8) &&& 0x00FF00FF) ((D >>> 8) &&& 0x00FF00FF) >>> 8)
              &&& 0x00FF00FF) <<< 8) := rfl

/-- The 64-bit block of `dbcB_bla_1_c` in terms of its word before the closing shift. -/
theorem bla_blend64_sum (S D : Nat) :
    bla_blend64 S D
      = u32 (((bla_sum64 (S >>> 24) (sub32 255 (S >>> 24))
            (u64 ((S ||| 0xFF000000) &&& 0x00FF00FF)
              ^^^ u64 (u64 ((S ||| 0xFF000000) &&& 0xFF00FF00) <<< 24))
            (u64 (D &&& 0x00FF00FF) ^^^ u64 (u64 (D &&& 0xFF00FF00) <<< 24)) >>> 8)
              &&& DBCB_C64 0x00FF00FF 0x00FF00FF)
          ^^^ ((((bla_sum64 (S >>> 24) (sub32 255 (S >>> 24))
            (u64 ((S ||| 0xFF000000) &&& 0x00FF00FF)
              ^^^ u64 (u64 ((S ||| 0xFF000000) &&& 0xFF00FF00) <<< 24))
            (u64 (D &&& 0x00FF00FF) ^^^ u64 (u64 (D &&& 0xFF00FF00) <<< 24)) >>> 8)
              &&& DBCB_C64 0x00FF00FF 0x00FF00FF)) >>> 24)) := rfl

/-- The lanes of the words of the 32-bit block of `dbcB_bla_1_c`. -/
theorem bla_sum32_lanes (S D : Nat) (hS : S < 2 ^ 32) :
    bla_sum32 (S >>> 24) (sub32 255 (S >>> 24)) ((S ||| 0xFF000000) &&& 0x00FF00FF)
        (D &&& 0x00FF00FF)
      = lanes2 (laneRound (blaTerm S D 0)) (laneRound (blaTerm S D 2)) ∧
    bla_sum32 (S >>> 24) (sub32 255 (S >>> 24)) (((S ||| 0xFF000000) >>> 8) &&& 0x00FF00FF)
        ((D >>> 8) &&& 0x00FF00FF)
      = lanes2 (laneRound (blaTerm S D 1)) (laneRound (blaTerm S D 3)) := by
  obtain ⟨g0, g1, g2, g3⟩ := getb_or_FF000000 S hS
  have hA := getb_lt S 3
  have b0 := blaTerm_le S D 0
  have b1 := blaTerm_le S D 1
  have b2 := blaTerm_le S D 2
  have b3 := blaTerm_le S D 3
  unfold blaTerm at b0 b1 b2 b3
  simp only [show ((0 : Nat) = 3) = False by simp, show ((1 : Nat) = 3) = False by simp,
    show ((2 : Nat) = 3) = False by simp, if_false, if_true] at b0 b1 b2 b3
  unfold bla_sum32 laneRound blaTerm
  simp only [shr24_eq_getb S hS, sub32_255 _ hA, word_even (S ||| 0xFF000000),
    word_odd (S ||| 0xFF000000), word_even D, word_odd D, g0, g1, g2, g3,
    show ((0 : Nat) = 3) = False by simp, show ((1 : Nat) = 3) = False by simp,
    show ((2 : Nat) = 3) = False by simp, if_false, if_true]
  rw [lanes2_blend _ _ _ _ _ _ b0 b2, lanes2_blend _ _ _ _ _ _ b1 b3,
    lanes2_presum _ _ (by omega) (by omega), lanes2_presum _ _ (by omega) (by omega)]
  exact ⟨rfl, rfl⟩

/-- The lanes of the word of the 64-bit block of `dbcB_bla_1_c`. -/
theorem bla_sum64_lanes (S D : Nat) (hS : S < 2 ^ 32) :
    bla_sum64 (S >>> 24) (sub32 255 (S >>> 24))
        (u64 ((S ||| 0xFF000000) &&& 0x00FF00FF)
          ^^^ u64 (u64 ((S ||| 0xFF000000) &&& 0xFF00FF00) <<< 24))
        (u64 (D &&& 0x00FF00FF) ^^^ u64 (u64 (D &&& 0xFF00FF00) <<< 24))
      = lanes4 (laneRound (blaTerm S D 0)) (laneRound (blaTerm S D 2))
          (laneRound (blaTerm S D 1)) (laneRound (blaTerm S D 3)) := by
  obtain ⟨g0, g1, g2, g3⟩ := getb_or_FF000000 S hS
  have hA := getb_lt S 3
  have b0 := blaTerm_le S D 0
  have b1 := blaTerm_le S D 1
  have b2 := blaTerm_le S D 2
  have b3 := blaTerm_le S D 3
  unfold blaTerm at b0 b1 b2 b3
  simp only [show ((0 : Nat) = 3) = False by simp, show ((1 : Nat) = 3) = False by simp,
    show ((2 : Nat) = 3) = False by simp, if_false, if_true] at b0 b1 b2 b3
  unfold bla_sum64 laneRound blaTerm
  simp only [shr24_eq_getb S hS, sub32_255 _ hA, word_lanes4 (S ||| 0xFF000000), word_lanes4 D,
    g0, g1, g2, g3, C64_mask, C64_half,
    show ((0 : Nat) = 3) = False by simp, show ((1 : Nat) = 3) = False by simp,
    show ((2 : Nat) = 3) = False by simp, if_false, if_true]
  rw [lanes4_blend _ _ _ _ _ _ _ _ _ _ b0 b2 b1 b3,
    lanes4_presum _ _ _ _ (by omega) (by omega) (by omega) (by omega)]

/-- The 32-bit block of `dbcB_blp_1_c` in terms of its words before the first shift. -/
theorem blp_blend32_sum (S D : Nat) :
    blp_blend32 S D
      = (let M := 0x00FF00FF
         let L := u32 (((blp_sum32 (sub32 255 (S >>> 24)) (D &&& M) >>> 8) &&& M) + (S &&& M))
         let H := u32 (((blp_sum32 (sub32 255 (S >>> 24)) ((D >>> 8) &&& M) >>> 8) &&& M)
            + ((S >>> 8) &&& M))
         let CL := L &&& u32 (M <<< 8)
         let CH := H &&& u32 (M <<< 8)
         let CL := sub32 CL (CL >>> 8)
         let CH := sub32 CH (CH >>> 8)
         let L := (L &&& M) ||| CL
         let H := (H &&& M) ||| CH
         L ^^^ u32 (H <<< 8)) := rfl

/-- The 64-bit block of `dbcB_blp_1_c` in terms of its word before the first shift. -/
theorem blp_blend64_sum (S D : Nat) :
    blp_blend64 S D
      = (let M := DBCB_C64 0x00FF00FF 0x00FF00FF
         let St := u64 (S &&& 0x00FF00FF) ^^^ u64 (u64 (S &&& 0xFF00FF00) <<< 24)
         let Dt := u64 (D &&& 0x00FF00FF) ^^^ u64 (u64 (D &&& 0xFF00FF00) <<< 24)
         let T := u64 (((blp_sum64 (sub32 255 (S >>> 24)) Dt >>> 8) &&& M) + St)
         let C := T &&& u64 (M <<< 8)
         let C := sub64 C (C >>> 8)
         let T := (T &&& M) ||| C
         u32 (T ^^^ (T >>> 24))) := rfl

/-- The lanes of the words of the 32-bit block of `dbcB_blp_1_c`, before the first shift and
after the addition of the source. -/
theorem blp_sum32_lanes (S D : Nat) (hS : S < 2 ^ 32) :
    blp_sum32 (sub32 255 (S >>> 24)) (D &&& 0x00FF00FF)
      = lanes2 (laneRound (blpTerm S D 0)) (laneRound (blpTerm S D 2)) ∧
    blp_sum32 (sub32 255 (S >>> 24)) ((D >>> 8) &&& 0x00FF00FF)
      = lanes2 (laneRound (blpTerm S D 1)) (laneRound (blpTerm S D 3)) ∧
    u32 (((blp_sum32 (sub32 255 (S >>> 24)) (D &&& 0x00FF00FF) >>> 8) &&& 0x00FF00FF)
        + (S &&& 0x00FF00FF))
      = lanes2 (rdiv255 (blpTerm S D 0) + dbcB_getb S 0)
          (rdiv255 (blpTerm S D 2) + dbcB_getb S 2) ∧
    u32 (((blp_sum32 (sub32 255 (S >>> 24)) ((D >>> 8) &&& 0x00FF00FF) >>> 8) &&& 0x00FF00FF)
        + ((S >>> 8) &&& 0x00FF00FF))
      = lanes2 (rdiv255 (blpTerm S D 1) + dbcB_getb S 1)
          (rdiv255 (blpTerm S D 3) + dbcB_getb S 3) := by
  have hA := getb_lt S 3
  have s0 := getb_lt S 0
  have s1 := getb_lt S 1
  have s2 := getb_lt S 2
  have b0 := blpTerm_le S D 0
  have b1 := blpTerm_le S D 1
  have b2 := blpTerm_le S D 2
  have b3 := blpTerm_le S D 3
  have r0 := rdiv255_le _ b0
  have r1 := rdiv255_le _ b1
  have r2 := rdiv255_le _ b2
  have r3 := rdiv255_le _ b3
  have e0 : blp_sum32 (sub32 255 (S >>> 24)) (D &&& 0x00FF00FF)
      = lanes2 (laneRound (blpTerm S D 0)) (laneRound (blpTerm S D 2)) := by
    unfold blpTerm at b0 b2
    unfold blp_sum32 laneRound blpTerm
    simp only [shr24_eq_getb S hS, sub32_255 _ hA, word_even D]
    rw [lanes2_scale _ _ _ b0 b2, lanes2_presum _ _ (by omega) (by omega)]
  have e1 : blp_sum32 (sub32 255 (S >>> 24)) ((D >>> 8) &&& 0x00FF00FF)
      = lanes2 (laneRound (blpTerm S D 1)) (laneRound (blpTerm S D 3)) := by
    unfold blpTerm at b1 b3
    unfold blp_sum32 laneRound blpTerm
    simp only [shr24_eq_getb S hS, sub32_255 _ hA, word_odd D]
    rw [lanes2_scale _ _ _ b1 b3, lanes2_presum _ _ (by omega) (by omega)]
  have q : ∀ n, n ≤ 65025 → laneRound n / 256 = rdiv255 n := by
    intro n hn
    unfold laneRound rdiv255
    exact blinn_div255 n (by omega)
  have l0 := laneRound_lt _ b0
  have l1 := laneRound_lt _ b1
  have l2 := laneRound_lt _ b2
  have l3 := laneRound_lt _ b3
  refine ⟨e0, e1, ?_, ?_⟩
  · rw [e0, lanes2_shr8_mask _ _ (by omega), word_even S, q _ b0, q _ b2,
      Nat.mod_eq_of_lt (by omega), lanes2_add _ _ _ _ (by omega) (by omega)]
  · rw [e1, lanes2_shr8_mask _ _ (by omega), word_odd S, q _ b1, q _ b3,
      Nat.mod_eq_of_lt (by omega), lanes2_add _ _ _ _ (by omega) (by omega)]

/-- The lanes of the word of the 64-bit block of `dbcB_blp_1_c`, before the first shift and
after the addition of the source. -/
theorem blp_sum64_lanes (S D : Nat) (hS : S < 2 ^ 32) :
    blp_sum64 (sub32 255 (S >>> 24))
        (u64 (D &&& 0x00FF00FF) ^^^ u64 (u64 (D &&& 0xFF00FF00) <<< 24))
      = lanes4 (laneRound (blpTerm S D 0)) (laneRound (blpTerm S D 2))
          (laneRound (blpTerm S D 1)) (laneRound (blpTerm S D 3)) ∧
    u64 (((blp_sum64 (sub32 255 (S >>> 24))
          (u64 (D &&& 0x00FF00FF) ^^^ u64 (u64 (D &&& 0xFF00FF00) <<< 24)) >>> 8)
            &&& DBCB_C64 0x00FF00FF 0x00FF00FF)
        + (u64 (S &&& 0x00FF00FF) ^^^ u64 (u64 (S &&& 0xFF00FF00) <<< 24)))
      = lanes4 (rdiv255 (blpTerm S D 0) + dbcB_getb S 0)
          (rdiv255 (blpTerm S D 2) + dbcB_getb S 2)
          (rdiv255 (blpTerm S D 1) + dbcB_getb S 1)
          (rdiv255 (blpTerm S D 3) + dbcB_getb S 3) := by
  have hA := getb_lt S 3
  have s0 := getb_lt S 0
  have s1 := getb_lt S 1
  have s2 := getb_lt S 2
  have b0 := blpTerm_le S D 0
  have b1 := blpTerm_le S D 1
  have b2 := blpTerm_le S D 2
  have b3 := blpTerm_le S D 3
  have r0 := rdiv255_le _ b0
  have r1 := rdiv255_le _ b1
  have r2 := rdiv255_le _ b2
  have r3 := rdiv255_le _ b3
  have e0 : blp_sum64 (sub32 255 (S >>> 24))
        (u64 (D &&& 0x00FF00FF) ^^^ u64 (u64 (D &&& 0xFF00FF00) <<< 24))
      = lanes4 (laneRound (blpTerm S D 0)) (laneRound (blpTerm S D 2))
          (laneRound (blpTerm S D 1)) (laneRound (blpTerm S D 3)) := by
    unfold blpTerm at b0 b1 b2 b3
    unfold blp_sum64 laneRound blpTerm
    simp only [shr24_eq_getb S hS, sub32_255 _ hA, word_lanes4 D, C64_mask, C64_half]
    rw [lanes4_scale _ _ _ _ _ b0 b2 b1 b3,
      lanes4_presum _ _ _ _ (by omega) (by omega) (by omega) (by omega)]
  have q : ∀ n, n ≤ 65025 → laneRound n / 256 = rdiv255 n := by
    intro n hn
    unfold laneRound rdiv255
    exact blinn_div255 n (by omega)
  have l0 := laneRound_lt _ b0
  have l1 := laneRound_lt _ b1
  have l2 := laneRound_lt _ b2
  have l3 := laneRound_lt _ b3
  refine ⟨e0, ?_⟩
  rw [e0, C64_mask, lanes4_shr8_mask _ _ _ _ (by omega) (by omega) (by omega), word_lanes4 S,
    q _ b0, q _ b1, q _ b2, q _ b3, Nat.mod_eq_of_lt (by omega),
    lanes4_add _ _ _ _ _ _ _ _ (by omega) (by omega) (by omega) (by omega)]

/-- The per-channel path of `dbcB_bla_1_c` gives the rounded blend of every channel. -/
theorem bla_channels_eq (P : Platform) (S D : Nat) :
    dbcB_4x8to32
      (dbcB_cla P (dbcB_getb S 0) (dbcB_getb D 0) (dbcB_getb S 3))
      (dbcB_cla P (dbcB_getb S 1) (dbcB_getb D 1) (dbcB_getb S 3))
      (dbcB_cla P (dbcB_getb S 2) (dbcB_getb D 2) (dbcB_getb S 3))
      (dbcB_cla P 255 (dbcB_getb D 3) (dbcB_getb S 3))
    = pix4
      (rdiv255 (dbcB_getb S 3 * dbcB_getb S 0 + (255 - dbcB_getb S 3) * dbcB_getb D 0))
      (rdiv255 (dbcB_getb S 3 * dbcB_getb S 1 + (255 - dbcB_getb S 3) * dbcB_getb D 1))
      (rdiv255 (dbcB_getb S 3 * dbcB_getb S 2 + (255 - dbcB_getb S 3) * dbcB_getb D 2))
      (rdiv255 (dbcB_getb S 3 * 255 + (255 - dbcB_getb S 3) * dbcB_getb D 3)) := by
  have hA := getb_lt S 3
  have c0 := dbcB_cla_eq P _ _ _ (getb_lt S 0) (getb_lt D 0) hA
  have c1 := dbcB_cla_eq P _ _ _ (getb_lt S 1) (getb_lt D 1) hA
  have c2 := dbcB_cla_eq P _ _ _ (getb_lt S 2) (getb_lt D 2) hA
  have c3 := dbcB_cla_eq P 255 _ _ (by norm_num) (getb_lt D 3) hA
  have b0 := blend_le (dbcB_getb S 0) (dbcB_getb D 0) _ (getb_lt S 0) (getb_lt D 0) hA
  have b1 := blend_le (dbcB_getb S 1) (dbcB_getb D 1) _ (getb_lt S 1) (getb_lt D 1) hA
  have b2 := blend_le (dbcB_getb S 2) (dbcB_getb D 2) _ (getb_lt S 2) (getb_lt D 2) hA
  have b3 := blend_le 255 (dbcB_getb D 3) _ (by norm_num) (getb_lt D 3) hA
  rw [c0, c1, c2, c3, dbcB_4x8to32_eq _ _ _ _
    (Nat.lt_succ_of_le (rdiv255_le _ b0)) (Nat.lt_succ_of_le (rdiv255_le _ b1))
    (Nat.lt_succ_of_le (rdiv255_le _ b2)) (Nat.lt_succ_of_le (rdiv255_le _ b3))]
  simp only [Nat.mul_comm]

/-- The per-channel path of `dbcB_blp_1_c` gives the saturated sum of every channel. -/
theorem blp_channels_eq (P : Platform) (S D : Nat) :
    dbcB_4x8to32
      (dbcB_clp P (dbcB_getb S 0) (dbcB_getb D 0) (dbcB_getb S 3))
      (dbcB_clp P (dbcB_getb S 1) (dbcB_getb D 1) (dbcB_getb S 3))
      (dbcB_clp P (dbcB_getb S 2) (dbcB_getb D 2) (dbcB_getb S 3))
      (dbcB_clp P (dbcB_getb S 3) (dbcB_getb D 3) (dbcB_getb S 3))
    = pix4
      (min 255 (rdiv255 ((255 - dbcB_getb S 3) * dbcB_getb D 0) + dbcB_getb S 0))
      (min 255 (rdiv255 ((255 - dbcB_getb S 3) * dbcB_getb D 1) + dbcB_getb S 1))
      (min 255 (rdiv255 ((255 - dbcB_getb S 3) * dbcB_getb D 2) + dbcB_getb S 2))
      (min 255 (rdiv255 ((255 - dbcB_getb S 3) * dbcB_getb D 3) + dbcB_getb S 3)) := by
  have hA := getb_lt S 3
  rw [dbcB_clp_eq P _ _ _ (getb_lt S 0) (getb_lt D 0) hA,
    dbcB_clp_eq P _ _ _ (getb_lt S 1) (getb_lt D 1) hA,
    dbcB_clp_eq P _ _ _ (getb_lt S 2) (getb_lt D 2) hA,
    dbcB_clp_eq P _ _ _ (getb_lt S 3) (getb_lt D 3) hA,
    dbcB_4x8to32_eq _ _ _ _ (by omega) (by omega) (by omega) (by omega)]

/-- C21: for every source word `S` and destination word `D`, the kernels `dbcB_bla_1_c` and
`dbcB_blp_1_c` give the same destination on any two platforms, so whichever of their three
paths is compiled; and the three blocks themselves agree: the per-channel block
(`dbcB_cla`, `dbcB_clp`), the block on two 16-bit lanes in each of two 32-bit words, and the
block on four 16-bit lanes in a 64-bit word. In the packed blocks every word, before its
first shift (and, in `dbcB_blp_1_c`, after the addition of the source), consists of the
lane values computed without a bound, each below `2^16`: no lane carries into its neighbour. -/
theorem C21_blend_paths_agree (P Q : Platform) (S D : Nat) (hS : S < 2 ^ 32)
    (hD : D < 2 ^ 32) :
    (dbcB_bla_1_c P S D = dbcB_bla_1_c Q S D ∧ dbcB_blp_1_c P S D = dbcB_blp_1_c Q S D) ∧
    (dbcB_4x8to32
        (dbcB_cla P (dbcB_getb S 0) (dbcB_getb D 0) (dbcB_getb S 3))
        (dbcB_cla P (dbcB_getb S 1) (dbcB_getb D 1) (dbcB_getb S 3))
        (dbcB_cla P (dbcB_getb S 2) (dbcB_getb D 2) (dbcB_getb S 3))
        (dbcB_cla P 255 (dbcB_getb D 3) (dbcB_getb S 3)) = bla_blend32 S D ∧
      bla_blend32 S D = bla_blend64 S D) ∧
    (dbcB_4x8to32
        (dbcB_clp P (dbcB_getb S 0) (dbcB_getb D 0) (dbcB_getb S 3))
        (dbcB_clp P (dbcB_getb S 1) (dbcB_getb D 1) (dbcB_getb S 3))
        (dbcB_clp P (dbcB_getb S 2) (dbcB_getb D 2) (dbcB_getb S 3))
        (dbcB_clp P (dbcB_getb S 3) (dbcB_getb D 3) (dbcB_getb S 3)) = blp_blend32 S D ∧
      blp_blend32 S D = blp_blend64 S D) ∧
    (bla_sum32 (S >>> 24) (sub32 255 (S >>> 24)) ((S ||| 0xFF000000) &&& 0x00FF00FF)
          (D &&& 0x00FF00FF)
        = lanes2 (laneRound (blaTerm S D 0)) (laneRound (blaTerm S D 2)) ∧
      bla_sum32 (S >>> 24) (sub32 255 (S >>> 24)) (((S ||| 0xFF000000) >>> 8) &&& 0x00FF00FF)
          ((D >>> 8) &&& 0x00FF00FF)
        = lanes2 (laneRound (blaTerm S D 1)) (laneRound (blaTerm S D 3)) ∧
      bla_sum64 (S >>> 24) (sub32 255 (S >>> 24))
          (u64 ((S ||| 0xFF000000) &&& 0x00FF00FF)
            ^^^ u64 (u64 ((S ||| 0xFF000000) &&& 0xFF00FF00) <<< 24))
          (u64 (D &&& 0x00FF00FF) ^^^ u64 (u64 (D &&& 0xFF00FF00) <<< 24))
        = lanes4 (laneRound (blaTerm S D 0)) (laneRound (blaTerm S D 2))
            (laneRound (blaTerm S D 1)) (laneRound (blaTerm S D 3)) ∧
      ∀ c : Fin 4, laneRound (blaTerm S D c) < 65536) ∧
    (blp_sum32 (sub32 255 (S >>> 24)) (D &&& 0x00FF00FF)
        = lanes2 (laneRound (blpTerm S D 0)) (laneRound (blpTerm S D 2)) ∧
      blp_sum32 (sub32 255 (S >>> 24)) ((D >>> 8) &&& 0x00FF00FF)
        = lanes2 (laneRound (blpTerm S D 1)) (laneRound (blpTerm S D 3)) ∧
      blp_sum64 (sub32 255 (S >>> 24))
          (u64 (D &&& 0x00FF00FF) ^^^ u64 (u64 (D &&& 0xFF00FF00) <<< 24))
        = lanes4 (laneRound (blpTerm S D 0)) (laneRound (blpTerm S D 2))
            (laneRound (blpTerm S D 1)) (laneRound (blpTerm S D 3)) ∧
      ∀ c : Fin 4, laneRound (blpTerm S D c) < 65536) ∧
    (u32 (((blp_sum32 (sub32 255 (S >>> 24)) (D &&& 0x00FF00FF) >>> 8) &&& 0x00FF00FF)
          + (S &&& 0x00FF00FF))
        = lanes2 (rdiv255 (blpTerm S D 0) + dbcB_getb S 0)
            (rdiv255 (blpTerm S D 2) + dbcB_getb S 2) ∧
      u32 (((blp_sum32 (sub32 255 (S >>> 24)) ((D >>> 8) &&& 0x00FF00FF) >>> 8)
            &&& 0x00FF00FF) + ((S >>> 8) &&& 0x00FF00FF))
        = lanes2 (rdiv255 (blpTerm S D 1) + dbcB_getb S 1)
            (rdiv255 (blpTerm S D 3) + dbcB_getb S 3) ∧
      u64 (((blp_sum64 (sub32 255 (S >>> 24))
            (u64 (D &&& 0x00FF00FF) ^^^ u64 (u64 (D &&& 0xFF00FF00) <<< 24)) >>> 8)
              &&& DBCB_C64 0x00FF00FF 0x00FF00FF)
          + (u64 (S &&& 0x00FF00FF) ^^^ u64 (u64 (S &&& 0xFF00FF00) <<< 24)))
        = lanes4 (rdiv255 (blpTerm S D 0) + dbcB_getb S 0)
            (rdiv255 (blpTerm S D 2) + dbcB_getb S 2)
            (rdiv255 (blpTerm S D 1) + dbcB_getb S 1)
            (rdiv255 (blpTerm S D 3) + dbcB_getb S 3) ∧
      ∀ c : Fin 4, rdiv255 (blpTerm S D c) + dbcB_getb S c < 65536) := by
  refine ⟨⟨?_, ?_⟩, ⟨?_, ?_⟩, ⟨?_, ?_⟩, ⟨(bla_sum32_lanes S D hS).1, (bla_sum32_lanes S D hS).2,
    bla_sum64_lanes S D hS, fun c => laneRound_lt _ (blaTerm_le S D c)⟩,
    ⟨(blp_sum32_lanes S D hS).1, (blp_sum32_lanes S D hS).2.1, (blp_sum64_lanes S D hS).1,
      fun c => laneRound_lt _ (blpTerm_le S D c)⟩,
    ⟨(blp_sum32_lanes S D hS).2.2.1, (blp_sum32_lanes S D hS).2.2.2,
      (blp_sum64_lanes S D hS).2, fun c => ?_⟩⟩
  · rw [dbcB_bla_1_c_eq P S D hS hD, dbcB_bla_1_c_eq Q S D hS hD]
  · rw [dbcB_blp_1_c_eq P S D hS hD, dbcB_blp_1_c_eq Q S D hS hD]
  · rw [bla_channels_eq, bla_blend32_eq S D hS]
  · rw [bla_blend32_eq S D hS, bla_blend64_eq S D hS]
  · rw [blp_channels_eq, blp_blend32_eq S D hS]
  · rw [blp_blend32_eq S D hS, blp_blend64_eq S D hS]
  · have := rdiv255_le _ (blpTerm_le S D c)
    have := getb_lt S c
    omega

theorem C21_blend_paths_agree_witness :
    ((0x80102030 : Nat) < 2 ^ 32 ∧ (0xC0405060 : Nat) < 2 ^ 32) ∧
    dbcB_bla_1_c Platform.int16 0x80102030 0xC0405060
      = dbcB_bla_1_c Platform.lp64 0x80102030 0xC0405060 ∧
    dbcB_blp_1_c Platform.ilp32 0x80102030 0xC0405060
      = dbcB_blp_1_c Platform.lp64 0x80102030 0xC0405060 ∧
    bla_blend32 0x80102030 0xC0405060 = 0xE0283848 ∧
    bla_blend64 0x80102030 0xC0405060 = 0xE0283848 := by
  have h := C21_blend_paths_agree Platform.int16 Platform.lp64 0x80102030 0xC0405060
    (by norm_num) (by norm_num)
  have h2 := C21_blend_paths_agree Platform.ilp32 Platform.lp64 0x80102030 0xC0405060
    (by norm_num) (by norm_num)
  exact ⟨⟨by norm_num, by norm_num⟩, h.1.1, h2.1.2, by decide, by decide⟩

/-! ## Kernels that agree pixel by pixel -/

/-- Two kernels that write inside the same run and act on every pixel of it as the same
function leave the same memory, when the value of a pixel determines its bytes. -/
theorem kernel_eq_of_spec (K1 K2 : Kernel) (n ps : Nat) (hps : 0 < ps) (rd : Mem → Int → Nat)
    (f : Nat → Nat → Nat)
    (hinj : ∀ (m1 m2 : Mem) (a1 a2 : Int), rd m1 a1 = rd m2 a2 →
      ∀ b : Int, 0 ≤ b → b < ((ps : Nat) : Int) → m1 (a1 + b) = m2 (a2 + b))
    (F1 : Frames K1 (n * ps)) (F2 : Frames K2 (n * ps))
    (S1 : PixelSpec K1 n ps rd f) (S2 : PixelSpec K2 n ps rd f) : K1 = K2 := by
  funext src s dst d a
  by_cases ha : d ≤ a ∧ a < d + ((n * ps : Nat) : Int)
  · obtain ⟨t, b, ht, hb0, hb1, hab⟩ := row_position ps n hps d a ha.1 ha.2
    have e := (S1 src s dst d t ht).trans (S2 src s dst d t ht).symm
    have := hinj _ _ _ _ e b hb0 hb1
    rw [hab]
    exact this
  · rw [F1 src s dst d a ha, F2 src s dst d a ha]

/-! ## The trivial branches of the blends -/

theorem getb_zero (c : Nat) : dbcB_getb 0 c = 0 := by
  unfold dbcB_getb u8; simp

theorem rdiv255_zero : rdiv255 0 = 0 := by decide

theorem getb3_of_ge (S : Nat) (hS : S < 2 ^ 32) : dbcB_getb S 3 = 255 ↔ 0xFF000000 ≤ S := by
  rw [← shr24_eq_getb S hS, Nat.shiftRight_eq_div_pow]; omega

theorem getb3_of_le (S : Nat) (hS : S < 2 ^ 32) : dbcB_getb S 3 = 0 ↔ S ≤ 0x00FFFFFF := by
  rw [← shr24_eq_getb S hS, Nat.shiftRight_eq_div_pow]; omega

/-- An opaque source replaces the destination in `dbcB_bla_1_c`. -/
theorem bla_alpha255 (P : Platform) (S D : Nat) (hS : S < 2 ^ 32) (hD : D < 2 ^ 32)
    (h : dbcB_getb S 3 = 255) : dbcB_bla_1_c P S D = S := by
  rw [dbcB_bla_1_c_eq P S D hS hD, h]
  simp only [Nat.sub_self, Nat.zero_mul, Nat.add_zero, rdiv255_mul_255]
  have := pix4_getb S hS
  rw [h] at this
  exact this

/-- A transparent source keeps the destination in `dbcB_bla_1_c`. -/
theorem bla_alpha0 (P : Platform) (S D : Nat) (hS : S < 2 ^ 32) (hD : D < 2 ^ 32)
    (h : dbcB_getb S 3 = 0) : dbcB_bla_1_c P S D = D := by
  rw [dbcB_bla_1_c_eq P S D hS hD, h]
  simp only [Nat.zero_mul, Nat.zero_add, Nat.sub_zero, rdiv255_mul_255]
  exact pix4_getb D hD

/-- An opaque source replaces the destination in `dbcB_bga_1_c`. -/
theorem bga_alpha255 (env : Env) (S D : Nat) (hS : S < 2 ^ 32) (h : dbcB_getb S 3 = 255) :
    dbcB_bga_1_c env S D = S := by
  have h1 := (getb3_of_ge S hS).mp h
  unfold dbcB_bga_1_c
  rw [if_pos (by omega), if_pos (by omega)]

/-- A transparent source keeps the destination in `dbcB_bga_1_c`. -/
theorem bga_alpha0 (env : Env) (S D : Nat) (hS : S < 2 ^ 32) (h : dbcB_getb S 3 = 0) :
    dbcB_bga_1_c env S D = D := by
  have h1 := (getb3_of_le S hS).mp h
  unfold dbcB_bga_1_c
  rw [if_neg (by omega)]

/-- C22: in `dbcB_bla_1_c` (on every platform, so on each of its three paths) and in
`dbcB_bga_1_c` (with any channel functions `dbcB_cga`, so whatever the sRGB conversions
return), a source pixel whose alpha byte is 255 gives the source pixel as the new destination,
and a source pixel whose alpha byte is 0 gives the old destination, for every destination
pixel. -/
theorem C22_opaque_replaces_transparent_keeps (env : Env) (P : Platform) (S D : Nat)
    (hS : S < 2 ^ 32) (hD : D < 2 ^ 32) :
    (dbcB_getb S 3 = 255 → dbcB_bla_1_c P S D = S ∧ dbcB_bga_1_c env S D = S) ∧
    (dbcB_getb S 3 = 0 → dbcB_bla_1_c P S D = D ∧ dbcB_bga_1_c env S D = D) :=
  ⟨fun h => ⟨bla_alpha255 P S D hS hD h, bga_alpha255 env S D hS h⟩,
   fun h => ⟨bla_alpha0 P S D hS hD h, bga_alpha0 env S D hS h⟩⟩

theorem C22_opaque_replaces_transparent_keeps_witness :
    ((0xFF102030 : Nat) < 2 ^ 32 ∧ (0x80405060 : Nat) < 2 ^ 32) ∧
    (dbcB_getb 0xFF102030 3 = 255 →
      dbcB_bla_1_c Platform.lp64 0xFF102030 0x80405060 = 0xFF102030 ∧
      dbcB_bga_1_c Env.sample 0xFF102030 0x80405060 = 0xFF102030) ∧
    (dbcB_getb 0xFF102030 3 = 0 →
      dbcB_bla_1_c Platform.lp64 0xFF102030 0x80405060 = 0x80405060 ∧
      dbcB_bga_1_c Env.sample 0xFF102030 0x80405060 = 0x80405060) :=
  ⟨⟨by norm_num, by norm_num⟩,
   C22_opaque_replaces_transparent_keeps Env.sample Platform.lp64 0xFF102030 0x80405060
    (by norm_num) (by norm_num)⟩

/-- C23: the trivial branches of the multiplication and of the premultiplied blend, linear
(`dbcB_blx_1_c`, `dbcB_blp_1_c`, on every platform) and gamma-corrected (`dbcB_bgx_1_c`,
`dbcB_bgp_1_c`, with any channel functions `dbcB_cgx` and `dbcB_cgp`). In MUL and MUG a zero
source gives 0, a zero destination stays 0 and an all-`0xFF` source keeps the destination; in
PMA and PMG a zero source keeps the destination and a nonzero source over a zero destination
gives the source. -/
theorem C23_trivial_branches (env : Env) (P : Platform) (S D : Nat)
    (hS : S < 2 ^ 32) (hD : D < 2 ^ 32) :
    (dbcB_blx_1_c P 0 D = 0 ∧ dbcB_bgx_1_c env 0 D = 0) ∧
    (dbcB_blx_1_c P S 0 = 0 ∧ dbcB_bgx_1_c env S 0 = 0) ∧
    (dbcB_blx_1_c P 0xFFFFFFFF D = D ∧ dbcB_bgx_1_c env 0xFFFFFFFF D = D) ∧
    (dbcB_blp_1_c P 0 D = D ∧ dbcB_bgp_1_c env 0 D = D) ∧
    (S ≠ 0 → dbcB_blp_1_c P S 0 = S ∧ dbcB_bgp_1_c env S 0 = S) := by
  refine ⟨⟨?_, ?_⟩, ⟨?_, ?_⟩, ⟨?_, ?_⟩, ⟨?_, ?_⟩, fun hne => ⟨?_, ?_⟩⟩
  · simp [dbcB_blx_1_c]
  · simp [dbcB_bgx_1_c]
  · unfold dbcB_blx_1_c
    split_ifs <;> first | rfl | omega
  · unfold dbcB_bgx_1_c
    split_ifs <;> first | rfl | omega
  · simp [dbcB_blx_1_c]
  · simp [dbcB_bgx_1_c]
  · rw [dbcB_blp_1_c_eq P 0 D (by norm_num) hD]
    simp only [getb_zero, Nat.sub_zero, rdiv255_mul_255, Nat.add_zero]
    have h0 := getb_lt D 0
    have h1 := getb_lt D 1
    have h2 := getb_lt D 2
    have h3 := getb_lt D 3
    rw [min_eq_right (by omega), min_eq_right (by omega), min_eq_right (by omega),
      min_eq_right (by omega)]
    exact pix4_getb D hD
  · simp [dbcB_bgp_1_c]
  · rw [dbcB_blp_1_c_eq P S 0 hS (by norm_num)]
    simp only [getb_zero, Nat.mul_zero, rdiv255_zero, Nat.zero_add]
    have h0 := getb_lt S 0
    have h1 := getb_lt S 1
    have h2 := getb_lt S 2
    have h3 := getb_lt S 3
    rw [min_eq_right (by omega), min_eq_right (by omega), min_eq_right (by omega),
      min_eq_right (by omega)]
    exact pix4_getb S hS
  · unfold dbcB_bgp_1_c
    rw [if_pos (Nat.pos_of_ne_zero hne)]
    split
    · rfl
    · rw [if_pos rfl]

theorem C23_trivial_branches_witness :
    ((0x01020304 : Nat) < 2 ^ 32 ∧ (0x80405060 : Nat) < 2 ^ 32) ∧
    (dbcB_blx_1_c Platform.lp64 0 0x80405060 = 0 ∧ dbcB_bgx_1_c Env.sample 0 0x80405060 = 0) ∧
    (dbcB_blx_1_c Platform.lp64 0x01020304 0 = 0 ∧ dbcB_bgx_1_c Env.sample 0x01020304 0 = 0) ∧
    (dbcB_blx_1_c Platform.lp64 0xFFFFFFFF 0x80405060 = 0x80405060 ∧
      dbcB_bgx_1_c Env.sample 0xFFFFFFFF 0x80405060 = 0x80405060) ∧
    (dbcB_blp_1_c Platform.lp64 0 0x80405060 = 0x80405060 ∧
      dbcB_bgp_1_c Env.sample 0 0x80405060 = 0x80405060) ∧
    ((0x01020304 : Nat) ≠ 0 → dbcB_blp_1_c Platform.lp64 0x01020304 0 = 0x01020304 ∧
      dbcB_bgp_1_c Env.sample 0x01020304 0 = 0x01020304) :=
  ⟨⟨by norm_num, by norm_num⟩,
   C23_trivial_branches Env.sample Platform.lp64 0x01020304 0x80405060
    (by norm_num) (by norm_num)⟩


/-! ## The fast path of the alpha test -/

theorem selectFn_f32s (mode : Int) (m a : Bool) :
    selectFn mode m a = some Fn.f32s ↔ mode = 10 ∧ m = true ∧ a = true := by
  by_cases hm : 0 ≤ mode ∧ mode ≤ 11
  · obtain ⟨h0, h1⟩ := hm
    interval_cases mode <;> cases m <;> cases a <;> simp [selectFn]
  · have n10 : ¬ mode = 10 := by omega
    constructor
    · intro h
      exfalso
      unfold selectFn at h
      have n0 : ¬ mode = 0 := by omega
      have n1 : ¬ mode = 1 := by omega
      have n2 : ¬ mode = 2 := by omega
      have n3 : ¬ mode = 3 := by omega
      have n4 : ¬ mode = 4 := by omega
      have n5 : ¬ mode = 5 := by omega
      have n6 : ¬ mode = 6 := by omega
      have n7 : ¬ mode = 7 := by omega
      have n8 : ¬ mode = 8 := by omega
      have n9 : ¬ mode = 9 := by omega
      have n11 : ¬ mode = 11 := by omega
      simp [n0, n1, n2, n3, n4, n5, n6, n7, n8, n9, n10, n11] at h
    · rintro ⟨h, _, _⟩
      exact absurd h n10

/-- What `dbc_blit` launches is the driver `selectFn` gives for the flags of the call. -/
theorem launch_fn (env : Env) (src_w src_h dst_w dst_h x y : Int) (color : Option Color)
    (mode : Int) (L : Launch)
    (h : dbc_blit_launch env src_w src_h dst_w dst_h x y color mode = some L) :
    selectFn mode (modulatedFlags mode color).1 (modulatedFlags mode color).2 = some L.fn := by
  unfold dbc_blit_launch at h
  split at h
  · exact absurd h (by simp)
  · simp only at h
    split at h
    · exact absurd h (by simp)
    · split at h
      · exact absurd h (by simp)
      · rename_i fn hfn
        rw [hfn]
        have := Option.some.inj h
        rw [← this]

/-- The flag `alpha128` is set in the alpha test with `127 < color[0] <= 128` only, and then
`modulated` is set too. -/
theorem alpha128_iff (mode : Int) (color : Option Color) :
    ((modulatedFlags mode color).1 = true ∧ (modulatedFlags mode color).2 = true) ↔
      (mode = 10 ∧ ∃ c, color = some c ∧ (c 0).gt 127 = true ∧ (c 0).le 128 = true) := by
  cases color with
  | none => simp [modulatedFlags]
  | some c =>
    unfold modulatedFlags
    simp only
    by_cases h10 : mode = 10
    · subst h10
      simp only [show ((10 : Int) = 5) = False by simp, show ((10 : Int) = 6) = False by simp,
        show ((10 : Int) = 7) = False by simp, if_false, if_true, Bool.and_eq_true,
        Option.some.injEq, exists_eq_left', true_and]
      constructor
      · rintro ⟨_, h⟩; exact h
      · rintro ⟨h1, h2⟩
        refine ⟨?_, h1, h2⟩
        cases hc : c 0 with
        | nan => rw [hc] at h1; simp [F32.gt] at h1
        | inf n => rw [hc] at h1 h2; cases n <;> simp [F32.gt, F32.le] at h1 h2
        | fin q =>
          rw [hc] at h1 h2
          simp only [F32.gt, F32.le, decide_eq_true_eq] at h1 h2
          simp only [F32.ge, F32.le, decide_eq_true_eq]
          constructor <;> linarith
    · simp only [h10, false_and, iff_false, not_and, Bool.not_eq_true]
      intro _
      split_ifs <;> first | rfl | contradiction

/-- The driver launched is `dbcB_f32s_*` exactly in the alpha test with
`127 < color[0] <= 128`. -/
theorem launch_f32s_iff (env : Env) (src_w src_h dst_w dst_h x y : Int) (color : Option Color)
    (mode : Int) (L : Launch)
    (h : dbc_blit_launch env src_w src_h dst_w dst_h x y color mode = some L) :
    L.fn = Fn.f32s ↔
      (mode = 10 ∧ ∃ c, color = some c ∧ (c 0).gt 127 = true ∧ (c 0).le 128 = true) := by
  have hfn := launch_fn env src_w src_h dst_w dst_h x y color mode L h
  rw [← alpha128_iff]
  constructor
  · intro e
    rw [e] at hfn
    exact ((selectFn_f32s _ _ _).mp hfn).2
  · intro hf
    have h10 : mode = 10 := ((alpha128_iff mode color).mp hf).1
    have := (selectFn_f32s mode _ _).mpr ⟨h10, hf.1, hf.2⟩
    rw [this] at hfn
    exact (Option.some.inj hfn).symm

/-- In the alpha test with `127 < color[0] <= 128` a driver is launched. -/
theorem launch_f32s_some (env : Env) (src_w src_h dst_w dst_h x y : Int) (c : Color)
    (h1 : (c 0).gt 127 = true) (h2 : (c 0).le 128 = true) :
    ∃ L, dbc_blit_launch env src_w src_h dst_w dst_h x y (some c) 10 = some L := by
  cases hc : c 0 with
  | nan => rw [hc] at h1; simp [F32.gt] at h1
  | inf n => rw [hc] at h1 h2; cases n <;> simp [F32.gt, F32.le] at h1 h2
  | fin q =>
    rw [hc] at h1 h2
    simp only [F32.gt, F32.le, decide_eq_true_eq] at h1 h2
    have := launch_alphatest env src_w src_h dst_w dst_h x y c q hc (by linarith) (by linarith)
    exact ⟨_, this⟩

theorem b32s_eq_b32t (S D : Nat) : dbcB_b32s_1_c S D = dbcB_b32t_1_c 128 S D := by
  unfold dbcB_b32s_1_c dbcB_b32t_1_c
  have : u32 (u32 128 <<< 24) = 0x80000000 := by decide
  rw [this]

/-- The threshold `dbcB_f32t_*` receives for a `color[0]` in `(127, 128]` is 128. -/
theorem headerKeys_128 (c : Color) (t : ℚ) (hc : c 0 = F32.fin t) (h0 : 127 < t)
    (h1 : t ≤ 128) : (headerKeys Fn.f32t (some c)).1 = 128 := by
  have := (headerKeys_alphatest Fn.f32t c t hc (by linarith) (by linarith) rfl).1
  rw [this]
  have e : ⌈t⌉ = 128 := by
    rw [Int.ceil_eq_iff]
    constructor
    · push_cast; linarith
    · push_cast; linarith
  rw [e]
  rfl

/-- The packed block of `dbcB_b32s_2_c` leaves what two calls of `dbcB_b32t_1_c` with threshold
128 leave. -/
theorem b32s_2_eq_twice (E : Bool) :
    pix64 E dbcB_b32s_2_c_packed = twice (pix32 E (dbcB_b32t_1_c 128)) 4 := by
  have e : dbcB_b32t_1_c 128 = dbcB_b32s_1_c := by
    funext S D; exact (b32s_eq_b32t S D).symm
  rw [e]
  have hrd := rdLocal_load32 E
  have h1 : PixelSpec (pix32 E dbcB_b32s_1_c) 1 4 (dbcb_load32 E) dbcB_b32s_1_c :=
    pixelSpec_pix32 _ _ _ b32s_mod
  have F1 : Frames (pix32 E dbcB_b32s_1_c) (1 * 4) := frames_pix32 _ _
  have h2a := pixelSpec_twice _ 1 4 _ _ 4 (by norm_num) hrd F1 h1
  have F2a : Frames (twice (pix32 E dbcB_b32s_1_c) 4) (2 * 4) :=
    frames_twice _ 4 (frames_pix32 _ _)
  have h2b : PixelSpec (pix64 E dbcB_b32s_2_c_packed) 2 4 (dbcb_load32 E) dbcB_b32s_1_c :=
    pixelSpec_pix64_lanes32 _ _ _ (fun S D j hj => dbcB_b32s_2_c_packed_lane S D j hj)
  exact kernel_eq_of_spec _ _ 2 4 (by norm_num) _ _ (load32_inj E)
    (frames_pix64 E dbcB_b32s_2_c_packed) F2a h2b h2a

/-- C30: `dbc_blit` launches the driver of the threshold-128 kernels (`dbcB_f32s_*`) exactly
when the mode is ALPHATEST (10) and `127 < color[0] <= 128`, and in that case it does launch a
driver; the general path would have received the threshold 128 for such a color; and the
kernels agree: `dbcB_b32s_1_c` is `dbcB_b32t_1_c` with threshold 128 on every pair of words,
and on memory the packed block of `dbcB_b32s_2_c` leaves what `dbcB_b32t_1_c` with threshold
128 leaves when applied to each of the two pixels in turn. -/
theorem C30_alpha128_fast_path (env : Env) (src_w src_h dst_w dst_h x y : Int)
    (color : Option Color) (mode : Int) (E : Bool) (S D : Nat) :
    (∀ L, dbc_blit_launch env src_w src_h dst_w dst_h x y color mode = some L →
      (L.fn = Fn.f32s ↔
        (mode = 10 ∧ ∃ c, color = some c ∧ (c 0).gt 127 = true ∧ (c 0).le 128 = true))) ∧
    (∀ c, color = some c → mode = 10 → (c 0).gt 127 = true → (c 0).le 128 = true →
      ∃ L, dbc_blit_launch env src_w src_h dst_w dst_h x y color mode = some L ∧
        L.fn = Fn.f32s) ∧
    (∀ c t, c 0 = F32.fin t → 127 < t → t ≤ 128 → (headerKeys Fn.f32t (some c)).1 = 128) ∧
    dbcB_b32s_1_c S D = dbcB_b32t_1_c 128 S D ∧
    pix32 E dbcB_b32s_1_c = pix32 E (dbcB_b32t_1_c 128) ∧
    pix64 E dbcB_b32s_2_c_packed = twice (pix32 E (dbcB_b32t_1_c 128)) 4 := by
  refine ⟨fun L h => launch_f32s_iff env src_w src_h dst_w dst_h x y color mode L h, ?_,
    fun c t hc h0 h1 => headerKeys_128 c t hc h0 h1, b32s_eq_b32t S D, ?_, b32s_2_eq_twice E⟩
  · intro c hc hm h1 h2
    subst hc hm
    obtain ⟨L, hL⟩ := launch_f32s_some env src_w src_h dst_w dst_h x y c h1 h2
    exact ⟨L, hL, (launch_f32s_iff env src_w src_h dst_w dst_h x y _ _ L hL).mpr
      ⟨rfl, c, rfl, h1, h2⟩⟩
  · have e : dbcB_b32t_1_c 128 = dbcB_b32s_1_c := by
      funext S D; exact (b32s_eq_b32t S D).symm
    rw [e]

theorem C30_alpha128_fast_path_witness :
    (∃ L, dbc_blit_launch Env.sample 4 4 4 4 0 0 (some colorKey127h) 10 = some L ∧
      L.fn = Fn.f32s) ∧
    (headerKeys Fn.f32t (some colorKey127h)).1 = 128 ∧
    dbcB_b32s_1_c 0x80000000 7 = 0x80000000 ∧ dbcB_b32t_1_c 128 0x7FFFFFFF 7 = 7 := by
  have h := C30_alpha128_fast_path Env.sample 4 4 4 4 0 0 (some colorKey127h) 10 false
    0x80000000 7
  refine ⟨h.2.1 colorKey127h rfl rfl
      (by unfold colorKey127h; simp only [F32.gt, decide_eq_true_eq]; norm_num)
      (by unfold colorKey127h; simp only [F32.le, decide_eq_true_eq]; norm_num),
    h.2.2.1 colorKey127h (255 / 2) rfl (by norm_num) (by norm_num), by decide, by decide⟩


/-! ## The masks of the packed kernels -/

/-- A byte of the mask of a selection `(S&m)^(D&~m)`, from the bytes the selection gives for
an all-zero and for an all-ones destination. -/
theorem mask_byte (S m ones j r0 r1 : Nat) (hones : dbcB_getb ones j = 255)
    (h0 : dbcB_getb ((S &&& m) ^^^ (0 &&& (m ^^^ ones))) j = r0)
    (h1 : dbcB_getb ((S &&& m) ^^^ (ones &&& (m ^^^ ones))) j = r1) :
    dbcB_getb m j = 255 ^^^ (r0 ^^^ r1) := by
  rw [getb_xor, getb_and, getb_and, getb_zero, Nat.zero_and, Nat.xor_zero] at h0
  rw [getb_xor, getb_and, getb_and, getb_xor, hones] at h1
  have hlt : dbcB_getb m j ^^^ 255 < 2 ^ 8 :=
    Nat.xor_lt_two_pow (getb_lt m j) (by norm_num)
  have e : 255 &&& (dbcB_getb m j ^^^ 255) = dbcB_getb m j ^^^ 255 := by
    rw [Nat.and_comm]
    have := Nat.and_pow_two_sub_one_eq_mod (dbcB_getb m j ^^^ 255) 8
    norm_num at this
    rw [this]
    exact Nat.mod_eq_of_lt hlt
  rw [e] at h1
  rw [← h0, ← h1, Nat.xor_cancel_left, Nat.xor_comm (dbcB_getb m j), Nat.xor_cancel_left]

theorem ones32_byte (j : Nat) (hj : j < 4) : dbcB_getb 0xFFFFFFFF j = 255 := by
  interval_cases j <;> rfl

theorem ones64_byte (j : Nat) (hj : j < 8) : dbcB_getb 0xFFFFFFFFFFFFFFFF j = 255 := by
  interval_cases j <;> rfl

/-- The byte of a mask recovered from a selection between the source byte and the
destination byte. -/
theorem mask_sel (c : Prop) [Decidable c] (s z o : Nat) (hz : z = 0) (ho : o = 255) :
    255 ^^^ ((if c then s else z) ^^^ (if c then s else o)) = if c then 255 else 0 := by
  subst hz ho
  split <;> simp [Nat.xor_self]

/-- The mask of `dbcB_b8m_4_c` is `0xFF` in the bytes where the source differs from the key and
0 in the others. -/
theorem dbcB_b8m_4_c_mask_byte (key S j : Nat) (hkey : key < 256) (hj : j < 4) :
    dbcB_getb (dbcB_b8m_4_c_mask key S) j = if dbcB_getb S j ≠ key then 0xFF else 0 := by
  have h0 := dbcB_b8m_4_c_packed_lane key S 0 j hkey hj
  have h1 := dbcB_b8m_4_c_packed_lane key S 0xFFFFFFFF j hkey hj
  unfold dbcB_b8m_1_c at h0 h1
  rw [mask_byte S (dbcB_b8m_4_c_mask key S) 0xFFFFFFFF j _ _ (ones32_byte j hj) h0 h1,
    mask_sel _ _ _ _ (getb_zero j) (ones32_byte j hj)]

/-- The mask of `dbcB_b8m_8_c` is `0xFF` in the bytes where the source differs from the key and
0 in the others. -/
theorem dbcB_b8m_8_c_mask_byte (key S j : Nat) (hkey : key < 256) (hj : j < 8) :
    dbcB_getb (dbcB_b8m_8_c_mask key S) j = if dbcB_getb S j ≠ key then 0xFF else 0 := by
  have h0 := dbcB_b8m_8_c_packed_lane key S 0 j hkey hj
  have h1 := dbcB_b8m_8_c_packed_lane key S 0xFFFFFFFFFFFFFFFF j hkey hj
  unfold dbcB_b8m_1_c at h0 h1
  rw [mask_byte S (dbcB_b8m_8_c_mask key S) 0xFFFFFFFFFFFFFFFF j _ _ (ones64_byte j hj) h0 h1,
    mask_sel _ _ _ _ (getb_zero j) (ones64_byte j hj)]

/-- A lane of a mask whose two bytes are `0xFF` or 0 together. -/
theorem mask_lane (m j : Nat) (c : Prop) [Decidable c]
    (h0 : dbcB_getb m (2 * j) = if c then 255 else 0)
    (h1 : dbcB_getb m (2 * j + 1) = if c then 255 else 0) :
    lane16 m j = if c then 0xFFFF else 0 := by
  unfold lane16
  rw [h0, h1]
  split <;> rfl

/-- The mask of `dbcB_b16m_4_c` is `0xFFFF` in the lanes where the source differs from the key
and 0 in the others. -/
theorem dbcB_b16m_4_c_mask_lane (key S j : Nat) (hkey : key < 65536) (hj : j < 4) :
    lane16 (dbcB_b16m_4_c_mask key S) j = if lane16 S j ≠ key then 0xFFFF else 0 := by
  have e0 : 2 * j / 2 = j := by omega
  have e1 : (2 * j + 1) / 2 = j := by omega
  have a0 := dbcB_b16m_4_c_packed_byte key S 0 (2 * j) hkey (by omega)
  have a1 := dbcB_b16m_4_c_packed_byte key S 0xFFFFFFFFFFFFFFFF (2 * j) hkey (by omega)
  have b0 := dbcB_b16m_4_c_packed_byte key S 0 (2 * j + 1) hkey (by omega)
  have b1 := dbcB_b16m_4_c_packed_byte key S 0xFFFFFFFFFFFFFFFF (2 * j + 1) hkey (by omega)
  rw [e0] at a0 a1
  rw [e1] at b0 b1
  apply mask_lane
  · rw [mask_byte S (dbcB_b16m_4_c_mask key S) 0xFFFFFFFFFFFFFFFF (2 * j) _ _
      (ones64_byte _ (by omega)) a0 a1,
      mask_sel _ _ _ _ (getb_zero _) (ones64_byte _ (by omega))]
  · rw [mask_byte S (dbcB_b16m_4_c_mask key S) 0xFFFFFFFFFFFFFFFF (2 * j + 1) _ _
      (ones64_byte _ (by omega)) b0 b1,
      mask_sel _ _ _ _ (getb_zero _) (ones64_byte _ (by omega))]

/-- The mask of `dbcB_b5551_2_c` is `0xFFFF` in the lanes whose source has its high bit set and
0 in the others. -/
theorem dbcB_b5551_2_c_mask_lane (S j : Nat) (hj : j < 2) :
    lane16 (dbcB_b5551_2_c_mask S) j = if 0x8000 ≤ lane16 S j then 0xFFFF else 0 := by
  have e0 : 2 * j / 2 = j := by omega
  have e1 : (2 * j + 1) / 2 = j := by omega
  have a0 := dbcB_b5551_2_c_packed_byte S 0 (2 * j) (by omega)
  have a1 := dbcB_b5551_2_c_packed_byte S 0xFFFFFFFF (2 * j) (by omega)
  have b0 := dbcB_b5551_2_c_packed_byte S 0 (2 * j + 1) (by omega)
  have b1 := dbcB_b5551_2_c_packed_byte S 0xFFFFFFFF (2 * j + 1) (by omega)
  rw [e0] at a0 a1
  rw [e1] at b0 b1
  have hc : (0x8000 ≤ lane16 S j) = (dbcB_getb S (2 * j + 1) / 128 = 1) :=
    propext (lane16_ge S j)
  simp only [hc]
  apply mask_lane
  · rw [mask_byte S (dbcB_b5551_2_c_mask S) 0xFFFFFFFF (2 * j) _ _
      (ones32_byte _ (by omega)) a0 a1,
      mask_sel _ _ _ _ (getb_zero _) (ones32_byte _ (by omega))]
  · rw [mask_byte S (dbcB_b5551_2_c_mask S) 0xFFFFFFFF (2 * j + 1) _ _
      (ones32_byte _ (by omega)) b0 b1,
      mask_sel _ _ _ _ (getb_zero _) (ones32_byte _ (by omega))]

/-- The mask of `dbcB_b5551_4_c` is `0xFFFF` in the lanes whose source has its high bit set and
0 in the others. -/
theorem dbcB_b5551_4_c_mask_lane (S j : Nat) (hj : j < 4) :
    lane16 (dbcB_b5551_4_c_mask S) j = if 0x8000 ≤ lane16 S j then 0xFFFF else 0 := by
  have e0 : 2 * j / 2 = j := by omega
  have e1 : (2 * j + 1) / 2 = j := by omega
  have a0 := dbcB_b5551_4_c_packed_byte S 0 (2 * j) (by omega)
  have a1 := dbcB_b5551_4_c_packed_byte S 0xFFFFFFFFFFFFFFFF (2 * j) (by omega)
  have b0 := dbcB_b5551_4_c_packed_byte S 0 (2 * j + 1) (by omega)
  have b1 := dbcB_b5551_4_c_packed_byte S 0xFFFFFFFFFFFFFFFF (2 * j + 1) (by omega)
  rw [e0] at a0 a1
  rw [e1] at b0 b1
  have hc : (0x8000 ≤ lane16 S j) = (dbcB_getb S (2 * j + 1) / 128 = 1) :=
    propext (lane16_ge S j)
  simp only [hc]
  apply mask_lane
  · rw [mask_byte S (dbcB_b5551_4_c_mask S) 0xFFFFFFFFFFFFFFFF (2 * j) _ _
      (ones64_byte _ (by omega)) a0 a1,
      mask_sel _ _ _ _ (getb_zero _) (ones64_byte _ (by omega))]
  · rw [mask_byte S (dbcB_b5551_4_c_mask S) 0xFFFFFFFFFFFFFFFF (2 * j + 1) _ _
      (ones64_byte _ (by omega)) b0 b1,
      mask_sel _ _ _ _ (getb_zero _) (ones64_byte _ (by omega))]

/-! ## Packed kernels and their one-pixel kernels -/

theorem b8m_4_eq_chain (E : Bool) (key : Nat) (hkey : key < 256) :
    pix32 E (dbcB_b8m_4_c_packed key) = twice (twice (pix8 (dbcB_b8m_1_c key)) 1) 2 := by
  have h1 : PixelSpec (pix8 (dbcB_b8m_1_c key)) 1 1 rd8 (dbcB_b8m_1_c key) :=
    pixelSpec_pix8 _ _ (b8m_mod key)
  have F1 : Frames (pix8 (dbcB_b8m_1_c key)) (1 * 1) := frames_pix8 _
  have h2 := pixelSpec_twice _ 1 1 rd8 _ 1 (by norm_num) rdLocal_rd8 F1 h1
  have F2 : Frames (twice (pix8 (dbcB_b8m_1_c key)) 1) (2 * 1) :=
    frames_twice _ 1 (frames_pix8 _)
  have h4a := pixelSpec_twice _ 2 1 rd8 _ 2 (by norm_num) rdLocal_rd8 F2 h2
  have F4a : Frames (twice (twice (pix8 (dbcB_b8m_1_c key)) 1) 2) (4 * 1) :=
    frames_twice _ 2 F2
  have h4b : PixelSpec (pix32 E (dbcB_b8m_4_c_packed key)) 4 1 rd8 (dbcB_b8m_1_c key) :=
    pixelSpec_pix32_bytes _ _ _ (fun S D j hj => dbcB_b8m_4_c_packed_lane key S D j hkey hj)
  exact kernel_eq_of_spec _ _ 4 1 (by norm_num) _ _ rd8_inj
    (frames_pix32 E (dbcB_b8m_4_c_packed key)) F4a h4b h4a

theorem b8m_8_eq_chain (E : Bool) (key : Nat) (hkey : key < 256) :
    pix64 E (dbcB_b8m_8_c_packed key)
      = twice (twice (twice (pix8 (dbcB_b8m_1_c key)) 1) 2) 4 := by
  have h1 : PixelSpec (pix8 (dbcB_b8m_1_c key)) 1 1 rd8 (dbcB_b8m_1_c key) :=
    pixelSpec_pix8 _ _ (b8m_mod key)
  have F1 : Frames (pix8 (dbcB_b8m_1_c key)) (1 * 1) := frames_pix8 _
  have h2 := pixelSpec_twice _ 1 1 rd8 _ 1 (by norm_num) rdLocal_rd8 F1 h1
  have F2 : Frames (twice (pix8 (dbcB_b8m_1_c key)) 1) (2 * 1) :=
    frames_twice _ 1 (frames_pix8 _)
  have h4 := pixelSpec_twice _ 2 1 rd8 _ 2 (by norm_num) rdLocal_rd8 F2 h2
  have F4 : Frames (twice (twice (pix8 (dbcB_b8m_1_c key)) 1) 2) (4 * 1) :=
    frames_twice _ 2 F2
  have h8a := pixelSpec_twice _ 4 1 rd8 _ 4 (by norm_num) rdLocal_rd8 F4 h4
  have F8a : Frames (twice (twice (twice (pix8 (dbcB_b8m_1_c key)) 1) 2) 4) (8 * 1) :=
    frames_twice _ 4 F4
  have h8b : PixelSpec (pix64 E (dbcB_b8m_8_c_packed key)) 8 1 rd8 (dbcB_b8m_1_c key) :=
    pixelSpec_pix64_bytes _ _ _ (fun S D j hj => dbcB_b8m_8_c_packed_lane key S D j hkey hj)
  exact kernel_eq_of_spec _ _ 8 1 (by norm_num) _ _ rd8_inj
    (frames_pix64 E (dbcB_b8m_8_c_packed key)) F8a h8b h8a

theorem b16m_4_eq_chain (E : Bool) (key : Nat) (hkey : key < 65536) :
    pix64 E (dbcB_b16m_4_c_packed key) = twice (twice (pix16 E (dbcB_b16m_1_c key)) 2) 4 := by
  have hrd := rdLocal_load16 E
  have h1 : PixelSpec (pix16 E (dbcB_b16m_1_c key)) 1 2 (dbcb_load16 E) (dbcB_b16m_1_c key) :=
    pixelSpec_pix16 _ _ _ (b16m_mod key)
  have F1 : Frames (pix16 E (dbcB_b16m_1_c key)) (1 * 2) := frames_pix16 _ _
  have h2 := pixelSpec_twice _ 1 2 _ _ 2 (by norm_num) hrd F1 h1
  have F2 : Frames (twice (pix16 E (dbcB_b16m_1_c key)) 2) (2 * 2) :=
    frames_twice _ 2 (frames_pix16 _ _)
  have h4a := pixelSpec_twice _ 2 2 _ _ 4 (by norm_num) hrd F2 h2
  have F4a : Frames (twice (twice (pix16 E (dbcB_b16m_1_c key)) 2) 4) (4 * 2) :=
    frames_twice _ 4 F2
  have h4b : PixelSpec (pix64 E (dbcB_b16m_4_c_packed key)) 4 2 (dbcb_load16 E)
      (dbcB_b16m_1_c key) :=
    pixelSpec_pix64_lanes16 _ _ _ (fun S D j hj => dbcB_b16m_4_c_packed_lane key S D j hkey hj)
  exact kernel_eq_of_spec _ _ 4 2 (by norm_num) _ _ (load16_inj E)
    (frames_pix64 E (dbcB_b16m_4_c_packed key)) F4a h4b h4a

theorem b5551_2_eq_chain (E : Bool) :
    pix32 E dbcB_b5551_2_c_packed = twice (pix16 E dbcB_b5551_1_c) 2 := by
  have hrd := rdLocal_load16 E
  have h1 : PixelSpec (pix16 E dbcB_b5551_1_c) 1 2 (dbcb_load16 E) dbcB_b5551_1_c :=
    pixelSpec_pix16 _ _ _ b5551_mod
  have F1 : Frames (pix16 E dbcB_b5551_1_c) (1 * 2) := frames_pix16 _ _
  have h2a := pixelSpec_twice _ 1 2 _ _ 2 (by norm_num) hrd F1 h1
  have F2a : Frames (twice (pix16 E dbcB_b5551_1_c) 2) (2 * 2) :=
    frames_twice _ 2 (frames_pix16 _ _)
  have h2b : PixelSpec (pix32 E dbcB_b5551_2_c_packed) 2 2 (dbcb_load16 E) dbcB_b5551_1_c :=
    pixelSpec_pix32_lanes16 _ _ _ (fun S D j hj => dbcB_b5551_2_c_packed_lane S D j hj)
  exact kernel_eq_of_spec _ _ 2 2 (by norm_num) _ _ (load16_inj E)
    (frames_pix32 E dbcB_b5551_2_c_packed) F2a h2b h2a

theorem b5551_4_eq_chain (E : Bool) :
    pix64 E dbcB_b5551_4_c_packed = twice (twice (pix16 E dbcB_b5551_1_c) 2) 4 := by
  have hrd := rdLocal_load16 E
  have h1 : PixelSpec (pix16 E dbcB_b5551_1_c) 1 2 (dbcb_load16 E) dbcB_b5551_1_c :=
    pixelSpec_pix16 _ _ _ b5551_mod
  have F1 : Frames (pix16 E dbcB_b5551_1_c) (1 * 2) := frames_pix16 _ _
  have h2 := pixelSpec_twice _ 1 2 _ _ 2 (by norm_num) hrd F1 h1
  have F2 : Frames (twice (pix16 E dbcB_b5551_1_c) 2) (2 * 2) :=
    frames_twice _ 2 (frames_pix16 _ _)
  have h4a := pixelSpec_twice _ 2 2 _ _ 4 (by norm_num) hrd F2 h2
  have F4a : Frames (twice (twice (pix16 E dbcB_b5551_1_c) 2) 4) (4 * 2) :=
    frames_twice _ 4 F2
  have h4b : PixelSpec (pix64 E dbcB_b5551_4_c_packed) 4 2 (dbcb_load16 E) dbcB_b5551_1_c :=
    pixelSpec_pix64_lanes16 _ _ _ (fun S D j hj => dbcB_b5551_4_c_packed_lane S D j hj)
  exact kernel_eq_of_spec _ _ 4 2 (by norm_num) _ _ (load16_inj E)
    (frames_pix64 E dbcB_b5551_4_c_packed) F4a h4b h4a

/-- C28: for every key of the type of the kernel (`dbcb_uint8`, `dbcb_uint16`) and every source
and destination memory, in either byte order, the packed blocks of `dbcB_b8m_4_c` and
`dbcB_b8m_8_c` leave what 4 and 8 calls of `dbcB_b8m_1_c` on the successive pixels leave, and
the packed block of `dbcB_b16m_4_c` what 4 calls of `dbcB_b16m_1_c` leave. Each packed block
is the selection `(S&m)^(D&~m)` by its mask, and the mask is `0xFF` (`0xFFFF`) in the lanes
where the source differs from the key and 0 in the others. -/
theorem C28_packed_colorkey_kernels (E : Bool) (key8 key16 : Nat) (h8 : key8 < 256)
    (h16 : key16 < 65536) (S D : Nat) :
    pix32 E (dbcB_b8m_4_c_packed key8) = twice (twice (pix8 (dbcB_b8m_1_c key8)) 1) 2 ∧
    pix64 E (dbcB_b8m_8_c_packed key8)
      = twice (twice (twice (pix8 (dbcB_b8m_1_c key8)) 1) 2) 4 ∧
    pix64 E (dbcB_b16m_4_c_packed key16)
      = twice (twice (pix16 E (dbcB_b16m_1_c key16)) 2) 4 ∧
    dbcB_b8m_4_c_packed key8 S D
      = (S &&& dbcB_b8m_4_c_mask key8 S) ^^^ (D &&& (dbcB_b8m_4_c_mask key8 S ^^^ 0xFFFFFFFF)) ∧
    dbcB_b8m_8_c_packed key8 S D
      = (S &&& dbcB_b8m_8_c_mask key8 S)
        ^^^ (D &&& (dbcB_b8m_8_c_mask key8 S ^^^ 0xFFFFFFFFFFFFFFFF)) ∧
    dbcB_b16m_4_c_packed key16 S D
      = (S &&& dbcB_b16m_4_c_mask key16 S)
        ^^^ (D &&& (dbcB_b16m_4_c_mask key16 S ^^^ 0xFFFFFFFFFFFFFFFF)) ∧
    (∀ j : Fin 4, dbcB_getb (dbcB_b8m_4_c_mask key8 S) j
      = if dbcB_getb S j ≠ key8 then 0xFF else 0) ∧
    (∀ j : Fin 8, dbcB_getb (dbcB_b8m_8_c_mask key8 S) j
      = if dbcB_getb S j ≠ key8 then 0xFF else 0) ∧
    (∀ j : Fin 4, lane16 (dbcB_b16m_4_c_mask key16 S) j
      = if lane16 S j ≠ key16 then 0xFFFF else 0) :=
  ⟨b8m_4_eq_chain E key8 h8, b8m_8_eq_chain E key8 h8, b16m_4_eq_chain E key16 h16, rfl, rfl,
    rfl, fun j => dbcB_b8m_4_c_mask_byte key8 S j h8 j.isLt,
    fun j => dbcB_b8m_8_c_mask_byte key8 S j h8 j.isLt,
    fun j => dbcB_b16m_4_c_mask_lane key16 S j h16 j.isLt⟩

theorem C28_packed_colorkey_kernels_witness :
    ((7 : Nat) < 256 ∧ (0x1234 : Nat) < 65536) ∧
    pix32 false (dbcB_b8m_4_c_packed 7) = twice (twice (pix8 (dbcB_b8m_1_c 7)) 1) 2 ∧
    dbcB_b8m_4_c_mask 7 0x07FF0700 = 0x00FF00FF ∧
    dbcB_b16m_4_c_mask 0x1234 0x1234FFFF00001234 = 0x0000FFFFFFFF0000 := by
  have h := C28_packed_colorkey_kernels false 7 0x1234 (by norm_num) (by norm_num)
    0x07FF0700 0
  exact ⟨⟨by norm_num, by norm_num⟩, h.1, by decide, by decide⟩

/-- C29: for every source and destination memory, in either byte order, the packed blocks of
`dbcB_b5551_2_c` and `dbcB_b5551_4_c` leave what 2 and 4 calls of `dbcB_b5551_1_c` on the
successive pixels leave. Each packed block is the selection `(S&m)^(D&~m)` by the mask
`m=(m<<1)-(m>>15)`, which is `0xFFFF` in the lanes whose source word has its high bit set and
0 in the others; the top lane, whose shifted bit falls out of the word, is no exception. -/
theorem C29_packed_5551_kernels (E : Bool) (S D : Nat) :
    pix32 E dbcB_b5551_2_c_packed = twice (pix16 E dbcB_b5551_1_c) 2 ∧
    pix64 E dbcB_b5551_4_c_packed = twice (twice (pix16 E dbcB_b5551_1_c) 2) 4 ∧
    dbcB_b5551_2_c_packed S D
      = (S &&& dbcB_b5551_2_c_mask S) ^^^ (D &&& (dbcB_b5551_2_c_mask S ^^^ 0xFFFFFFFF)) ∧
    dbcB_b5551_4_c_packed S D
      = (S &&& dbcB_b5551_4_c_mask S)
        ^^^ (D &&& (dbcB_b5551_4_c_mask S ^^^ 0xFFFFFFFFFFFFFFFF)) ∧
    (∀ j : Fin 2, lane16 (dbcB_b5551_2_c_mask S) j
      = if 0x8000 ≤ lane16 S j then 0xFFFF else 0) ∧
    (∀ j : Fin 4, lane16 (dbcB_b5551_4_c_mask S) j
      = if 0x8000 ≤ lane16 S j then 0xFFFF else 0) ∧
    dbcB_b5551_2_c_mask 0x80000000 = 0xFFFF0000 ∧
    dbcB_b5551_4_c_mask 0x8000000000000000 = 0xFFFF000000000000 :=
  ⟨b5551_2_eq_chain E, b5551_4_eq_chain E, rfl, rfl,
    fun j => dbcB_b5551_2_c_mask_lane S j j.isLt,
    fun j => dbcB_b5551_4_c_mask_lane S j j.isLt, by decide, by decide⟩

/-! ## The CPU probe -/

/-- The probe only appends to the list of helper calls. -/
theorem probe_flags (b : Build) (cpu : Cpu) (st : InitResult) :
    ((dbcB_init_probe b cpu st).has_avx2 = true → st.has_avx2 = true ∨
      (b.no_avx2 = false ∧ cpu.has_cpuid = true ∧ (cpu.cpuid 1).2.2.1 &&& 0x18000000 ≠ 0 ∧
        cpu.xgetbv 0 &&& 0x6 = 0x6 ∧ (cpu.cpuid 0).1 ≥ 7 ∧
        (cpu.cpuid 7).2.1 &&& 0x00000020 ≠ 0)) ∧
    (Probe.xgetbv 0 ∈ (dbcB_init_probe b cpu st).probes → Probe.xgetbv 0 ∈ st.probes ∨
      (cpu.cpuid 1).2.2.1 &&& 0x18000000 ≠ 0) := by
  unfold dbcB_init_probe
  simp only
  cases hb : b.no_avx2 <;> simp only [Bool.not_false, Bool.not_true, if_true, if_false,
    Bool.false_eq_true]
  all_goals split_ifs <;> simp_all

/-- What the test of `dbcB_init` on ECX does guarantee: `dbcB_has_avx2` is set by the probe,
and `XGETBV` is executed, only if CPUID leaf 1 reports AVX or OSXSAVE (ECX bit 28 or bit
27). -/
theorem init_avx2_of_probe (b : Build) (cpu : Cpu)
    (hc : (!b.no_avx2 && b.avx2 && b.sse2) = false) :
    ((dbcB_init b cpu false).has_avx2 = true →
      (cpu.cpuid 1).2.2.1 &&& 0x18000000 ≠ 0 ∧ cpu.xgetbv 0 &&& 0x6 = 0x6 ∧
        (cpu.cpuid 0).1 ≥ 7 ∧ (cpu.cpuid 7).2.1 &&& 0x00000020 ≠ 0) ∧
    (Probe.xgetbv 0 ∈ (dbcB_init b cpu false).probes →
      (cpu.cpuid 1).2.2.1 &&& 0x18000000 ≠ 0) := by
  unfold dbcB_init
  split
  · simp only [Bool.and_false]
    split
    · constructor
      · intro h
        rcases (probe_flags b cpu _).1 h with h1 | h1
        · exfalso
          revert h1
          split
          · split
            · rename_i h2 h3
              simp only [h2, Bool.and_true] at hc
              rw [hc] at h3
              exact absurd h3 (by simp)
            · simp
          · simp
        · exact ⟨h1.2.2.1, h1.2.2.2.1, h1.2.2.2.2.1, h1.2.2.2.2.2⟩
      · intro h
        rcases (probe_flags b cpu _).2 h with h1 | h1
        · exfalso
          revert h1
          split
          · split <;> simp
          · simp
        · exact h1
    · constructor
      · intro h
        exfalso
        revert h
        split
        · split
          · rename_i h2 h3
            simp only [h2, Bool.and_true] at hc
            rw [hc] at h3
            exact absurd h3 (by simp)
          · simp
        · simp
      · intro h
        exfalso
        revert h
        split
        · split <;> simp
        · simp
  · simp

/-- C26: with CPUID leaf 1 reporting AVX (ECX bit 28) and no OSXSAVE (ECX bit 27 clear),
`dbcB_init` calls `dbcB_xgetbv(0)` all the same, and with the other results of a processor
with AVX2 it sets `dbcB_has_avx2`: the test `ecx&0x18000000u` passes when either bit is set.
With both bits set the same calls are made. -/
theorem C26_xgetbv_without_osxsave :
    (Cpu.avxNoOsxsave.cpuid 1).2.2.1 &&& 0x08000000 = 0 ∧
    (Cpu.avxNoOsxsave.cpuid 1).2.2.1 &&& 0x10000000 ≠ 0 ∧
    dbcB_init Build.x64 Cpu.avxNoOsxsave false
      = ⟨true, true, [Probe.has_cpuid, Probe.cpuid 0, Probe.cpuid 1, Probe.xgetbv 0,
          Probe.cpuid 7]⟩ ∧
    dbcB_init Build.x64 Cpu.avx2 false
      = ⟨true, true, [Probe.has_cpuid, Probe.cpuid 0, Probe.cpuid 1, Probe.xgetbv 0,
          Probe.cpuid 7]⟩ := by
  refine ⟨by decide, by decide, by decide, by decide⟩

/-- C27: in a build for x86-64 with `DBC_BLIT_NO_RUNTIME_CPU_DETECTION` defined, the probe
is still part of `dbcB_init` (its `#if` tests `DBCB_NO_RUNTIME_CPU_DETECTION`) while the
helpers it calls are not defined; with helpers that answer as a processor with AVX2 does,
`dbcB_init` makes the five helper calls and sets `dbcB_has_avx2` although `__AVX2__` is not
defined, exactly as in the build without the switch. -/
theorem C27_probe_compiled_despite_switch :
    Build.x64NoDetect.no_runtime_cpu_detection = true ∧
    Build.x64NoDetect.avx2 = false ∧
    probeCompiled Build.x64NoDetect = true ∧
    helpersDefined Build.x64NoDetect = false ∧
    dbcB_init Build.x64NoDetect Cpu.avx2 false
      = ⟨true, true, [Probe.has_cpuid, Probe.cpuid 0, Probe.cpuid 1, Probe.xgetbv 0,
          Probe.cpuid 7]⟩ ∧
    dbcB_init Build.x64NoDetect Cpu.avx2 false = dbcB_init Build.x64 Cpu.avx2 false := by
  refine ⟨rfl, rfl, by decide, by decide, by decide, by decide⟩

/-! # The claim about the gamma tables -/

/-! ## The exponent of the leading bit -/

theorem log2L_spec (k : Nat) : ∀ a, 0 < a → a < 2 ^ 2 ^ k →
    2 ^ F64.log2L k a ≤ a ∧ a < 2 ^ (F64.log2L k a + 1) := by
  induction k with
  | zero =>
    intro a h0 h
    simp only [F64.log2L]
    norm_num at h ⊢
    omega
  | succ k ih =>
    intro a h0 h
    have hP : 0 < 2 ^ 2 ^ k := Nat.pow_pos (by norm_num)
    have hPP : 2 ^ 2 ^ (k + 1) = 2 ^ 2 ^ k * 2 ^ 2 ^ k := by
      rw [← pow_add, pow_succ, Nat.mul_two]
    by_cases hc : 2 ^ 2 ^ k ≤ a
    · have hb : Nat.ble (2 ^ 2 ^ k) a = true := Nat.ble_eq.mpr hc
      simp only [F64.log2L, hb, cond_true, Nat.shiftRight_eq_div_pow]
      have hq0 : 0 < a / 2 ^ 2 ^ k := Nat.div_pos hc hP
      have hq1 : a / 2 ^ 2 ^ k < 2 ^ 2 ^ k := by
        rw [Nat.div_lt_iff_lt_mul hP]
        rw [hPP] at h
        exact h
      obtain ⟨h1, h2⟩ := ih _ hq0 hq1
      have hd := Nat.div_add_mod a (2 ^ 2 ^ k)
      have hm := Nat.mod_lt a hP
      constructor
      · rw [pow_add]
        calc 2 ^ 2 ^ k * 2 ^ F64.log2L k (a / 2 ^ 2 ^ k) ≤ 2 ^ 2 ^ k * (a / 2 ^ 2 ^ k) :=
              Nat.mul_le_mul_left _ h1
          _ ≤ a := Nat.mul_div_le a _
      · rw [Nat.add_assoc, pow_add]
        calc a = 2 ^ 2 ^ k * (a / 2 ^ 2 ^ k) + a % 2 ^ 2 ^ k := hd.symm
          _ < 2 ^ 2 ^ k * (a / 2 ^ 2 ^ k) + 2 ^ 2 ^ k := Nat.add_lt_add_left hm _
          _ = 2 ^ 2 ^ k * (a / 2 ^ 2 ^ k + 1) := by rw [Nat.mul_add, Nat.mul_one]
          _ ≤ 2 ^ 2 ^ k * 2 ^ (F64.log2L k (a / 2 ^ 2 ^ k) + 1) := Nat.mul_le_mul_left _ h2
    · have hb : Nat.ble (2 ^ 2 ^ k) a = false := by
        rw [← Bool.not_eq_true, Nat.ble_eq]
        exact hc
      simp only [F64.log2L, hb, cond_false]
      exact ih a h0 (Nat.lt_of_not_le hc)

theorem log2Levels_spec (fuel : Nat) : ∀ k a, a < 2 ^ 2 ^ (k + fuel) →
    a < 2 ^ 2 ^ F64.log2Levels fuel k a := by
  induction fuel with
  | zero =>
    intro k a h
    simpa [F64.log2Levels] using h
  | succ fuel ih =>
    intro k a h
    by_cases hc : a < 2 ^ 2 ^ k
    · have hb : Nat.blt a (2 ^ 2 ^ k) = true := Nat.blt_eq.mpr hc
      simp only [F64.log2Levels, hb, cond_true]
      exact hc
    · have hb : Nat.blt a (2 ^ 2 ^ k) = false := by
        rw [← Bool.not_eq_true, Nat.blt_eq]
        exact hc
      simp only [F64.log2Levels, hb, cond_false]
      apply ih
      rw [Nat.add_assoc, Nat.add_comm 1 fuel]
      exact h

theorem log2n_spec (a : Nat) (h0 : 0 < a) :
    2 ^ F64.log2n a ≤ a ∧ a < 2 ^ (F64.log2n a + 1) := by
  apply log2L_spec _ a h0
  apply log2Levels_spec
  calc a < 2 ^ a := Nat.lt_two_pow a
    _ ≤ 2 ^ 2 ^ (7 + a) := by
      apply Nat.pow_le_pow_right (by norm_num)
      calc a ≤ 7 + a := Nat.le_add_left _ _
        _ ≤ 2 ^ (7 + a) := (Nat.lt_two_pow _).le

theorem log2Near_spec (g a : Nat) (h0 : 0 < a) :
    2 ^ F64.log2Near g a ≤ a ∧ a < 2 ^ (F64.log2Near g a + 1) := by
  unfold F64.log2Near
  by_cases h1 : 2 ^ g ≤ a
  · rw [Nat.ble_eq.mpr h1, cond_true]
    by_cases h2 : a < 2 ^ (g + 1)
    · rw [Nat.blt_eq.mpr h2, cond_true]
      exact ⟨h1, h2⟩
    · have hb : Nat.blt a (2 ^ (g + 1)) = false := by
        rw [← Bool.not_eq_true, Nat.blt_eq]
        exact h2
      rw [hb, cond_false]
      by_cases h3 : a < 2 ^ (g + 2)
      · rw [Nat.blt_eq.mpr h3, cond_true]
        exact ⟨Nat.le_of_not_lt h2, h3⟩
      · have hb3 : Nat.blt a (2 ^ (g + 2)) = false := by
          rw [← Bool.not_eq_true, Nat.blt_eq]
          exact h3
        rw [hb3, cond_false]
        exact log2n_spec a h0
  · have hb : Nat.ble (2 ^ g) a = false := by
      rw [← Bool.not_eq_true, Nat.ble_eq]
      exact h1
    rw [hb, cond_false]
    by_cases h2 : 2 ^ (g - 1) ≤ a
    · rw [Nat.ble_eq.mpr h2, cond_true]
      refine ⟨h2, ?_⟩
      have hg : 0 < g := by
        rcases Nat.eq_zero_or_pos g with hz | hp
        · subst hz
          exact absurd (by simpa using h0) h1
        · exact hp
      rw [Nat.sub_add_cancel hg]
      exact Nat.lt_of_not_le h1
    · have hb2 : Nat.ble (2 ^ (g - 1)) a = false := by
        rw [← Bool.not_eq_true, Nat.ble_eq]
        exact h2
      rw [hb2, cond_false]
      exact log2n_spec a h0

/-! ## Values of the `double` operations -/

theorem F64_known_values :
    F64.lit 1 10 = F64.fin false 7205759403792794 1018 ∧
    F64.div (F64.lit 1 1) (F64.lit 3 1) = F64.fin false 6004799503160661 1020 ∧
    F64.mul (F64.lit 1 10) (F64.lit 3 1) = F64.fin false 5404319552844596 1020 ∧
    F64.add (F64.lit 1 10) (F64.lit 2 10) = F64.fin false 5404319552844596 1020 ∧
    F64.add (F64.lit 5 10) (F64.fin true 9007199254740990 1020) =
      F64.fin false 4503599627370496 969 ∧
    F64.lit 33465357638991608 10000000000000000000 = F64.fin false 7716586096270489 1013 ∧
    F64.lit 32946 10 = F64.fin false 7244902017741619 1033 ∧
    F64.lit 1 (10 ^ 320) = F64.fin false 2024 0 ∧
    F64.div (F64.lit 1 (10 ^ 320)) (F64.lit 3 1) = F64.fin false 675 0 ∧
    F64.mul (F64.lit 1 (10 ^ 310)) (F64.lit 1 (10 ^ 10)) = F64.fin false 2024 0 ∧
    F64.div (F64.fin false 1 0) (F64.lit 2 1) = F64.fin false 0 0 ∧
    F64.mul (F64.lit (10 ^ 308) 1) (F64.lit 10 1) = F64.inf false ∧
    F64.add (F64.fin false (2 ^ 53 - 1) 2045) (F64.fin false (2 ^ 52) 1992) = F64.inf false ∧
    F64.add (F64.fin false (2 ^ 53 - 1) 2045) (F64.fin false (2 ^ 52 - 1) 1992) =
      F64.fin false (2 ^ 53 - 1) 2045 ∧
    F64.toInt32 (F64.mul (F64.lit 5 10) (F64.lit 4096 1)) = 2048 ∧
    F64.toInt32 (F64.lit 39999 10000) = 3 ∧
    F64.ge (F64.lit 1 10) (F64.lit 1 10) = true ∧
    F64.ge (F64.lit 1 10) (F64.lit 2 10) = false := by
  decide!

/-! ## The round trip -/

theorem roundTrip_256 : roundTripBelow 256 = true := by decide!

/-- C25: after `dbcB_populate_tables` has filled the tables, `dbcB_linear2srgb` takes
`dbcB_srgb2linear s` back to `s` for every byte `s`, and its index `id` lies within the tables;
the `double` arithmetic is binary64, each operation rounded to nearest. -/
theorem C25_gamma_tables_round_trip (s : Nat) (hs : s < 256) :
    dbcB_linear2srgb dbcB_populate_tables (dbcB_srgb2linear dbcB_populate_tables s) = some s := by
  have h := roundTrip_256
  simp only [roundTripBelow, List.all_eq_true, List.mem_range, beq_iff_eq] at h
  exact h s hs

theorem C25_gamma_tables_round_trip_witness :
    (200 : Nat) < 256 ∧
      dbcB_linear2srgb dbcB_populate_tables (dbcB_srgb2linear dbcB_populate_tables 200) =
        some 200 :=
  ⟨by decide, C25_gamma_tables_round_trip 200 (by decide)⟩

/-! ## Blends stay between their inputs -/

theorem rdiv255_mono (m n : Nat) (h : m ≤ n) : rdiv255 m ≤ rdiv255 n := by
  unfold rdiv255
  exact Nat.div_le_div_right (by omega)

theorem blend_ge_min (s d a : Nat) (ha : a < 256) :
    255 * min s d ≤ s * a + d * (255 - a) := by
  have h1 : min s d * a ≤ s * a := Nat.mul_le_mul_right a (Nat.min_le_left s d)
  have h2 : min s d * (255 - a) ≤ d * (255 - a) := Nat.mul_le_mul_right _ (Nat.min_le_right s d)
  have h3 : min s d * a + min s d * (255 - a) = 255 * min s d := by
    rw [← Nat.mul_add, Nat.mul_comm]
    congr 1
    omega
  omega

theorem blend_le_max (s d a : Nat) (ha : a < 256) :
    s * a + d * (255 - a) ≤ 255 * max s d := by
  have h1 : s * a ≤ max s d * a := Nat.mul_le_mul_right a (Nat.le_max_left s d)
  have h2 : d * (255 - a) ≤ max s d * (255 - a) := Nat.mul_le_mul_right _ (Nat.le_max_right s d)
  have h3 : max s d * a + max s d * (255 - a) = 255 * max s d := by
    rw [← Nat.mul_add, Nat.mul_comm]
    congr 1
    omega
  omega

/-- C38: for bytes `s`, `d` and `a`, on every platform, `dbcB_cla(s,d,a)` lies between
`min(s,d)` and `max(s,d)`, it is `d` for `a = 0` and `s` for `a = 255`, and blending a value
with itself gives that value. -/
theorem C38_cla_between_inputs (P : Platform) (s d a : Nat) (hs : s < 256) (hd : d < 256)
    (ha : a < 256) :
    min s d ≤ dbcB_cla P s d a ∧ dbcB_cla P s d a ≤ max s d ∧
    dbcB_cla P s d 0 = d ∧ dbcB_cla P s d 255 = s ∧ dbcB_cla P s s a = s := by
  refine ⟨?_, ?_, ?_, ?_, ?_⟩
  · rw [dbcB_cla_eq P s d a hs hd ha]
    have h := rdiv255_mono _ _ (blend_ge_min s d a ha)
    rwa [rdiv255_mul_255] at h
  · rw [dbcB_cla_eq P s d a hs hd ha]
    have h := rdiv255_mono _ _ (blend_le_max s d a ha)
    rwa [rdiv255_mul_255] at h
  · rw [dbcB_cla_eq P s d 0 hs hd (by norm_num)]
    have := rdiv255_mul_255 d
    simpa [Nat.mul_comm] using this
  · rw [dbcB_cla_eq P s d 255 hs hd (by norm_num)]
    have := rdiv255_mul_255 s
    simpa [Nat.mul_comm] using this
  · rw [dbcB_cla_eq P s s a hs hs ha]
    have h1 := rdiv255_mono _ _ (blend_ge_min s s a ha)
    have h2 := rdiv255_mono _ _ (blend_le_max s s a ha)
    rw [rdiv255_mul_255] at h1 h2
    simp only [Nat.min_self, Nat.max_self] at h1 h2
    omega

theorem C38_cla_between_inputs_witness :
    ((200 : Nat) < 256 ∧ (100 : Nat) < 256 ∧ (77 : Nat) < 256) ∧
    min 200 100 ≤ dbcB_cla Platform.lp64 200 100 77 ∧
    dbcB_cla Platform.lp64 200 100 77 ≤ max 200 100 ∧
    dbcB_cla Platform.lp64 200 100 0 = 100 ∧ dbcB_cla Platform.lp64 200 100 255 = 200 ∧
    dbcB_cla Platform.lp64 200 200 77 = 200 :=
  ⟨⟨by decide, by decide, by decide⟩,
    C38_cla_between_inputs Platform.lp64 200 100 77 (by decide) (by decide) (by decide)⟩

/-! ## The alpha of a blend -/

theorem bla_alpha_ge (A Da : Nat) (hA : A < 256) (hD : Da < 256) :
    A ≤ rdiv255 (A * 255 + (255 - A) * Da) ∧ Da ≤ rdiv255 (A * 255 + (255 - A) * Da) ∧
    rdiv255 (A * 255 + (255 - A) * Da) ≤ 255 := by
  have h1 : (255 - A) * Da ≤ (255 - A) * 255 := Nat.mul_le_mul_left _ (by omega)
  have h2 : A * Da ≤ A * 255 := Nat.mul_le_mul_left _ (by omega)
  have h3 : (255 - A) * Da + A * Da = 255 * Da := by
    rw [← Nat.add_mul]
    congr 1
    omega
  have h4 : (255 - A) * 255 + A * 255 = 255 * 255 := by
    rw [← Nat.add_mul]
    congr 1
    omega
  unfold rdiv255
  refine ⟨?_, ?_, ?_⟩
  · rw [Nat.le_div_iff_mul_le (by norm_num)]
    omega
  · rw [Nat.le_div_iff_mul_le (by norm_num)]
    omega
  · have : (2 * (A * 255 + (255 - A) * Da) + 255) / 510 < 256 := by
      rw [Nat.div_lt_iff_lt_mul (by norm_num)]
      omega
    omega

theorem blp_alpha_ge (A Da : Nat) (hA : A < 256) (hD : Da < 256) :
    A ≤ min 255 (rdiv255 ((255 - A) * Da) + A) ∧ Da ≤ min 255 (rdiv255 ((255 - A) * Da) + A) := by
  have h2 : A * Da ≤ A * 255 := Nat.mul_le_mul_left _ (by omega)
  have h3 : (255 - A) * Da + A * Da = 255 * Da := by
    rw [← Nat.add_mul]
    congr 1
    omega
  have h5 : Da ≤ rdiv255 ((255 - A) * Da) + A := by
    have : Da - A ≤ rdiv255 ((255 - A) * Da) := by
      unfold rdiv255
      rw [Nat.le_div_iff_mul_le (by norm_num)]
      have h6 : (Da - A) * 510 ≤ 510 * Da - 510 * A := by omega
      omega
    omega
  refine ⟨?_, ?_⟩
  · exact Nat.le_min.mpr ⟨by omega, by omega⟩
  · exact Nat.le_min.mpr ⟨by omega, h5⟩

/-- C39: for all 32-bit pixels `S` and `D`, on every platform and every code path, the alpha
byte that `dbcB_bla_1_c` and `dbcB_blp_1_c` leave in the destination is not below the alpha
byte of `D` and not below the alpha byte of `S`; a destination with alpha 255 keeps alpha
255. -/
theorem C39_alpha_never_decreases (P : Platform) (S D : Nat) (hS : S < 2 ^ 32)
    (hD : D < 2 ^ 32) :
    dbcB_getb D 3 ≤ dbcB_getb (dbcB_bla_1_c P S D) 3 ∧
    dbcB_getb S 3 ≤ dbcB_getb (dbcB_bla_1_c P S D) 3 ∧
    dbcB_getb D 3 ≤ dbcB_getb (dbcB_blp_1_c P S D) 3 ∧
    dbcB_getb S 3 ≤ dbcB_getb (dbcB_blp_1_c P S D) 3 ∧
    (dbcB_getb D 3 = 255 →
      dbcB_getb (dbcB_bla_1_c P S D) 3 = 255 ∧ dbcB_getb (dbcB_blp_1_c P S D) 3 = 255) := by
  have hA := getb_lt S 3
  have hDa := getb_lt D 3
  have ha := bla_alpha_ge _ _ hA hDa
  have hp := blp_alpha_ge _ _ hA hDa
  have ea : dbcB_getb (dbcB_bla_1_c P S D) 3
      = rdiv255 (dbcB_getb S 3 * 255 + (255 - dbcB_getb S 3) * dbcB_getb D 3) := by
    rw [dbcB_bla_1_c_eq P S D hS hD]
    refine (getb_pix4 _ _ _ _ ?_ ?_ ?_ ?_).2.2.2
    · have := rdiv255_le _ (blend_le (dbcB_getb S 0) (dbcB_getb D 0) (dbcB_getb S 3)
        (getb_lt S 0) (getb_lt D 0) hA)
      rw [Nat.mul_comm (dbcB_getb S 3), Nat.mul_comm (255 - dbcB_getb S 3)]
      omega
    · have := rdiv255_le _ (blend_le (dbcB_getb S 1) (dbcB_getb D 1) (dbcB_getb S 3)
        (getb_lt S 1) (getb_lt D 1) hA)
      rw [Nat.mul_comm (dbcB_getb S 3), Nat.mul_comm (255 - dbcB_getb S 3)]
      omega
    · have := rdiv255_le _ (blend_le (dbcB_getb S 2) (dbcB_getb D 2) (dbcB_getb S 3)
        (getb_lt S 2) (getb_lt D 2) hA)
      rw [Nat.mul_comm (dbcB_getb S 3), Nat.mul_comm (255 - dbcB_getb S 3)]
      omega
    · omega
  have ep : dbcB_getb (dbcB_blp_1_c P S D) 3
      = min 255 (rdiv255 ((255 - dbcB_getb S 3) * dbcB_getb D 3) + dbcB_getb S 3) := by
    rw [dbcB_blp_1_c_eq P S D hS hD]
    refine (getb_pix4 _ _ _ _ ?_ ?_ ?_ ?_).2.2.2 <;>
      exact Nat.lt_of_le_of_lt (Nat.min_le_left _ _) (by norm_num)
  rw [ea, ep]
  refine ⟨ha.2.1, ha.1, hp.2, hp.1, fun h => ?_⟩
  have h1 := ha.2.1
  have h2 := ha.2.2
  have h3 := hp.2
  have h4 : min 255 (rdiv255 ((255 - dbcB_getb S 3) * dbcB_getb D 3) + dbcB_getb S 3) ≤ 255 :=
    Nat.min_le_left _ _
  omega

theorem C39_alpha_never_decreases_witness :
    ((0x80102030 : Nat) < 2 ^ 32 ∧ (0xFF405060 : Nat) < 2 ^ 32) ∧
    dbcB_getb 0xFF405060 3 ≤ dbcB_getb (dbcB_bla_1_c Platform.lp64 0x80102030 0xFF405060) 3 ∧
    dbcB_getb 0x80102030 3 ≤ dbcB_getb (dbcB_bla_1_c Platform.lp64 0x80102030 0xFF405060) 3 ∧
    dbcB_getb 0xFF405060 3 ≤ dbcB_getb (dbcB_blp_1_c Platform.lp64 0x80102030 0xFF405060) 3 ∧
    dbcB_getb 0x80102030 3 ≤ dbcB_getb (dbcB_blp_1_c Platform.lp64 0x80102030 0xFF405060) 3 ∧
    (dbcB_getb 0xFF405060 3 = 255 →
      dbcB_getb (dbcB_bla_1_c Platform.lp64 0x80102030 0xFF405060) 3 = 255 ∧
      dbcB_getb (dbcB_blp_1_c Platform.lp64 0x80102030 0xFF405060) 3 = 255) :=
  ⟨⟨by norm_num, by norm_num⟩,
    C39_alpha_never_decreases Platform.lp64 0x80102030 0xFF405060 (by norm_num) (by norm_num)⟩

/-! ## The byte-wise codec -/

theorem load64_store64 (big : Bool) (v : Nat) (m : Mem) (p : Int) :
    dbcb_load64 big (dbcb_store64 big v m p) p = v % 2 ^ 64 := by
  rw [dbcb_load64_eq]
  have b0 := store64_byte big v m p 0 (by norm_num)
  have b1 := store64_byte big v m p 1 (by norm_num)
  have b2 := store64_byte big v m p 2 (by norm_num)
  have b3 := store64_byte big v m p 3 (by norm_num)
  have b4 := store64_byte big v m p 4 (by norm_num)
  have b5 := store64_byte big v m p 5 (by norm_num)
  have b6 := store64_byte big v m p 6 (by norm_num)
  have b7 := store64_byte big v m p 7 (by norm_num)
  simp only [Nat.cast_zero, add_zero, Nat.cast_one, Nat.cast_ofNat] at b0 b1 b2 b3 b4 b5 b6 b7
  rw [b0, b1, b2, b3, b4, b5, b6, b7]
  cases big <;> simp only [Bool.false_eq_true, if_false, if_true] <;>
    unfold dbcB_getb u8 <;> simp only [Nat.shiftRight_eq_div_pow] <;> omega

theorem store16_load16 (big : Bool) (m : Mem) (p : Int) :
    dbcb_store16 big (dbcb_load16 big m p) m p = m := by
  funext a
  by_cases h : p ≤ a ∧ a < p + 2
  · obtain ⟨i, hi, rfl⟩ : ∃ i : Nat, i < 2 ∧ a = p + i := ⟨(a - p).toNat, by omega, by omega⟩
    apply Fin.ext
    rw [store16_byte big _ m p i hi, dbcb_load16_eq]
    have h0 := (m p).isLt
    have h1 := (m (p + 1)).isLt
    cases big <;> interval_cases i <;>
      simp only [Bool.false_eq_true, if_false, if_true, Nat.cast_zero, Nat.cast_one, add_zero,
        dbcB_getb, u8, Nat.shiftRight_eq_div_pow] <;> omega
  · exact frames_pix16 big (fun _ _ => dbcb_load16 big m p) m p m p a (by simpa using h)

theorem store64_load64 (big : Bool) (m : Mem) (p : Int) :
    dbcb_store64 big (dbcb_load64 big m p) m p = m := by
  funext a
  by_cases h : p ≤ a ∧ a < p + 8
  · obtain ⟨i, hi, rfl⟩ : ∃ i : Nat, i < 8 ∧ a = p + i := ⟨(a - p).toNat, by omega, by omega⟩
    apply Fin.ext
    rw [store64_byte big _ m p i hi, load64_byte big m p i hi]
  · exact frames_pix64 big (fun _ _ => dbcb_load64 big m p) m p m p a (by simpa using h)

/-- C35: the byte-wise `dbcb_load16/32/64` and `dbcb_store16/32/64`, for the little-endian and
for the big-endian data configuration (`big`). Loading what was stored gives the value back
(its low `N` bits, which is the value itself when it has `N` bits); storing what was loaded
leaves the memory as it was; a store writes its `N/8` bytes only; in the little-endian
configuration byte `i` of the stored sequence is `(v >> 8i) & 0xFF`, and the big-endian sequence
is the little-endian one reversed. -/
theorem C35_codec_round_trip (big : Bool) (v : Nat) (m : Mem) (p : Int) :
    dbcb_load16 big (dbcb_store16 big v m p) p = v % 2 ^ 16 ∧
    dbcb_load32 big (dbcb_store32 big v m p) p = v % 2 ^ 32 ∧
    dbcb_load64 big (dbcb_store64 big v m p) p = v % 2 ^ 64 ∧
    dbcb_store16 big (dbcb_load16 big m p) m p = m ∧
    dbcb_store32 big (dbcb_load32 big m p) m p = m ∧
    dbcb_store64 big (dbcb_load64 big m p) m p = m ∧
    (∀ a : Int, ¬ (p ≤ a ∧ a < p + 2) → dbcb_store16 big v m p a = m a) ∧
    (∀ a : Int, ¬ (p ≤ a ∧ a < p + 4) → dbcb_store32 big v m p a = m a) ∧
    (∀ a : Int, ¬ (p ≤ a ∧ a < p + 8) → dbcb_store64 big v m p a = m a) ∧
    (∀ i : Nat, i < 2 → (dbcb_store16 false v m p (p + i)).val = (v >>> (8 * i)) % 256) ∧
    (∀ i : Nat, i < 4 → (dbcb_store32 false v m p (p + i)).val = (v >>> (8 * i)) % 256) ∧
    (∀ i : Nat, i < 8 → (dbcb_store64 false v m p (p + i)).val = (v >>> (8 * i)) % 256) ∧
    (∀ i : Nat, i < 2 →
      dbcb_store16 true v m p (p + i) = dbcb_store16 false v m p (p + ((1 - i : Nat) : Int))) ∧
    (∀ i : Nat, i < 4 →
      dbcb_store32 true v m p (p + i) = dbcb_store32 false v m p (p + ((3 - i : Nat) : Int))) ∧
    (∀ i : Nat, i < 8 →
      dbcb_store64 true v m p (p + i) = dbcb_store64 false v m p (p + ((7 - i : Nat) : Int))) := by
  refine ⟨?_, load32_store32 big v m p, load64_store64 big v m p, store16_load16 big m p,
    store32_load32 big m p, store64_load64 big m p, ?_, ?_, ?_, ?_, ?_, ?_, ?_, ?_, ?_⟩
  · rw [load16_store16]
    norm_num
  · intro a ha
    exact frames_pix16 big (fun _ _ => v) m p m p a (by simpa using ha)
  · intro a ha
    exact frames_pix32 big (fun _ _ => v) m p m p a (by simpa using ha)
  · intro a ha
    exact frames_pix64 big (fun _ _ => v) m p m p a (by simpa using ha)
  · intro i hi
    rw [store16_byte false v m p i hi]
    rfl
  · intro i hi
    rw [store32_byte false v m p i hi]
    rfl
  · intro i hi
    rw [store64_byte false v m p i hi]
    rfl
  · intro i hi
    apply Fin.ext
    rw [store16_byte true v m p i hi, store16_byte false v m p (1 - i) (by omega)]
    rfl
  · intro i hi
    apply Fin.ext
    rw [store32_byte true v m p i hi, store32_byte false v m p (3 - i) (by omega)]
    rfl
  · intro i hi
    apply Fin.ext
    rw [store64_byte true v m p i hi, store64_byte false v m p (7 - i) (by omega)]
    rfl

/-! ## The driver that `dbc_blit` launches -/

theorem launch_none_iff (env : Env) (src_w src_h dst_w dst_h x y : Int) (color : Option Color)
    (mode : Int) :
    dbc_blit_launch env src_w src_h dst_w dst_h x y color mode = none ↔
      (mode < 0 ∨ mode > 11 ∨ (mode = 10 ∧ ∃ c, color = some c ∧ (c 0).gt 255 = true)) := by
  unfold dbc_blit_launch
  by_cases hm : mode < 0 ∨ mode > 11
  · rw [if_pos hm]
    constructor
    · intro _
      rcases hm with h | h
      · exact Or.inl h
      · exact Or.inr (Or.inl h)
    · intro _
      rfl
  · rw [if_neg hm]
    have h0 : 0 ≤ mode := by omega
    have h1 : mode ≤ 11 := by omega
    simp only
    cases color with
    | none =>
      simp only [Bool.and_false, Bool.false_eq_true, if_false]
      constructor
      · intro h
        exfalso
        revert h
        interval_cases mode <;> simp [modulatedFlags, selectFn]
      · rintro (h | h | ⟨_, c, hc, _⟩)
        · omega
        · omega
        · exact absurd hc (by simp)
    | some c =>
      by_cases hg : (c 0).gt 255 = true
      · by_cases h10 : mode = 10
        · subst h10
          simp [hg]
        · have hd : decide (mode = 10) = false := by simpa using h10
          simp only [hd, Bool.false_and, Bool.false_eq_true, if_false]
          constructor
          · intro h
            exfalso
            revert h
            interval_cases mode <;> first | (exact absurd rfl h10) | skip
            all_goals
              cases hmf : (modulatedFlags _ (some c)).1 <;> cases ha : (modulatedFlags _ (some c)).2 <;>
                simp [selectFn]
          · rintro (h | h | ⟨h, _⟩)
            · omega
            · omega
            · exact absurd h h10
      · have hg' : (c 0).gt 255 = false := by simpa using hg
        simp only [hg', Bool.and_false, Bool.false_eq_true, if_false]
        constructor
        · intro h
          exfalso
          revert h
          interval_cases mode <;>
            cases hmf : (modulatedFlags _ (some c)).1 <;> cases ha : (modulatedFlags _ (some c)).2 <;>
              simp [selectFn]
        · rintro (h | h | ⟨_, c', hc, hgt⟩)
          · omega
          · omega
          · simp only [Option.some.injEq] at hc
            subst hc
            rw [hg'] at hgt
            exact absurd hgt (by simp)

theorem selectFn_mode (mode : Int) (m a : Bool) (fn : Fn) (h : selectFn mode m a = some fn) :
    fn.mode = mode ∧ (mode ≠ 7 → fn.modulated = m) ∧
    (mode = 10 → m = true → (fn = Fn.f32s ↔ a = true)) := by
  by_cases hm : 0 ≤ mode ∧ mode ≤ 11
  · obtain ⟨h0, h1⟩ := hm
    interval_cases mode <;> cases m <;> cases a <;> simp [selectFn] at h <;> subst h <;>
      simp [Fn.mode, Fn.modulated]
  · have hp := selectFn_pixel_size mode m a fn h
    exfalso
    have n0 : ¬ mode = 0 := by omega
    have n1 : ¬ mode = 1 := by omega
    have n2 : ¬ mode = 2 := by omega
    have n3 : ¬ mode = 3 := by omega
    have n4 : ¬ mode = 4 := by omega
    have n5 : ¬ mode = 5 := by omega
    have n6 : ¬ mode = 6 := by omega
    have n7 : ¬ mode = 7 := by omega
    have n8 : ¬ mode = 8 := by omega
    have n9 : ¬ mode = 9 := by omega
    have n10 : ¬ mode = 10 := by omega
    have n11 : ¬ mode = 11 := by omega
    simp [selectFn, n0, n1, n2, n3, n4, n5, n6, n7, n8, n9, n10, n11] at h

theorem launch_tier (env : Env) (src_w src_h dst_w dst_h x y : Int) (color : Option Color)
    (mode : Int) (L : Launch)
    (h : dbc_blit_launch env src_w src_h dst_w dst_h x y color mode = some L) :
    L.tier = selectTier env mode (modulatedFlags mode color).1 := by
  unfold dbc_blit_launch at h
  split at h
  · exact absurd h (by simp)
  · simp only at h
    split at h
    · exact absurd h (by simp)
    · split at h
      · exact absurd h (by simp)
      · simp only [Option.some.injEq] at h
        rw [← h]

theorem modulated_5551 (color : Option Color) : (modulatedFlags 7 color).1 = false := by
  cases color <;> simp [modulatedFlags]

/-- C34 fails as stated for one valid mode: in the alpha test (mode 10, which lies inside
`DBCB_MODE_COPY..DBCB_MODE_CPYG`) with `color[0] = 256`, where `modulated` is 0, `dbc_blit`
returns at `if(mode==DBCB_MODE_ALPHATEST&&color&&color[0]>255.0f) return;`: it launches no
driver, in no tier, and the call performs no memory operation. -/
theorem C34_alphatest_above_255_launches_nothing :
    ((0 : Int) ≤ 10 ∧ (10 : Int) ≤ 11) ∧
    (modulatedFlags 10 (some (fun _ => F32.fin 256))).1 = false ∧
    dbc_blit_launch Env.sample 1 1 1 1 0 0 (some (fun _ => F32.fin 256)) 10 = none ∧
    dbc_blit_launch Env.sampleSse2 1 1 1 1 0 0 (some (fun _ => F32.fin 256)) 10 = none ∧
    dbc_blit_ops Env.sample 1 1 4 1 1 4 0 0 (some (fun _ => F32.fin 256)) 10 = [] := by
  have h : ((fun _ => F32.fin 256 : Color) 0).gt 255 = true := by decide
  refine ⟨by decide, by decide, launch_alphatest_above _ _ _ _ _ _ _ _ h,
    launch_alphatest_above _ _ _ _ _ _ _ _ h, ?_⟩
  unfold dbc_blit_ops
  rw [launch_alphatest_above _ _ _ _ _ _ _ _ h]

/-- C34, amended: which driver `dbc_blit` launches. No driver is launched exactly in the two
early returns (a mode outside `DBCB_MODE_COPY..DBCB_MODE_CPYG`, and the alpha test with
`color[0] > 255`). Every other call launches one driver `L`: it is the AVX2 driver iff
`dbcB_has_avx2` and `dbcb_allow_avx2_for_mode(mode,modulated)` hold, otherwise the SSE2 driver
iff `dbcB_has_sse2` and `dbcb_allow_sse2_for_mode(mode,modulated)` hold, otherwise the C
driver; in every tier it is the driver defined for the requested mode and the computed
`modulated` flag, and for the modulated alpha test the threshold-128 driver iff `alpha128`;
the memory operations of the call are those of that one driver. -/
theorem C34_dispatch_table (env : Env) (src_w src_h src_stride dst_w dst_h dst_stride x y : Int)
    (color : Option Color) (mode : Int) :
    (dbc_blit_launch env src_w src_h dst_w dst_h x y color mode = none ↔
      (mode < 0 ∨ mode > 11 ∨ (mode = 10 ∧ ∃ c, color = some c ∧ (c 0).gt 255 = true))) ∧
    (∀ L : Launch, dbc_blit_launch env src_w src_h dst_w dst_h x y color mode = some L →
      (L.tier = Tier.avx2 ↔
        (env.has_avx2 = true ∧ env.allow_avx2 mode (modulatedFlags mode color).1 = true)) ∧
      (L.tier = Tier.sse2 ↔
        (¬ (env.has_avx2 = true ∧ env.allow_avx2 mode (modulatedFlags mode color).1 = true) ∧
          env.has_sse2 = true ∧ env.allow_sse2 mode (modulatedFlags mode color).1 = true)) ∧
      (L.tier = Tier.c ↔
        (¬ (env.has_avx2 = true ∧ env.allow_avx2 mode (modulatedFlags mode color).1 = true) ∧
          ¬ (env.has_sse2 = true ∧ env.allow_sse2 mode (modulatedFlags mode color).1 = true))) ∧
      selectFn mode (modulatedFlags mode color).1 (modulatedFlags mode color).2 = some L.fn ∧
      L.fn.mode = mode ∧ L.fn.modulated = (modulatedFlags mode color).1 ∧
      (mode = 10 → (modulatedFlags mode color).1 = true →
        (L.fn = Fn.f32s ↔ (modulatedFlags mode color).2 = true)) ∧
      dbc_blit_ops env src_w src_h src_stride dst_w dst_h dst_stride x y color mode
        = driver env L.tier L.fn src_stride dst_stride L.x0 L.y0 L.x1 L.y1 x y) := by
  refine ⟨launch_none_iff env src_w src_h dst_w dst_h x y color mode, ?_⟩
  intro L hL
  have ht := launch_tier env src_w src_h dst_w dst_h x y color mode L hL
  have hf := launch_fn env src_w src_h dst_w dst_h x y color mode L hL
  obtain ⟨hm, hmod, h128⟩ := selectFn_mode _ _ _ _ hf
  refine ⟨?_, ?_, ?_, hf, hm, ?_, h128, ?_⟩
  · rw [ht]
    unfold selectTier
    cases env.has_avx2 <;> cases env.allow_avx2 mode (modulatedFlags mode color).1 <;>
      cases env.has_sse2 <;> cases env.allow_sse2 mode (modulatedFlags mode color).1 <;> simp
  · rw [ht]
    unfold selectTier
    cases env.has_avx2 <;> cases env.allow_avx2 mode (modulatedFlags mode color).1 <;>
      cases env.has_sse2 <;> cases env.allow_sse2 mode (modulatedFlags mode color).1 <;> simp
  · rw [ht]
    unfold selectTier
    cases env.has_avx2 <;> cases env.allow_avx2 mode (modulatedFlags mode color).1 <;>
      cases env.has_sse2 <;> cases env.allow_sse2 mode (modulatedFlags mode color).1 <;> simp
  · by_cases h7 : mode = 7
    · subst h7
      rw [modulated_5551] at hf ⊢
      simp [selectFn] at hf
      rw [← hf]
      rfl
    · exact hmod h7
  · unfold dbc_blit_ops
    rw [hL]

/-! ## The clipped rectangle lies inside both surfaces -/

/-- The runs of a row lie inside the row, in the source as in the destination. -/
theorem emitRuns_span (ps : Nat) (js : List Nat) (s d : Int) (op : Op)
    (hop : op ∈ emitRuns ps js s d) :
    ∃ j off : Nat, op = Op.call j (s + off * ps) (d + off * ps) ∧
      ((off * ps + 2 ^ j * ps : Nat) : Int) ≤ (runsTotal js : Int) * ps := by
  obtain ⟨j, off, he, hle⟩ := mem_emitRuns ps op js s d hop
  refine ⟨j, off, he, ?_⟩
  have : (off + 2 ^ j) * ps ≤ runsTotal js * ps := Nat.mul_le_mul_right ps hle
  have e : off * ps + 2 ^ j * ps = (off + 2 ^ j) * ps := by ring
  rw [e]
  exact_mod_cast this

/-- Every operation of a row driver works on a stretch of one row of the clipped rectangle:
the same stretch of the source row and of the destination row. -/
theorem driver_op (env : Env) (tier : Tier) (fn : Fn)
    (src_stride dst_stride x0 y0 x1 y1 x y : Int) (op : Op)
    (hop : op ∈ driver env tier fn src_stride dst_stride x0 y0 x1 y1 x y) :
    ∃ iy lo n : Nat, (iy : Int) < y1 - y0 ∧ ((lo + n : Nat) : Int) ≤ (x1 - x0) * fn.pixel_size ∧
      (op = Op.copy ((y0 + y) * dst_stride + (x0 + x) * fn.pixel_size + iy * dst_stride + lo)
              (y0 * src_stride + x0 * fn.pixel_size + iy * src_stride + lo) n ∨
        ∃ k : Nat, n = 2 ^ k * fn.pixel_size ∧
          op = Op.call k (y0 * src_stride + x0 * fn.pixel_size + iy * src_stride + lo)
              ((y0 + y) * dst_stride + (x0 + x) * fn.pixel_size + iy * dst_stride + lo)) := by
  unfold driver at hop
  simp only at hop
  split at hop
  · simp at hop
  · rename_i hwh
    have hwn : (((x1 - x0).toNat : Nat) : Int) = x1 - x0 := Int.toNat_of_nonneg (by omega)
    have hhn : (((y1 - y0).toNat : Nat) : Int) = y1 - y0 := Int.toNat_of_nonneg (by omega)
    have runcase : ∀ runs : List Nat, runsTotal runs ≤ (x1 - x0).toNat →
        op ∈ rowsFrom (emitRuns fn.pixel_size runs) src_stride dst_stride (y1 - y0).toNat
          (y0 * src_stride + x0 * fn.pixel_size)
          ((y0 + y) * dst_stride + (x0 + x) * fn.pixel_size) →
        ∃ iy lo n : Nat, (iy : Int) < y1 - y0 ∧
          ((lo + n : Nat) : Int) ≤ (x1 - x0) * fn.pixel_size ∧
          (op = Op.copy ((y0 + y) * dst_stride + (x0 + x) * fn.pixel_size + iy * dst_stride + lo)
                (y0 * src_stride + x0 * fn.pixel_size + iy * src_stride + lo) n ∨
            ∃ k : Nat, n = 2 ^ k * fn.pixel_size ∧
              op = Op.call k (y0 * src_stride + x0 * fn.pixel_size + iy * src_stride + lo)
                ((y0 + y) * dst_stride + (x0 + x) * fn.pixel_size + iy * dst_stride + lo)) := by
      intro runs hruns hmem
      obtain ⟨i, hi, hm⟩ := mem_rowsFrom _ _ _ op _ _ _ hmem
      obtain ⟨j, off, he, hle⟩ := emitRuns_span _ _ _ _ op hm
      refine ⟨i, off * fn.pixel_size, 2 ^ j * fn.pixel_size, by omega, ?_, Or.inr ⟨j, rfl, ?_⟩⟩
      · have h1 : (runsTotal runs : Int) * fn.pixel_size ≤ (x1 - x0) * fn.pixel_size := by
          rw [← hwn]
          apply mul_le_mul_of_nonneg_right
          · exact_mod_cast hruns
          · exact_mod_cast Nat.zero_le _
        omega
      · rw [he]
        push_cast
        rfl
    split at hop
    · obtain ⟨i, hi, hm⟩ := mem_rowsFrom _ _ _ op _ _ _ hop
      simp only [List.mem_singleton] at hm
      refine ⟨i, 0, u32 ((x1 - x0) * fn.pixel_size).toNat, by omega, ?_, Or.inl ?_⟩
      · have h1 : u32 ((x1 - x0) * fn.pixel_size).toNat ≤ ((x1 - x0) * fn.pixel_size).toNat :=
          Nat.mod_le _ _
        have h2 : ((((x1 - x0) * fn.pixel_size).toNat : Nat) : Int) = (x1 - x0) * fn.pixel_size :=
          Int.toNat_of_nonneg (mul_nonneg (by omega) (by exact_mod_cast Nat.zero_le _))
        rw [← h2, Nat.zero_add]
        exact_mod_cast h1
      · rw [hm]
        simp
    · split at hop
      · exact runcase _ (runsTotal_switchRuns_le _ _) hop
      · exact runcase _ (le_of_eq (runsTotal_loopRuns _ _)) hop

/-- A byte of a stretch of a row is a byte of a pixel of the row. -/
theorem stretch_position (ps : Nat) (hps : 0 < ps) (base w a : Int) (lo n : Nat)
    (hn : ((lo + n : Nat) : Int) ≤ w * ps) (h0 : base + lo ≤ a) (h1 : a < base + lo + n) :
    ∃ t b : Int, 0 ≤ t ∧ t < w ∧ 0 ≤ b ∧ b < ps ∧ a = base + t * ps + b := by
  have hp : (0 : Int) < ps := by exact_mod_cast hps
  push_cast at hn
  refine ⟨(a - base) / ps, (a - base) % ps, Int.ediv_nonneg (by omega) (by omega), ?_,
    Int.emod_nonneg _ (by omega), Int.emod_lt_of_pos _ hp, ?_⟩
  · apply Int.ediv_lt_of_lt_mul hp
    omega
  · have := Int.emod_add_ediv (a - base) ps
    linarith [mul_comm ((a - base) / (ps : Int)) (ps : Int)]

theorem clip_bounds (x src_w dst_w : Int) :
    0 ≤ clip_lo x ∧ clip_hi x src_w dst_w ≤ src_w ∧ 0 ≤ clip_lo x + x ∧
    clip_hi x src_w dst_w + x ≤ dst_w := by
  unfold clip_lo clip_hi
  split_ifs <;> omega

theorem mem_clipTerms (v x src_w dst_w : Int) :
    v ∈ clipTerms x src_w dst_w ↔
      (x < 0 ∧ v = -x) ∨ v = x + src_w ∨ (x + src_w > dst_w ∧ v = dst_w - x) := by
  unfold clipTerms
  split_ifs <;> simp [*]

/-- C36: when the clipped rectangle `[x0,x1) x [y0,y1)` of a call is not empty, it lies inside
the source surface and its image lies inside the destination surface; every byte an operation
of the call reads is a byte of a pixel `(X, Y)` of the source surface with `x0 <= X < x1` and
`y0 <= Y < y1`, and every byte it writes is a byte of the pixel `(X + x, Y + y)` of the
destination surface. The values are exact integers, as the C computations give them when none
overflows. -/
theorem C36_clipped_rect_inside (env : Env)
    (src_w src_h src_stride dst_w dst_h dst_stride x y : Int) (color : Option Color)
    (mode : Int) (hx : clip_lo x < clip_hi x src_w dst_w)
    (hy : clip_lo y < clip_hi y src_h dst_h) :
    (0 ≤ clip_lo x ∧ clip_lo x < clip_hi x src_w dst_w ∧ clip_hi x src_w dst_w ≤ src_w ∧
      0 ≤ clip_lo y ∧ clip_lo y < clip_hi y src_h dst_h ∧ clip_hi y src_h dst_h ≤ src_h ∧
      0 ≤ clip_lo x + x ∧ clip_hi x src_w dst_w + x ≤ dst_w ∧
      0 ≤ clip_lo y + y ∧ clip_hi y src_h dst_h + y ≤ dst_h) ∧
    (∀ L : Launch, dbc_blit_launch env src_w src_h dst_w dst_h x y color mode = some L →
      L.x0 = clip_lo x ∧ L.x1 = clip_hi x src_w dst_w ∧ L.y0 = clip_lo y ∧
      L.y1 = clip_hi y src_h dst_h ∧ L.fn.pixel_size = modePixelSize mode) ∧
    (∀ op ∈ dbc_blit_ops env src_w src_h src_stride dst_w dst_h dst_stride x y color mode,
      ∀ a : Int,
        (opReads (modePixelSize mode) op a →
          ∃ X Y b : Int, clip_lo x ≤ X ∧ X < clip_hi x src_w dst_w ∧ clip_lo y ≤ Y ∧
            Y < clip_hi y src_h dst_h ∧ 0 ≤ X ∧ X < src_w ∧ 0 ≤ Y ∧ Y < src_h ∧ 0 ≤ b ∧
            b < modePixelSize mode ∧ a = Y * src_stride + X * modePixelSize mode + b) ∧
        (opWrites (modePixelSize mode) op a →
          ∃ X Y b : Int, clip_lo x ≤ X ∧ X < clip_hi x src_w dst_w ∧ clip_lo y ≤ Y ∧
            Y < clip_hi y src_h dst_h ∧ 0 ≤ X + x ∧ X + x < dst_w ∧ 0 ≤ Y + y ∧ Y + y < dst_h ∧
            0 ≤ b ∧ b < modePixelSize mode ∧
            a = (Y + y) * dst_stride + (X + x) * modePixelSize mode + b)) := by
  obtain ⟨bx0, bx1, bx2, bx3⟩ := clip_bounds x src_w dst_w
  obtain ⟨by0, by1, by2, by3⟩ := clip_bounds y src_h dst_h
  refine ⟨⟨bx0, hx, bx1, by0, hy, by1, bx2, bx3, by2, by3⟩, ?_, ?_⟩
  · intro L hL
    obtain ⟨hps, hx0, hx1, hy0, hy1⟩ := launch_some _ _ _ _ _ _ _ _ _ L hL
    exact ⟨hx0, hx1, hy0, hy1, hps⟩
  · intro op hop a
    unfold dbc_blit_ops at hop
    cases hL : dbc_blit_launch env src_w src_h dst_w dst_h x y color mode with
    | none =>
      rw [hL] at hop
      simp at hop
    | some L =>
      rw [hL] at hop
      simp only at hop
      obtain ⟨hps, hx0, hx1, hy0, hy1⟩ := launch_some _ _ _ _ _ _ _ _ _ L hL
      have hpos : 0 < L.fn.pixel_size := by
        cases L.fn <;> simp [Fn.pixel_size]
      obtain ⟨iy, lo, n, hiy, hn, hshape⟩ := driver_op _ _ _ _ _ _ _ _ _ _ _ op hop
      rw [hps] at hn hshape hpos
      rw [hx0, hy0] at hshape
      rw [hx0, hx1] at hn
      rw [hy0, hy1] at hiy
      generalize modePixelSize mode = ps at *
      constructor
      · intro hr
        have hr' : clip_lo y * src_stride + clip_lo x * ps + iy * src_stride + lo ≤ a ∧
            a < clip_lo y * src_stride + clip_lo x * ps + iy * src_stride + lo + n := by
          rcases hshape with e | ⟨k, hk, e⟩
          · rw [e] at hr
            exact hr
          · rw [e] at hr
            simp only [opReads] at hr
            rw [hk]
            exact hr
        obtain ⟨t, b, ht0, ht1, hb0, hb1, ha⟩ := stretch_position ps hpos
          (clip_lo y * src_stride + clip_lo x * ps + iy * src_stride)
          (clip_hi x src_w dst_w - clip_lo x) a lo n hn hr'.1 hr'.2
        refine ⟨clip_lo x + t, clip_lo y + iy, b, by omega, by omega, by omega, by omega,
          by omega, by omega, by omega, by omega, hb0, hb1, ?_⟩
        rw [ha]
        ring
      · intro hw
        have hw' : (clip_lo y + y) * dst_stride + (clip_lo x + x) * ps + iy * dst_stride + lo ≤ a ∧
            a < (clip_lo y + y) * dst_stride + (clip_lo x + x) * ps + iy * dst_stride + lo
              + n := by
          rcases hshape with e | ⟨k, hk, e⟩
          · rw [e] at hw
            exact hw
          · rw [e] at hw
            simp only [opWrites] at hw
            rw [hk]
            exact hw
        obtain ⟨t, b, ht0, ht1, hb0, hb1, ha⟩ := stretch_position ps hpos
          ((clip_lo y + y) * dst_stride + (clip_lo x + x) * ps + iy * dst_stride)
          (clip_hi x src_w dst_w - clip_lo x) a lo n hn hw'.1 hw'.2
        refine ⟨clip_lo x + t, clip_lo y + iy, b, by omega, by omega, by omega, by omega,
          by omega, by omega, by omega, by omega, hb0, hb1, ?_⟩
        rw [ha]
        ring

theorem C36_clipped_rect_inside_witness :
    (clip_lo (-1) < clip_hi (-1) 2 4 ∧ clip_lo (-1) < clip_hi (-1) 2 4) ∧
    (0 ≤ clip_lo (-1) ∧ clip_lo (-1) < clip_hi (-1) 2 4 ∧ clip_hi (-1) 2 4 ≤ 2 ∧
      0 ≤ clip_lo (-1) ∧ clip_lo (-1) < clip_hi (-1) 2 4 ∧ clip_hi (-1) 2 4 ≤ 2 ∧
      0 ≤ clip_lo (-1) + -1 ∧ clip_hi (-1) 2 4 + -1 ≤ 4 ∧
      0 ≤ clip_lo (-1) + -1 ∧ clip_hi (-1) 2 4 + -1 ≤ 4) :=
  ⟨⟨by decide, by decide⟩,
    (C36_clipped_rect_inside Env.sample 2 2 8 4 4 16 (-1) (-1) none 1 (by decide)
      (by decide)).1⟩

/-! ## Overflow of the signed computations -/

/-- C37 fails as stated, twice. With the source off-screen at `y = 2^30 - 1` and a destination
of one pixel with stride 4, `DBCB_FN_HEADER` computes `(y0+y)*dst_stride = (2^30-1)*4`, which
is not a `dbcb_int32`, before its test `if(w<=0||h<=0) return;`. With a source of one row of
`2^31 - 1` one-byte pixels placed on-screen at `x = 2^29`, the clipping computes `x+src_w`,
which is not one either. -/
theorem C37_offscreen_offset_overflows :
    (|(0 : Int)| < 2 ^ 30 ∧ |(2 ^ 30 - 1 : Int)| < 2 ^ 30 ∧ (1 * 4 : Int) < 2 ^ 31 ∧
      ((2 ^ 30 - 1) * 4 : Int) ∈ dbc_blit_terms Env.sample 1 1 4 1 1 4 0 (2 ^ 30 - 1) none 0 ∧
      fitsInt32 ((2 ^ 30 - 1) * 4) = false) ∧
    (|(2 ^ 29 : Int)| < 2 ^ 30 ∧ |(0 : Int)| < 2 ^ 30 ∧ (1 * (2 ^ 31 - 1) : Int) < 2 ^ 31 ∧
      clip_lo (2 ^ 29) < clip_hi (2 ^ 29) (2 ^ 31 - 1) (2 ^ 31 - 1) ∧
      clip_lo 0 < clip_hi 0 1 1 ∧
      (2 ^ 29 + (2 ^ 31 - 1) : Int) ∈ dbc_blit_terms Env.sample (2 ^ 31 - 1) 1 (2 ^ 31 - 1)
        (2 ^ 31 - 1) 1 (2 ^ 31 - 1) (2 ^ 29) 0 none 5 ∧
      fitsInt32 (2 ^ 29 + (2 ^ 31 - 1)) = false) := by
  refine ⟨⟨by norm_num, by norm_num, by norm_num, ?_, by decide⟩,
    ⟨by norm_num, by norm_num, by norm_num, by decide, by decide, ?_, by decide⟩⟩
  · decide
  · decide

theorem fitsInt32_iff (v : Int) : fitsInt32 v = true ↔ -2 ^ 31 ≤ v ∧ v < 2 ^ 31 := by
  unfold fitsInt32
  simp

/-- C37, amended: with `|x|, |y| < 2^30`, source dimensions up to `2^30`, non-negative
strides and `height*stride < 2^31`, every signed 32-bit value computed up to the test
`if(w<=0||h<=0) return;` of the driver is a `dbcb_int32`, and so are the two offsets, in two
cases: when the clipped rectangle is not empty and the strides are at least `width*pixel_size`;
and for any placement, off-screen ones included, with `|x| < 2^29`, `|y|*src_stride < 2^31` and
`|y|*dst_stride < 2^31`. -/
theorem C37_no_overflow (env : Env)
    (src_w src_h src_stride dst_w dst_h dst_stride x y : Int) (color : Option Color)
    (mode : Int) (hx : |x| < 2 ^ 30) (hy : |y| < 2 ^ 30)
    (hsw : 0 ≤ src_w ∧ src_w ≤ 2 ^ 30) (hsh : 0 ≤ src_h ∧ src_h ≤ 2 ^ 30)
    (hdw : 0 ≤ dst_w) (hdh : 0 ≤ dst_h) (hss : 0 ≤ src_stride) (hds : 0 ≤ dst_stride)
    (hsa : src_h * src_stride < 2 ^ 31) (hda : dst_h * dst_stride < 2 ^ 31) :
    ((clip_lo x < clip_hi x src_w dst_w ∧ clip_lo y < clip_hi y src_h dst_h ∧
        src_w * modePixelSize mode ≤ src_stride ∧ dst_w * modePixelSize mode ≤ dst_stride) →
      (∀ v ∈ dbc_blit_terms env src_w src_h src_stride dst_w dst_h dst_stride x y color mode,
        fitsInt32 v = true) ∧
      fitsInt32 (clip_lo y * src_stride + clip_lo x * modePixelSize mode) = true ∧
      fitsInt32 ((clip_lo y + y) * dst_stride + (clip_lo x + x) * modePixelSize mode) = true) ∧
    ((|x| < 2 ^ 29 ∧ |y| * src_stride < 2 ^ 31 ∧ |y| * dst_stride < 2 ^ 31) →
      ∀ v ∈ dbc_blit_terms env src_w src_h src_stride dst_w dst_h dst_stride x y color mode,
        fitsInt32 v = true) := by
  have hps : modePixelSize mode = 1 ∨ modePixelSize mode = 2 ∨ modePixelSize mode = 4 := by
    unfold modePixelSize
    split_ifs <;> simp
  have hxa := abs_lt.mp hx
  have hya := abs_lt.mp hy
  constructor
  · rintro ⟨hnx, hny, hws, hwd⟩
    obtain ⟨bx0, bx1, bx2, bx3⟩ := clip_bounds x src_w dst_w
    obtain ⟨by0, by1, by2, by3⟩ := clip_bounds y src_h dst_h
    -- the products
    have p1 : clip_lo y * src_stride ≤ (src_h - 1) * src_stride :=
      mul_le_mul_of_nonneg_right (by omega) hss
    have p1' : 0 ≤ clip_lo y * src_stride := mul_nonneg by0 hss
    have p2 : (clip_lo y + y) * dst_stride ≤ (dst_h - 1) * dst_stride :=
      mul_le_mul_of_nonneg_right (by omega) hds
    have p2' : 0 ≤ (clip_lo y + y) * dst_stride := mul_nonneg by2 hds
    have hpsI : (1 : Int) ≤ modePixelSize mode ∧ (modePixelSize mode : Int) ≤ 4 := by
      rcases hps with e | e | e <;> rw [e] <;> norm_num
    have p3 : clip_lo x * modePixelSize mode ≤ (src_w - 1) * modePixelSize mode :=
      mul_le_mul_of_nonneg_right (by omega) (by omega)
    have p3' : 0 ≤ clip_lo x * modePixelSize mode := mul_nonneg bx0 (by omega)
    have p4 : (clip_lo x + x) * modePixelSize mode ≤ (dst_w - 1) * modePixelSize mode :=
      mul_le_mul_of_nonneg_right (by omega) (by omega)
    have p4' : 0 ≤ (clip_lo x + x) * modePixelSize mode := mul_nonneg bx2 (by omega)
    have e1 : (src_h - 1) * src_stride = src_h * src_stride - src_stride := by ring
    have e2 : (dst_h - 1) * dst_stride = dst_h * dst_stride - dst_stride := by ring
    have e3 : (src_w - 1) * (modePixelSize mode : Int)
        = src_w * modePixelSize mode - modePixelSize mode := by ring
    have e4 : (dst_w - 1) * (modePixelSize mode : Int)
        = dst_w * modePixelSize mode - modePixelSize mode := by ring
    have q1 : src_stride ≤ src_h * src_stride := by
      have : 1 * src_stride ≤ src_h * src_stride :=
        mul_le_mul_of_nonneg_right (by omega) hss
      omega
    have q2 : dst_stride ≤ dst_h * dst_stride := by
      have : 1 * dst_stride ≤ dst_h * dst_stride :=
        mul_le_mul_of_nonneg_right (by omega) hds
      omega
    refine ⟨?_, ?_, ?_⟩
    · intro v hv
      unfold dbc_blit_terms at hv
      cases hL : dbc_blit_launch env src_w src_h dst_w dst_h x y color mode with
      | none =>
        rw [hL] at hv
        simp at hv
      | some L =>
        rw [hL] at hv
        simp only at hv
        obtain ⟨hpz, hx0, hx1, hy0, hy1⟩ := launch_some _ _ _ _ _ _ _ _ _ L hL
        rw [hpz, hx0, hx1, hy0, hy1] at hv
        rw [fitsInt32_iff]
        simp only [List.mem_append, mem_clipTerms, headerTerms, List.mem_cons,
          List.mem_singleton, List.not_mem_nil, or_false] at hv
        have cx : clip_lo x = if x < 0 then -x else 0 := rfl
        have cy : clip_lo y = if y < 0 then -y else 0 := rfl
        have dx : clip_hi x src_w dst_w = if x + src_w > dst_w then dst_w - x else src_w := rfl
        have dy : clip_hi y src_h dst_h = if y + src_h > dst_h then dst_h - y else src_h := rfl
        rcases hv with ((⟨_, h⟩ | h | ⟨_, h⟩) | (⟨_, h⟩ | h | ⟨_, h⟩)) | h
        · subst h; omega
        · subst h; omega
        · subst h; omega
        · subst h; omega
        · subst h; omega
        · subst h; omega
        · rcases h with h | h | h | h | h | h | h | h <;> subst h
          · omega
          · omega
          · omega
          · omega
          · rw [cy]; split_ifs <;> omega
          · omega
          · rw [cx]; split_ifs <;> omega
          · omega
    · rw [fitsInt32_iff]
      omega
    · rw [fitsInt32_iff]
      omega
  · rintro ⟨hx', hy1', hy2'⟩
    have hxb := abs_lt.mp hx'
    intro v hv
    unfold dbc_blit_terms at hv
    cases hL : dbc_blit_launch env src_w src_h dst_w dst_h x y color mode with
    | none =>
      rw [hL] at hv
      simp at hv
    | some L =>
      rw [hL] at hv
      simp only at hv
      obtain ⟨hpz, hx0, hx1, hy0, hy1⟩ := launch_some _ _ _ _ _ _ _ _ _ L hL
      rw [hpz, hx0, hx1, hy0, hy1] at hv
      rw [fitsInt32_iff]
      have hpsI : (1 : Int) ≤ modePixelSize mode ∧ (modePixelSize mode : Int) ≤ 4 := by
        rcases hps with e | e | e <;> rw [e] <;> norm_num
      have a0 : 0 ≤ clip_lo y ∧ clip_lo y ≤ |y| := by
        unfold clip_lo
        split_ifs
        · exact ⟨by omega, neg_le_abs y⟩
        · exact ⟨le_refl _, abs_nonneg y⟩
      have a1 : 0 ≤ clip_lo y + y ∧ clip_lo y + y ≤ |y| := by
        unfold clip_lo
        split_ifs
        · exact ⟨by omega, by have := abs_nonneg y; omega⟩
        · exact ⟨by omega, by have := le_abs_self y; omega⟩
      have a2 : 0 ≤ clip_lo x ∧ clip_lo x < 2 ^ 29 := by
        unfold clip_lo
        split_ifs <;> omega
      have a3 : 0 ≤ clip_lo x + x ∧ clip_lo x + x < 2 ^ 29 := by
        unfold clip_lo
        split_ifs <;> omega
      have p1 : clip_lo y * src_stride ≤ |y| * src_stride :=
        mul_le_mul_of_nonneg_right a0.2 hss
      have p1' : 0 ≤ clip_lo y * src_stride := mul_nonneg a0.1 hss
      have p2 : (clip_lo y + y) * dst_stride ≤ |y| * dst_stride :=
        mul_le_mul_of_nonneg_right a1.2 hds
      have p2' : 0 ≤ (clip_lo y + y) * dst_stride := mul_nonneg a1.1 hds
      have p3 : clip_lo x * modePixelSize mode ≤ (2 ^ 29 - 1) * 4 :=
        mul_le_mul (by omega) hpsI.2 (by omega) (by norm_num)
      have p3' : 0 ≤ clip_lo x * modePixelSize mode := mul_nonneg a2.1 (by omega)
      have p4 : (clip_lo x + x) * modePixelSize mode ≤ (2 ^ 29 - 1) * 4 :=
        mul_le_mul (by omega) hpsI.2 (by omega) (by norm_num)
      have p4' : 0 ≤ (clip_lo x + x) * modePixelSize mode := mul_nonneg a3.1 (by omega)
      simp only [List.mem_append, mem_clipTerms, headerTerms, List.mem_cons,
        List.mem_singleton, List.not_mem_nil, or_false] at hv
      have cx : clip_lo x = if x < 0 then -x else 0 := rfl
      have cy : clip_lo y = if y < 0 then -y else 0 := rfl
      have dx : clip_hi x src_w dst_w = if x + src_w > dst_w then dst_w - x else src_w := rfl
      have dy : clip_hi y src_h dst_h = if y + src_h > dst_h then dst_h - y else src_h := rfl
      rcases hv with ((⟨_, h⟩ | h | ⟨_, h⟩) | (⟨_, h⟩ | h | ⟨_, h⟩)) | h
      · subst h; omega
      · subst h; omega
      · subst h; omega
      · subst h; omega
      · subst h; omega
      · subst h; omega
      · rcases h with h | h | h | h | h | h | h | h <;> subst h
        · rw [cx, dx]; split_ifs <;> omega
        · rw [cy, dy]; split_ifs <;> omega
        · omega
        · omega
        · omega
        · omega
        · omega
        · omega

theorem C37_no_overflow_witness :
    (|(-1 : Int)| < 2 ^ 30 ∧ |(-1 : Int)| < 2 ^ 30 ∧ ((0 : Int) ≤ 2 ∧ (2 : Int) ≤ 2 ^ 30) ∧
      ((0 : Int) ≤ 2 ∧ (2 : Int) ≤ 2 ^ 30) ∧ (0 : Int) ≤ 4 ∧ (0 : Int) ≤ 4 ∧ (0 : Int) ≤ 8 ∧
      (0 : Int) ≤ 16 ∧ (2 * 8 : Int) < 2 ^ 31 ∧ (4 * 16 : Int) < 2 ^ 31) ∧
    ((clip_lo (-1) < clip_hi (-1) 2 4 ∧ clip_lo (-1) < clip_hi (-1) 2 4 ∧
        (2 : Int) * modePixelSize 1 ≤ 8 ∧ (4 : Int) * modePixelSize 1 ≤ 16) →
      (∀ v ∈ dbc_blit_terms Env.sample 2 2 8 4 4 16 (-1) (-1) none 1, fitsInt32 v = true) ∧
      fitsInt32 (clip_lo (-1) * 8 + clip_lo (-1) * modePixelSize 1) = true ∧
      fitsInt32 ((clip_lo (-1) + -1) * 16 + (clip_lo (-1) + -1) * modePixelSize 1) = true) :=
  ⟨⟨by norm_num, by norm_num, by norm_num, by norm_num, by norm_num, by norm_num, by norm_num,
      by norm_num, by norm_num, by norm_num⟩,
    (C37_no_overflow Env.sample 2 2 8 4 4 16 (-1) (-1) none 1 (by norm_num) (by norm_num)
      (by norm_num) (by norm_num) (by norm_num) (by norm_num) (by norm_num) (by norm_num)
      (by norm_num) (by norm_num)).1⟩

/-! ## The runs of a row -/

theorem runStart_zero (runs : List Nat) : runStart runs 0 = 0 := rfl

theorem runStart_succ (j : Nat) (js : List Nat) (i : Nat) :
    runStart (j :: js) (i + 1) = 2 ^ j + runStart js i := rfl

theorem emitRuns_length (ps : Nat) :
    ∀ (runs : List Nat) (s d : Int), (emitRuns ps runs s d).length = runs.length := by
  intro runs
  induction runs with
  | nil => intro s d; rfl
  | cons j js ih =>
    intro s d
    simp only [emitRuns, List.length_cons, ih]

/-- The calls of a row are at consecutive offsets: call `i` starts where the runs before it
end, in the source and in the destination. -/
theorem emitRuns_get (ps : Nat) :
    ∀ (runs : List Nat) (s d : Int) (i : Nat), i < runs.length →
      (emitRuns ps runs s d)[i]? = some (Op.call (runs.getD i 0)
        (s + ((runStart runs i * ps : Nat) : Int)) (d + ((runStart runs i * ps : Nat) : Int))) := by
  intro runs
  induction runs with
  | nil => intro s d i hi; simp at hi
  | cons j js ih =>
    intro s d i hi
    cases i with
    | zero => simp [emitRuns, runStart_zero]
    | succ i =>
      have hi' : i < js.length := by simpa using hi
      simp only [emitRuns, List.getElem?_cons_succ, List.getD_cons_succ, runStart_succ]
      rw [ih _ _ i hi']
      congr 2
      · push_cast
        ring
      · push_cast
        ring

theorem runStart_end (runs : List Nat) :
    ∀ i, i < runs.length → runStart runs i + 2 ^ runs.getD i 0 ≤ runsTotal runs := by
  induction runs with
  | nil => intro i hi; simp at hi
  | cons j js ih =>
    intro i hi
    cases i with
    | zero => simp [runStart_zero, runsTotal]
    | succ i =>
      have hi' : i < js.length := by simpa using hi
      have := ih i hi'
      simp only [runStart_succ, List.getD_cons_succ, runsTotal]
      omega

/-- The runs of a row cover each of its pixels once. -/
theorem runs_cover (runs : List Nat) :
    ∀ t, t < runsTotal runs →
      ∃! i, i < runs.length ∧ runStart runs i ≤ t ∧ t < runStart runs i + 2 ^ runs.getD i 0 := by
  induction runs with
  | nil => intro t ht; simp [runsTotal] at ht
  | cons j js ih =>
    intro t ht
    by_cases h : t < 2 ^ j
    · refine ⟨0, ⟨by simp, by simp [runStart_zero], by simpa [runStart_zero] using h⟩, ?_⟩
      rintro i ⟨_, h1, _⟩
      cases i with
      | zero => rfl
      | succ i =>
        rw [runStart_succ] at h1
        omega
    · have ht' : t - 2 ^ j < runsTotal js := by
        simp only [runsTotal] at ht
        omega
      obtain ⟨i, ⟨hi, h1, h2⟩, huniq⟩ := ih (t - 2 ^ j) ht'
      refine ⟨i + 1, ⟨by simpa using hi, ?_, ?_⟩, ?_⟩
      · rw [runStart_succ]
        omega
      · rw [runStart_succ, List.getD_cons_succ]
        omega
      · rintro i' ⟨hi', h1', h2'⟩
        cases i' with
        | zero =>
          simp [runStart_zero] at h2'
          omega
        | succ i' =>
          rw [runStart_succ] at h1'
          rw [runStart_succ, List.getD_cons_succ] at h2'
          have := huniq i' ⟨by simpa using hi', by omega, by omega⟩
          omega

theorem loopRuns_eq (k w : Nat) :
    loopRuns k w = List.replicate (w / 2 ^ k) k
      ++ (List.range k).reverse.filter (fun j => decide (w / 2 ^ j % 2 = 1)) := by
  unfold loopRuns
  rw [Nat.shiftRight_eq_div_pow]
  congr 1
  apply List.filter_congr
  intro j _
  rcases and_two_pow_cases w j with ⟨h1, h2⟩ | ⟨h1, h2⟩
  · simp [h1, h2]
  · have : 2 ^ j ≠ 0 := by positivity
    simp [h1, h2, this]

/-- What a row driver with kernels does for a rectangle that is not empty: the rows of the
unrolled switch when `DBC_BLIT_UNROLL` is not 0 and `0 < unroll_max`, `w <= unroll_max` and
`w <= DBC_BLIT_UNROLL` hold, the rows of the generic loop otherwise. -/
theorem driver_some (env : Env) (tier : Tier) (fn : Fn) (k : Nat) (hk : fnTop tier fn = some k)
    (ss ds x0 y0 x1 y1 x y : Int) (hw : 0 < x1 - x0) (hh : 0 < y1 - y0) :
    driver env tier fn ss ds x0 y0 x1 y1 x y
      = rowsFrom (emitRuns fn.pixel_size
          (if env.unroll.val ≠ 0 ∧ 0 < env.unroll_limit fn.mode fn.modulated ∧
              x1 - x0 ≤ env.unroll_limit fn.mode fn.modulated ∧ x1 - x0 ≤ env.unroll.val
            then switchRuns k (x1 - x0).toNat else loopRuns k (x1 - x0).toNat))
          ss ds (y1 - y0).toNat (y0 * ss + x0 * fn.pixel_size)
          ((y0 + y) * ds + (x0 + x) * fn.pixel_size) := by
  unfold driver
  simp only [hk]
  rw [if_neg (by omega)]
  by_cases hc : env.unroll.val ≠ 0 ∧ 0 < env.unroll_limit fn.mode fn.modulated ∧
      x1 - x0 ≤ env.unroll_limit fn.mode fn.modulated ∧ x1 - x0 ≤ env.unroll.val
  · rw [if_pos hc]
    obtain ⟨h1, h2, h3, h4⟩ := hc
    have : (decide (env.unroll.val ≠ 0) && decide (env.unroll_limit fn.mode fn.modulated > 0)
        && decide (x1 - x0 ≤ env.unroll_limit fn.mode fn.modulated)
        && decide (x1 - x0 ≤ (env.unroll.val : Int))) = true := by
      simp [h1, h2, h3, h4]
    rw [if_pos this]
  · rw [if_neg hc]
    have : ¬ ((decide (env.unroll.val ≠ 0) && decide (env.unroll_limit fn.mode fn.modulated > 0)
        && decide (x1 - x0 ≤ env.unroll_limit fn.mode fn.modulated)
        && decide (x1 - x0 ≤ (env.unroll.val : Int))) = true) := by
      intro h
      apply hc
      simp only [Bool.and_eq_true, decide_eq_true_eq] at h
      exact ⟨h.1.1.1, h.1.1.2, h.1.2, h.2⟩
    rw [if_neg this]

theorem switchRuns_eq_loopRuns : ∀ k, k < 6 → ∀ w, w < 33 → switchRuns k w = loopRuns k w := by
  decide

/-- C31: the generic loop of a row driver whose largest run is `2^k` pixels, for a row of `w`
pixels: `floor(w / 2^k)` runs of `2^k` pixels, then one run of `2^j` pixels for each `j < k`
with bit `j` of `w` set, in decreasing `j`; the calls are at consecutive offsets, each pixel
`t < w` of the row lies in exactly one run, and no run goes beyond pixel `w - 1`. A driver
whose row is not unrolled makes these calls in every row. -/
theorem C31_generic_loop (k w : Nat) :
    loopRuns k w = List.replicate (w / 2 ^ k) k
      ++ (List.range k).reverse.filter (fun j => decide (w / 2 ^ j % 2 = 1)) ∧
    runsTotal (loopRuns k w) = w ∧
    (∀ (ps : Nat) (s d : Int),
      (emitRuns ps (loopRuns k w) s d).length = (loopRuns k w).length ∧
      ∀ i, i < (loopRuns k w).length →
        (emitRuns ps (loopRuns k w) s d)[i]? = some (Op.call ((loopRuns k w).getD i 0)
          (s + ((runStart (loopRuns k w) i * ps : Nat) : Int))
          (d + ((runStart (loopRuns k w) i * ps : Nat) : Int)))) ∧
    (∀ t, t < w → ∃! i, i < (loopRuns k w).length ∧ runStart (loopRuns k w) i ≤ t ∧
      t < runStart (loopRuns k w) i + 2 ^ (loopRuns k w).getD i 0) ∧
    (∀ i, i < (loopRuns k w).length →
      runStart (loopRuns k w) i + 2 ^ (loopRuns k w).getD i 0 ≤ w) ∧
    (∀ (env : Env) (tier : Tier) (fn : Fn) (ss ds x0 y0 x1 y1 x y : Int),
      fnTop tier fn = some k → 0 < x1 - x0 → 0 < y1 - y0 → (x1 - x0).toNat = w →
      ¬ (env.unroll.val ≠ 0 ∧ 0 < env.unroll_limit fn.mode fn.modulated ∧
          x1 - x0 ≤ env.unroll_limit fn.mode fn.modulated ∧ x1 - x0 ≤ env.unroll.val) →
      driver env tier fn ss ds x0 y0 x1 y1 x y
        = rowsFrom (emitRuns fn.pixel_size (loopRuns k w)) ss ds (y1 - y0).toNat
            (y0 * ss + x0 * fn.pixel_size) ((y0 + y) * ds + (x0 + x) * fn.pixel_size)) := by
  have ht := runsTotal_loopRuns k w
  refine ⟨loopRuns_eq k w, ht, ?_, ?_, ?_, ?_⟩
  · intro ps s d
    exact ⟨emitRuns_length ps _ s d, emitRuns_get ps _ s d⟩
  · intro t htw
    exact runs_cover _ t (by rw [ht]; exact htw)
  · intro i hi
    have := runStart_end _ i hi
    rw [ht] at this
    exact this
  · intro env tier fn ss ds x0 y0 x1 y1 x y hk hw hh hwn hc
    rw [driver_some env tier fn k hk ss ds x0 y0 x1 y1 x y hw hh, if_neg hc, hwn]

/-- C32: the unrolled switch. For a width `1 <= w <= 32` (the cases of `DBC_BLIT_UNROLL` 8 and
16 are the first 8 and 16 of them) and a driver whose largest run is `2^k` pixels, the case of
`w` makes the calls of the generic loop: runs whose sizes sum to `w`, at consecutive offsets
(13 = 8 + 4 + 1). A driver takes the runs of the switch exactly when `DBC_BLIT_UNROLL` is not
0 and `0 < unroll_max`, `w <= unroll_max` and `w <= DBC_BLIT_UNROLL` hold, the runs of the
generic loop otherwise (always with `DBC_BLIT_UNROLL` 0), and whether the switch is taken or
not it performs the memory operations of its generic loop and leaves the same destination. -/
theorem C32_unrolled_switch (k : Nat) (hk : k ≤ 5) :
    (∀ w, 1 ≤ w → w ≤ 32 →
      switchRuns k w = loopRuns k w ∧ runsTotal (switchRuns k w) = w ∧
      ∀ (ps : Nat) (s d : Int) (i : Nat), i < (switchRuns k w).length →
        (emitRuns ps (switchRuns k w) s d)[i]? = some (Op.call ((switchRuns k w).getD i 0)
          (s + ((runStart (switchRuns k w) i * ps : Nat) : Int))
          (d + ((runStart (switchRuns k w) i * ps : Nat) : Int)))) ∧
    switchRuns 3 13 = [3, 2, 0] ∧
    (∀ (env : Env) (tier : Tier) (fn : Fn) (ss ds x0 y0 x1 y1 x y : Int),
      fnTop tier fn = some k → 0 < x1 - x0 → 0 < y1 - y0 →
      driver env tier fn ss ds x0 y0 x1 y1 x y
        = rowsFrom (emitRuns fn.pixel_size
            (if env.unroll.val ≠ 0 ∧ 0 < env.unroll_limit fn.mode fn.modulated ∧
                x1 - x0 ≤ env.unroll_limit fn.mode fn.modulated ∧ x1 - x0 ≤ env.unroll.val
              then switchRuns k (x1 - x0).toNat else loopRuns k (x1 - x0).toNat))
            ss ds (y1 - y0).toNat (y0 * ss + x0 * fn.pixel_size)
            ((y0 + y) * ds + (x0 + x) * fn.pixel_size) ∧
      (env.unroll = Unroll.u0 →
        driver env tier fn ss ds x0 y0 x1 y1 x y
          = rowsFrom (emitRuns fn.pixel_size (loopRuns k (x1 - x0).toNat)) ss ds
              (y1 - y0).toNat (y0 * ss + x0 * fn.pixel_size)
              ((y0 + y) * ds + (x0 + x) * fn.pixel_size)) ∧
      driver env tier fn ss ds x0 y0 x1 y1 x y
        = rowsFrom (emitRuns fn.pixel_size (loopRuns k (x1 - x0).toNat)) ss ds
            (y1 - y0).toNat (y0 * ss + x0 * fn.pixel_size)
            ((y0 + y) * ds + (x0 + x) * fn.pixel_size) ∧
      ∀ (kern : Nat → Kernel) (src dst : Mem),
        execOps kern src (driver env tier fn ss ds x0 y0 x1 y1 x y) dst
          = execOps kern src
              (driver { env with unroll := Unroll.u0 } tier fn ss ds x0 y0 x1 y1 x y) dst) := by
  have hloop : ∀ (env : Env) (tier : Tier) (fn : Fn) (ss ds x0 y0 x1 y1 x y : Int),
      fnTop tier fn = some k → 0 < x1 - x0 → 0 < y1 - y0 →
      driver env tier fn ss ds x0 y0 x1 y1 x y
        = rowsFrom (emitRuns fn.pixel_size (loopRuns k (x1 - x0).toNat)) ss ds
            (y1 - y0).toNat (y0 * ss + x0 * fn.pixel_size)
            ((y0 + y) * ds + (x0 + x) * fn.pixel_size) := by
    intro env tier fn ss ds x0 y0 x1 y1 x y hf hw hh
    rw [driver_some env tier fn k hf ss ds x0 y0 x1 y1 x y hw hh]
    split
    · rename_i hc
      have h32 := unroll_val_le env.unroll
      rw [switchRuns_eq_loopRuns k (by omega) _ (by omega)]
    · rfl
  refine ⟨?_, by decide, ?_⟩
  · intro w hw1 hw
    have e := switchRuns_eq_loopRuns k (by omega) w (by omega)
    refine ⟨e, ?_, ?_⟩
    · rw [e]
      exact runsTotal_loopRuns k w
    · intro ps s d i hi
      exact emitRuns_get ps _ s d i hi
  · intro env tier fn ss ds x0 y0 x1 y1 x y hf hw hh
    refine ⟨?_, ?_, hloop env tier fn ss ds x0 y0 x1 y1 x y hf hw hh, ?_⟩
    · exact driver_some env tier fn k hf ss ds x0 y0 x1 y1 x y hw hh
    · intro _
      exact hloop env tier fn ss ds x0 y0 x1 y1 x y hf hw hh
    · intro kern src dst
      rw [hloop env tier fn ss ds x0 y0 x1 y1 x y hf hw hh,
        hloop { env with unroll := Unroll.u0 } tier fn ss ds x0 y0 x1 y1 x y hf hw hh]

theorem C32_unrolled_switch_witness :
    (3 : Nat) ≤ 5 ∧ switchRuns 3 13 = loopRuns 3 13 ∧ runsTotal (switchRuns 3 13) = 13 :=
  ⟨by decide, ((C32_unrolled_switch 3 (by decide)).1 13 (by decide) (by decide)).1,
    ((C32_unrolled_switch 3 (by decide)).1 13 (by decide) (by decide)).2.1⟩

/-! ## The blends of the C drivers, pixel by pixel -/

theorem bla_1_c_mod (P : Platform) (s d : Nat) (hs : s < 2 ^ 32) (hd : d < 2 ^ 32) :
    dbcB_bla_1_c P s d % 2 ^ 32 = dbcB_bla_1_c P s d := by
  apply Nat.mod_eq_of_lt
  rw [dbcB_bla_1_c_eq P s d hs hd]
  have hA := getb_lt s 3
  have e : ∀ c, dbcB_getb s 3 * dbcB_getb s c + (255 - dbcB_getb s 3) * dbcB_getb d c
      = dbcB_getb s c * dbcB_getb s 3 + dbcB_getb d c * (255 - dbcB_getb s 3) := by
    intro c
    ring
  have b : ∀ c, rdiv255 (dbcB_getb s 3 * dbcB_getb s c + (255 - dbcB_getb s 3) * dbcB_getb d c)
      < 256 := by
    intro c
    rw [e c]
    have := rdiv255_le _ (blend_le _ _ _ (getb_lt s c) (getb_lt d c) hA)
    omega
  refine pix4_lt _ _ _ _ (b 0) (b 1) (b 2) ?_
  have e3 : dbcB_getb s 3 * 255 + (255 - dbcB_getb s 3) * dbcB_getb d 3
      = 255 * dbcB_getb s 3 + dbcB_getb d 3 * (255 - dbcB_getb s 3) := by ring
  rw [e3]
  have := rdiv255_le _ (blend_le 255 _ _ (by norm_num) (getb_lt d 3) hA)
  omega

theorem blp_1_c_mod (P : Platform) (s d : Nat) (hs : s < 2 ^ 32) (hd : d < 2 ^ 32) :
    dbcB_blp_1_c P s d % 2 ^ 32 = dbcB_blp_1_c P s d := by
  apply Nat.mod_eq_of_lt
  rw [dbcB_blp_1_c_eq P s d hs hd]
  refine pix4_lt _ _ _ _ ?_ ?_ ?_ ?_ <;>
    exact Nat.lt_of_le_of_lt (Nat.min_le_left _ _) (by norm_num)

theorem blx_1_c_mod (P : Platform) (s d : Nat) (hs : s < 2 ^ 32) (hd : d < 2 ^ 32) :
    dbcB_blx_1_c P s d % 2 ^ 32 = dbcB_blx_1_c P s d := by
  apply Nat.mod_eq_of_lt
  rw [dbcB_blx_1_c_eq P s d hs hd]
  have b : ∀ c, rdiv255 (dbcB_getb s c * dbcB_getb d c) < 256 := by
    intro c
    have := rdiv255_le _ (mul_bytes_le _ _ (getb_lt s c) (getb_lt d c))
    omega
  exact pix4_lt _ _ _ _ (b 0) (b 1) (b 2) (b 3)

/-- The kernels for 1, 2 and 4 pixels that are calls of one word function on successive
pixels work pixel by pixel as that function. -/
theorem pixelSpec_twice32 (big : Bool) (F : Nat → Nat → Nat)
    (hF : ∀ s d, s < 2 ^ 32 → d < 2 ^ 32 → F s d % 2 ^ 32 = F s d) :
    PixelSpec (pix32 big F) (2 ^ 0) 4 (dbcb_load32 big) F ∧
    PixelSpec (twice (pix32 big F) 4) (2 ^ 1) 4 (dbcb_load32 big) F ∧
    PixelSpec (twice (twice (pix32 big F) 4) 8) (2 ^ 2) 4 (dbcb_load32 big) F := by
  have hrd := rdLocal_load32 big
  have h1 : PixelSpec (pix32 big F) 1 4 (dbcb_load32 big) F := pixelSpec_pix32 _ _ _ hF
  have F1 : Frames (pix32 big F) (1 * 4) := frames_pix32 _ _
  have h2 := pixelSpec_twice _ 1 4 _ _ 4 (by norm_num) hrd F1 h1
  have F2 : Frames (twice (pix32 big F) 4) (2 * 4) := frames_twice _ 4 (frames_pix32 _ _)
  have h4 := pixelSpec_twice _ 2 4 _ _ 8 (by norm_num) hrd F2 h2
  exact ⟨h1, h2, h4⟩

theorem scalarKernel_fla_spec (env : Env) (k : Nat) (p : Params) (hk : k ≤ 2) :
    PixelSpec (scalarKernel env Fn.fla k p) (2 ^ k) 4 (dbcb_load32 env.big_endian)
      (dbcB_bla_1_c env.platform) := by
  obtain ⟨h1, h2, h4⟩ := pixelSpec_twice32 env.big_endian _ (bla_1_c_mod env.platform)
  interval_cases k
  · simp only [scalarKernel]; exact h1
  · simp only [scalarKernel]; exact h2
  · simp only [scalarKernel]; exact h4

theorem scalarKernel_flp_spec (env : Env) (k : Nat) (p : Params) (hk : k ≤ 2) :
    PixelSpec (scalarKernel env Fn.flp k p) (2 ^ k) 4 (dbcb_load32 env.big_endian)
      (dbcB_blp_1_c env.platform) := by
  obtain ⟨h1, h2, h4⟩ := pixelSpec_twice32 env.big_endian _ (blp_1_c_mod env.platform)
  interval_cases k
  · simp only [scalarKernel]; exact h1
  · simp only [scalarKernel]; exact h2
  · simp only [scalarKernel]; exact h4

theorem scalarKernel_flx_spec (env : Env) (k : Nat) (p : Params) (hk : k ≤ 2) :
    PixelSpec (scalarKernel env Fn.flx k p) (2 ^ k) 4 (dbcb_load32 env.big_endian)
      (dbcB_blx_1_c env.platform) := by
  obtain ⟨h1, h2, h4⟩ := pixelSpec_twice32 env.big_endian _ (blx_1_c_mod env.platform)
  interval_cases k
  · simp only [scalarKernel]; exact h1
  · simp only [scalarKernel]; exact h2
  · simp only [scalarKernel]; exact h4

theorem headerKeys_lt (fn : Fn) (color : Option Color) :
    (headerKeys fn color).1 < 256 ∧ (headerKeys fn color).2 < 65536 := by
  unfold headerKeys
  cases color with
  | none => simp
  | some c =>
    simp only
    split
    · split
      · exact ⟨Nat.mod_lt _ (by norm_num), Nat.mod_lt _ (by norm_num)⟩
      · exact ⟨Nat.mod_lt _ (by norm_num), Nat.mod_lt _ (by norm_num)⟩
    · simp

/-- A call that launches a C driver with kernels: every pixel of the image of the clipped
rectangle becomes what the kernels give pixel by pixel. -/
theorem dbc_blit_pixel_c (env : Env) (src_w src_h ss : Int) (src : Mem) (dst_w dst_h ds : Int)
    (dst : Mem) (x y : Int) (color : Option Color) (mode : Int) (L : Launch)
    (hL : dbc_blit_launch env src_w src_h dst_w dst_h x y color mode = some L)
    (ht : L.tier = Tier.c) (k : Nat) (hk : fnTop Tier.c L.fn = some k)
    (rd : Mem → Int → Nat) (f : Nat → Nat → Nat) (hrd : RdLocal rd (modePixelSize mode))
    (hspec : ∀ j, j ≤ k → PixelSpec (scalarKernel env L.fn j
      ⟨L.color, (headerKeys L.fn L.color).1, (headerKeys L.fn L.color).2⟩) (2 ^ j)
      (modePixelSize mode) rd f)
    (hd : dst_w * modePixelSize mode ≤ ds) (X Y : Int) (hX0 : max 0 x ≤ X)
    (hX1 : X < min dst_w (x + src_w)) (hY0 : max 0 y ≤ Y) (hY1 : Y < min dst_h (y + src_h)) :
    rd (dbc_blit env src_w src_h ss src dst_w dst_h ds dst x y color mode)
        (Y * ds + X * modePixelSize mode)
      = f (rd src ((Y - y) * ss + (X - x) * modePixelSize mode))
          (rd dst (Y * ds + X * modePixelSize mode)) := by
  have hps := (launch_some _ _ _ _ _ _ _ _ _ L hL).1
  have h := dbc_blit_pixel env src_w src_h ss src dst_w dst_h ds dst x y color mode L hL k
    (by rw [ht]; exact hk) rd f (by rw [hps]; exact hrd)
    (by
      intro j hj
      rw [ht, hps]
      exact hspec j hj)
    (by rw [hps]; exact hd) X Y hX0 hX1 hY0 hY1
  rw [hps] at h
  exact h

theorem launch_plain (env : Env) (src_w src_h dst_w dst_h x y : Int) (mode : Int) (L : Launch)
    (hL : dbc_blit_launch env src_w src_h dst_w dst_h x y none mode = some L) :
    (mode = 1 → L.fn = Fn.fla) ∧ (mode = 2 → L.fn = Fn.flp) ∧ (mode = 8 → L.fn = Fn.flx) ∧
    L.color = none := by
  have hf := launch_fn env src_w src_h dst_w dst_h x y none mode L hL
  have hc : L.color = none := by
    unfold dbc_blit_launch at hL
    split at hL
    · exact absurd hL (by simp)
    · simp only at hL
      split at hL
      · exact absurd hL (by simp)
      · split at hL
        · exact absurd hL (by simp)
        · simp only [Option.some.injEq] at hL
          rw [← hL]
          simp [modulatedFlags]
  refine ⟨?_, ?_, ?_, hc⟩
  · intro h
    subst h
    simp [modulatedFlags, selectFn] at hf
    exact hf.symm
  · intro h
    subst h
    simp [modulatedFlags, selectFn] at hf
    exact hf.symm
  · intro h
    subst h
    simp [modulatedFlags, selectFn] at hf
    exact hf.symm

theorem launch_keyed (env : Env) (src_w src_h dst_w dst_h x y : Int) (c : Color) (mode : Int)
    (L : Launch) (hm : mode = 5 ∨ mode = 6 ∨ mode = 10)
    (hk : ((c 0).ge 0 && (c 0).le (if mode = 6 then 65535 else 255)) = true)
    (hL : dbc_blit_launch env src_w src_h dst_w dst_h x y (some c) mode = some L) :
    (mode = 5 → L.fn = Fn.f8m) ∧ (mode = 6 → L.fn = Fn.f16m) ∧
    (mode = 10 → L.fn = Fn.f32t ∨ L.fn = Fn.f32s) ∧ L.color = some c := by
  have hf := launch_fn env src_w src_h dst_w dst_h x y (some c) mode L hL
  have hmod := modulated_key mode c hm
  rw [hk] at hmod
  rw [hmod] at hf
  have hc : L.color = some c := by
    unfold dbc_blit_launch at hL
    split at hL
    · exact absurd hL (by simp)
    · simp only at hL
      split at hL
      · exact absurd hL (by simp)
      · split at hL
        · exact absurd hL (by simp)
        · simp only [Option.some.injEq] at hL
          rw [← hL]
          simp [hmod]
  refine ⟨?_, ?_, ?_, hc⟩
  · intro h
    subst h
    simp [selectFn] at hf
    exact hf.symm
  · intro h
    subst h
    simp [selectFn] at hf
    exact hf.symm
  · intro h
    subst h
    cases ha : (modulatedFlags 10 (some c)).2
    · rw [ha] at hf
      simp [selectFn] at hf
      exact Or.inl hf.symm
    · rw [ha] at hf
      simp [selectFn] at hf
      exact Or.inr hf.symm

/-- C33: a call that launches the C driver of a mode with kernels, a destination whose stride
is at least a row (source and destination are two memories: they do not overlap). Every
destination pixel `(X, Y)` of the image of the clipped rectangle becomes the one-pixel kernel
of the mode applied to the source pixel `(X - x, Y - y)`, which lies at
`(Y - y)*src_stride + (X - x)*pixel_size`, and to the previous destination pixel: `dbcB_bla_1_c`
for ALPHA, `dbcB_blp_1_c` for PMA and `dbcB_blx_1_c` for MUL without `color`, `dbcB_b5551_1_c`
for 5551, `dbcB_b8m_1_c` and `dbcB_b16m_1_c` with the key of `DBCB_FN_HEADER` for the colorkey
modes with a key in range, `dbcB_b32t_1_c` or, for a threshold in `(127, 128]`,
`dbcB_b32s_1_c` for the alpha test with a threshold in range. The kernel calls of each row are
at consecutive offsets and their runs add up to the width of the rectangle. -/
theorem C33_scalar_driver_pixels (env : Env) (src_w src_h ss : Int) (src : Mem)
    (dst_w dst_h ds : Int) (dst : Mem) (x y : Int) (color : Option Color) (mode : Int)
    (L : Launch) (hL : dbc_blit_launch env src_w src_h dst_w dst_h x y color mode = some L)
    (ht : L.tier = Tier.c)
    (hmode : (color = none ∧ (mode = 1 ∨ mode = 2 ∨ mode = 8)) ∨ mode = 7 ∨
      (∃ c, color = some c ∧ (mode = 5 ∨ mode = 6 ∨ mode = 10) ∧
        ((c 0).ge 0 && (c 0).le (if mode = 6 then 65535 else 255)) = true))
    (hd : dst_w * modePixelSize mode ≤ ds) (X Y : Int) (hX0 : max 0 x ≤ X)
    (hX1 : X < min dst_w (x + src_w)) (hY0 : max 0 y ≤ Y) (hY1 : Y < min dst_h (y + src_h)) :
    (mode = 1 → L.fn = Fn.fla ∧
      dbcb_load32 env.big_endian
          (dbc_blit env src_w src_h ss src dst_w dst_h ds dst x y color mode) (Y * ds + X * 4)
        = dbcB_bla_1_c env.platform
            (dbcb_load32 env.big_endian src ((Y - y) * ss + (X - x) * 4))
            (dbcb_load32 env.big_endian dst (Y * ds + X * 4))) ∧
    (mode = 2 → L.fn = Fn.flp ∧
      dbcb_load32 env.big_endian
          (dbc_blit env src_w src_h ss src dst_w dst_h ds dst x y color mode) (Y * ds + X * 4)
        = dbcB_blp_1_c env.platform
            (dbcb_load32 env.big_endian src ((Y - y) * ss + (X - x) * 4))
            (dbcb_load32 env.big_endian dst (Y * ds + X * 4))) ∧
    (mode = 8 → L.fn = Fn.flx ∧
      dbcb_load32 env.big_endian
          (dbc_blit env src_w src_h ss src dst_w dst_h ds dst x y color mode) (Y * ds + X * 4)
        = dbcB_blx_1_c env.platform
            (dbcb_load32 env.big_endian src ((Y - y) * ss + (X - x) * 4))
            (dbcb_load32 env.big_endian dst (Y * ds + X * 4))) ∧
    (mode = 7 → L.fn = Fn.f5551 ∧
      dbcb_load16 env.big_endian
          (dbc_blit env src_w src_h ss src dst_w dst_h ds dst x y color mode) (Y * ds + X * 2)
        = dbcB_b5551_1_c
            (dbcb_load16 env.big_endian src ((Y - y) * ss + (X - x) * 2))
            (dbcb_load16 env.big_endian dst (Y * ds + X * 2))) ∧
    (mode = 5 → L.fn = Fn.f8m ∧
      (dbc_blit env src_w src_h ss src dst_w dst_h ds dst x y color mode (Y * ds + X * 1)).val
        = dbcB_b8m_1_c (headerKeys Fn.f8m L.color).1
            (src ((Y - y) * ss + (X - x) * 1)).val (dst (Y * ds + X * 1)).val) ∧
    (mode = 6 → L.fn = Fn.f16m ∧
      dbcb_load16 env.big_endian
          (dbc_blit env src_w src_h ss src dst_w dst_h ds dst x y color mode) (Y * ds + X * 2)
        = dbcB_b16m_1_c (headerKeys Fn.f16m L.color).2
            (dbcb_load16 env.big_endian src ((Y - y) * ss + (X - x) * 2))
            (dbcb_load16 env.big_endian dst (Y * ds + X * 2))) ∧
    (mode = 10 →
      (L.fn = Fn.f32t ∧
        dbcb_load32 env.big_endian
            (dbc_blit env src_w src_h ss src dst_w dst_h ds dst x y color mode) (Y * ds + X * 4)
          = dbcB_b32t_1_c (headerKeys Fn.f32t L.color).1
              (dbcb_load32 env.big_endian src ((Y - y) * ss + (X - x) * 4))
              (dbcb_load32 env.big_endian dst (Y * ds + X * 4))) ∨
      (L.fn = Fn.f32s ∧
        dbcb_load32 env.big_endian
            (dbc_blit env src_w src_h ss src dst_w dst_h ds dst x y color mode) (Y * ds + X * 4)
          = dbcB_b32s_1_c
              (dbcb_load32 env.big_endian src ((Y - y) * ss + (X - x) * 4))
              (dbcb_load32 env.big_endian dst (Y * ds + X * 4)))) ∧
    (∃ runs : List Nat, runsTotal runs = (L.x1 - L.x0).toNat ∧
      (∀ t, t < (L.x1 - L.x0).toNat → ∃! i, i < runs.length ∧ runStart runs i ≤ t ∧
        t < runStart runs i + 2 ^ runs.getD i 0) ∧
      dbc_blit_ops env src_w src_h ss dst_w dst_h ds x y color mode
        = rowsFrom (emitRuns L.fn.pixel_size runs) ss ds (L.y1 - L.y0).toNat
            (L.y0 * ss + L.x0 * L.fn.pixel_size)
            ((L.y0 + y) * ds + (L.x0 + x) * L.fn.pixel_size)) := by
  have pix : ∀ (k : Nat) (rd : Mem → Int → Nat) (f : Nat → Nat → Nat),
      fnTop Tier.c L.fn = some k → RdLocal rd (modePixelSize mode) →
      (∀ j, j ≤ k → PixelSpec (scalarKernel env L.fn j
        ⟨L.color, (headerKeys L.fn L.color).1, (headerKeys L.fn L.color).2⟩) (2 ^ j)
        (modePixelSize mode) rd f) →
      rd (dbc_blit env src_w src_h ss src dst_w dst_h ds dst x y color mode)
          (Y * ds + X * modePixelSize mode)
        = f (rd src ((Y - y) * ss + (X - x) * modePixelSize mode))
            (rd dst (Y * ds + X * modePixelSize mode)) := by
    intro k rd f hk hrd hspec
    exact dbc_blit_pixel_c env src_w src_h ss src dst_w dst_h ds dst x y color mode L hL ht k hk
      rd f hrd hspec hd X Y hX0 hX1 hY0 hY1
  have hx : clip_lo x < clip_hi x src_w dst_w := by
    obtain ⟨c0, c1⟩ := clip_x x src_w dst_w
    omega
  have hy : clip_lo y < clip_hi y src_h dst_h := by
    obtain ⟨c0, c1⟩ := clip_x y src_h dst_h
    omega
  obtain ⟨hps, hx0, hx1, hy0, hy1⟩ := launch_some _ _ _ _ _ _ _ _ _ L hL
  -- the modes and their drivers
  have fplain : color = none → (mode = 1 → L.fn = Fn.fla) ∧ (mode = 2 → L.fn = Fn.flp) ∧
      (mode = 8 → L.fn = Fn.flx) := by
    intro hc
    subst hc
    have := launch_plain env src_w src_h dst_w dst_h x y mode L hL
    exact ⟨this.1, this.2.1, this.2.2.1⟩
  have f7 : mode = 7 → L.fn = Fn.f5551 := by
    intro h
    subst h
    have := launch_5551 env src_w src_h dst_w dst_h x y color
    rw [this] at hL
    simp only [Option.some.injEq] at hL
    rw [← hL]
  have fkey : ∀ c, color = some c → (mode = 5 ∨ mode = 6 ∨ mode = 10) →
      ((c 0).ge 0 && (c 0).le (if mode = 6 then 65535 else 255)) = true →
      (mode = 5 → L.fn = Fn.f8m) ∧ (mode = 6 → L.fn = Fn.f16m) ∧
      (mode = 10 → L.fn = Fn.f32t ∨ L.fn = Fn.f32s) := by
    intro c hc hm hk
    subst hc
    have := launch_keyed env src_w src_h dst_w dst_h x y c mode L hm hk hL
    exact ⟨this.1, this.2.1, this.2.2.1⟩
  refine ⟨?_, ?_, ?_, ?_, ?_, ?_, ?_, ?_⟩
  · intro h1
    have hfn : L.fn = Fn.fla := by
      rcases hmode with ⟨hc, _⟩ | h | ⟨c, _, h, _⟩
      · exact (fplain hc).1 h1
      · omega
      · omega
    refine ⟨hfn, ?_⟩
    have hp : modePixelSize mode = 4 := by rw [h1]; rfl
    have := pix 2 (dbcb_load32 env.big_endian) (dbcB_bla_1_c env.platform)
      (by rw [hfn]; rfl) (by rw [hp]; exact rdLocal_load32 _)
      (by
        intro j hj
        rw [hfn, hp]
        exact scalarKernel_fla_spec env j _ hj)
    rw [hp] at this
    exact_mod_cast this
  · intro h1
    have hfn : L.fn = Fn.flp := by
      rcases hmode with ⟨hc, _⟩ | h | ⟨c, _, h, _⟩
      · exact (fplain hc).2.1 h1
      · omega
      · omega
    refine ⟨hfn, ?_⟩
    have hp : modePixelSize mode = 4 := by rw [h1]; rfl
    have := pix 2 (dbcb_load32 env.big_endian) (dbcB_blp_1_c env.platform)
      (by rw [hfn]; rfl) (by rw [hp]; exact rdLocal_load32 _)
      (by
        intro j hj
        rw [hfn, hp]
        exact scalarKernel_flp_spec env j _ hj)
    rw [hp] at this
    exact_mod_cast this
  · intro h1
    have hfn : L.fn = Fn.flx := by
      rcases hmode with ⟨hc, _⟩ | h | ⟨c, _, h, _⟩
      · exact (fplain hc).2.2 h1
      · omega
      · omega
    refine ⟨hfn, ?_⟩
    have hp : modePixelSize mode = 4 := by rw [h1]; rfl
    have := pix 2 (dbcb_load32 env.big_endian) (dbcB_blx_1_c env.platform)
      (by rw [hfn]; rfl) (by rw [hp]; exact rdLocal_load32 _)
      (by
        intro j hj
        rw [hfn, hp]
        exact scalarKernel_flx_spec env j _ hj)
    rw [hp] at this
    exact_mod_cast this
  · intro h1
    have hfn : L.fn = Fn.f5551 := f7 h1
    refine ⟨hfn, ?_⟩
    have hp : modePixelSize mode = 2 := by rw [h1]; rfl
    have := pix 3 (dbcb_load16 env.big_endian) dbcB_b5551_1_c
      (by rw [hfn]; rfl) (by rw [hp]; exact rdLocal_load16 _)
      (by
        intro j hj
        rw [hfn, hp]
        exact scalarKernel_f5551_spec env j _ hj)
    rw [hp] at this
    exact_mod_cast this
  · intro h1
    have hfn : L.fn = Fn.f8m := by
      rcases hmode with ⟨_, h⟩ | h | ⟨c, hc, hm, hk⟩
      · omega
      · omega
      · exact (fkey c hc hm hk).1 h1
    refine ⟨hfn, ?_⟩
    have hp : modePixelSize mode = 1 := by rw [h1]; rfl
    have := pix 4 rd8 (dbcB_b8m_1_c (headerKeys Fn.f8m L.color).1)
      (by rw [hfn]; rfl) (by rw [hp]; exact rdLocal_rd8)
      (by
        intro j hj
        rw [hfn, hp]
        exact scalarKernel_f8m_spec env j _ hj (headerKeys_lt _ _).1)
    rw [hp] at this
    exact_mod_cast this
  · intro h1
    have hfn : L.fn = Fn.f16m := by
      rcases hmode with ⟨_, h⟩ | h | ⟨c, hc, hm, hk⟩
      · omega
      · omega
      · exact (fkey c hc hm hk).2.1 h1
    refine ⟨hfn, ?_⟩
    have hp : modePixelSize mode = 2 := by rw [h1]; rfl
    have := pix 3 (dbcb_load16 env.big_endian) (dbcB_b16m_1_c (headerKeys Fn.f16m L.color).2)
      (by rw [hfn]; rfl) (by rw [hp]; exact rdLocal_load16 _)
      (by
        intro j hj
        rw [hfn, hp]
        exact scalarKernel_f16m_spec env j _ hj (headerKeys_lt _ _).2)
    rw [hp] at this
    exact_mod_cast this
  · intro h1
    have hp : modePixelSize mode = 4 := by rw [h1]; rfl
    have hfn : L.fn = Fn.f32t ∨ L.fn = Fn.f32s := by
      rcases hmode with ⟨_, h⟩ | h | ⟨c, hc, hm, hk⟩
      · omega
      · omega
      · exact (fkey c hc hm hk).2.2 h1
    rcases hfn with hfn | hfn
    · left
      refine ⟨hfn, ?_⟩
      have := pix 2 (dbcb_load32 env.big_endian) (dbcB_b32t_1_c (headerKeys Fn.f32t L.color).1)
        (by rw [hfn]; rfl) (by rw [hp]; exact rdLocal_load32 _)
        (by
          intro j hj
          rw [hfn, hp]
          exact scalarKernel_f32t_spec env j _ hj)
      rw [hp] at this
      exact_mod_cast this
    · right
      refine ⟨hfn, ?_⟩
      have := pix 2 (dbcb_load32 env.big_endian) dbcB_b32s_1_c
        (by rw [hfn]; rfl) (by rw [hp]; exact rdLocal_load32 _)
        (by
          intro j hj
          rw [hfn, hp]
          exact scalarKernel_f32s_spec env j _ hj)
      rw [hp] at this
      exact_mod_cast this
  · have hk : ∃ k, fnTop L.tier L.fn = some k := by
      rw [ht]
      rcases hmode with ⟨hc, h | h | h⟩ | h | ⟨c, hc, h | h | h, hk⟩
      · rw [(fplain hc).1 h]; exact ⟨_, rfl⟩
      · rw [(fplain hc).2.1 h]; exact ⟨_, rfl⟩
      · rw [(fplain hc).2.2 h]; exact ⟨_, rfl⟩
      · rw [f7 h]; exact ⟨_, rfl⟩
      · rw [(fkey c hc (Or.inl h) hk).1 h]; exact ⟨_, rfl⟩
      · rw [(fkey c hc (Or.inr (Or.inl h)) hk).2.1 h]; exact ⟨_, rfl⟩
      · rcases (fkey c hc (Or.inr (Or.inr h)) hk).2.2 h with e | e <;> rw [e] <;>
          exact ⟨_, rfl⟩
    obtain ⟨k, hk⟩ := hk
    obtain ⟨runs, hruns, _, hdr⟩ := driver_rows env L.tier L.fn k hk ss ds L.x0 L.y0 L.x1 L.y1
      x y (by rw [hx0, hx1]; omega) (by rw [hy0, hy1]; omega)
    refine ⟨runs, hruns, ?_, ?_⟩
    · intro t htw
      exact runs_cover runs t (by rw [hruns]; exact htw)
    · unfold dbc_blit_ops
      rw [hL]
      exact hdr

theorem C33_scalar_driver_pixels_witness :
    dbcb_load32 Env.sample.big_endian
        (dbc_blit Env.sample 1 1 4 srcSample 1 1 4 dstSample 0 0 none 1) (0 * 4 + 0 * 4)
      = dbcB_bla_1_c Env.sample.platform
          (dbcb_load32 Env.sample.big_endian srcSample ((0 - 0) * 4 + (0 - 0) * 4))
          (dbcb_load32 Env.sample.big_endian dstSample (0 * 4 + 0 * 4)) :=
  ((C33_scalar_driver_pixels Env.sample 1 1 4 srcSample 1 1 4 dstSample 0 0 none 1
    ⟨Tier.c, Fn.fla, none, 0, 0, 1, 1⟩ rfl rfl (Or.inl ⟨rfl, Or.inl rfl⟩) (by decide) 0 0
    (by decide) (by decide) (by decide) (by decide)).1 rfl).2

/-! ## Blits that select -/

theorem selects_id : Selects (fun dst => dst) := fun _ => Or.inl (fun _ => rfl)

theorem selects_comp (T1 T2 : Mem → Mem) (h1 : Selects T1) (h2 : Selects T2) :
    Selects (fun dst => T2 (T1 dst)) := by
  intro a
  rcases h2 a with k2 | ⟨c, k2⟩
  · rcases h1 a with k1 | ⟨c, k1⟩
    · left
      intro dst
      show T2 (T1 dst) a = dst a
      rw [k2, k1]
    · right
      refine ⟨c, ?_⟩
      intro dst
      show T2 (T1 dst) a = c
      rw [k2, k1]
  · right
    exact ⟨c, fun dst => k2 _⟩

/-- A selecting map done twice is the map done once. -/
theorem selects_idem (T : Mem → Mem) (h : Selects T) (dst : Mem) : T (T dst) = T dst := by
  funext a
  rcases h a with k | ⟨c, k⟩
  · rw [k]
  · rw [k, k]

theorem selects_memcpy (src : Mem) (d s : Int) (n : Nat) :
    Selects (fun dst => dbcb_memcpy dst d src s n) := by
  intro a
  by_cases h : d ≤ a ∧ a < d + n
  · right
    refine ⟨src (s + (a - d)), ?_⟩
    intro dst
    simp only [dbcb_memcpy]
    rw [if_pos h]
  · left
    intro dst
    simp only [dbcb_memcpy]
    rw [if_neg h]

theorem kselects_twice (K : Kernel) (n : Int) (h : KSelects K) : KSelects (twice K n) := by
  intro src s d
  exact selects_comp _ _ (h src s d) (h src (s + n) (d + n))

/-- A kernel that works pixel by pixel as a function that gives its second argument or
a value that does not depend on it selects. -/
theorem kselects_of_spec (K : Kernel) (n ps : Nat) (hps : 0 < ps) (rd : Mem → Int → Nat)
    (f : Nat → Nat → Nat)
    (hinj : ∀ (m1 m2 : Mem) (a1 a2 : Int), rd m1 a1 = rd m2 a2 →
      ∀ b : Int, 0 ≤ b → b < ((ps : Nat) : Int) → m1 (a1 + b) = m2 (a2 + b))
    (F : Frames K (n * ps)) (S : PixelSpec K n ps rd f)
    (hf : ∀ s, (∀ d, f s d = d) ∨ (∃ c, ∀ d, f s d = c)) : KSelects K := by
  intro src s d a
  by_cases h : d ≤ a ∧ a < d + ((n * ps : Nat) : Int)
  · obtain ⟨t, b, ht, hb0, hb1, ha⟩ := row_position ps n hps d a h.1 h.2
    rcases hf (rd src (s + t * ps)) with k | ⟨c, k⟩
    · left
      intro dst
      have e := S src s dst d t ht
      rw [k] at e
      have := hinj _ _ _ _ e b hb0 hb1
      rw [ha]
      exact this
    · right
      refine ⟨K src s (fun _ => 0) d a, ?_⟩
      intro dst
      have e1 := S src s dst d t ht
      have e2 := S src s (fun _ => 0) d t ht
      rw [k] at e1 e2
      have := hinj _ _ _ _ (e1.trans e2.symm) b hb0 hb1
      rw [ha]
      exact this
  · left
    intro dst
    exact F src s dst d a h

theorem selects_execOps (kern : Nat → Kernel) (src : Mem) :
    ∀ ops : List Op, (∀ op ∈ ops, Selects (fun dst => execOp kern src dst op)) →
      Selects (execOps kern src ops) := by
  intro ops
  induction ops with
  | nil =>
    intro _
    exact selects_id
  | cons op ops ih =>
    intro h
    have h1 := h op (List.mem_cons_self _ _)
    have h2 := ih (fun o ho => h o (List.mem_cons_of_mem _ ho))
    have := selects_comp _ _ h1 h2
    intro a
    have e : ∀ dst, execOps kern src (op :: ops) dst
        = execOps kern src ops (execOp kern src dst op) := fun _ => rfl
    rcases this a with k | ⟨c, k⟩
    · left
      intro dst
      rw [e]
      exact k dst
    · right
      refine ⟨c, ?_⟩
      intro dst
      rw [e]
      exact k dst

theorem b8m_1_c_selects (key s : Nat) :
    (∀ d, dbcB_b8m_1_c key s d = d) ∨ (∃ c, ∀ d, dbcB_b8m_1_c key s d = c) := by
  unfold dbcB_b8m_1_c
  by_cases h : s ≠ key
  · right
    exact ⟨s, fun d => if_pos h⟩
  · left
    exact fun d => if_neg h

theorem b16m_1_c_selects (key s : Nat) :
    (∀ d, dbcB_b16m_1_c key s d = d) ∨ (∃ c, ∀ d, dbcB_b16m_1_c key s d = c) := by
  unfold dbcB_b16m_1_c
  by_cases h : s ≠ key
  · right
    exact ⟨s, fun d => if_pos h⟩
  · left
    exact fun d => if_neg h

theorem b5551_1_c_selects (s : Nat) :
    (∀ d, dbcB_b5551_1_c s d = d) ∨ (∃ c, ∀ d, dbcB_b5551_1_c s d = c) := by
  unfold dbcB_b5551_1_c
  by_cases h : s ≥ 0x8000
  · right
    exact ⟨s, fun d => if_pos h⟩
  · left
    exact fun d => if_neg h

theorem b32t_1_c_selects (t s : Nat) :
    (∀ d, dbcB_b32t_1_c t s d = d) ∨ (∃ c, ∀ d, dbcB_b32t_1_c t s d = c) := by
  unfold dbcB_b32t_1_c
  by_cases h : s ≥ u32 (u32 t <<< 24)
  · right
    exact ⟨s, fun d => if_pos h⟩
  · left
    exact fun d => if_neg h

theorem b32s_1_c_selects (s : Nat) :
    (∀ d, dbcB_b32s_1_c s d = d) ∨ (∃ c, ∀ d, dbcB_b32s_1_c s d = c) := by
  unfold dbcB_b32s_1_c
  by_cases h : s ≥ 0x80000000
  · right
    exact ⟨s, fun d => if_pos h⟩
  · left
    exact fun d => if_neg h

/-- A one-pixel kernel that stores a word computed from the source pixel alone selects. -/
theorem kselects_pix32_of_src (big : Bool) (g : Nat → Nat) :
    KSelects (pix32 big (fun S _ => g S)) := by
  have S := pixelSpec_pix32 big (fun S _ => g S) (fun S _ => g S % 2 ^ 32) (fun _ _ _ _ => rfl)
  exact kselects_of_spec _ 1 4 (by norm_num) (dbcb_load32 big) _
    (fun m1 m2 a1 a2 h b hb0 hb1 => load32_inj big m1 m2 a1 a2 h b hb0 hb1)
    (frames_pix32 _ _) S (fun s => Or.inr ⟨_, fun _ => rfl⟩)

theorem kernelOf_f32m_selects (env : Env) (tier : Tier) (k top : Nat) (p : Params)
    (ht : fnTop tier Fn.f32m = some top) (hk : k ≤ top) :
    KSelects (kernelOf env tier Fn.f32m k p) := by
  cases tier
  · have : top = 0 := by
      simp only [fnTop, Option.some.injEq] at ht
      omega
    subst this
    have : k = 0 := by omega
    subst this
    simp only [kernelOf, scalarKernel]
    exact kselects_pix32_of_src _ _
  · have : top = 0 := by
      simp only [fnTop, Option.some.injEq] at ht
      omega
    subst this
    have : k = 0 := by omega
    subst this
    simp only [kernelOf, simdUsesC, simdKernel]
    exact kselects_pix32_of_src _ _
  · have : top = 1 := by
      simp only [fnTop, Option.some.injEq] at ht
      omega
    subst this
    interval_cases k
    · simp only [kernelOf, simdUsesC, simdKernel]
      exact kselects_pix32_of_src _ _
    · simp only [kernelOf, simdUsesC, simdKernel]
      exact kselects_twice _ _ (kselects_pix32_of_src _ _)

/-- The kernels of the drivers of the selecting modes select. -/
theorem kernelOf_selects (env : Env) (tier : Tier) (fn : Fn) (k top : Nat) (p : Params)
    (hfn : fn = Fn.f32m ∨ fn = Fn.f8m ∨ fn = Fn.f16m ∨ fn = Fn.f5551 ∨ fn = Fn.f32t ∨
      fn = Fn.f32s)
    (ht : fnTop tier fn = some top) (hk : k ≤ top) (h8 : p.key8 < 256)
    (h16 : p.key16 < 65536) : KSelects (kernelOf env tier fn k p) := by
  rcases hfn with e | e | e | e | e | e <;> subst e
  · exact kernelOf_f32m_selects env tier k top p ht hk
  · exact kselects_of_spec _ (2 ^ k) 1 (by norm_num) rd8 _
      (fun m1 m2 a1 a2 h b hb0 hb1 => rd8_inj m1 m2 a1 a2 h b hb0 hb1)
      (kernelOf_frames env tier Fn.f8m k p) (kernelOf_f8m_spec env tier k top p ht hk h8)
      (b8m_1_c_selects _)
  · exact kselects_of_spec _ (2 ^ k) 2 (by norm_num) (dbcb_load16 env.big_endian) _
      (fun m1 m2 a1 a2 h b hb0 hb1 => load16_inj _ m1 m2 a1 a2 h b hb0 hb1)
      (kernelOf_frames env tier Fn.f16m k p) (kernelOf_f16m_spec env tier k top p ht hk h16)
      (b16m_1_c_selects _)
  · exact kselects_of_spec _ (2 ^ k) 2 (by norm_num) (dbcb_load16 env.big_endian) _
      (fun m1 m2 a1 a2 h b hb0 hb1 => load16_inj _ m1 m2 a1 a2 h b hb0 hb1)
      (kernelOf_frames env tier Fn.f5551 k p) (kernelOf_f5551_spec env tier k top p ht hk)
      b5551_1_c_selects
  · exact kselects_of_spec _ (2 ^ k) 4 (by norm_num) (dbcb_load32 env.big_endian) _
      (fun m1 m2 a1 a2 h b hb0 hb1 => load32_inj _ m1 m2 a1 a2 h b hb0 hb1)
      (kernelOf_frames env tier Fn.f32t k p) (kernelOf_f32t_spec env tier k top p ht hk)
      (b32t_1_c_selects _)
  · exact kselects_of_spec _ (2 ^ k) 4 (by norm_num) (dbcb_load32 env.big_endian) _
      (fun m1 m2 a1 a2 h b hb0 hb1 => load32_inj _ m1 m2 a1 a2 h b hb0 hb1)
      (kernelOf_frames env tier Fn.f32s k p) (kernelOf_f32s_spec env tier k top p ht hk)
      b32s_1_c_selects

/-- A `DBCB_DEF_FN_0` driver does nothing but `dbcb_memcpy`. -/
theorem driver_copies (env : Env) (tier : Tier) (fn : Fn) (hfn : fnTop tier fn = none)
    (ss ds x0 y0 x1 y1 x y : Int) (op : Op)
    (hop : op ∈ driver env tier fn ss ds x0 y0 x1 y1 x y) :
    ∃ (d s : Int) (n : Nat), op = Op.copy d s n := by
  unfold driver at hop
  rw [hfn] at hop
  simp only at hop
  split_ifs at hop with h
  · exact absurd hop (List.not_mem_nil _)
  · obtain ⟨i, _, hi⟩ := mem_rowsFrom _ _ _ _ _ _ _ hop
    simp only [List.mem_singleton] at hi
    exact ⟨_, _, _, hi⟩

/-- The drivers the modes COPY, COLORKEY8, COLORKEY16, 5551 and ALPHATEST launch. -/
theorem selecting_fn (mode : Int) (m a : Bool) (fn : Fn)
    (hm : mode = 0 ∨ mode = 5 ∨ mode = 6 ∨ mode = 7 ∨ mode = 10)
    (h : selectFn mode m a = some fn) :
    (fn = Fn.f32 ∨ fn = Fn.f8 ∨ fn = Fn.f16 ∨ fn = Fn.f32a) ∨
    (fn = Fn.f32m ∨ fn = Fn.f8m ∨ fn = Fn.f16m ∨ fn = Fn.f5551 ∨ fn = Fn.f32t ∨
      fn = Fn.f32s) := by
  rcases hm with e | e | e | e | e <;> subst e <;> cases m <;> cases a <;>
    simp [selectFn] at h <;> subst h <;> simp

/-- A call of `dbc_blit` in one of the modes COPY, COLORKEY8, COLORKEY16, 5551 and ALPHATEST
is a selecting map of the destination memory. -/
theorem dbc_blit_selects (env : Env) (src_w src_h ss : Int) (src : Mem) (dst_w dst_h ds : Int)
    (x y : Int) (color : Option Color) (mode : Int)
    (hm : mode = 0 ∨ mode = 5 ∨ mode = 6 ∨ mode = 7 ∨ mode = 10) :
    Selects (fun dst => dbc_blit env src_w src_h ss src dst_w dst_h ds dst x y color mode) := by
  unfold dbc_blit
  apply selects_execOps
  intro op hop
  unfold dbc_blit_ops at hop
  unfold dbc_blit_kernel
  cases hL : dbc_blit_launch env src_w src_h dst_w dst_h x y color mode with
  | none =>
    rw [hL] at hop
    exact absurd hop (List.not_mem_nil _)
  | some L =>
    rw [hL] at hop
    simp only at hop ⊢
    have hf := launch_fn env src_w src_h dst_w dst_h x y color mode L hL
    rcases selecting_fn mode _ _ L.fn hm hf with h0 | h1
    · have hn : fnTop L.tier L.fn = none := by
        rcases h0 with e | e | e | e <;> rw [e] <;> cases L.tier <;> rfl
      obtain ⟨d, s, n, e⟩ := driver_copies env L.tier L.fn hn _ _ _ _ _ _ _ _ op hop
      subst e
      exact selects_memcpy src d s n
    · have hk : ∃ k, fnTop L.tier L.fn = some k := by
        rcases h1 with e | e | e | e | e | e <;> rw [e] <;> cases L.tier <;> exact ⟨_, rfl⟩
      obtain ⟨k, hk⟩ := hk
      obtain ⟨j, s1, d1, hj, e⟩ := driver_calls env L.tier L.fn k hk _ _ _ _ _ _ _ _ op hop
      subst e
      exact kernelOf_selects env L.tier L.fn j k _ h1 hk hj (headerKeys_lt _ _).1
        (headerKeys_lt _ _).2 src s1 d1

/-- C40: for the modes COPY (0), COLORKEY8 (5), COLORKEY16 (6), 5551 (7) and ALPHATEST (10),
in every configuration and tier, with any `color`, placement, dimensions and strides, and a
source memory apart from the destination memory, the call of `dbc_blit` on the destination
a first call left gives that same destination. -/
theorem C40_select_blits_idempotent (env : Env) (src_w src_h ss : Int) (src : Mem)
    (dst_w dst_h ds : Int) (dst : Mem) (x y : Int) (color : Option Color) (mode : Int)
    (hm : mode = 0 ∨ mode = 5 ∨ mode = 6 ∨ mode = 7 ∨ mode = 10) :
    dbc_blit env src_w src_h ss src dst_w dst_h ds
        (dbc_blit env src_w src_h ss src dst_w dst_h ds dst x y color mode) x y color mode
      = dbc_blit env src_w src_h ss src dst_w dst_h ds dst x y color mode :=
  selects_idem _ (dbc_blit_selects env src_w src_h ss src dst_w dst_h ds x y color mode hm) dst

theorem C40_select_blits_idempotent_witness :
    dbc_blit Env.sample 8 1 8 srcKey8 8 1 8
        (dbc_blit Env.sample 8 1 8 srcKey8 8 1 8 dstKey8 0 0 (some (fun _ => F32.fin 7)) 5)
        0 0 (some (fun _ => F32.fin 7)) 5
      = dbc_blit Env.sample 8 1 8 srcKey8 8 1 8 dstKey8 0 0 (some (fun _ => F32.fin 7)) 5 :=
  C40_select_blits_idempotent Env.sample 8 1 8 srcKey8 8 1 8 dstKey8 0 0
    (some (fun _ => F32.fin 7)) 5 (Or.inr (Or.inl rfl))

end DbcBlit
